import Mathlib

/-!
Harvest: the ZapiPerf collector, the Shelf plugin and two functions of `pkg/util`.

A shallow embedding of `cmd/collectors/zapiperf/zapiperf.go`, of
`cmd/collectors/zapi/plugins/shelf/shelf.go` and of `MinLen` and `AllSame` of
`pkg/util/util.go`, and the statements proved about them.

Conventions of the embedding

* A Go `map[string]T` is an association list with unique keys.  A `range` over a
  map visits the entries in an order Go leaves unspecified; every such loop
  asks `Runtime.rangeOrder` (at its own site number) for the order, which may be
  any permutation of the entries.
* `float64` cells are rational numbers: the arithmetic of the post-processing
  is exact, rounding is not modelled.
* Go `int` is `Int`; no operation of the collector can overflow it (indices stay
  below the length of a slice, `batchSize` only decreases while above 100).
* The wire client is a script: the list of replies it will give, consumed one
  per request.  A call that needs a reply when the script is empty ends in
  `Ret.blocked`.
* Logging and the `Metadata` matrix (timers, counts) are left out.
-/

set_option autoImplicit false

namespace Harvest

/-! ## Go `strings` -/

namespace strings

/-- Go `strings.HasPrefix`. -/
def HasPrefix (s pre : String) : Bool := pre.data.isPrefixOf s.data

/-- Go `strings.HasSuffix`. -/
def HasSuffix (s suf : String) : Bool := suf.data.reverse.isPrefixOf s.data.reverse

/-- Go `strings.Contains`: `sub` occurs in `s`. -/
def containsAux (sub : List Char) : List Char → Bool
  | [] => sub.isPrefixOf []
  | c :: cs => sub.isPrefixOf (c :: cs) || containsAux sub cs

/-- Go `strings.Contains`. -/
def Contains (s sub : String) : Bool := containsAux sub.data s.data

/-- Worker of `Split` for a non-empty separator: `skip` counts the characters of
a separator just matched that are still to be dropped, `acc` is the current
piece, reversed. -/
def splitAux (sep : List Char) : Nat → List Char → List Char → List (List Char)
  | _, [], acc => [acc.reverse]
  | skip + 1, _ :: cs, acc => splitAux sep skip cs acc
  | 0, c :: cs, acc =>
    if sep.isPrefixOf (c :: cs) then acc.reverse :: splitAux sep (sep.length - 1) cs []
    else splitAux sep 0 cs (c :: acc)

/-- Go `strings.Split(s, sep)` for the non-empty separators the collector uses
(`"."`, `","`, `"=>"`): the pieces between the leftmost non-overlapping
occurrences of `sep`. -/
def Split (s sep : String) : List String := (splitAux sep.data 0 s.data []).map String.mk

/-- Go `strings.ReplaceAll(s, old, new)` for a non-empty `old`. -/
def ReplaceAll (s old new : String) : String := new.intercalate (Split s old)

/-- Go `strings.TrimPrefix`. -/
def TrimPrefix (s pre : String) : String :=
  if HasPrefix s pre then String.mk (s.data.drop pre.data.length) else s

/-- Go `unicode.IsSpace`. -/
def isSpace (c : Char) : Bool :=
  let n := c.toNat
  (9 ≤ n && n ≤ 13) || n == 32 || n == 133 || n == 160 || n == 5760 ||
  (8192 ≤ n && n ≤ 8202) || n == 8232 || n == 8233 || n == 8239 || n == 8287 || n == 12288

/-- Go `strings.TrimSpace`. -/
def TrimSpace (s : String) : String :=
  String.mk ((s.data.dropWhile isSpace).reverse.dropWhile isSpace).reverse

end strings

/-! ## Go `strconv` -/

namespace strconv

/-- The value of a non-empty string of decimal digits. -/
def digits : List Char → Option Nat
  | [] => none
  | cs => cs.foldl (fun acc c =>
      acc.bind (fun n => if c.isDigit then some (n * 10 + (c.toNat - 48)) else none)) (some 0)

/-- Go `strconv.Atoi`: an optional sign and decimal digits, within the range of a
64-bit `int`; `none` for an error. -/
def Atoi (s : String) : Option Int :=
  match s.data with
  | '-' :: cs => (digits cs).bind (fun n => if n ≤ 2 ^ 63 then some (-(n : Int)) else none)
  | '+' :: cs => (digits cs).bind (fun n => if n < 2 ^ 63 then some (n : Int) else none)
  | cs => (digits cs).bind (fun n => if n < 2 ^ 63 then some (n : Int) else none)

end strconv

/-! ## Association lists (Go maps) -/

/-- Map lookup `m[k]`. -/
def assocGet {β : Type} (k : String) : List (String × β) → Option β
  | [] => none
  | (k1, v) :: rest => if k1 = k then some v else assocGet k rest

/-- Map update through a pointer held in the map: change the entry of `k`, if any. -/
def assocModify {β : Type} (k : String) (f : β → β) : List (String × β) → List (String × β)
  | [] => []
  | (k1, v) :: rest => if k1 = k then (k1, f v) :: rest else (k1, v) :: assocModify k f rest

/-- Map assignment `m[k] = v`. -/
def assocSet {β : Type} (k : String) (v : β) : List (String × β) → List (String × β)
  | [] => [(k, v)]
  | (k1, v1) :: rest => if k1 = k then (k1, v) :: rest else (k1, v1) :: assocSet k v rest

/-- Go `delete(m, k)`. -/
def assocErase {β : Type} (k : String) (m : List (String × β)) : List (String × β) :=
  m.filter (fun e => decide (e.1 ≠ k))

/-- The keys of a map. -/
def assocKeys {β : Type} (m : List (String × β)) : List String := m.map Prod.fst

/-! ## Trees (`pkg/tree/node`) -/

/-- Modelled from the spec: package `tree/node` is not among the sources.  The
spec calls requests, responses and the template "trees with child-named
fields"; a node has a name, a content and children. -/
inductive Node where
  | mk (name : String) (content : String) (children : List Node)

namespace Node

/-- Modelled from the spec: the name of a node. -/
def GetNameS : Node → String
  | mk n _ _ => n

/-- Modelled from the spec: the content of a node. -/
def GetContentS : Node → String
  | mk _ c _ => c

/-- Modelled from the spec: the children of a node, in document order. -/
def GetChildren : Node → List Node
  | mk _ _ cs => cs

/-- Modelled from the spec: the first child with the given name, `none` for Go `nil`. -/
def GetChildS (n : Node) (name : String) : Option Node :=
  n.GetChildren.find? (fun c => decide (c.GetNameS = name))

/-- Modelled from the spec: the content of the first child with the given name,
the empty string when there is none. -/
def GetChildContentS (n : Node) (name : String) : String :=
  match n.GetChildS name with
  | some c => c.GetContentS
  | none => ""

/-- Modelled from the spec: the contents of all children. -/
def GetAllChildContentS (n : Node) : List String := n.GetChildren.map GetContentS

/-- Modelled from the spec: the names of all children. -/
def GetAllChildNamesS (n : Node) : List String := n.GetChildren.map GetNameS

/-- Worker of `SetChildContentS`. -/
def setFirst (name content : String) : List Node → List Node
  | [] => [mk name content []]
  | c :: cs =>
    if c.GetNameS = name then mk c.GetNameS content c.GetChildren :: cs
    else c :: setFirst name content cs

/-- Modelled from the spec: set the content of the first child with the given
name, adding such a child when there is none. -/
def SetChildContentS (n : Node) (name content : String) : Node :=
  mk n.GetNameS n.GetContentS (setFirst name content n.GetChildren)

end Node

/-! ## Errors -/

/-- A Go `error`: one made by `errors.New(kind, msg)` of this repository, or one
handed back by the wire client, of which only the text is observed. -/
inductive GoError where
  | New (kind : String) (msg : String)
  | wire (text : String)

/-- The text `err.Error()`. -/
def GoError.Error : GoError → String
  | GoError.New kind msg => kind ++ " => " ++ msg
  | GoError.wire text => text

/-- How a call ends: it returns the pair `(value, err)` of the Go function, it
panics, or it is still waiting for a reply the script does not hold. -/
inductive Ret (α : Type) where
  | ok (value : Option α) (err : Option GoError)
  | panic (what : String)
  | blocked

/-! ## What the embedding takes from outside -/

/-- The parts of the run-time the collector relies on and the sources do not fix:
number parsing (`strconv.ParseFloat` behind `SetValueString`), `node.DecodeHtml`,
and the order in which each `range` over a map visits it. -/
structure Runtime where
  ParseFloat : String → Option ℚ
  DecodeHtml : String → String
  rangeOrder : Nat → {α : Type} → List α → List α
  rangeOrder_perm : ∀ (site : Nat) {α : Type} (l : List α), (rangeOrder site l).Perm l

/-! ## The matrix (`pkg/matrix`) -/

/-- Modelled from the spec: an instance is its labels (spec 3.3); numbers live in the
matrix grid. -/
structure Instance where
  labels : List (String × String)

/-- Modelled from the spec: a metric descriptor (spec 3.2) together with its row of
the grid: `values i` is the cell of instance key `i`, `none` when the validity bit
is off. -/
structure Metric where
  name : String
  property : String
  comment : String
  exportable : Bool
  labels : List (String × String)
  values : String → Option ℚ

namespace Metric

/-- Modelled from the spec: a row with every validity bit off. -/
def clear (me : Metric) : Metric := { me with values := fun _ => none }

/-- Modelled from the spec: `SetValueFloat64(inst, v)`. -/
def SetValueFloat64 (me : Metric) (inst : String) (v : ℚ) : Metric :=
  { me with values := fun i => if i = inst then some v else me.values i }

/-- Modelled from the spec: `SetValueString(inst, s)` parses `s` as a number and assigns
it; a value that does not parse is an error and leaves the cell as it was. -/
def SetValueString (R : Runtime) (me : Metric) (inst s : String) : Metric :=
  match R.ParseFloat s with
  | some v => me.SetValueFloat64 inst v
  | none => me

/-- Modelled from the spec: `AddValueString(inst, s)` parses `s` and accumulates it
into the cell (an invalid cell counts as 0); a value that does not parse is an
error and leaves the cell as it was. -/
def AddValueString (R : Runtime) (me : Metric) (inst s : String) : Metric :=
  match R.ParseFloat s with
  | some v => me.SetValueFloat64 inst ((me.values inst).getD 0 + v)
  | none => me

/-- Modelled from the spec: `Delta(prev)` subtracts the previous cell from the current
cell; if either is invalid the result is invalid.  A missing previous metric
(Go `nil`) is an error, `none`. -/
def Delta (me : Metric) (prev : Option Metric) : Option Metric :=
  match prev with
  | none => none
  | some p =>
    some { me with values := fun i =>
      match me.values i, p.values i with
      | some a, some b => some (a - b)
      | _, _ => none }

/-- Modelled from the spec: `Divide(base)` divides element-wise; a zero (or invalid)
denominator gives an invalid cell. -/
def Divide (me base : Metric) : Metric :=
  { me with values := fun i =>
      match me.values i, base.values i with
      | some a, some b => if b = 0 then none else some (a / b)
      | _, _ => none }

/-- Modelled from the spec: `DivideWithThreshold(base, threshold)` is `Divide`, but a
denominator below the threshold gives an invalid cell too. -/
def DivideWithThreshold (me base : Metric) (threshold : Int) : Metric :=
  { me with values := fun i =>
      match me.values i, base.values i with
      | some a, some b => if b = 0 ∨ b < (threshold : ℚ) then none else some (a / b)
      | _, _ => none }

/-- Modelled from the spec: `MultiplyByScalar(k)` scales every valid cell. -/
def MultiplyByScalar (me : Metric) (k : ℚ) : Metric :=
  { me with values := fun i => (me.values i).map (fun a => a * k) }

end Metric

/-- Modelled from the spec: the matrix (spec 3.1): object name, metrics and instances by
key.  The cells are held by the metrics. -/
structure Matrix where
  Object : String
  metrics : List (String × Metric)
  instances : List (String × Instance)

namespace Matrix

/-- Modelled from the spec: the metric of a key, `none` for Go `nil`. -/
def GetMetric (me : Matrix) (key : String) : Option Metric := assocGet key me.metrics

/-- Modelled from the spec: the instance of a key, `none` for Go `nil`. -/
def GetInstance (me : Matrix) (key : String) : Option Instance := assocGet key me.instances

/-- The cell (metric key, instance key): `none` when the metric is missing or the
validity bit is off. -/
def cell (me : Matrix) (mkey ikey : String) : Option ℚ :=
  match me.GetMetric mkey with
  | some m => m.values ikey
  | none => none

/-- A method called on the metric `key` of the matrix, through the pointer
`GetMetric` returned. -/
def onMetric (me : Matrix) (key : String) (f : Metric → Metric) : Matrix :=
  { me with metrics := assocModify key f me.metrics }

/-- Modelled from the spec: `instance.SetLabel(name, value)` on the instance `key`. -/
def setInstanceLabel (me : Matrix) (key name value : String) : Matrix :=
  { me with instances :=
      assocModify key (fun i => { i with labels := assocSet name value i.labels }) me.instances }

/-- Modelled from the spec: `Clone(withData, withMetrics, withInstances)` returns a new
matrix with the requested subsets copied. -/
def Clone (me : Matrix) (withData withMetrics withInstances : Bool) : Matrix :=
  { Object := me.Object
    metrics :=
      if withMetrics then
        me.metrics.map (fun e => (e.1, if withData then e.2 else e.2.clear))
      else []
    instances := if withInstances then me.instances else [] }

/-- Modelled from the spec: `Reset()` clears all validity bits and keeps the structure. -/
def Reset (me : Matrix) : Matrix :=
  { me with metrics := me.metrics.map (fun e => (e.1, e.2.clear)) }

/-- Modelled from the spec: `NewMetricFloat64(key)`: metric keys are unique, a key already
present is an error (`none`); otherwise a fresh metric with no valid cell is
added. -/
def NewMetricFloat64 (me : Matrix) (key : String) : Option Matrix :=
  match me.GetMetric key with
  | some _ => none
  | none =>
    some { me with metrics := me.metrics ++
      [(key, { name := key, property := "", comment := "", exportable := true,
               labels := [], values := fun _ => none })] }

/-- Modelled from the spec: `RemoveMetric(key)`. -/
def RemoveMetric (me : Matrix) (key : String) : Matrix :=
  { me with metrics := assocErase key me.metrics }

end Matrix

/-! ## The collector -/

/-- The fields of `ZapiPerf` (and those of the embedded `Zapi` it uses: `Matrix`,
`Query`, `Params`, `Object`). -/
structure ZapiPerf where
  Matrix : Matrix
  Query : String
  Params : Node
  Object : String
  object : String
  batchSize : Int
  latencyIoReqd : Int
  instanceKey : String
  instanceLabels : List (String × String)
  histogramLabels : List (String × List String)
  qosLabels : List (String × String)
  isCacheEmpty : Bool

/-- `ZapiPerf.loadParamStr`. -/
def loadParamStr (me : ZapiPerf) (name defaultValue : String) : String :=
  if me.Params.GetChildContentS name ≠ "" then me.Params.GetChildContentS name else defaultValue

/-- `ZapiPerf.loadParamInt`. -/
def loadParamInt (me : ZapiPerf) (name : String) (defaultValue : Int) : Int :=
  if me.Params.GetChildContentS name ≠ "" then
    match strconv.Atoi (me.Params.GetChildContentS name) with
    | some n => n
    | none => defaultValue
  else defaultValue

/-- `ZapiPerf.InitCache`, with the default parameter values of lines 23-27. -/
def InitCache (me : ZapiPerf) : ZapiPerf :=
  let object := if loadParamStr me "object" "" = "" then me.Object else loadParamStr me "object" ""
  { me with
    histogramLabels := []
    instanceLabels := []
    instanceKey := loadParamStr me "instance_key" "uuid"
    batchSize := loadParamInt me "batch_size" 500
    latencyIoReqd := loadParamInt me "latency_io_reqd" 10
    isCacheEmpty := true
    object := object
    Matrix := { me.Matrix with Object := object } }

/-- One exchange with the wire client inside the batch loop of `PollData`:
what `BuildRequest` returns, what `InvokeWithTimers` returns (timers dropped),
and the clock `time.Now()` read after it, in seconds. -/
structure BatchReply where
  build : Option GoError
  invoke : Except GoError Node
  now : ℚ

/-- The query is one of the two `workload_detail` queries. -/
def isWorkloadDetail (query : String) : Bool :=
  query == "workload_detail" || query == "workload_detail_volume"

/-- Go slice expression `xs[lo:hi]`, `none` when it panics. -/
def goSlice {α : Type} (xs : List α) (lo hi : Int) : Option (List α) :=
  if 0 ≤ lo ∧ lo ≤ hi ∧ hi ≤ (xs.length : Int) then
    some ((xs.drop lo.toNat).take (hi.toNat - lo.toNat))
  else none

/-- `PollData`, lines 330-341: the values of an array counter, one per label, each
stored in the metric `name.label` of `newData` when that metric exists. -/
def storeHistogram (R : Runtime) (name key : String) :
    List String → List String → Matrix → Matrix
  | label :: labels, v :: values, newData =>
    storeHistogram R name key labels values
      (match newData.GetMetric (name ++ "." ++ label) with
       | some _ => newData.onMetric (name ++ "." ++ label) (fun m => m.SetValueString R key v)
       | none => newData)
  | _, _, newData => newData

/-- `PollData`, lines 295-381: one counter element of an instance.  The state is the
collector (whose baseline `Matrix` the `workload_detail` branch writes to) and
`newData`. -/
def parseCounter (R : Runtime) (key layer : String) (st : ZapiPerf × Matrix) (cnt : Node) :
    ZapiPerf × Matrix :=
  let me := st.1
  let newData := st.2
  let name := cnt.GetChildContentS "name"
  let value := cnt.GetChildContentS "value"
  if name = "" ∨ value = "" then st
  else
    match assocGet name me.instanceLabels with
    | some display => (me, newData.setInstanceLabel key display value)
    | none =>
      match assocGet name me.histogramLabels with
      | some labels =>
        let values := strings.Split value ","
        if labels.length ≠ values.length then st
        else (me, storeHistogram R name key labels values newData)
      | none =>
        if isWorkloadDetail me.Query then
          if name = "wait_time" ∨ name = "service_time" then
            ({ me with Matrix := me.Matrix.onMetric layer (fun m => m.AddValueString R key value) },
              newData)
          else st
        else
          match newData.GetMetric name with
          | some _ => (me, newData.onMetric name (fun m => m.SetValueString R key value))
          | none => st

/-- `PollData`, lines 248-383: one instance element of a batch response, stamped
with the batch time `ts`. -/
def parseInstance (R : Runtime) (ts : ℚ) (st : ZapiPerf × Matrix) (i : Node) :
    ZapiPerf × Matrix :=
  let me := st.1
  let newData := st.2
  let key0 := i.GetChildContentS me.instanceKey
  let resolved : Option (String × String) :=
    if isWorkloadDetail me.Query then
      match strings.Split key0 "." with
      | [k, l] =>
        match me.Matrix.GetMetric l with
        | some _ => some (k, l)
        | none => none
      | _ => none
    else some (key0, "")
  match resolved with
  | none => st
  | some (key, layer) =>
    if key = "" then st
    else
      match newData.GetInstance key with
      | none => st
      | some _ =>
        match i.GetChildS "counters" with
        | none => st
        | some counters =>
          counters.GetChildren.foldl (parseCounter R key layer)
            (me, newData.onMetric "timestamp" (fun m => m.SetValueFloat64 key ts))

/-- How the batch loop of `PollData` ends: the function returned from inside the
loop (`exit`), or the loop is over and `PollData` goes on (`done`).  `sent`
lists the windows of instance keys requested, in order. -/
inductive LoopEnd where
  | exit (me : ZapiPerf) (ret : Ret Matrix) (sent : List (List String))
  | done (me : ZapiPerf) (newData : Matrix) (sent : List (List String))

/-- `PollData`, lines 194-384: the batch loop, one reply of the script per
iteration. -/
def batchLoop (R : Runtime) (instanceKeys : List String) :
    List BatchReply → ZapiPerf → Matrix → Int → Int → List (List String) → LoopEnd
  | [], me, newData, _, endIndex, sent =>
    if endIndex < (instanceKeys.length : Int) then LoopEnd.exit me Ret.blocked sent
    else LoopEnd.done me newData sent
  | reply :: script1, me, newData, startIndex, endIndex, sent =>
    if endIndex < (instanceKeys.length : Int) then
      let endIndex1 := endIndex + me.batchSize
      let endIndex2 :=
        if endIndex1 > (instanceKeys.length : Int) then (instanceKeys.length : Int) else endIndex1
      match goSlice instanceKeys startIndex endIndex2 with
      | none => LoopEnd.exit me (Ret.panic "slice bounds out of range") sent
      | some window =>
        match reply.build with
        | some err => LoopEnd.exit me (Ret.ok none (some err)) (sent ++ [window])
        | none =>
          match reply.invoke with
          | Except.error err =>
            if strings.Contains err.Error "resource limit exceeded" ∧ me.batchSize > 100 then
              LoopEnd.exit { me with batchSize := me.batchSize - 100 } (Ret.ok none none)
                (sent ++ [window])
            else LoopEnd.exit me (Ret.ok none (some err)) (sent ++ [window])
          | Except.ok response =>
            match response.GetChildS "instances" with
            | none => LoopEnd.done me newData (sent ++ [window])
            | some instances =>
              if instances.GetChildren.length = 0 then LoopEnd.done me newData (sent ++ [window])
              else
                batchLoop R instanceKeys script1
                  (instances.GetChildren.foldl (parseInstance R reply.now) (me, newData)).1
                  (instances.GetChildren.foldl (parseInstance R reply.now) (me, newData)).2
                  endIndex2 endIndex2 (sent ++ [window])
    else LoopEnd.done me newData sent

/-- `PollData`, lines 446-510: the post-processing of one metric, by its key, on
`newData`; `me.Matrix` is the baseline of the previous poll. -/
def cookMetric (me : ZapiPerf) (newData : Matrix) (key : String) : Matrix :=
  match newData.GetMetric key with
  | none => newData
  | some metric =>
    let property := metric.property
    if property = "raw" ∨ property = "" then newData
    else
      match metric.Delta (me.Matrix.GetMetric key) with
      | none => newData
      | some delta =>
        let nd1 := newData.onMetric key (fun _ => delta)
        if property = "delta" then nd1
        else if property = "rate" then
          match nd1.GetMetric "timestamp" with
          | some timestamp => nd1.onMetric key (fun m => m.Divide timestamp)
          | none => nd1
        else
          match nd1.GetMetric metric.comment with
          | none => nd1
          | some base =>
            let nd2 :=
              if property = "average" ∨ property = "percent" then
                if strings.HasSuffix metric.name "_latency" then
                  nd1.onMetric key (fun m => m.DivideWithThreshold base me.latencyIoReqd)
                else nd1.onMetric key (fun m => m.Divide base)
              else nd1
            if property = "average" then nd2
            else if property = "percent" then nd2.onMetric key (fun m => m.MultiplyByScalar 100)
            else nd2

/-- `PollData`, lines 413-428: the processing order, metrics without a base counter
first.  The two `range` loops are sites 3 and 4. -/
def orderedKeys (R : Runtime) (newData : Matrix) : List String :=
  ((R.rangeOrder 3 newData.metrics).filter (fun e => decide (e.2.comment = ""))).map Prod.fst ++
  ((R.rangeOrder 4 newData.metrics).filter (fun e => decide (e.2.comment ≠ ""))).map Prod.fst

/-- `PollData`, lines 436-510: the delta of the timestamps, then every metric in
order. -/
def postProcess (R : Runtime) (me : ZapiPerf) (newData : Matrix) : Matrix :=
  let nd0 :=
    newData.onMetric "timestamp" (fun m =>
      match m.Delta (me.Matrix.GetMetric "timestamp") with
      | some delta => delta
      | none => m)
  (orderedKeys R newData).foldl (cookMetric me) nd0

/-- `PollData`, lines 152-166: the instance keys to request.  For `workload_detail`
every layer of `resource_map` is paired with every instance of the baseline (the
inner `range` is site `1000 + index of the layer`); otherwise the keys of `newData`
(site 2). -/
def requestKeys (R : Runtime) (me : ZapiPerf) (newData : Matrix) : Option (List String) :=
  if isWorkloadDetail me.Query then
    match me.Params.GetChildS "resource_map" with
    | none => none
    | some resourceMap =>
      some ((resourceMap.GetAllChildNamesS.enum.map (fun nl =>
        (R.rangeOrder (1000 + nl.1) (assocKeys me.Matrix.instances)).map
          (fun key => key ++ "." ++ nl.2))).flatten)
  else some (R.rangeOrder 2 (assocKeys newData.instances))

/-- `ZapiPerf.PollData`: the collector after the call and how the call ended. -/
def PollData (R : Runtime) (me : ZapiPerf) (script : List BatchReply) : ZapiPerf × Ret Matrix :=
  let newData := (me.Matrix.Clone false true true).Reset
  match newData.GetMetric "timestamp" with
  | none => (me, Ret.ok none (some (GoError.New "ERR_CONFIG" "missing timestamp metric")))
  | some _ =>
    match requestKeys R me newData with
    | none => (me, Ret.ok none (some (GoError.New "MISSING_PARAM" "resource_map")))
    | some instanceKeys =>
      match batchLoop R instanceKeys script me newData 0 0 [] with
      | LoopEnd.exit me1 ret _ => (me1, ret)
      | LoopEnd.done me1 newData1 _ =>
        if me1.isCacheEmpty then
          ({ me1 with Matrix := newData1, isCacheEmpty := false }, Ret.ok none none)
        else
          let cachedData := newData1.Clone true true true
          ({ me1 with Matrix := cachedData }, Ret.ok (some (postProcess R me1 newData1)) none)

/-! ## `PollCounter` -/

/-- `set.Set.Add`. -/
def setAdd (s : List String) (k : String) : List String := if k ∈ s then s else s ++ [k]

/-- `set.Set.Delete`: the set without `k`; the Go method also reports whether `k`
was a member, which is `decide (k ∈ s)` on the set before. -/
def setDelete (s : List String) (k : String) : List String := s.filter (fun x => decide (x ≠ k))

/-- `PollCounter`, lines 549-563: the template counters, raw name to display name. -/
def parseWanted (me : ZapiPerf) (counterList : Node) : List (String × String) :=
  counterList.GetAllChildContentS.foldl (fun wanted cnt =>
    match strings.Split cnt "=>" with
    | [raw, display] => assocSet (strings.TrimSpace raw) (strings.TrimSpace display) wanted
    | _ =>
      if cnt = "instance_name" then assocSet cnt me.object wanted
      else
        let display := strings.ReplaceAll cnt "-" "_"
        if strings.HasPrefix display me.object then
          assocSet cnt (strings.TrimPrefix (strings.TrimPrefix display me.object) "_") wanted
        else assocSet cnt display wanted) []

/-- `ZapiPerf.GetOverride`. -/
def GetOverride (me : ZapiPerf) (counter : String) : String :=
  match me.Params.GetChildS "override" with
  | some o => o.GetChildContentS counter
  | none => ""

/-- Function `parseHistogramLabels`: the labels of an array counter and an error
message, empty on success. -/
def parseHistogramLabels (R : Runtime) (elem : Node) : List String × String :=
  match elem.GetChildS "labels" with
  | none => ([], "array labels missing")
  | some x =>
    match x.GetChildren with
    | [a] => (strings.Split (R.DecodeHtml a.GetContentS) ",", "")
    | [a, b] =>
      (((strings.Split (R.DecodeHtml a.GetContentS) ",").map (fun la =>
          (strings.Split (R.DecodeHtml b.GetContentS) ",").map (fun lb => la ++ "." ++ lb))).flatten,
        "")
    | _ => ([], "unexpected dimensions")

/-- `addCounter`, lines 834-846 and 861-873: fetch the metric `key` or create it, then
set its attributes.  (`NewMetricFloat64` cannot fail here, the key being absent.) -/
def upsertMetric (m : Matrix) (key : String) (f : Metric → Metric) : Matrix :=
  match m.GetMetric key with
  | some _ => m.onMetric key f
  | none =>
    match m.NewMetricFloat64 key with
    | some m1 => m1.onMetric key f
    | none => m

/-- `addCounter`, lines 824-854: one metric per label of an array counter. -/
def addArrayMetrics (name display property baseCounter : String) (enabled : Bool)
    (baseLabels : List String) : List String → Matrix → Matrix
  | [], m => m
  | label :: labels, m =>
    let baseKey :=
      match baseLabels with
      | first :: _ => if baseCounter ≠ "" then baseCounter ++ "." ++ first else baseCounter
      | [] => baseCounter
    addArrayMetrics name display property baseCounter enabled baseLabels labels
      (upsertMetric m (name ++ "." ++ label) (fun x =>
        { x with
          name := display, property := property, comment := baseKey, exportable := enabled,
          labels :=
            match strings.Split label "." with
            | [a, b] => assocSet "submetric" b (assocSet "metric" a x.labels)
            | _ => assocSet "metric" label x.labels }))

/-- `addCounter`, lines 770-784: the property named by the `properties` of a counter,
empty when it names none (the counter is then skipped). -/
def propertyOf (p : String) : String :=
  if strings.Contains p "raw" then "raw"
  else if strings.Contains p "delta" then "delta"
  else if strings.Contains p "rate" then "rate"
  else if strings.Contains p "average" then "average"
  else if strings.Contains p "percent" then "percent"
  else ""

/-- `ZapiPerf.addCounter`: the collector after the call and the string returned. -/
def addCounter (R : Runtime) (me : ZapiPerf) (counter : Node) (name display : String)
    (enabled : Bool) (cache : List (String × Node)) : ZapiPerf × String :=
  let property := propertyOf (counter.GetChildContentS "properties")
  if property = "" then (me, "")
  else
    let baseCounter := counter.GetChildContentS "base-counter"
    let display1 := if display = "" then strings.ReplaceAll name "-" "_" else display
    if counter.GetChildContentS "type" = "array" then
      let parsed := parseHistogramLabels R counter
      if parsed.2 ≠ "" then (me, "")
      else
        let baseCheck : Option (List String) :=
          if baseCounter ≠ "" then
            match assocGet baseCounter cache with
            | some base =>
              if base.GetChildContentS "type" = "array" then
                if (parseHistogramLabels R base).2 ≠ "" then none
                else if (parseHistogramLabels R base).1.length ≠ parsed.1.length then none
                else some (parseHistogramLabels R base).1
              else some []
            | none => none
          else some []
        match baseCheck with
        | none => (me, "")
        | some baseLabels =>
          ({ me with
              Matrix := addArrayMetrics name display1 property baseCounter enabled baseLabels
                parsed.1 me.Matrix
              histogramLabels := assocSet name parsed.1 me.histogramLabels },
            baseCounter)
    else
      ({ me with
          Matrix := upsertMetric me.Matrix name (fun x =>
            { x with name := display1, property := property, comment := baseCounter,
                     exportable := enabled }) },
        baseCounter)

/-- The local variables of `PollCounter` that its loops change, with the collector. -/
structure CounterState where
  me : ZapiPerf
  counters : List (String × Node)
  oldMetrics : List String
  oldLabels : List String
  replaced : List String
  missing : List String

/-- `PollCounter`, lines 595-599: the property override of the template, applied to
a counter of the catalog. -/
def applyOverride (me : ZapiPerf) (key : String) (counter : Node) : Node :=
  if GetOverride me key ≠ "" then counter.SetChildContentS "properties" (GetOverride me key)
  else counter

/-- `PollCounter`, lines 609-614: the replacement of a deprecated counter is noted,
unless the template lists it. -/
def noteReplaced (wanted : List (String × String)) (st : CounterState) (counter : Node) :
    CounterState :=
  if counter.GetChildContentS "is-deprecated" = "true" ∧
      (assocGet (counter.GetChildContentS "replaced-by") wanted).isNone then
    { st with replaced := setAdd st.replaced (counter.GetChildContentS "replaced-by") }
  else st

/-- `PollCounter`, lines 632-635 and 646-649: the base counter `r` that `addCounter`
returned is noted as missing, unless the template lists it. -/
def noteMissing (wanted : List (String × String)) (missing : List String) (r : String) :
    List String :=
  if r ≠ "" ∧ (assocGet r wanted).isNone then setAdd missing r else missing

/-- `PollCounter`, lines 608-636: a counter of the catalog that the template lists,
with its display name. -/
def addWanted (R : Runtime) (wanted : List (String × String)) (st : CounterState)
    (key display : String) (counter : Node) : CounterState :=
  if counter.GetChildContentS "is-deprecated" = "true" ∧
      counter.GetChildContentS "replaced-by" = "" then st
  else if strings.Contains (counter.GetChildContentS "properties") "string" then
    { noteReplaced wanted st counter with
      oldLabels := setDelete (noteReplaced wanted st counter).oldLabels key
      me := { (noteReplaced wanted st counter).me with
        instanceLabels :=
          assocSet key
            (if key = "instance_name" ∧ display = "" then (noteReplaced wanted st counter).me.object
             else display)
            (noteReplaced wanted st counter).me.instanceLabels } }
  else
    { noteReplaced wanted st counter with
      oldMetrics := setDelete (noteReplaced wanted st counter).oldMetrics key
      me := (addCounter R (noteReplaced wanted st counter).me counter key display true
        (noteReplaced wanted st counter).counters).1
      missing := noteMissing wanted (noteReplaced wanted st counter).missing
        (addCounter R (noteReplaced wanted st counter).me counter key display true
          (noteReplaced wanted st counter).counters).2 }

/-- `PollCounter`, lines 593-637: the body of the first loop over the catalog. -/
def firstPass (R : Runtime) (wanted : List (String × String)) (st : CounterState)
    (entry : String × Node) : CounterState :=
  match assocGet entry.1 wanted with
  | none =>
    { st with counters :=
        assocModify entry.1 (fun _ => applyOverride st.me entry.1 entry.2) st.counters }
  | some display =>
    addWanted R wanted
      { st with counters :=
          assocModify entry.1 (fun _ => applyOverride st.me entry.1 entry.2) st.counters }
      entry.1 display (applyOverride st.me entry.1 entry.2)

/-- `PollCounter`, lines 642-651: the body of the second loop, for replaced counters. -/
def secondPass (R : Runtime) (wanted : List (String × String)) (st : CounterState)
    (entry : String × Node) : CounterState :=
  if entry.1 ∈ st.replaced then
    { st with
      oldMetrics := setDelete st.oldMetrics entry.1
      me := (addCounter R st.me entry.2 entry.1 entry.1 true st.counters).1
      missing := noteMissing wanted st.missing
        (addCounter R st.me entry.2 entry.1 entry.1 true st.counters).2 }
  else st

/-- `PollCounter`, lines 657-664: the body of the third loop, for required base
counters that the template does not list. -/
def thirdPass (R : Runtime) (st : CounterState) (entry : String × Node) : CounterState :=
  if entry.1 ∈ st.missing then
    { st with
      oldMetrics := setDelete st.oldMetrics entry.1
      me := (addCounter R st.me entry.2 entry.1 "" false st.counters).1 }
  else st

/-- `PollCounter`, lines 718-733: the QoS labels of the template. -/
def parseQosLabels (qosLabels : Node) : List (String × String) :=
  qosLabels.GetAllChildContentS.foldl (fun acc label =>
    match strings.Split label "=>" with
    | [a, b] => assocSet (strings.TrimSpace a) (strings.TrimSpace b) acc
    | _ => assocSet label (strings.ReplaceAll label "-" "_") acc) []

/-- `PollCounter`, lines 736-760: drop the metrics and labels still in the old sets,
and return.  The `range` over `oldMetrics` is site 8, over `oldLabels` site 9. -/
def finishCounters (R : Runtime) (st : CounterState) : ZapiPerf × Ret Matrix :=
  let matrix1 := (R.rangeOrder 8 st.oldMetrics).foldl (fun m key =>
    if key ≠ "timestamp" ∧ strings.Contains key "." = false then m.RemoveMetric key else m)
    st.me.Matrix
  let labels1 := (R.rangeOrder 9 st.oldLabels).foldl (fun l key => assocErase key l)
    st.me.instanceLabels
  let me1 : ZapiPerf := { st.me with Matrix := matrix1, instanceLabels := labels1 }
  if me1.Matrix.metrics.length = 0 then (me1, Ret.ok none (some (GoError.New "ERR_NO_METRIC" "")))
  else (me1, Ret.ok none none)

/-- `PollCounter`, lines 683-716, for the query `workload_detail`: one of `service_time`
and `wait_time` is taken out of the old metrics, then a latency metric is created per
entry of `resource_map`.  The variable `base` is `nil` whenever the loop over
`resource_map` is reached, so its first round ends in a panic, after the new metric
was added and named.  `Sum.inl` is the state with which `PollCounter` goes on,
`Sum.inr` its early end. -/
def detailPass (st : CounterState) : CounterState ⊕ (ZapiPerf × Ret Matrix) :=
  if "service_time" ∉ st.oldMetrics ∧ "wait_time" ∉ st.oldMetrics then
    Sum.inr (st.me, Ret.ok none
      (some (GoError.New "MISSING_PARAM" "counter service_time or wait_time")))
  else if (st.me.Matrix.GetMetric "service_time").isSome ∧
      (st.me.Matrix.GetMetric "wait_time").isSome then
    Sum.inr (st.me, Ret.ok none
      (some (GoError.New "MISSING_PARAM" "counter service_time or wait_time not found")))
  else
    match st.me.Params.GetChildS "resource_map" with
    | none => Sum.inr (st.me, Ret.ok none (some (GoError.New "MISSING_PARAM" "resource_map")))
    | some resourceMap =>
      match resourceMap.GetChildren with
      | [] =>
        Sum.inl { st with oldMetrics :=
          (if "service_time" ∈ st.oldMetrics then setDelete st.oldMetrics "service_time"
           else setDelete st.oldMetrics "wait_time") }
      | x :: _ =>
        match st.me.Matrix.NewMetricFloat64 x.GetNameS with
        | none =>
          Sum.inr (st.me, Ret.ok none (some (GoError.New "DuplicateMetricKey" x.GetNameS)))
        | some m1 =>
          Sum.inr
            ({ st.me with Matrix := m1.onMetric x.GetNameS (fun m =>
                { m with name := "latency_from_" ++ x.GetContentS }) },
              Ret.panic "nil pointer dereference: base.GetProperty()")

/-- `PollCounter`, lines 680-734: the special case of the workload queries, then the
end of the function. -/
def workloadPass (R : Runtime) (st : CounterState) : ZapiPerf × Ret Matrix :=
  if st.me.Query = "workload" ∨ st.me.Query = "workload_detail" then
    match (if st.me.Query = "workload_detail" then detailPass st else Sum.inl st) with
    | Sum.inr r => r
    | Sum.inl st2 =>
      match st2.me.Params.GetChildS "qos_labels" with
      | none => (st2.me, Ret.ok none (some (GoError.New "MISSING_PARAM" "qos_labels")))
      | some qosLabels =>
        finishCounters R { st2 with me := { st2.me with qosLabels := parseQosLabels qosLabels } }
  else finishCounters R st

/-- One exchange with the wire client in `PollCounter`: what `BuildRequest` and
`Invoke` return. -/
structure CounterReply where
  build : Option GoError
  invoke : Except GoError Node

/-- `PollCounter`, lines 583-588: the catalog, indexed by counter name. -/
def indexCounters (elems : Node) : List (String × Node) :=
  elems.GetChildren.foldl (fun counters counter =>
    if counter.GetChildContentS "name" ≠ "" then
      assocSet (counter.GetChildContentS "name") counter counters
    else counters) []

/-- `PollCounter`, lines 593-678: the three loops over the catalog (sites 5, 6 and 7)
and the `timestamp` metric. -/
def syncCounters (R : Runtime) (me : ZapiPerf) (wanted : List (String × String))
    (counters : List (String × Node)) : CounterState :=
  let st0 : CounterState :=
    { me := me, counters := counters, oldMetrics := assocKeys me.Matrix.metrics,
      oldLabels := assocKeys me.instanceLabels, replaced := [], missing := [] }
  let st1 := (R.rangeOrder 5 counters).foldl (firstPass R wanted) st0
  let st2 :=
    if st1.replaced.length > 0 then (R.rangeOrder 6 st1.counters).foldl (secondPass R wanted) st1
    else st1
  let st3 :=
    if st2.missing.length > 0 then (R.rangeOrder 7 st2.counters).foldl (thirdPass R) st2
    else st2
  if "timestamp" ∈ st3.oldMetrics then st3
  else
    match st3.me.Matrix.NewMetricFloat64 "timestamp" with
    | some m1 =>
      { st3 with me := { st3.me with
          Matrix := m1.onMetric "timestamp" (fun m => { m with property := "raw", exportable := false }) } }
    | none => st3

/-- `ZapiPerf.PollCounter`: the collector after the call and how the call ended. -/
def PollCounter (R : Runtime) (me : ZapiPerf) (reply : CounterReply) : ZapiPerf × Ret Matrix :=
  match me.Params.GetChildS "counters" with
  | none => (me, Ret.ok none (some (GoError.New "MISSING_PARAM" "counters")))
  | some counterList =>
    match reply.build with
    | some err => (me, Ret.ok none (some err))
    | none =>
      match reply.invoke with
      | Except.error err => (me, Ret.ok none (some err))
      | Except.ok response =>
        match response.GetChildS "counters" with
        | none => (me, Ret.ok none (some (GoError.New "ERR_NO_METRIC" "no counters in response")))
        | some elems =>
          if elems.GetChildren.length = 0 then
            (me, Ret.ok none (some (GoError.New "ERR_NO_METRIC" "no counters in response")))
          else
            workloadPass R (syncCounters R me (parseWanted me counterList) (indexCounters elems))

/-! ## `PollInstance` -/

/-- Modelled from the spec: `NewInstance(key)`: instance keys are unique (spec 3.1), a key
already present is an error (`none`); otherwise an instance without labels is
added. -/
def Matrix.NewInstance (me : Matrix) (key : String) : Option Matrix :=
  match me.GetInstance key with
  | some _ => none
  | none => some { me with instances := me.instances ++ [(key, { labels := [] })] }

/-- Modelled from the spec: `RemoveInstance(key)`. -/
def Matrix.RemoveInstance (me : Matrix) (key : String) : Matrix :=
  { me with instances := assocErase key me.instances }

/-- `PollInstance`, lines 933-956: the child of the results that holds the instances.
`clustered` is `me.Client.IsClustered()`. -/
def instancesAttr (query : String) (clustered : Bool) : String :=
  if query = "workload" ∨ query = "workload_detail" ∨ query = "workload_volume" ∨
      query = "workload_detail_volume" then "attributes-list"
  else if clustered then "attributes-list"
  else "instances"

/-- `PollInstance`, lines 984-1011: one element of a page.  The state is the collector
and the set `oldInstances`.  The QoS labels are set in the branch where
`NewInstance` returned an error; the instance it returned with the error is Go
`nil` (modelled from the spec: the key is present already and no instance is
made), so the first `SetLabel` panics: `Sum.inr` is the collector at the panic. -/
def addInstance (me : ZapiPerf) (old : List String) (i : Node) :
    (ZapiPerf × List String) ⊕ ZapiPerf :=
  if i.GetChildContentS me.instanceKey = "" then Sum.inl (me, old)
  else if i.GetChildContentS me.instanceKey ∈ old then
    Sum.inl (me, setDelete old (i.GetChildContentS me.instanceKey))
  else
    match me.Matrix.NewInstance (i.GetChildContentS me.instanceKey) with
    | none =>
      if me.Query = "workload" ∨ me.Query = "workload_volume" then
        if me.qosLabels.any (fun e => decide (i.GetChildContentS e.1 ≠ "")) then Sum.inr me
        else Sum.inl (me, old)
      else Sum.inl (me, old)
    | some m1 => Sum.inl ({ me with Matrix := m1 }, old)

/-- `PollInstance`, lines 982-1012: the elements of one page, in order. -/
def addInstances : List Node → ZapiPerf → List String → (ZapiPerf × List String) ⊕ ZapiPerf
  | [], me, old => Sum.inl (me, old)
  | i :: rest, me, old =>
    match addInstance me old i with
    | Sum.inl st => addInstances rest st.1 st.2
    | Sum.inr me1 => Sum.inr me1

/-- `PollInstance`, lines 1015-1030: the instances still in `oldInstances` are removed
(the `range` is site 11); `err` is the error of the last request, if any. -/
def finishInstances (R : Runtime) (me : ZapiPerf) (old : List String) (err : Option GoError) :
    ZapiPerf × Ret Matrix :=
  let matrix1 := (R.rangeOrder 11 old).foldl (fun m key => m.RemoveInstance key) me.Matrix
  let me1 : ZapiPerf := { me with Matrix := matrix1 }
  if matrix1.instances.length = 0 then
    (me1, Ret.ok none (some (GoError.New "ERR_NO_INSTANCE" "")))
  else (me1, Ret.ok none err)

/-- `PollInstance`, lines 964-1013: the loop over the pages.  Each round takes one reply
of the script: what `InvokeBatchRequest` returned, the results (`none` for Go
`nil`) or an error; the tag it hands back is kept by the client. -/
def pageLoop (R : Runtime) (attr : String) :
    List (Except GoError (Option Node)) → ZapiPerf → List String → ZapiPerf × Ret Matrix
  | [], me, _ => (me, Ret.blocked)
  | Except.error err :: _, me, old => finishInstances R me old (some err)
  | Except.ok none :: _, me, old => finishInstances R me old none
  | Except.ok (some results) :: script, me, old =>
    match results.GetChildS attr with
    | none => finishInstances R me old none
    | some instances =>
      if instances.GetChildren.length = 0 then finishInstances R me old none
      else
        match addInstances instances.GetChildren me old with
        | Sum.inl st => pageLoop R attr script st.1 st.2
        | Sum.inr me1 => (me1, Ret.panic "nil pointer dereference: instance.SetLabel")

/-- `ZapiPerf.PollInstance`: the collector after the call and how the call ended.  The
request sent (lines 933-960) does not reach the result, the replies being the
script. -/
def PollInstance (R : Runtime) (me : ZapiPerf) (clustered : Bool)
    (script : List (Except GoError (Option Node))) : ZapiPerf × Ret Matrix :=
  pageLoop R (instancesAttr me.Query clustered) script me (assocKeys me.Matrix.instances)

/-! ## The processing order of `PollData`, with the metrics -/

/-- `PollData`, lines 413-428: the slice `orderedMetrics`, filled together with
`orderedKeys` by the same two loops (sites 3 and 4). -/
def orderedMetrics (R : Runtime) (newData : Matrix) : List Metric :=
  ((R.rangeOrder 3 newData.metrics).filter (fun e => decide (e.2.comment = ""))).map Prod.snd ++
  ((R.rangeOrder 4 newData.metrics).filter (fun e => decide (e.2.comment ≠ ""))).map Prod.snd

/-! ## The Shelf plugin (`cmd/collectors/zapi/plugins/shelf/shelf.go`) -/

/-- Modelled from the spec: `SearchChildren(path)`, the nodes reached from a node by a
path of child names ("nested search path", spec 4.4). -/
def Node.SearchChildren (n : Node) : List String → List Node
  | [] => [n]
  | p :: ps =>
    ((n.GetChildren.filter (fun c => decide (c.GetNameS = p))).map
      (fun c => c.SearchChildren ps)).flatten

/-- Modelled from the spec: `PurgeInstances()`, "purge prior instances": the matrix
without instances. -/
def Matrix.PurgeInstances (me : Matrix) : Matrix := { me with instances := [] }

/-- Modelled from the spec: `instance.GetLabel(name)`, empty when the label is not set. -/
def Instance.GetLabel (i : Instance) (name : String) : String := (assocGet name i.labels).getD ""

/-- The fields of `Shelf` that `Run` uses; `clustered` is `my.client.IsClustered()`. -/
structure Shelf where
  data : List (String × Matrix)
  instanceKeys : List (String × String)
  instanceLabels : List (String × List (String × String))
  clustered : Bool
  query : String

/-- How a loop of `Run` leaves a round, each time with the state reached: it goes on,
or `Run` returns an error from inside it, or panics. -/
inductive Round (σ : Type) where
  | next (st : σ)
  | ret (st : σ) (err : GoError)
  | panic (st : σ) (what : String)

/-- The rest of a loop after one round. -/
def Round.andThen {σ : Type} (r : Round σ) (f : σ → Round σ) : Round σ :=
  match r with
  | Round.next st => f st
  | Round.ret st err => Round.ret st err
  | Round.panic st what => Round.panic st what

/-- A Go map read `m[k]` of strings: empty when the key is missing. -/
def lookupStr (m : List (String × String)) (k : String) : String := (assocGet k m).getD ""

/-- `Run`, lines 186-208: one element of a sub-object, first pass.  `labels` is
`my.instanceLabels[attribute]`, `none` when the map has no such entry (a Go `nil`
dictionary, whose `Map()` panics); its `range` is site 14. -/
def Shelf.addElement (R : Runtime) (labels : Option (List (String × String)))
    (instanceKey shelfName shelfId : String) (data : Matrix) (obj : Node) : Round Matrix :=
  if obj.GetChildContentS instanceKey ≠ "" then
    match data.NewInstance (shelfId ++ "." ++ obj.GetChildContentS instanceKey) with
    | none =>
      Round.ret data
        (GoError.New "DuplicateInstanceKey" (shelfId ++ "." ++ obj.GetChildContentS instanceKey))
    | some data1 =>
      match labels with
      | none => Round.panic data1 "nil pointer dereference: instanceLabels[attribute].Map()"
      | some ls =>
        Round.next
          ((((R.rangeOrder 14 ls).foldl (fun m e =>
              if obj.GetChildContentS e.1 ≠ "" then
                m.setInstanceLabel (shelfId ++ "." ++ obj.GetChildContentS instanceKey) e.2
                  (obj.GetChildContentS e.1)
              else m) data1).setInstanceLabel
              (shelfId ++ "." ++ obj.GetChildContentS instanceKey) "shelf" shelfName).setInstanceLabel
            (shelfId ++ "." ++ obj.GetChildContentS instanceKey) "shelf_id" shelfId)
  else Round.next data

/-- The elements of a sub-object, in order, first pass. -/
def Shelf.addElements (R : Runtime) (labels : Option (List (String × String)))
    (instanceKey shelfName shelfId : String) : List Node → Matrix → Round Matrix
  | [], data => Round.next data
  | obj :: rest, data =>
    (Shelf.addElement R labels instanceKey shelfName shelfId data obj).andThen
      (Shelf.addElements R labels instanceKey shelfName shelfId rest)

/-- `Run`, lines 167-212: one sub-object matrix of `my.data` for one shelf, first pass.
The state is `my.data` and `output`, the latter as the list of the attributes whose
matrix was appended (the slice holds pointers to the matrices of `my.data`). -/
def Shelf.fillObject (R : Runtime) (my : Shelf) (shelf : Node) (shelfName shelfId : String)
    (st : List (String × Matrix) × List String) (attr : String) :
    Round (List (String × Matrix) × List String) :=
  let purged := assocModify attr Matrix.PurgeInstances st.1
  if lookupStr my.instanceKeys attr = "" then Round.next (purged, st.2)
  else
    match shelf.GetChildS attr with
    | none => Round.next (purged, st.2)
    | some objectElem =>
      match assocGet attr purged with
      | none => Round.next (purged, st.2)
      | some data =>
        match Shelf.addElements R (assocGet attr my.instanceLabels)
            (lookupStr my.instanceKeys attr) shelfName shelfId objectElem.GetChildren data with
        | Round.next data1 =>
          Round.next (assocModify attr (fun _ => data1) purged, st.2 ++ [attr])
        | Round.ret data1 err => Round.ret (assocModify attr (fun _ => data1) purged, st.2) err
        | Round.panic data1 what =>
          Round.panic (assocModify attr (fun _ => data1) purged, st.2) what

/-- A loop over a list whose rounds may leave the function. -/
def forRounds {α σ : Type} (f : σ → α → Round σ) : List α → σ → Round σ
  | [], st => Round.next st
  | a :: rest, st => (f st a).andThen (forRounds f rest)

/-- The shelf name and the shelf id of a shelf element (lines 158-165). -/
def Shelf.shelfName (my : Shelf) (shelf : Node) : String :=
  if my.clustered then shelf.GetChildContentS "shelf" else shelf.GetChildContentS "shelf-id"

/-- The shelf id of a shelf element (lines 159-165 and 219-222). -/
def Shelf.shelfId (my : Shelf) (shelf : Node) : String :=
  if my.clustered then shelf.GetChildContentS "shelf-uid" else shelf.GetChildContentS "shelf-id"

/-- `Run`, lines 156-213: one shelf of the first loop; `index` is its position among the
shelves.  The `range` over `my.data` is site `2000 + 2 * index`. -/
def Shelf.firstPass (R : Runtime) (my : Shelf) (st : List (String × Matrix) × List String)
    (entry : Nat × Node) : Round (List (String × Matrix) × List String) :=
  forRounds (Shelf.fillObject R my entry.2 (my.shelfName entry.2) (my.shelfId entry.2))
    (R.rangeOrder (2000 + 2 * entry.1) (assocKeys st.1)) st

/-- `Run`, line 250: the string handed to `SetValueString`, the first piece of the
content split at single spaces. -/
def Shelf.firstField (content : String) : String :=
  match strings.Split content " " with
  | value :: _ => value
  | [] => ""

/-- `Run`, lines 248-257: the cells of one element, second pass; `ikey` is the key of
its instance.  The `range` over the metrics is site 15. -/
def Shelf.setValues (R : Runtime) (obj : Node) (ikey : String) (data : Matrix) : Matrix :=
  (R.rangeOrder 15 (assocKeys data.metrics)).foldl (fun m metricKey =>
    if Shelf.firstField (obj.GetChildContentS metricKey) ≠ "" then
      m.onMetric metricKey (fun x =>
        x.SetValueString R ikey (Shelf.firstField (obj.GetChildContentS metricKey)))
    else m) data

/-- `Run`, lines 233-258: one element of a sub-object, second pass. -/
def Shelf.readElement (R : Runtime) (instanceKey shelfId : String) (data : Matrix) (obj : Node) :
    Matrix :=
  if obj.GetChildContentS instanceKey = "" then data
  else
    match data.GetInstance (shelfId ++ "." ++ obj.GetChildContentS instanceKey) with
    | none => data
    | some _ => Shelf.setValues R obj (shelfId ++ "." ++ obj.GetChildContentS instanceKey) data

/-- `Run`, lines 224-259: one sub-object matrix for one shelf, second pass. -/
def Shelf.readObject (R : Runtime) (my : Shelf) (shelf : Node) (shelfId : String)
    (data : List (String × Matrix)) (attr : String) : List (String × Matrix) :=
  assocModify attr (fun d =>
    match shelf.GetChildS attr with
    | none => d.Reset
    | some objectElem =>
      objectElem.GetChildren.foldl
        (Shelf.readElement R (lookupStr my.instanceKeys attr) shelfId) d.Reset) data

/-- `Run`, lines 217-260: one shelf of the second loop.  The `range` over `my.data` is
site `2001 + 2 * index`. -/
def Shelf.secondPass (R : Runtime) (my : Shelf) (data : List (String × Matrix))
    (entry : Nat × Node) : List (String × Matrix) :=
  (R.rangeOrder (2001 + 2 * entry.1) (assocKeys data)).foldl
    (Shelf.readObject R my entry.2 (my.shelfId entry.2)) data

/-- `Run`, lines 141-146: the shelves of the response. -/
def Shelf.shelves (my : Shelf) (result : Node) : List Node :=
  match result.GetChildS "attributes-list" with
  | some x => x.GetChildren
  | none =>
    if my.clustered then []
    else result.SearchChildren
      ["shelf-environ-channel-info", "shelf-environ-shelf-list", "shelf-environ-shelf-info"]

/-- `Run`, lines 131-135: in 7-mode every instance of the parent matrix gets its label
`shelf` from its label `shelf_id`. -/
def Shelf.labelParent (my : Shelf) (parent : Matrix) : Matrix :=
  if my.clustered then parent
  else
    { parent with instances := parent.instances.map (fun e =>
        (e.1, { e.2 with labels := assocSet "shelf" (e.2.GetLabel "shelf_id") e.2.labels })) }

/-- `Shelf.Run`: the plugin and the parent matrix after the call, and how the
call ended.  `reply` is what `InvokeRequestString` returns.  The matrices returned are
those of `my.data` that `output` points to, as they are when `Run` returns. -/
def Shelf.Run (R : Runtime) (my : Shelf) (parent : Matrix) (reply : Except GoError Node) :
    Shelf × Matrix × Ret (List Matrix) :=
  match reply with
  | Except.error err => (my, my.labelParent parent, Ret.ok none (some err))
  | Except.ok result =>
    if (my.shelves result).length = 0 then
      (my, my.labelParent parent,
        Ret.ok none (some (GoError.New "NoInstancesError" "no shelf instances found")))
    else
      match forRounds (Shelf.firstPass R my) (my.shelves result).enum (my.data, []) with
      | Round.ret st err => ({ my with data := st.1 }, my.labelParent parent, Ret.ok none (some err))
      | Round.panic st what => ({ my with data := st.1 }, my.labelParent parent, Ret.panic what)
      | Round.next st =>
        let data2 := (my.shelves result).enum.foldl (Shelf.secondPass R my) st.1
        ({ my with data := data2 }, my.labelParent parent,
          Ret.ok (some (st.2.filterMap (fun attr => assocGet attr data2))) none)

/-! ## `pkg/util` -/

/-- Go index expression `xs[i]`, `none` when it panics. -/
def goIndex {α : Type} (xs : List α) (i : Int) : Option α :=
  if 0 ≤ i ∧ i < (xs.length : Int) then xs[i.toNat]? else none

namespace util

/-- Function `MinLen` (util.go, lines 22-31): `none` when `elements[0]` panics, the list
being empty. -/
def MinLen (elements : List (List String)) : Option Int :=
  match elements with
  | [] => none
  | first :: rest =>
    some (rest.foldl (fun min e => if (e.length : Int) < min then (e.length : Int) else min)
      (first.length : Int))

/-- The loop of `AllSame` from some `i ≥ 1` on, `first` being `elements[0]` and the list
the elements from `i`: `none` when an index expression panics. -/
def AllSame.loop (first : List String) (k : Int) : List (List String) → Option Bool
  | [] => some true
  | e :: rest =>
    match goIndex e k with
    | none => none
    | some x =>
      match goIndex first k with
      | none => none
      | some y => if x ≠ y then some false else AllSame.loop first k rest

/-- Function `AllSame` (util.go, lines 44-52): `none` when an index expression panics. -/
def AllSame (elements : List (List String)) (k : Int) : Option Bool :=
  match elements with
  | [] => some true
  | first :: rest => AllSame.loop first k rest

end util

/-! ## Notions used in the statements -/

/-- The collector with another baseline matrix. -/
def ZapiPerf.withMatrix (me : ZapiPerf) (m : Harvest.Matrix) : ZapiPerf := { me with Matrix := m }

/-- What parsing a response may change: of the collector only the metrics of the
baseline matrix (and those only for a `workload_detail` query), of `newData` only
cells and instance labels. -/
def ParseInv (st st1 : ZapiPerf × Matrix) : Prop :=
  (∃ ms, st1.1 = st.1.withMatrix { st.1.Matrix with metrics := ms }) ∧
  assocKeys st1.1.Matrix.metrics = assocKeys st.1.Matrix.metrics ∧
  assocKeys st1.2.metrics = assocKeys st.2.metrics ∧
  assocKeys st1.2.instances = assocKeys st.2.instances ∧
  (isWorkloadDetail st.1.Query = false → st1.1 = st.1)

/-- What the batch loop guarantees about its end state. -/
def LoopInv (me : ZapiPerf) (nd : Matrix) : LoopEnd → Prop
  | LoopEnd.done me1 cur _ => ParseInv (me, nd) (me1, cur)
  | LoopEnd.exit me1 ret _ =>
    ∃ me2 nd2, ParseInv (me, nd) (me2, nd2) ∧
      (me1 = me2 ∨
        (100 < me2.batchSize ∧ me1 = { me2 with batchSize := me2.batchSize - 100 } ∧
          ret = Ret.ok none none))

/-- The row of a `rate` metric after its post-processing: the delta to the previous
row, divided by the (already reduced) row of the timestamps. -/
def rateRow (m prev ts : Metric) : Metric :=
  Metric.Divide
    { m with values := fun i =>
        match m.values i, prev.values i with
        | some a, some b => some (a - b)
        | _, _ => none }
    ts

/-- A reply of the batch loop that succeeds: the request is built and invoked
without error. -/
def BatchReply.succeeds (r : BatchReply) : Prop :=
  r.build = none ∧ ∃ response, r.invoke = Except.ok response

/-- A reply of the batch loop that succeeds and holds at least one instance. -/
def BatchReply.hasInstances (r : BatchReply) : Prop :=
  r.build = none ∧ ∃ response instances, r.invoke = Except.ok response ∧
    response.GetChildS "instances" = some instances ∧ instances.GetChildren.length ≠ 0

/-- The cell of the matrix a call returned, `none` when it returned no matrix. -/
def returnedCell (r : ZapiPerf × Ret Matrix) (mkey ikey : String) : Option ℚ :=
  match r.2 with
  | Ret.ok (some m) _ => m.cell mkey ikey
  | _ => none

/-- A sequence of `PollData` calls, one script of replies per call: the collector
after the last call. -/
def runPolls (R : Runtime) (me : ZapiPerf) (scripts : List (List BatchReply)) : ZapiPerf :=
  scripts.foldl (fun c script => (PollData R c script).1) me

/-- Kind (a) of metric key: a counter listed in the template `counters`. -/
def isListed (wanted : List (String × String)) (key : String) : Bool :=
  (assocGet key wanted).isSome

/-- Kind (b) of metric key: the `replaced-by` target of a listed counter that the
catalog marks as deprecated. -/
def isReplacement (wanted : List (String × String)) (catalog : List (String × Node))
    (key : String) : Bool :=
  catalog.any (fun e =>
    isListed wanted e.1 && decide (e.2.GetChildContentS "is-deprecated" = "true") &&
      decide (e.2.GetChildContentS "replaced-by" = key))

/-- Kind (c) of metric key: the base counter of a catalog counter that is listed or
is a replacement. -/
def isRequiredBase (wanted : List (String × String)) (catalog : List (String × Node))
    (key : String) : Bool :=
  catalog.any (fun e =>
    (isListed wanted e.1 || isReplacement wanted catalog e.1) &&
      decide (e.2.GetChildContentS "base-counter" = key))

/-- The kinds of metric key `PollCounter` itself accounts for: (a), (b), (c), the
`timestamp` metric (d), and the keys with a `.`, which it never removes. -/
def keyKind (wanted : List (String × String)) (catalog : List (String × Node))
    (key : String) : Prop :=
  isListed wanted key = true ∨ isReplacement wanted catalog key = true ∨
    isRequiredBase wanted catalog key = true ∨ key = "timestamp" ∨
    strings.Contains key "." = true

/-- Two counter elements that differ at most in their `properties`. -/
def sameMeta (a b : Node) : Prop :=
  ∀ n : String, n ≠ "properties" → a.GetChildContentS n = b.GetChildContentS n

/-- An entry of the working catalog stems from the catalog of the response. -/
def fromCatalog (catalog : List (String × Node)) (e : String × Node) : Prop :=
  ∃ c, (e.1, c) ∈ catalog ∧ sameMeta e.2 c

/-- The invariant of the loops of `PollCounter`, for the collector `me0` it was called
on, the template counters `wanted` and the catalog of the response. -/
def CounterInv (me0 : ZapiPerf) (wanted : List (String × String))
    (catalog : List (String × Node)) (st : CounterState) : Prop :=
  st.me.Query = me0.Query ∧ st.me.Params = me0.Params ∧
  (∀ k ∈ assocKeys st.me.Matrix.metrics, k ∈ st.oldMetrics ∨ keyKind wanted catalog k) ∧
  (∀ r ∈ st.replaced, isReplacement wanted catalog r = true) ∧
  (∀ r ∈ st.missing, isRequiredBase wanted catalog r = true) ∧
  (∀ e ∈ st.counters, fromCatalog catalog e)

/-- The row of a metric after `Delta`: the difference to the previous row. -/
def deltaRow (m prev : Metric) : Metric :=
  { m with values := fun i =>
      match m.values i, prev.values i with
      | some a, some b => some (a - b)
      | _, _ => none }

/-- The row of a `percent` metric after its post-processing: the delta, divided by
the row of the base counter (with the threshold when the name ends in `_latency`),
times 100. -/
def percentRow (m prev base : Metric) (latencyIoReqd : Int) : Metric :=
  Metric.MultiplyByScalar
    (if strings.HasSuffix m.name "_latency" then
      Metric.DivideWithThreshold (deltaRow m prev) base latencyIoReqd
     else Metric.Divide (deltaRow m prev) base)
    100

/-- The matrices a call of `Shelf.Run` returned, none when it returned an error or
panicked. -/
def Shelf.returned (r : Shelf × Matrix × Ret (List Matrix)) : List Matrix :=
  match r.2.2 with
  | Ret.ok (some out) none => out
  | _ => []

/-- The elements of a page of `PollInstance`: the children of its child `attr`, none
when it has no such child. -/
def pageElements (attr : String) (page : Node) : List Node :=
  match page.GetChildS attr with
  | some instances => instances.GetChildren
  | none => []

/-- The key values a list of elements reports: the non-empty contents of their key
field, in order. -/
def elementKeys (instanceKey : String) (elements : List Node) : List String :=
  (elements.map (fun i => i.GetChildContentS instanceKey)).filter (fun k => decide (k ≠ ""))

/-- The key values the controller reports over a list of pages. -/
def reportedKeys (instanceKey attr : String) (pages : List Node) : List String :=
  elementKeys instanceKey (pages.map (pageElements attr)).flatten

/-- A reply that ends the loop over the pages: an error, no results (no tag was left),
or results without instances. -/
def endsPages (attr : String) : Except GoError (Option Node) → Prop
  | Except.error _ => True
  | Except.ok none => True
  | Except.ok (some results) => (pageElements attr results).length = 0

/-- The collector `b` is `a` but for the instances of its matrix. -/
def sameButInstances (a b : ZapiPerf) : Prop :=
  ∃ is, b = { a with Matrix := { a.Matrix with instances := is } }

/-- What the second pass of `Shelf.Run` does to a cell of an element, given the string
it hands to the parser: the cell gets the number parsed, and stays as it was when
the string is empty or is no number. -/
def newCell (R : Runtime) (field : String) (cell : Option ℚ) : Option ℚ :=
  if field = "" then cell
  else
    match R.ParseFloat field with
    | some v => some v
    | none => cell

/-- The first whitespace-separated token of a string (Go `strings.Fields(s)[0]`), empty
when the string has no token. -/
def firstToken (s : String) : String :=
  String.mk ((s.data.dropWhile strings.isSpace).takeWhile (fun c => !strings.isSpace c))

/-- The cells of the matrices `Shelf.Run` returned, for a metric and an instance. -/
def Shelf.returnedCells (r : Shelf × Matrix × Ret (List Matrix)) (mkey ikey : String) :
    List (Option ℚ) :=
  (Shelf.returned r).map (fun m => m.cell mkey ikey)

/-- The metric `NewMetricFloat64(key)` makes (see `Matrix.NewMetricFloat64`). -/
def Metric.fresh (key : String) : Metric :=
  { name := key, property := "", comment := "", exportable := true, labels := [],
    values := fun _ => none }

/-! ### The schema of the matrix -/

/-- The schema of a metric: its name, property, comment and exportable flag, and its
labels as a map. -/
structure Schema where
  name : String
  property : String
  comment : String
  exportable : Bool
  labels : String → Option String

/-- The schema of a metric. -/
def Metric.schema (m : Metric) : Schema :=
  { name := m.name, property := m.property, comment := m.comment, exportable := m.exportable,
    labels := fun l => assocGet l m.labels }

/-- The schema of the metric of a key, `none` when the matrix has no such metric. -/
def Matrix.schemaAt (m : Matrix) (k : String) : Option Schema := (m.GetMetric k).map Metric.schema

/-- The attributes `t` written over a metric of schema `s` (over a fresh metric when there
is none): name, property, comment and flag are those of `t`, a label is the one of
`t` if `t` sets it and stays otherwise. -/
def Schema.over (t : Schema) (s : Option Schema) : Schema :=
  { name := t.name, property := t.property, comment := t.comment, exportable := t.exportable,
    labels := fun l =>
      match t.labels l with
      | some v => some v
      | none =>
        match s with
        | some x => x.labels l
        | none => none }

/-- What a part of `PollCounter` does to one metric key: whether it takes the key out of
`oldMetrics`, and the attributes it writes to the metric of the key, if any. -/
structure KeyStep where
  del : Bool
  touch : Option Schema

/-- The effect of a `KeyStep` on the schema of the key and on its being in `oldMetrics`. -/
def KeyStep.apply (a : KeyStep) (v : Option Schema × Bool) : Option Schema × Bool :=
  (match a.touch with
   | none => v.1
   | some t => some (t.over v.1),
   v.2 && !a.del)

/-- First `a`, then `b`. -/
def KeyStep.comp (a b : KeyStep) : KeyStep :=
  { del := a.del || b.del
    touch :=
      match b.touch with
      | none => a.touch
      | some t => some (t.over a.touch) }

/-- What a part of `PollCounter` does to the label of a key: the display name it sets
(the key is then taken out of `oldLabels`), if any. -/
def labelApply (s : Option String) (v : Option String × Bool) : Option String × Bool :=
  match s with
  | none => v
  | some d => (some d, false)

/-- What a part of `PollCounter` does: to every metric key, to every instance label and
to every entry of `histogramLabels`. -/
structure SchemaStep where
  metric : String → KeyStep
  label : String → Option String
  hist : String → Option (List String)

/-- The part that does nothing. -/
def SchemaStep.id : SchemaStep :=
  { metric := fun _ => { del := false, touch := none }, label := fun _ => none,
    hist := fun _ => none }

/-- First `a`, then `b`. -/
def SchemaStep.comp (a b : SchemaStep) : SchemaStep :=
  { metric := fun k => (a.metric k).comp (b.metric k)
    label := fun k =>
      match b.label k with
      | none => a.label k
      | some d => some d
    hist := fun k =>
      match b.hist k with
      | none => a.hist k
      | some x => some x }

/-- A metric is only written to when its key was taken out of `oldMetrics` or holds
a `.`. -/
def SchemaStep.ok (s : SchemaStep) : Prop :=
  ∀ k, (s.metric k).touch.isSome = true →
    (s.metric k).del = true ∨ strings.Contains k "." = true

/-- A metric key in a state of `PollCounter`: the schema of its metric, and whether it is
in `oldMetrics`. -/
def keyView (st : CounterState) (k : String) : Option Schema × Bool :=
  (st.me.Matrix.schemaAt k, decide (k ∈ st.oldMetrics))

/-- An instance label in a state of `PollCounter`: its display name, and whether it is in
`oldLabels`. -/
def labelView (st : CounterState) (k : String) : Option String × Bool :=
  (assocGet k st.me.instanceLabels, decide (k ∈ st.oldLabels))

/-- The state `b` is the state `a` after the part `s`. -/
def Acts (s : SchemaStep) (a b : CounterState) : Prop :=
  (∀ k, keyView b k = (s.metric k).apply (keyView a k)) ∧
  (∀ k, labelView b k = labelApply (s.label k) (labelView a k)) ∧
  (∀ k, assocGet k b.me.histogramLabels =
    match s.hist k with
    | some x => some x
    | none => assocGet k a.me.histogramLabels)

/-- Two states of `PollCounter` agree on all that decides what its loops do: the
catalog, the sets `replaced` and `missing`, and the template. -/
def sameCtrl (a b : CounterState) : Prop :=
  a.counters = b.counters ∧ a.replaced = b.replaced ∧ a.missing = b.missing ∧
  a.me.Params = b.me.Params ∧ a.me.object = b.me.object ∧ a.me.Query = b.me.Query

/-- A part of `PollCounter` that does the same to two states that agree on what decides
the loops. -/
def Coupled (f : CounterState → CounterState) : Prop :=
  ∀ a b, sameCtrl a b →
    sameCtrl (f a) (f b) ∧ (f a).me.Params = a.me.Params ∧ (f a).me.object = a.me.object ∧
      (f a).me.Query = a.me.Query ∧
      ∃ s, s.ok ∧ Acts s a (f a) ∧ Acts s b (f b)

/-- What `addCounter` decides from the counter and the catalog alone: to skip the
counter, to add a scalar metric, or to add the metrics of an array. -/
inductive CounterPlan where
  | skip
  | scalar (display property baseCounter : String)
  | array (display property baseCounter : String) (baseLabels labels : List String)

/-- The decision of `addCounter` (lines 770-822). -/
def planCounter (R : Runtime) (counter : Node) (name display : String)
    (cache : List (String × Node)) : CounterPlan :=
  let property := propertyOf (counter.GetChildContentS "properties")
  if property = "" then CounterPlan.skip
  else
    let baseCounter := counter.GetChildContentS "base-counter"
    let display1 := if display = "" then strings.ReplaceAll name "-" "_" else display
    if counter.GetChildContentS "type" = "array" then
      let parsed := parseHistogramLabels R counter
      if parsed.2 ≠ "" then CounterPlan.skip
      else
        let baseCheck : Option (List String) :=
          if baseCounter ≠ "" then
            match assocGet baseCounter cache with
            | some base =>
              if base.GetChildContentS "type" = "array" then
                if (parseHistogramLabels R base).2 ≠ "" then none
                else if (parseHistogramLabels R base).1.length ≠ parsed.1.length then none
                else some (parseHistogramLabels R base).1
              else some []
            | none => none
          else some []
        match baseCheck with
        | none => CounterPlan.skip
        | some baseLabels => CounterPlan.array display1 property baseCounter baseLabels parsed.1
    else CounterPlan.scalar display1 property baseCounter

/-- The attributes `addCounter` writes to the metric of an array label. -/
def arraySchema (display property baseKey : String) (enabled : Bool) (label : String) : Schema :=
  { name := display, property := property, comment := baseKey, exportable := enabled,
    labels := fun x =>
      match strings.Split label "." with
      | [a, b] => if x = "submetric" then some b else if x = "metric" then some a else none
      | _ => if x = "metric" then some label else none }

/-- What `addCounter` writes to a metric key when it goes over the labels of an array
counter `name`, the attributes for a label being `attrs label`: the writes to the
metric of every label that gives the key, one over the other. -/
def arrayTouch (name : String) (attrs : String → Schema) : List String → String → Option Schema
  | [], _ => none
  | l :: ls, k =>
    match arrayTouch name attrs ls k with
    | none => if k = name ++ "." ++ l then some (attrs l) else none
    | some t => some (t.over (if k = name ++ "." ++ l then some (attrs l) else none))

/-- The comment `addCounter` gives the metrics of an array counter (lines 829-832). -/
def arrayBaseKey (baseCounter : String) (baseLabels : List String) : String :=
  match baseLabels with
  | first :: _ => if baseCounter ≠ "" then baseCounter ++ "." ++ first else baseCounter
  | [] => baseCounter

/-- `PollCounter`, lines 631-635 and 644-649: a counter is added as a numeric metric. -/
def numericCore (R : Runtime) (wanted : List (String × String)) (counter : Node)
    (key display : String) (st : CounterState) : CounterState :=
  { st with
    oldMetrics := setDelete st.oldMetrics key
    me := (addCounter R st.me counter key display true st.counters).1
    missing := noteMissing wanted st.missing
      (addCounter R st.me counter key display true st.counters).2 }

/-- `PollCounter`, lines 622-628: a counter is registered as an instance label. -/
def stringCore (key display : String) (st : CounterState) : CounterState :=
  { st with
    oldLabels := setDelete st.oldLabels key
    me := { st.me with
      instanceLabels :=
        assocSet key (if key = "instance_name" ∧ display = "" then st.me.object else display)
          st.me.instanceLabels } }

/-- `PollCounter`, lines 660-662: a required base counter is added. -/
def baseCore (R : Runtime) (counter : Node) (key : String) (st : CounterState) : CounterState :=
  { st with
    oldMetrics := setDelete st.oldMetrics key
    me := (addCounter R st.me counter key "" false st.counters).1 }

/-- The state in which the loops of `PollCounter` start (lines 531-546). -/
def initCounters (me : ZapiPerf) (counters : List (String × Node)) : CounterState :=
  { me := me, counters := counters, oldMetrics := assocKeys me.Matrix.metrics,
    oldLabels := assocKeys me.instanceLabels, replaced := [], missing := [] }

/-- The three loops of `PollCounter` over the catalog (lines 593-665). -/
def counterLoops (R : Runtime) (wanted : List (String × String)) (st0 : CounterState) :
    CounterState :=
  let st1 := (R.rangeOrder 5 st0.counters).foldl (firstPass R wanted) st0
  let st2 :=
    if st1.replaced.length > 0 then (R.rangeOrder 6 st1.counters).foldl (secondPass R wanted) st1
    else st1
  if st2.missing.length > 0 then (R.rangeOrder 7 st2.counters).foldl (thirdPass R) st2
  else st2

/-- `PollCounter`, lines 671-678: the `timestamp` metric is made unless its key is in
`oldMetrics`. -/
def ensureTimestamp (st3 : CounterState) : CounterState :=
  if "timestamp" ∈ st3.oldMetrics then st3
  else
    match st3.me.Matrix.NewMetricFloat64 "timestamp" with
    | some m1 =>
      { st3 with me := { st3.me with
          Matrix := m1.onMetric "timestamp" (fun m => { m with property := "raw", exportable := false }) } }
    | none => st3

/-- The schema of the `timestamp` metric that `PollCounter` makes. -/
def timestampSchema : Schema :=
  { name := "timestamp", property := "raw", comment := "", exportable := false,
    labels := fun _ => none }

/-- The schema two collectors have in common: the same metrics with the
same attributes and labels, the same instance labels and the same array labels. -/
def sameSchema (a b : ZapiPerf) : Prop :=
  (∀ k, k ∈ assocKeys a.Matrix.metrics ↔ k ∈ assocKeys b.Matrix.metrics) ∧
  (∀ k, a.Matrix.schemaAt k = b.Matrix.schemaAt k) ∧
  (∀ k, assocGet k a.instanceLabels = assocGet k b.instanceLabels) ∧
  (∀ k, assocGet k a.histogramLabels = assocGet k b.histogramLabels)

/-- `PollCounter`, line 684, for `workload_detail`: the key that is taken out of
`oldMetrics`, `service_time` if it is there and `wait_time` otherwise. -/
def detailKey (st : CounterState) : String :=
  if "service_time" ∈ st.oldMetrics then "service_time" else "wait_time"

/-- The set `oldMetrics` with which a `PollCounter` that succeeds reaches its removal
loop. -/
def passOld (st : CounterState) : List String :=
  if st.me.Query = "workload_detail" then setDelete st.oldMetrics (detailKey st)
  else st.oldMetrics

/-- What `PollCounter` needs, after its loops, to reach its removal loop: `qos_labels`
for the two workload queries, and for `workload_detail` one of `service_time` and
`wait_time` in `oldMetrics`, not both as metrics, and a `resource_map` without
entries. -/
def passOk (st : CounterState) : Prop :=
  ((st.me.Query = "workload" ∨ st.me.Query = "workload_detail") →
    (st.me.Params.GetChildS "qos_labels").isSome = true) ∧
  (st.me.Query = "workload_detail" →
    ¬ ("service_time" ∉ st.oldMetrics ∧ "wait_time" ∉ st.oldMetrics) ∧
    ¬ ((st.me.Matrix.GetMetric "service_time").isSome ∧
        (st.me.Matrix.GetMetric "wait_time").isSome) ∧
    ∃ rm, st.me.Params.GetChildS "resource_map" = some rm ∧ rm.GetChildren = [])

/-- The schema of a metric key when `PollCounter` has succeeded, from the schema `v.1`
the key had after the loops and from its being in `oldMetrics` then (`v.2`): the
`timestamp` metric is made if need be; a key still in `oldMetrics` is removed, unless
it is `timestamp`, holds a `.`, or is the key `dk` kept for `workload_detail` (`q`). -/
def finalOf (q : Bool) (dk k : String) (v : Option Schema × Bool) : Option Schema :=
  if v.2 = true ∧ ¬ (q = true ∧ k = dk) ∧ k ≠ "timestamp" ∧ strings.Contains k "." = false then
    none
  else if k = "timestamp" ∧ v.2 = false ∧ v.1.isNone = true then some timestampSchema
  else v.1

/-- The windows of the spec for a batch size `b`: the consecutive chunks `keys[0:b]`,
`keys[b:2b]`, … of the list, `⌈n/b⌉` of them for `n` keys. -/
def windows (b : Nat) (keys : List String) : List (List String) :=
  (List.range ((keys.length + b - 1) / b)).map (fun i => (keys.drop (i * b)).take b)

/-- The windows the batch loop has sent when it ended. -/
def LoopEnd.sent : LoopEnd → List (List String)
  | LoopEnd.exit _ _ sent => sent
  | LoopEnd.done _ _ sent => sent

/-! ### The order of the catalog -/

/-- The metric keys a counter of the catalog writes when `addCounter` adds it: its name
for a scalar counter, `name.label` for every label of an array counter. -/
def writtenKeys (R : Runtime) (entry : String × Node) : List String :=
  if entry.2.GetChildContentS "type" = "array" then
    (parseHistogramLabels R entry.2).1.map (fun l => entry.1 ++ "." ++ l)
  else [entry.1]

/-- The catalog of an answer of the controller, by counter name (`PollCounter`, lines
583-588); empty when the answer holds none. -/
def catalogOf (reply : CounterReply) : List (String × Node) :=
  match reply.invoke with
  | Except.ok response =>
    match response.GetChildS "counters" with
    | some elems => indexCounters elems
    | none => []
  | Except.error _ => []

/-- Two run-times range over the catalog in the same order in the three loops of
`PollCounter` (sites 5, 6 and 7). -/
def sameCatalogOrder (R1 R2 : Runtime) : Prop :=
  ∀ l : List (String × Node), R2.rangeOrder 5 l = R1.rangeOrder 5 l ∧
    R2.rangeOrder 6 l = R1.rangeOrder 6 l ∧ R2.rangeOrder 7 l = R1.rangeOrder 7 l

/-- No two counters of the catalog write the same metric key. -/
def clashFree (R : Runtime) (counters : List (String × Node)) : Prop :=
  counters.Pairwise (fun a b => ∀ k ∈ writtenKeys R a, k ∉ writtenKeys R b)

/-- What `addCounter` reads of a counter of the catalog that is the base of another: its
type and its labels. -/
def cacheView (R : Runtime) (n : Node) : String × List String × String :=
  (n.GetChildContentS "type", parseHistogramLabels R n)

/-- The catalog as `addCounter` reads it. -/
def cacheViews (R : Runtime) (c : List (String × Node)) :
    List (String × String × List String × String) :=
  c.map (fun e => (e.1, cacheView R e.2))

/-- Two states of a loop of `PollCounter` over the catalog `c0` agree on what the loop
reads: the catalog as `addCounter` reads it, the template and, where the loop reads
them (`r`, `m`), the members of `replaced` and of `missing`. -/
def sameReads (R : Runtime) (c0 : List (String × Node)) (r m : Bool) (a b : CounterState) :
    Prop :=
  cacheViews R a.counters = cacheViews R c0 ∧ cacheViews R b.counters = cacheViews R c0 ∧
  a.me.Params = b.me.Params ∧ a.me.object = b.me.object ∧ a.me.Query = b.me.Query ∧
  (r = true → ∀ x, x ∈ a.replaced ↔ x ∈ b.replaced) ∧
  (m = true → ∀ x, x ∈ a.missing ↔ x ∈ b.missing)

/-- The state `a2` is the state `a` after the part `S`, with the names `addR` added to
`replaced` and the names `addM` to `missing`. -/
def StepOn (S : SchemaStep) (addR addM : List String) (a a2 : CounterState) : Prop :=
  Acts S a a2 ∧ (∀ x, x ∈ a2.replaced ↔ x ∈ a.replaced ∨ x ∈ addR) ∧
  (∀ x, x ∈ a2.missing ↔ x ∈ a.missing ∨ x ∈ addM)

/-- A part of a loop of `PollCounter` that does the same to any two states that agree on
what the loop reads, keeps what the loop reads, writes to metric keys of `W` only and
to the instance label and the array labels of `name` only. -/
def Steps (R : Runtime) (c0 : List (String × Node)) (r m : Bool) (W : List String)
    (name : String) (f : CounterState → CounterState) : Prop :=
  ∀ a b, sameReads R c0 r m a b →
    sameReads R c0 r m a (f a) ∧
    ∃ S addR addM, S.ok ∧ (∀ k, (S.metric k).touch.isSome = true → k ∈ W) ∧
      (∀ k, (S.label k).isSome = true → k = name) ∧
      (∀ k, (S.hist k).isSome = true → k = name) ∧
      StepOn S addR addM a (f a) ∧ StepOn S addR addM b (f b)

/-- Two states show the same schema and the same sets `replaced` and `missing`. -/
def sameViews (a b : CounterState) : Prop :=
  (∀ k, keyView a k = keyView b k) ∧ (∀ k, labelView a k = labelView b k) ∧
  (∀ k, assocGet k a.me.histogramLabels = assocGet k b.me.histogramLabels) ∧
  (∀ x, x ∈ a.replaced ↔ x ∈ b.replaced) ∧ (∀ x, x ∈ a.missing ↔ x ∈ b.missing)

/-- The run-time `R` with the map orders of the run-time `O`: it parses and decodes as `R`
does and ranges over every map as `O` does. -/
def Runtime.withOrder (R O : Runtime) : Runtime where
  ParseFloat := R.ParseFloat
  DecodeHtml := R.DecodeHtml
  rangeOrder := fun site _ l => O.rangeOrder site l
  rangeOrder_perm := fun site _ l => O.rangeOrder_perm site l

/-! ## Concrete inputs -/

namespace Fixture

/-- A number written in decimal digits. -/
def parseDigits (s : String) : Option ℚ :=
  if s.data = [] then none
  else
    (s.data.foldl (fun acc c =>
      acc.bind (fun n => if c.isDigit then some (n * 10 + (c.toNat - 48)) else none))
      (some 0)).map (fun n => (n : ℚ))

/-- A run-time: decimal numbers, no HTML entities, maps visited in list order. -/
def runtime : Runtime where
  ParseFloat := parseDigits
  DecodeHtml := fun s => s
  rangeOrder := fun _ _ l => l
  rangeOrder_perm := fun _ _ l => List.Perm.refl l

/-- A metric with the given attributes and valid cells. -/
def metric (name property comment : String) (cells : List (String × ℚ)) : Metric :=
  { name := name, property := property, comment := comment, exportable := true, labels := [],
    values := fun i => assocGet i cells }

/-- A collector for `query`, after a first poll, whose baseline holds the given
metrics and two instances, `vol1` and `vol2`. -/
def collector (query : String) (params : List Node) (metrics : List (String × Metric)) : ZapiPerf :=
  { Matrix := { Object := "volume", metrics := metrics, instances := [("vol1", ⟨[]⟩), ("vol2", ⟨[]⟩)] }
    Query := query
    Params := Node.mk "" "" params
    Object := "volume"
    object := "volume"
    batchSize := 500
    latencyIoReqd := 10
    instanceKey := "uuid"
    instanceLabels := []
    histogramLabels := []
    qosLabels := []
    isCacheEmpty := false }

/-- One instance element of a data response. -/
def instanceData (uuid : String) (counters : List (String × String)) : Node :=
  Node.mk "instance-data" "" [Node.mk "uuid" uuid [],
    Node.mk "counters" "" (counters.map (fun c =>
      Node.mk "counter-data" "" [Node.mk "name" c.1 [], Node.mk "value" c.2 []]))]

/-- A successful batch reply holding the given instances, received at time `now`. -/
def reply (instances : List Node) (now : ℚ) : BatchReply :=
  { build := none, invoke := Except.ok (Node.mk "results" "" [Node.mk "instances" "" instances]),
    now := now }

/-- Scenario 1 of the spec: `read_ops` (rate) was 1000 at time 100. -/
def rateCollector : ZapiPerf :=
  collector "volume" []
    [("read_ops", metric "read_ops" "rate" "" [("vol1", 1000)]),
     ("timestamp", metric "timestamp" "raw" "" [("vol1", 100)])]

/-- Scenario 1 of the spec: `read_ops` is 1600 at time 110. -/
def rateScript : List BatchReply := [reply [instanceData "vol1" [("read_ops", "1600")]] 110]

end Fixture

namespace Fixture

/-- Scenario 3 of the spec, the base counter `cache_total` having the given
property: `cache_hit` (percent) was 800 and `cache_total` 1000 at time 100. -/
def percentCollector (baseProperty : String) : ZapiPerf :=
  collector "volume" []
    [("cache_hit", metric "cache_hit" "percent" "cache_total" [("vol1", 800)]),
     ("cache_total", metric "cache_total" baseProperty "" [("vol1", 1000)]),
     ("timestamp", metric "timestamp" "raw" "" [("vol1", 100)])]

/-- Scenario 3 of the spec: `cache_hit` is 900 and `cache_total` 1100 at time 110. -/
def percentScript : List BatchReply :=
  [reply [instanceData "vol1" [("cache_hit", "900"), ("cache_total", "1100")]] 110]

/-- As `percentScript`, but `cache_total` went down to 900. -/
def percentResetScript : List BatchReply :=
  [reply [instanceData "vol1" [("cache_hit", "900"), ("cache_total", "900")]] 110]

/-- Scenario 2 of the spec, the base counter `read_ops` having the given property:
`avg_latency` (average) was 5000 and `read_ops` 1000 at time 100. -/
def latencyCollector (baseProperty : String) : ZapiPerf :=
  collector "volume" []
    [("avg_latency", metric "avg_latency" "average" "read_ops" [("vol1", 5000)]),
     ("read_ops", metric "read_ops" baseProperty "" [("vol1", 1000)]),
     ("timestamp", metric "timestamp" "raw" "" [("vol1", 100)])]

/-- Scenario 2 of the spec: `avg_latency` is 5020 and `read_ops` 1005 at time `now`. -/
def latencyScript (now : ℚ) : List BatchReply :=
  [reply [instanceData "vol1" [("avg_latency", "5020"), ("read_ops", "1005")]] now]

/-- A `workload_detail` collector with one resource layer `cpu`, polled with one key
per batch; the baseline cell of `cpu` for `vol1` is 40. -/
def detailCollector : ZapiPerf :=
  { collector "workload_detail" [Node.mk "resource_map" "" [Node.mk "cpu" "CPU_dblade" []]]
      [("cpu", metric "latency_from_CPU_dblade" "rate" "" [("vol1", 40)]),
       ("timestamp", metric "timestamp" "raw" "" [("vol1", 100)])]
    with batchSize := 1 }

/-- A reply that fails on the wire with the given error text. -/
def failure (text : String) : BatchReply :=
  { build := none, invoke := Except.error (GoError.wire text), now := 0 }

/-- The first batch brings `service_time` = 7 for `vol1` on layer `cpu`, the second
batch times out. -/
def detailScript : List BatchReply :=
  [reply [instanceData "vol1.cpu" [("service_time", "7")]] 110, failure "connection timed out"]

end Fixture

namespace Fixture

/-- Scenario 1 of the spec before its first poll, as `InitCache` leaves the
collector. -/
def firstCollector : ZapiPerf := InitCache rateCollector

/-- A collector initialised from a template with `batch_size` = 150. -/
def throttleCollector : ZapiPerf :=
  InitCache { rateCollector with Params := Node.mk "" "" [Node.mk "batch_size" "150" []] }

/-- A poll whose first request hits the resource limit of the controller. -/
def limitScript : List BatchReply := [failure "Error: resource limit exceeded"]

end Fixture

namespace Fixture

/-- The template list `counters`. -/
def counterList (names : List String) : Node :=
  Node.mk "counters" "" (names.map (fun n => Node.mk "" n []))

/-- A counter element of the catalog, by its fields. -/
def counterInfo (fields : List (String × String)) : Node :=
  Node.mk "counter-info" "" (fields.map (fun f => Node.mk f.1 f.2 []))

/-- A successful answer to `perf-object-counter-list-info`. -/
def catalogReply (counters : List Node) : CounterReply :=
  { build := none
    invoke := Except.ok (Node.mk "results" "" [Node.mk "counters" "" counters]) }

/-- Scenario 4 of the spec: the template lists `old_metric`, the matrix is still
empty. -/
def deprecatedCollector : ZapiPerf := collector "volume" [counterList ["old_metric"]] []

/-- Scenario 4 of the spec: the catalog marks `old_metric` as deprecated and replaced
by `new_metric`. -/
def deprecatedCatalog : Node :=
  Node.mk "counters" ""
    [counterInfo [("name", "old_metric"), ("properties", "rate"), ("is-deprecated", "true"),
        ("replaced-by", "new_metric")],
     counterInfo [("name", "new_metric"), ("properties", "rate")]]

/-- Scenario 4 of the spec: the answer of the controller. -/
def deprecatedReply : CounterReply :=
  { build := none, invoke := Except.ok (Node.mk "results" "" [deprecatedCatalog]) }

/-- A collector whose template lists `read_ops` and whose matrix still holds the
element `old_hist.bucket1` of an array counter. -/
def staleCollector : ZapiPerf :=
  collector "volume" [counterList ["read_ops"]]
    [("read_ops", metric "read_ops" "rate" "" []),
     ("old_hist.bucket1", metric "old_hist" "rate" "" []),
     ("timestamp", metric "timestamp" "raw" "" [])]

/-- A catalog that holds `read_ops` only. -/
def staleCatalog : Node :=
  Node.mk "counters" "" [counterInfo [("name", "read_ops"), ("properties", "rate")]]

/-- The answer of the controller with that catalog. -/
def staleReply : CounterReply :=
  { build := none, invoke := Except.ok (Node.mk "results" "" [staleCatalog]) }

end Fixture

namespace Fixture

/-- A collector whose template lists `read_ops` and whose matrix holds no metric yet. -/
def unknownCollector : ZapiPerf := collector "volume" [counterList ["read_ops"]] []

/-- A catalog that holds `write_ops` only, which the template does not list. -/
def unknownReply : CounterReply :=
  catalogReply [counterInfo [("name", "write_ops"), ("properties", "rate")]]

/-- A catalog that holds `read_ops` only, deprecated and without replacement. -/
def skippedReply : CounterReply :=
  catalogReply [counterInfo [("name", "read_ops"), ("properties", "rate"),
    ("is-deprecated", "true")]]

/-- A `workload` collector after `PollCounter`: one QoS label, `policy-group` shown as
`policy_group`, and no instance yet. -/
def workloadCollector : ZapiPerf :=
  { collector "workload" [] [("timestamp", metric "timestamp" "raw" "" [])] with
    Matrix := { Object := "workload", metrics := [("timestamp", metric "timestamp" "raw" "" [])],
                instances := [] }
    qosLabels := [("policy-group", "policy_group")] }

/-- The answer to `qos-workload-get-iter`: one workload `w1` in the policy group `pg1`,
then the end of the pages. -/
def workloadPages : List (Except GoError (Option Node)) :=
  [Except.ok (some (Node.mk "results" "" [Node.mk "attributes-list" ""
      [Node.mk "qos-workload-info" "" [Node.mk "uuid" "w1" [], Node.mk "policy-group" "pg1" []]]])),
   Except.ok none]

/-- A Shelf plugin with one sub-object, `psus`, keyed by `psu-id`, with the metric
`power-drawn`. -/
def shelfPlugin : Shelf :=
  { data := [("psus", { Object := "shelf_psus",
                        metrics := [("power-drawn", metric "power_drawn" "" "" [])],
                        instances := [] })]
    instanceKeys := [("psus", "psu-id")]
    instanceLabels := [("psus", [("psu-id", "psu_id")])]
    clustered := true
    query := "storage-shelf-info-get-iter" }

/-- A shelf element with one power supply, whose `power-drawn` has the given content. -/
def shelfInfo (name uid power : String) : Node :=
  Node.mk "storage-shelf-info" ""
    [Node.mk "shelf" name [], Node.mk "shelf-uid" uid [],
     Node.mk "psus" "" [Node.mk "psu-info" "" [Node.mk "psu-id" "1" [],
       Node.mk "power-drawn" power []]]]

/-- The answer of the controller with the given shelves. -/
def shelfReply (shelves : List Node) : Except GoError Node :=
  Except.ok (Node.mk "results" "" [Node.mk "attributes-list" "" shelves])

/-- A parent matrix of shelves. -/
def shelfParent : Matrix := { Object := "shelf", metrics := [], instances := [] }

/-- A `workload_detail` collector before its first `PollCounter`: the template lists
`service_time` and has `resource_map` and `qos_labels`. -/
def detailCounterCollector : ZapiPerf :=
  { collector "workload_detail"
      [counterList ["service_time"],
       Node.mk "resource_map" "" [Node.mk "cpu" "CPU_dblade" []],
       Node.mk "qos_labels" "" [Node.mk "" "policy-group" []]] [] with
    Matrix := { Object := "workload_detail", metrics := [], instances := [] } }

/-- A catalog that holds `service_time` as a numeric counter. -/
def detailCatalogReply : CounterReply :=
  catalogReply [counterInfo [("name", "service_time"), ("properties", "rate")]]

/-- As `detailCounterCollector`, the matrix holding `service_time` already. -/
def detailStaleCollector : ZapiPerf :=
  { detailCounterCollector with
    Matrix := { Object := "workload_detail",
                metrics := [("service_time", metric "service_time" "rate" "" [])],
                instances := [] } }

/-- A catalog that holds `ops` only. -/
def opsReply : CounterReply := catalogReply [counterInfo [("name", "ops"), ("properties", "rate")]]

end Fixture

namespace Fixture

/-- A collector whose matrix holds no metric and whose template lists `hist`. -/
def histCollector : ZapiPerf :=
  { collector "volume" [counterList ["hist"]] [] with
    Matrix := { Object := "volume", metrics := [], instances := [("vol1", ⟨[]⟩)] } }

/-- An array counter of the catalog with the given label lists, one per dimension. -/
def arrayInfo (name : String) (dims : List String) : Node :=
  Node.mk "counter-info" ""
    [Node.mk "name" name [], Node.mk "properties" "rate" [], Node.mk "type" "array" [],
     Node.mk "labels" "" (dims.map (fun d => Node.mk "label-info" d []))]

/-- Scenario 5 of the spec: the array counter `hist` with the dimensions `R,W` and
`4K,8K`. -/
def histInfo : Node := arrayInfo "hist" ["R,W", "4K,8K"]

/-- An array counter with one dimension, one of whose labels holds a `.`. -/
def latencyHistInfo : Node := arrayInfo "lat_hist" ["<0.5ms,<1ms"]

/-- Scenario 5 of the spec after `PollCounter`: the collector that `addCounter` leaves
for `hist`, ready for `PollData`. -/
def histPolled : ZapiPerf := (addCounter runtime histCollector histInfo "hist" "hist" true []).1

/-- Scenario 5 of the spec: the counter element `hist` = `1,2,3,4` of an instance. -/
def histData : Node := Node.mk "counter-data" "" [Node.mk "name" "hist" [], Node.mk "value" "1,2,3,4" []]

/-- A page of the instance query that reports the given keys as `uuid`. -/
def instancePage (keys : List String) : Node :=
  Node.mk "results" "" [Node.mk "attributes-list" ""
    (keys.map (fun k => Node.mk "instance-info" "" [Node.mk "uuid" k []]))]

end Fixture

namespace Fixture

/-- The run-time `runtime` with every map visited in the reverse of the list order. -/
def reverseRuntime : Runtime where
  ParseFloat := parseDigits
  DecodeHtml := fun s => s
  rangeOrder := fun _ _ l => l.reverse
  rangeOrder_perm := fun _ _ l => List.reverse_perm l

/-- A collector whose matrix holds no metric and whose template lists `hist` and
`hist.a`. -/
def clashCollector : ZapiPerf := collector "volume" [counterList ["hist", "hist.a"]] []

/-- A catalog with the array counter `hist` of labels `a` and `b`, a rate, and the scalar
counter `hist.a`, a raw one: both write the metric key `hist.a`. -/
def clashReply : CounterReply :=
  catalogReply [arrayInfo "hist" ["a,b"], counterInfo [("name", "hist.a"), ("properties", "raw")]]

/-- A collector whose matrix holds no metric and whose template lists `hist` and
`read_ops`. -/
def mixedCollector : ZapiPerf := collector "volume" [counterList ["hist", "read_ops"]] []

/-- A catalog with the array counter `hist` of scenario 5 and the rate `read_ops`. -/
def mixedReply : CounterReply :=
  catalogReply [histInfo, counterInfo [("name", "read_ops"), ("properties", "rate")]]

end Fixture

namespace Fixture

/-- The collector of scenario 1 with a batch size of 2. -/
def batchCollector : ZapiPerf := { rateCollector with batchSize := 2 }

/-- Two successful replies, each with the instance `vol1`. -/
def batchScript : List BatchReply :=
  [reply [instanceData "vol1" [("read_ops", "1600")]] 110,
   reply [instanceData "vol1" [("read_ops", "1700")]] 120]

end Fixture

namespace Fixture

/-- A `workload_detail` collector with one resource layer `cpu` and one instance, of
the given key, polled before at time 100; the baseline cell of `cpu` is 40. -/
def detailOneCollector (key : String) : ZapiPerf :=
  { collector "workload_detail" [Node.mk "resource_map" "" [Node.mk "cpu" "CPU_dblade" []]] [] with
    Matrix :=
      { Object := "volume"
        metrics :=
          [("cpu", metric "latency_from_CPU_dblade" "rate" "" [(key, 40)]),
           ("timestamp", metric "timestamp" "raw" "" [(key, 100)])]
        instances := [(key, ⟨[]⟩)] } }

/-- The element the controller returns for the request key `key.cpu`, with
`service_time` = 7. -/
def detailOneData (key : String) : Node :=
  instanceData (key ++ "." ++ "cpu") [("service_time", "7")]

/-- The answer of the controller at time 110. -/
def detailOneScript (key : String) : List BatchReply := [reply [detailOneData key] 110]

end Fixture

namespace Fixture

/-- An array counter of the catalog with the given properties, base counter and
labels (one dimension). -/
def arrayCounter (name properties base labels : String) : Node :=
  Node.mk "counter-info" ""
    [Node.mk "name" name [], Node.mk "properties" properties [], Node.mk "type" "array" [],
     Node.mk "base-counter" base [],
     Node.mk "labels" "" [Node.mk "label-info" labels []]]

/-- The array counter `ops` with the labels `a` and `b`, a delta. -/
def opsArray : Node := arrayCounter "ops" "delta" "" "a,b"

/-- The array counter `lat` with the labels `a` and `b`, an average whose base counter is
the array `ops`. -/
def latArray : Node := arrayCounter "lat" "average" "ops" "a,b"

/-- The catalog that holds `ops` and `lat`. -/
def pairCache : List (String × Node) := [("ops", opsArray), ("lat", latArray)]

/-- A collector whose matrix holds the `timestamp` metric only, after `addCounter` has
added `ops` and `lat`. -/
def pairedCollector : ZapiPerf :=
  (addCounter runtime
    (addCounter runtime (collector "volume" [] [("timestamp", metric "timestamp" "raw" "" [])])
      opsArray "ops" "ops" true pairCache).1
    latArray "lat" "lat" true pairCache).1

/-- A poll at time `now` that brings the given values of `lat` and `ops` for `vol1`. -/
def pairScript (lat ops : String) (now : ℚ) : List BatchReply :=
  [reply [instanceData "vol1" [("lat", lat), ("ops", ops)]] now]

end Fixture

namespace Fixture

/-- Scenario 1 of the spec before its first poll, initialised from a template whose
`batch_size` is the given text. -/
def sizedCollector (batchSize : String) : ZapiPerf :=
  InitCache { rateCollector with Params := Node.mk "" "" [Node.mk "batch_size" batchSize []] }

/-- Three successful replies, each with the instance `vol1`. -/
def threeReplies : List BatchReply :=
  [reply [instanceData "vol1" [("read_ops", "1600")]] 110,
   reply [instanceData "vol1" [("read_ops", "1700")]] 120,
   reply [instanceData "vol1" [("read_ops", "1800")]] 130]

end Fixture

/-! # Theorems -/

/-! ## Association lists -/

theorem assocGet_assocModify_self {β : Type} (k : String) (f : β → β) (l : List (String × β)) :
    assocGet k (assocModify k f l) = (assocGet k l).map f := by
  induction l with
  | nil => rfl
  | cons e rest ih =>
    obtain ⟨k1, v⟩ := e
    by_cases h : k1 = k
    · simp [assocModify, assocGet, h]
    · simp [assocModify, assocGet, h, ih]

theorem assocGet_assocModify_ne {β : Type} (k k2 : String) (f : β → β) (l : List (String × β))
    (hne : k2 ≠ k) : assocGet k2 (assocModify k f l) = assocGet k2 l := by
  induction l with
  | nil => rfl
  | cons e rest ih =>
    obtain ⟨k1, v⟩ := e
    by_cases h : k1 = k
    · subst h
      have h2 : ¬ k1 = k2 := fun h3 => hne h3.symm
      simp [assocModify, assocGet, h2]
    · by_cases h2 : k1 = k2
      · subst h2
        simp [assocModify, assocGet, h]
      · simp [assocModify, assocGet, h, h2, ih]

theorem assocKeys_assocModify {β : Type} (k : String) (f : β → β) (l : List (String × β)) :
    assocKeys (assocModify k f l) = assocKeys l := by
  induction l with
  | nil => rfl
  | cons e rest ih =>
    obtain ⟨k1, v⟩ := e
    by_cases h : k1 = k
    · simp [assocModify, assocKeys, h]
    · simp only [assocModify, h, if_false]
      simp only [assocKeys, List.map_cons] at ih ⊢
      rw [ih]

theorem assocGet_isSome_iff {β : Type} (k : String) (l : List (String × β)) :
    (assocGet k l).isSome = true ↔ k ∈ assocKeys l := by
  induction l with
  | nil => simp [assocGet, assocKeys]
  | cons e rest ih =>
    obtain ⟨k1, v⟩ := e
    by_cases h : k1 = k
    · simp [assocGet, assocKeys, h]
    · have h2 : ¬ k = k1 := fun h3 => h h3.symm
      simp only [assocGet, h, if_false, ih]
      simp [assocKeys, h2]

theorem assocGet_of_mem_nodup {β : Type} (l : List (String × β)) (hnd : (assocKeys l).Nodup)
    (e : String × β) (he : e ∈ l) : assocGet e.1 l = some e.2 := by
  induction l with
  | nil => cases he
  | cons e1 rest ih =>
    obtain ⟨k1, v1⟩ := e1
    simp only [assocKeys, List.map_cons, List.nodup_cons] at hnd
    rcases List.mem_cons.mp he with h | h
    · subst h
      simp [assocGet]
    · have hk : e.1 ∈ rest.map Prod.fst := List.mem_map_of_mem Prod.fst h
      have hne : ¬ k1 = e.1 := fun h3 => hnd.1 (h3 ▸ hk)
      simp only [assocGet, hne, if_false]
      exact ih hnd.2 h

theorem mem_of_assocGet {β : Type} (k : String) (v : β) (l : List (String × β))
    (h : assocGet k l = some v) : (k, v) ∈ l := by
  induction l with
  | nil => simp [assocGet] at h
  | cons e rest ih =>
    obtain ⟨k1, v1⟩ := e
    by_cases hk : k1 = k
    · simp only [assocGet, hk, if_true, Option.some.injEq] at h
      subst hk; subst h
      exact List.mem_cons_self _ _
    · simp only [assocGet, hk, if_false] at h
      exact List.mem_cons_of_mem _ (ih h)

/-! ## Matrix access -/

namespace Matrix

theorem GetMetric_onMetric_self (m : Matrix) (k : String) (f : Metric → Metric) :
    (m.onMetric k f).GetMetric k = (m.GetMetric k).map f :=
  assocGet_assocModify_self k f m.metrics

theorem GetMetric_onMetric_ne (m : Matrix) (k k2 : String) (f : Metric → Metric) (hne : k2 ≠ k) :
    (m.onMetric k f).GetMetric k2 = m.GetMetric k2 :=
  assocGet_assocModify_ne k k2 f m.metrics hne

theorem keys_onMetric (m : Matrix) (k : String) (f : Metric → Metric) :
    assocKeys (m.onMetric k f).metrics = assocKeys m.metrics :=
  assocKeys_assocModify k f m.metrics

theorem Clone_full (m : Matrix) : m.Clone true true true = m := by
  cases m with
  | mk o ms is =>
    simp only [Clone, if_true]
    congr 1
    induction ms with
    | nil => rfl
    | cons e rest ih => simp

end Matrix

theorem ParseInv.refl (st : ZapiPerf × Matrix) : ParseInv st st :=
  ⟨⟨st.1.Matrix.metrics, rfl⟩, rfl, rfl, rfl, fun _ => rfl⟩

theorem ParseInv.trans {a b c : ZapiPerf × Matrix} (h1 : ParseInv a b) (h2 : ParseInv b c) :
    ParseInv a c := by
  obtain ⟨⟨m1, e1⟩, k1, n1, i1, w1⟩ := h1
  obtain ⟨⟨m2, e2⟩, k2, n2, i2, w2⟩ := h2
  refine ⟨⟨m2, ?_⟩, k2.trans k1, n2.trans n1, i2.trans i1, ?_⟩
  · rw [e2, e1]; rfl
  · intro hq
    have hb : b.1 = a.1 := w1 hq
    rw [w2 (by rw [hb]; exact hq), hb]

theorem foldl_ParseInv {α : Type} (f : ZapiPerf × Matrix → α → ZapiPerf × Matrix)
    (hf : ∀ st a, ParseInv st (f st a)) (l : List α) (st : ZapiPerf × Matrix) :
    ParseInv st (l.foldl f st) := by
  induction l generalizing st with
  | nil => exact ParseInv.refl st
  | cons a rest ih => exact (hf st a).trans (ih (f st a))

theorem keys_setInstanceLabel (m : Matrix) (key name value : String) :
    assocKeys (m.setInstanceLabel key name value).instances = assocKeys m.instances :=
  assocKeys_assocModify _ _ _

theorem storeHistogram_keys (R : Runtime) (name key : String) (labels values : List String)
    (m : Matrix) :
    assocKeys (storeHistogram R name key labels values m).metrics = assocKeys m.metrics ∧
    (storeHistogram R name key labels values m).instances = m.instances := by
  induction labels generalizing values m with
  | nil => exact ⟨rfl, rfl⟩
  | cons l ls ih =>
    cases values with
    | nil => exact ⟨rfl, rfl⟩
    | cons v vs =>
      simp only [storeHistogram]
      split
      · obtain ⟨h1, h2⟩ := ih vs (m.onMetric (name ++ "." ++ l) (fun x => x.SetValueString R key v))
        exact ⟨h1.trans (Matrix.keys_onMetric _ _ _), h2⟩
      · exact ih vs m

theorem parseCounter_inv (R : Runtime) (key layer : String) (st : ZapiPerf × Matrix) (cnt : Node) :
    ParseInv st (parseCounter R key layer st cnt) := by
  unfold parseCounter
  simp only
  split
  · exact ParseInv.refl st
  · split
    · exact ⟨⟨st.1.Matrix.metrics, rfl⟩, rfl, rfl, keys_setInstanceLabel _ _ _ _, fun _ => rfl⟩
    · split
      · split
        · exact ParseInv.refl st
        · refine ⟨⟨st.1.Matrix.metrics, rfl⟩, rfl, (storeHistogram_keys _ _ _ _ _ _).1, ?_, fun _ => rfl⟩
          rw [(storeHistogram_keys _ _ _ _ _ _).2]
      · split
        · rename_i hwd
          split
          · refine ⟨⟨_, rfl⟩, Matrix.keys_onMetric _ _ _, rfl, rfl, ?_⟩
            intro hq
            rw [hq] at hwd
            exact absurd hwd (by decide)
          · exact ParseInv.refl st
        · split
          · exact ⟨⟨st.1.Matrix.metrics, rfl⟩, rfl, Matrix.keys_onMetric _ _ _, rfl, fun _ => rfl⟩
          · exact ParseInv.refl st

theorem parseInstance_inv (R : Runtime) (ts : ℚ) (st : ZapiPerf × Matrix) (i : Node) :
    ParseInv st (parseInstance R ts st i) := by
  unfold parseInstance
  simp only
  split
  · exact ParseInv.refl st
  · split
    · exact ParseInv.refl st
    · split
      · exact ParseInv.refl st
      · split
        · exact ParseInv.refl st
        · refine ParseInv.trans ?_ (foldl_ParseInv _ (parseCounter_inv R _ _) _ _)
          exact ⟨⟨st.1.Matrix.metrics, rfl⟩, rfl, Matrix.keys_onMetric _ _ _, rfl, fun _ => rfl⟩

theorem LoopInv.of_step {me me2 : ZapiPerf} {nd nd2 : Matrix} (h : ParseInv (me, nd) (me2, nd2))
    {r : LoopEnd} (hr : LoopInv me2 nd2 r) : LoopInv me nd r := by
  cases r with
  | done me1 cur sent => exact h.trans hr
  | exit me1 ret sent =>
    obtain ⟨me3, nd3, h3, h4⟩ := hr
    exact ⟨me3, nd3, h.trans h3, h4⟩

theorem batchLoop_inv (R : Runtime) (keys : List String) (script : List BatchReply) :
    ∀ (me : ZapiPerf) (nd : Matrix) (s e : Int) (sent : List (List String)),
      LoopInv me nd (batchLoop R keys script me nd s e sent) := by
  induction script with
  | nil =>
    intro me nd s e sent
    unfold batchLoop
    split
    · exact ⟨me, nd, ParseInv.refl _, Or.inl rfl⟩
    · exact ParseInv.refl _
  | cons reply rest ih =>
    intro me nd s e sent
    unfold batchLoop
    simp only
    split
    · split
      · exact ⟨me, nd, ParseInv.refl _, Or.inl rfl⟩
      · split
        · exact ⟨me, nd, ParseInv.refl _, Or.inl rfl⟩
        · split
          · split
            · rename_i hc
              exact ⟨me, nd, ParseInv.refl _, Or.inr ⟨hc.2, rfl, rfl⟩⟩
            · exact ⟨me, nd, ParseInv.refl _, Or.inl rfl⟩
          · split
            · exact ParseInv.refl _
            · split
              · exact ParseInv.refl _
              · exact LoopInv.of_step (foldl_ParseInv _ (parseInstance_inv R _) _ (me, nd)) (ih _ _ _ _ _)
    · exact ParseInv.refl _

/-! ## Post-processing -/

theorem cookMetric_other (me : ZapiPerf) (nd : Matrix) (key k2 : String) (hne : k2 ≠ key) :
    (cookMetric me nd key).GetMetric k2 = nd.GetMetric k2 := by
  unfold cookMetric
  split
  · rfl
  · simp only
    split
    · rfl
    · split
      · rfl
      · split
        · exact Matrix.GetMetric_onMetric_ne _ _ _ _ hne
        · split
          · split
            · rw [Matrix.GetMetric_onMetric_ne _ _ _ _ hne, Matrix.GetMetric_onMetric_ne _ _ _ _ hne]
            · exact Matrix.GetMetric_onMetric_ne _ _ _ _ hne
          · split
            · exact Matrix.GetMetric_onMetric_ne _ _ _ _ hne
            · split
              · split
                · split
                  · rw [Matrix.GetMetric_onMetric_ne _ _ _ _ hne, Matrix.GetMetric_onMetric_ne _ _ _ _ hne]
                  · rw [Matrix.GetMetric_onMetric_ne _ _ _ _ hne, Matrix.GetMetric_onMetric_ne _ _ _ _ hne]
                · exact Matrix.GetMetric_onMetric_ne _ _ _ _ hne
              · split
                · split
                  · split
                    · rw [Matrix.GetMetric_onMetric_ne _ _ _ _ hne, Matrix.GetMetric_onMetric_ne _ _ _ _ hne,
                        Matrix.GetMetric_onMetric_ne _ _ _ _ hne]
                    · rw [Matrix.GetMetric_onMetric_ne _ _ _ _ hne, Matrix.GetMetric_onMetric_ne _ _ _ _ hne,
                        Matrix.GetMetric_onMetric_ne _ _ _ _ hne]
                  · rw [Matrix.GetMetric_onMetric_ne _ _ _ _ hne, Matrix.GetMetric_onMetric_ne _ _ _ _ hne]
                · split
                  · split
                    · rw [Matrix.GetMetric_onMetric_ne _ _ _ _ hne, Matrix.GetMetric_onMetric_ne _ _ _ _ hne]
                    · rw [Matrix.GetMetric_onMetric_ne _ _ _ _ hne, Matrix.GetMetric_onMetric_ne _ _ _ _ hne]
                  · exact Matrix.GetMetric_onMetric_ne _ _ _ _ hne

theorem cookMetric_raw (me : ZapiPerf) (nd : Matrix) (key : String) (m : Metric)
    (hm : nd.GetMetric key = some m) (hraw : m.property = "raw") : cookMetric me nd key = nd := by
  unfold cookMetric
  rw [hm]
  simp [hraw]

theorem cookMetric_rate (me : ZapiPerf) (nd : Matrix) (key : String) (m prev ts : Metric)
    (hm : nd.GetMetric key = some m) (hrate : m.property = "rate")
    (hprev : me.Matrix.GetMetric key = some prev)
    (hts : nd.GetMetric "timestamp" = some ts) (hne : key ≠ "timestamp") :
    (cookMetric me nd key).GetMetric key = some (rateRow m prev ts) := by
  have hts1 : ∀ f, (nd.onMetric key f).GetMetric "timestamp" = some ts := by
    intro f
    rw [Matrix.GetMetric_onMetric_ne _ _ _ _ (Ne.symm hne), hts]
  unfold cookMetric
  rw [hm]
  simp only [hrate, hprev, Metric.Delta]
  simp only [hts1]
  simp [Matrix.GetMetric_onMetric_self, hm, rateRow]
  rw [hrate]

theorem foldl_cook_other (me : ZapiPerf) (k : String) (L : List String) (nd : Matrix)
    (hk : k ∉ L) : (L.foldl (cookMetric me) nd).GetMetric k = nd.GetMetric k := by
  induction L generalizing nd with
  | nil => rfl
  | cons a rest ih =>
    simp only [List.mem_cons, not_or] at hk
    simp only [List.foldl_cons]
    rw [ih _ hk.2, cookMetric_other _ _ _ _ hk.1]

theorem foldl_cook_rate (me : ZapiPerf) (k : String) (m prev ts : Metric)
    (hrate : m.property = "rate") (hprev : me.Matrix.GetMetric k = some prev)
    (hraw : ts.property = "raw") (L : List String) (nd : Matrix) (hnd : L.Nodup) (hk : k ∈ L)
    (hm : nd.GetMetric k = some m) (hts : nd.GetMetric "timestamp" = some ts) :
    (L.foldl (cookMetric me) nd).GetMetric k = some (rateRow m prev ts) := by
  have hne : k ≠ "timestamp" := by
    intro h
    rw [h, hts] at hm
    have : ts = m := Option.some.inj hm
    rw [this, hrate] at hraw
    exact absurd hraw (by decide)
  induction L generalizing nd with
  | nil => cases hk
  | cons a rest ih =>
    simp only [List.nodup_cons] at hnd
    simp only [List.foldl_cons]
    by_cases ha : a = k
    · subst ha
      rw [foldl_cook_other _ _ _ _ hnd.1]
      exact cookMetric_rate me nd a m prev ts hm hrate hprev hts hne
    · have hk2 : k ∈ rest := by
        rcases List.mem_cons.mp hk with h | h
        · exact absurd h.symm ha
        · exact h
      apply ih _ hnd.2 hk2
      · rw [cookMetric_other _ _ _ _ (Ne.symm ha), hm]
      · by_cases hat : a = "timestamp"
        · subst hat
          rw [cookMetric_raw me nd _ ts hts hraw, hts]
        · rw [cookMetric_other _ _ _ _ (Ne.symm hat), hts]

theorem orderedKeys_nodup (R : Runtime) (nd : Matrix) (hnd : (assocKeys nd.metrics).Nodup) :
    (orderedKeys R nd).Nodup := by
  unfold orderedKeys
  have hperm : ∀ site, ((R.rangeOrder site nd.metrics).map Prod.fst).Nodup := fun site =>
    ((R.rangeOrder_perm site nd.metrics).map Prod.fst).nodup_iff.mpr hnd
  rw [List.nodup_append]
  refine ⟨(hperm 3).sublist (List.Sublist.map _ (List.filter_sublist _)),
    (hperm 4).sublist (List.Sublist.map _ (List.filter_sublist _)), ?_⟩
  intro x h1 h2
  obtain ⟨e1, he1, hx1⟩ := List.mem_map.mp h1
  obtain ⟨e2, he2, hx2⟩ := List.mem_map.mp h2
  rw [List.mem_filter] at he1 he2
  have m1 : e1 ∈ nd.metrics := (R.rangeOrder_perm 3 nd.metrics).mem_iff.mp he1.1
  have m2 : e2 ∈ nd.metrics := (R.rangeOrder_perm 4 nd.metrics).mem_iff.mp he2.1
  have g1 := assocGet_of_mem_nodup nd.metrics hnd e1 m1
  have g2 := assocGet_of_mem_nodup nd.metrics hnd e2 m2
  rw [hx1] at g1
  rw [hx2, g1] at g2
  have heq : e1.2 = e2.2 := Option.some.inj g2
  have c1 : e1.2.comment = "" := of_decide_eq_true he1.2
  have c2 : e2.2.comment ≠ "" := of_decide_eq_true he2.2
  exact c2 (heq ▸ c1)

theorem mem_orderedKeys (R : Runtime) (nd : Matrix) (k : String) (m : Metric)
    (hm : nd.GetMetric k = some m) : k ∈ orderedKeys R nd := by
  have hmem : (k, m) ∈ nd.metrics := mem_of_assocGet k m nd.metrics hm
  unfold orderedKeys
  rw [List.mem_append]
  by_cases hc : m.comment = ""
  · left
    exact List.mem_map.mpr ⟨(k, m),
      List.mem_filter.mpr ⟨(R.rangeOrder_perm 3 nd.metrics).mem_iff.mpr hmem, decide_eq_true hc⟩, rfl⟩
  · right
    exact List.mem_map.mpr ⟨(k, m),
      List.mem_filter.mpr ⟨(R.rangeOrder_perm 4 nd.metrics).mem_iff.mpr hmem, decide_eq_true hc⟩, rfl⟩

theorem Matrix.cell_eq_some (m : Matrix) (k i : String) (v : ℚ) (h : m.cell k i = some v) :
    ∃ mt, m.GetMetric k = some mt ∧ mt.values i = some v := by
  unfold Matrix.cell at h
  split at h
  · rename_i mt hmt
    exact ⟨mt, hmt, h⟩
  · cases h

theorem keys_Clone_Reset (m : Matrix) :
    assocKeys (m.Clone false true true).Reset.metrics = assocKeys m.metrics := by
  simp [Matrix.Clone, Matrix.Reset, assocKeys, List.map_map, Function.comp_def]

theorem GetMetric_isSome_of_keys (a b : Matrix) (h : assocKeys a.metrics = assocKeys b.metrics)
    (k : String) : (a.GetMetric k).isSome = (b.GetMetric k).isSome := by
  have h1 := assocGet_isSome_iff k a.metrics
  have h2 := assocGet_isSome_iff k b.metrics
  rw [h] at h1
  unfold Matrix.GetMetric
  cases ha : (assocGet k a.metrics).isSome <;> cases hb : (assocGet k b.metrics).isSome <;> simp_all

/-- `PollData` from the end of its batch loop on: the first poll only keeps the new
matrix, a later poll keeps it and returns the post-processed one. -/
theorem PollData_of_loop_done (R : Runtime) (me me1 : ZapiPerf) (script : List BatchReply)
    (keys : List String) (cur : Matrix) (sent : List (List String))
    (htsm : (me.Matrix.GetMetric "timestamp").isSome = true)
    (hkeys : requestKeys R me (me.Matrix.Clone false true true).Reset = some keys)
    (hloop : batchLoop R keys script me (me.Matrix.Clone false true true).Reset 0 0 [] =
      LoopEnd.done me1 cur sent) :
    PollData R me script =
      if me.isCacheEmpty then ({ me1 with Matrix := cur, isCacheEmpty := false }, Ret.ok none none)
      else ({ me1 with Matrix := cur }, Ret.ok (some (postProcess R me1 cur)) none) := by
  have inv := batchLoop_inv R keys script me (me.Matrix.Clone false true true).Reset 0 0 []
  rw [hloop] at inv
  obtain ⟨⟨ms, e1⟩, _, n1, _, _⟩ := inv
  have hcache : me1.isCacheEmpty = me.isCacheEmpty := by
    simp only at e1
    rw [e1]; rfl
  have hsome : ((me.Matrix.Clone false true true).Reset.GetMetric "timestamp").isSome = true := by
    rw [GetMetric_isSome_of_keys _ me.Matrix (keys_Clone_Reset me.Matrix)]
    exact htsm
  unfold PollData
  simp only
  split
  · rename_i hnone
    rw [hnone] at hsome
    cases hsome
  · rw [hkeys]
    simp only [hloop, hcache, Matrix.Clone_full]

/-- C1. For a metric with property `rate`: when the batch loop of a non-first
`PollData` ends with the parsed matrix `cur` and the baseline `me1.Matrix`, and for
some instance the raw cells `c` (current) and `p` (previous) and the timestamps `tc`,
`tp` are valid with `tc - tp > 0`, then `PollData` returns a matrix whose cell for that
metric and instance is `(c - p) / (tc - tp)`.  The baseline read is the one of
before the call unless the query is a `workload_detail` one. -/
theorem PollData_rate_cell (R : Runtime) (me me1 : ZapiPerf) (script : List BatchReply)
    (keys : List String) (cur : Matrix) (sent : List (List String))
    (key inst : String) (metric tsMetric : Metric) (c p tc tp : ℚ)
    (hcache : me.isCacheEmpty = false)
    (huniq : (assocKeys me.Matrix.metrics).Nodup)
    (hkeys : requestKeys R me (me.Matrix.Clone false true true).Reset = some keys)
    (hloop : batchLoop R keys script me (me.Matrix.Clone false true true).Reset 0 0 [] =
      LoopEnd.done me1 cur sent)
    (hm : cur.GetMetric key = some metric) (hrate : metric.property = "rate")
    (hts : cur.GetMetric "timestamp" = some tsMetric) (hraw : tsMetric.property = "raw")
    (hc : cur.cell key inst = some c) (hp : me1.Matrix.cell key inst = some p)
    (htc : cur.cell "timestamp" inst = some tc) (htp : me1.Matrix.cell "timestamp" inst = some tp)
    (hdt : tc - tp > 0) :
    ∃ me2 out, PollData R me script = (me2, Ret.ok (some out) none) ∧
      me2.Matrix = cur ∧
      (isWorkloadDetail me.Query = false → me1.Matrix = me.Matrix) ∧
      out.cell key inst = some ((c - p) / (tc - tp)) := by
  have inv := batchLoop_inv R keys script me (me.Matrix.Clone false true true).Reset 0 0 []
  rw [hloop] at inv
  obtain ⟨_, _, n1, _, w1⟩ := inv
  have hkc : assocKeys cur.metrics = assocKeys me.Matrix.metrics :=
    n1.trans (keys_Clone_Reset me.Matrix)
  have htsm : (me.Matrix.GetMetric "timestamp").isSome = true := by
    rw [← GetMetric_isSome_of_keys cur me.Matrix hkc, hts]; rfl
  have hrun := PollData_of_loop_done R me me1 script keys cur sent htsm hkeys hloop
  rw [hcache] at hrun
  refine ⟨_, _, hrun, rfl, fun hq => congrArg ZapiPerf.Matrix (w1 hq), ?_⟩
  -- the previous rows
  obtain ⟨prev, hprev, hpv⟩ := Matrix.cell_eq_some _ _ _ _ hp
  obtain ⟨ptm, hptm, hptv⟩ := Matrix.cell_eq_some _ _ _ _ htp
  -- the current cells
  have hcv : metric.values inst = some c := by
    obtain ⟨m2, hm2, hv⟩ := Matrix.cell_eq_some _ _ _ _ hc
    rw [hm] at hm2
    rw [Option.some.inj hm2]; exact hv
  have htcv : tsMetric.values inst = some tc := by
    obtain ⟨m2, hm2, hv⟩ := Matrix.cell_eq_some _ _ _ _ htc
    rw [hts] at hm2
    rw [Option.some.inj hm2]; exact hv
  have hne : key ≠ "timestamp" := by
    intro h
    rw [h, hts] at hm
    rw [← Option.some.inj hm, hraw] at hrate
    exact absurd hrate (by decide)
  -- the reduced timestamps
  let tsd : Metric :=
    { tsMetric with values := fun i =>
        match tsMetric.values i, ptm.values i with
        | some a, some b => some (a - b)
        | _, _ => none }
  have hnd0ts : (cur.onMetric "timestamp" (fun m =>
      match m.Delta (me1.Matrix.GetMetric "timestamp") with
      | some delta => delta
      | none => m)).GetMetric "timestamp" = some tsd := by
    rw [Matrix.GetMetric_onMetric_self, hts, hptm]
    rfl
  have hnd0k : (cur.onMetric "timestamp" (fun m =>
      match m.Delta (me1.Matrix.GetMetric "timestamp") with
      | some delta => delta
      | none => m)).GetMetric key = some metric := by
    rw [Matrix.GetMetric_onMetric_ne _ _ _ _ hne, hm]
  have hfold := foldl_cook_rate me1 key metric prev tsd hrate hprev hraw (orderedKeys R cur) _
    (orderedKeys_nodup R cur (hkc ▸ huniq)) (mem_orderedKeys R cur key metric hm) hnd0k hnd0ts
  unfold postProcess
  simp only
  unfold Matrix.cell
  rw [hfold]
  have hdt0 : tc - tp ≠ 0 := ne_of_gt hdt
  simp [rateRow, Metric.Divide, tsd, hcv, hpv, htcv, hptv, hdt0]

/-- Witness of C1: scenario 1 of the spec, `read_ops` 1000 → 1600 in 10 seconds. -/
theorem PollData_rate_cell_witness :
    ∃ me2 out, PollData Fixture.runtime Fixture.rateCollector Fixture.rateScript =
        (me2, Ret.ok (some out) none) ∧
      out.cell "read_ops" "vol1" = some ((1600 - 1000) / (110 - 100)) := by
  obtain ⟨me2, out, h1, _, _, h4⟩ :=
    PollData_rate_cell Fixture.runtime Fixture.rateCollector _ Fixture.rateScript _ _ _
      "read_ops" "vol1" _ _ 1600 1000 110 100 rfl (by decide) rfl rfl rfl rfl rfl rfl
      (by decide!) (by decide!) (by decide!) (by decide!) (by decide!)
  exact ⟨me2, out, h1, h4⟩

/-- C2 as stated fails.  With `cache_hit` (percent) 800 → 900 and its base `cache_total`
1000 → 1100 in 10 seconds, so Δb = 100 > 0 and 100·Δm/Δb = 100: `PollData` returns
100/11 when the base has property `raw` (it is never reduced to its delta) and 1000
when it has property `rate` (it is already divided by the time).  And with a `delta`
base that went 1000 → 900, so Δb = -100 is not positive, the cell is valid, -100. -/
theorem PollData_percent_not_as_stated :
    returnedCell (PollData Fixture.runtime (Fixture.percentCollector "raw") Fixture.percentScript)
        "cache_hit" "vol1" = some (100 / 11) ∧
    returnedCell (PollData Fixture.runtime (Fixture.percentCollector "rate") Fixture.percentScript)
        "cache_hit" "vol1" = some 1000 ∧
    (100 / 11 : ℚ) ≠ 100 * (900 - 800) / (1100 - 1000) ∧
    (1000 : ℚ) ≠ 100 * (900 - 800) / (1100 - 1000) ∧
    returnedCell (PollData Fixture.runtime (Fixture.percentCollector "delta")
        Fixture.percentResetScript) "cache_hit" "vol1" = some (-100) := by
  refine ⟨?_, ?_, ?_, ?_, ?_⟩ <;> decide!

/-- C3. An `average` metric named `avg_latency` with base `read_ops` 1000 → 1005 and
`latency_io_reqd` = 10, so Δops = 5 < 10: with a `raw` base the cell is valid,
20/1005; with a `rate` base polled 0.25 seconds apart the cell is valid,
20/(5/0.25); with a `rate` base polled 10 seconds apart, or a `delta` base, the cell
is invalid. -/
theorem PollData_latency_by_base_property :
    returnedCell (PollData Fixture.runtime (Fixture.latencyCollector "raw") (Fixture.latencyScript 110))
        "avg_latency" "vol1" = some (20 / 1005) ∧
    returnedCell (PollData Fixture.runtime (Fixture.latencyCollector "rate")
        (Fixture.latencyScript (401 / 4))) "avg_latency" "vol1" = some 1 ∧
    returnedCell (PollData Fixture.runtime (Fixture.latencyCollector "rate") (Fixture.latencyScript 110))
        "avg_latency" "vol1" = none ∧
    returnedCell (PollData Fixture.runtime (Fixture.latencyCollector "delta") (Fixture.latencyScript 110))
        "avg_latency" "vol1" = none := by
  refine ⟨?_, ?_, ?_, ?_⟩ <;> decide!

/-- C6. A `workload_detail` poll of two batches: the first is parsed, the second fails
on the wire.  `PollData` returns `(nil, err)`, yet the baseline cell of the layer
metric `cpu` for `vol1` has changed from 40 to 47: `service_time` was accumulated
into the baseline matrix. -/
theorem PollData_detail_abort_changes_baseline :
    (PollData Fixture.runtime Fixture.detailCollector Fixture.detailScript).2 =
        Ret.ok none (some (GoError.wire "connection timed out")) ∧
    Fixture.detailCollector.Matrix.cell "cpu" "vol1" = some 40 ∧
    (PollData Fixture.runtime Fixture.detailCollector Fixture.detailScript).1.Matrix.cell
        "cpu" "vol1" = some 47 := by
  refine ⟨?_, ?_, ?_⟩
  · rfl
  · decide!
  · decide!

theorem ParseInv.batchSize_eq {st st1 : ZapiPerf × Matrix} (h : ParseInv st st1) :
    st1.1.batchSize = st.1.batchSize := by
  obtain ⟨⟨ms, e1⟩, _⟩ := h
  rw [e1]; rfl

theorem ParseInv.query_eq {st st1 : ZapiPerf × Matrix} (h : ParseInv st st1) :
    st1.1.Query = st.1.Query := by
  obtain ⟨⟨ms, e1⟩, _⟩ := h
  rw [e1]; rfl

theorem ParseInv.params_eq {st st1 : ZapiPerf × Matrix} (h : ParseInv st st1) :
    st1.1.Params = st.1.Params := by
  obtain ⟨⟨ms, e1⟩, _⟩ := h
  rw [e1]; rfl

theorem goSlice_isSome {α : Type} (xs : List α) (lo hi : Int) (h1 : 0 ≤ lo) (h2 : lo ≤ hi)
    (h3 : hi ≤ (xs.length : Int)) : ∃ w, goSlice xs lo hi = some w := by
  unfold goSlice
  rw [if_pos ⟨h1, h2, h3⟩]
  exact ⟨_, rfl⟩

/-- With a positive batch size, replies that all succeed, and enough replies to
cover the keys left to request, the batch loop runs to its end. -/
theorem batchLoop_done_of_succeeds (R : Runtime) (keys : List String) (script : List BatchReply) :
    ∀ (me : ZapiPerf) (nd : Matrix) (e : Int) (sent : List (List String)),
      1 ≤ me.batchSize → 0 ≤ e → e ≤ (keys.length : Int) →
      (∀ r ∈ script, r.succeeds) →
      (keys.length : Int) - e ≤ (script.length : Int) * me.batchSize →
      ∃ me1 cur sent1, batchLoop R keys script me nd e e sent = LoopEnd.done me1 cur sent1 := by
  induction script with
  | nil =>
    intro me nd e sent _ _ _ _ hlen
    unfold batchLoop
    have : ¬ e < (keys.length : Int) := by
      simp only [List.length_nil, Nat.cast_zero, zero_mul] at hlen
      omega
    rw [if_neg this]
    exact ⟨_, _, _, rfl⟩
  | cons reply rest ih =>
    intro me nd e sent hb he0 hele hok hlen
    unfold batchLoop
    simp only
    by_cases hlt : e < (keys.length : Int)
    · rw [if_pos hlt]
      obtain ⟨hbuild, response, hinv⟩ := hok reply (List.mem_cons_self _ _)
      have hslice : ∃ w, goSlice keys e
          (if e + me.batchSize > (keys.length : Int) then (keys.length : Int) else e + me.batchSize) =
            some w := by
        apply goSlice_isSome _ _ _ he0
        · split <;> omega
        · split <;> omega
      obtain ⟨w, hw⟩ := hslice
      rw [hw]
      simp only [hbuild, hinv]
      split
      · exact ⟨_, _, _, rfl⟩
      · split
        · exact ⟨_, _, _, rfl⟩
        · rename_i instances _ _
          have hinv2 := foldl_ParseInv _ (parseInstance_inv R reply.now) instances.GetChildren (me, nd)
          apply ih
          · rw [hinv2.batchSize_eq]; exact hb
          · split <;> omega
          · split <;> omega
          · exact fun r hr => hok r (List.mem_cons_of_mem _ hr)
          · simp only [List.length_cons, Nat.cast_add, Nat.cast_one, add_mul, one_mul] at hlen
            have hd : 0 ≤ (rest.length : Int) * me.batchSize :=
              Int.mul_nonneg (Int.ofNat_nonneg _) (by omega)
            rw [hinv2.batchSize_eq]
            simp only
            split <;> omega
    · rw [if_neg hlt]
      exact ⟨_, _, _, rfl⟩

theorem requestKeys_isSome (R : Runtime) (me : ZapiPerf) (nd : Matrix) :
    (requestKeys R me nd).isSome =
      (!isWorkloadDetail me.Query || (me.Params.GetChildS "resource_map").isSome) := by
  unfold requestKeys
  cases hq : isWorkloadDetail me.Query
  · simp
  · cases hr : me.Params.GetChildS "resource_map" <;> simp

/-- C4, for a batch size of at least 1.  `InitCache` leaves `isCacheEmpty` set.  When the
cache is empty, the `timestamp` metric exists, the batch size is at least 1 and every
batch request succeeds (the script holding enough replies), `PollData` returns
`(nil, nil)`, keeps the freshly filled `newData` as baseline and clears `isCacheEmpty`;
and the next `PollData`, under the same conditions, returns a matrix, the
post-processed one. -/
theorem PollData_first_poll (R : Runtime) (me : ZapiPerf) (script : List BatchReply)
    (keys : List String)
    (hempty : me.isCacheEmpty = true)
    (hts : (me.Matrix.GetMetric "timestamp").isSome = true)
    (hkeys : requestKeys R me (me.Matrix.Clone false true true).Reset = some keys)
    (hb : 1 ≤ me.batchSize)
    (hok : ∀ r ∈ script, r.succeeds)
    (hlen : (keys.length : Int) ≤ (script.length : Int) * me.batchSize) :
    (∀ c : ZapiPerf, (InitCache c).isCacheEmpty = true) ∧
    ∃ me1 newData sent,
      batchLoop R keys script me (me.Matrix.Clone false true true).Reset 0 0 [] =
        LoopEnd.done me1 newData sent ∧
      PollData R me script =
        ({ me1 with Matrix := newData, isCacheEmpty := false }, Ret.ok none none) ∧
      (PollData R me script).1.Matrix = newData ∧
      (PollData R me script).1.isCacheEmpty = false ∧
      (requestKeys R (PollData R me script).1
        ((PollData R me script).1.Matrix.Clone false true true).Reset).isSome = true ∧
      ∀ (script2 : List BatchReply) (keys2 : List String),
        requestKeys R (PollData R me script).1
          ((PollData R me script).1.Matrix.Clone false true true).Reset = some keys2 →
        (∀ r ∈ script2, r.succeeds) →
        (keys2.length : Int) ≤ (script2.length : Int) * me.batchSize →
        ∃ me3 newData2 sent2 out,
          batchLoop R keys2 script2 (PollData R me script).1
            ((PollData R me script).1.Matrix.Clone false true true).Reset 0 0 [] =
              LoopEnd.done me3 newData2 sent2 ∧
          out = postProcess R me3 newData2 ∧
          PollData R (PollData R me script).1 script2 =
            ({ me3 with Matrix := newData2 }, Ret.ok (some out) none) := by
  obtain ⟨me1, newData, sent, hloop⟩ :=
    batchLoop_done_of_succeeds R keys script me (me.Matrix.Clone false true true).Reset 0 []
      hb (le_refl 0) (by omega) hok (by omega)
  have hbs : me1.batchSize = me.batchSize := by
    have inv := batchLoop_inv R keys script me (me.Matrix.Clone false true true).Reset 0 0 []
    rw [hloop] at inv
    exact inv.batchSize_eq
  have hrun := PollData_of_loop_done R me me1 script keys newData sent hts hkeys hloop
  rw [hempty, if_pos rfl] at hrun
  have inv := batchLoop_inv R keys script me (me.Matrix.Clone false true true).Reset 0 0 []
  rw [hloop] at inv
  have hkc : assocKeys newData.metrics = assocKeys me.Matrix.metrics :=
    inv.2.2.1.trans (keys_Clone_Reset me.Matrix)
  refine ⟨fun _ => rfl, me1, newData, sent, hloop, hrun, ?_, ?_, ?_, ?_⟩
  · rw [hrun]
  · rw [hrun]
  · rw [hrun, requestKeys_isSome]
    have h0 := requestKeys_isSome R me (me.Matrix.Clone false true true).Reset
    rw [hkeys] at h0
    have hq : me1.Query = me.Query := inv.query_eq
    have hp : me1.Params = me.Params := inv.params_eq
    simp only [hq, hp]
    exact h0.symm
  · intro script2 keys2 hkeys2 hok2 hlen2
    rw [hrun] at hkeys2 ⊢
    simp only at hkeys2 ⊢
    have hb2 : 1 ≤ ({ me1 with Matrix := newData, isCacheEmpty := false } : ZapiPerf).batchSize := by
      simp only [hbs]; exact hb
    obtain ⟨me3, newData2, sent2, hloop2⟩ :=
      batchLoop_done_of_succeeds R keys2 script2 { me1 with Matrix := newData, isCacheEmpty := false }
        (newData.Clone false true true).Reset 0 [] hb2 (le_refl 0) (by omega)
        hok2 (by simp only [hbs]; omega)
    have hts2 : (newData.GetMetric "timestamp").isSome = true := by
      rw [GetMetric_isSome_of_keys newData me.Matrix hkc]; exact hts
    have hrun2 := PollData_of_loop_done R { me1 with Matrix := newData, isCacheEmpty := false } me3
      script2 keys2 newData2 sent2 hts2 hkeys2 hloop2
    simp only [Bool.false_eq_true, if_false] at hrun2
    exact ⟨me3, newData2, sent2, _, hloop2, rfl, hrun2⟩

/-- The batch loop up to a failing request: the batches before it are parsed, then
the error decides. -/
theorem batchLoop_fail (R : Runtime) (keys : List String) (fail : BatchReply)
    (post : List BatchReply) (err : GoError)
    (hbuild : fail.build = none) (hinv : fail.invoke = Except.error err)
    (pre : List BatchReply) :
    ∀ (me : ZapiPerf) (nd : Matrix) (e : Int) (sent : List (List String)),
      0 ≤ me.batchSize → 0 ≤ e →
      e + (pre.length : Int) * me.batchSize < (keys.length : Int) →
      (∀ r ∈ pre, r.hasInstances) →
      ∃ me1 sent1, me1.batchSize = me.batchSize ∧
        batchLoop R keys (pre ++ fail :: post) me nd e e sent =
          if strings.Contains err.Error "resource limit exceeded" ∧ me.batchSize > 100 then
            LoopEnd.exit { me1 with batchSize := me1.batchSize - 100 } (Ret.ok none none) sent1
          else LoopEnd.exit me1 (Ret.ok none (some err)) sent1 := by
  induction pre with
  | nil =>
    intro me nd e sent hb he hreach _
    simp only [List.length_nil, Nat.cast_zero, zero_mul, add_zero] at hreach
    simp only [List.nil_append]
    unfold batchLoop
    rw [if_pos hreach]
    simp only
    obtain ⟨w, hw⟩ := goSlice_isSome keys e
      (if e + me.batchSize > (keys.length : Int) then (keys.length : Int) else e + me.batchSize)
      he (by split <;> omega) (by split <;> omega)
    rw [hw]
    simp only [hbuild, hinv]
    exact ⟨me, _, rfl, rfl⟩
  | cons reply rest ih =>
    intro me nd e sent hb he hreach hpre
    simp only [List.length_cons, Nat.cast_add, Nat.cast_one, add_mul, one_mul] at hreach
    have hd : 0 ≤ (rest.length : Int) * me.batchSize :=
      Int.mul_nonneg (Int.ofNat_nonneg _) hb
    simp only [List.cons_append]
    unfold batchLoop
    have hlt : e < (keys.length : Int) := by omega
    rw [if_pos hlt]
    simp only
    have hnot : ¬ e + me.batchSize > (keys.length : Int) := by omega
    rw [if_neg hnot]
    obtain ⟨w, hw⟩ := goSlice_isSome keys e (e + me.batchSize) he (by omega) (by omega)
    rw [hw]
    obtain ⟨hb1, response, instances, hi1, hi2, hi3⟩ := hpre reply (List.mem_cons_self _ _)
    simp only [hb1, hi1, hi2, hi3, if_false]
    have hinv2 := foldl_ParseInv _ (parseInstance_inv R reply.now) instances.GetChildren (me, nd)
    have hbs := hinv2.batchSize_eq
    simp only at hbs
    obtain ⟨me1, sent1, h1, h2⟩ := ih
      (instances.GetChildren.foldl (parseInstance R reply.now) (me, nd)).1
      (instances.GetChildren.foldl (parseInstance R reply.now) (me, nd)).2
      (e + me.batchSize) (sent ++ [w]) (by rw [hbs]; exact hb) (by omega)
      (by rw [hbs]; omega) (fun r hr => hpre r (List.mem_cons_of_mem _ hr))
    rw [hbs] at h1 h2
    exact ⟨me1, sent1, h1, h2⟩

/-- C7. A batch request of `PollData` fails with `err` (after batches that were
answered with instances): if the text of `err` contains "resource limit exceeded"
and `batchSize > 100`, `PollData` returns `(nil, nil)` and `batchSize` is 100 smaller;
otherwise it returns `(nil, err)` and `batchSize` is unchanged. -/
theorem PollData_failed_batch (R : Runtime) (me : ZapiPerf) (keys : List String)
    (pre post : List BatchReply) (fail : BatchReply) (err : GoError)
    (hts : (me.Matrix.GetMetric "timestamp").isSome = true)
    (hkeys : requestKeys R me (me.Matrix.Clone false true true).Reset = some keys)
    (hb : 0 ≤ me.batchSize)
    (hpre : ∀ r ∈ pre, r.hasInstances)
    (hreach : (pre.length : Int) * me.batchSize < (keys.length : Int))
    (hbuild : fail.build = none) (hinv : fail.invoke = Except.error err) :
    (strings.Contains err.Error "resource limit exceeded" = true ∧ me.batchSize > 100 →
      (PollData R me (pre ++ fail :: post)).2 = Ret.ok none none ∧
      (PollData R me (pre ++ fail :: post)).1.batchSize = me.batchSize - 100) ∧
    (strings.Contains err.Error "resource limit exceeded" = false ∨ me.batchSize ≤ 100 →
      (PollData R me (pre ++ fail :: post)).2 = Ret.ok none (some err) ∧
      (PollData R me (pre ++ fail :: post)).1.batchSize = me.batchSize) := by
  obtain ⟨me1, sent1, hbs, hloop⟩ := batchLoop_fail R keys fail post err hbuild hinv pre me
    (me.Matrix.Clone false true true).Reset 0 [] hb (le_refl 0) (by omega) hpre
  have hsome : ((me.Matrix.Clone false true true).Reset.GetMetric "timestamp").isSome = true := by
    rw [GetMetric_isSome_of_keys _ me.Matrix (keys_Clone_Reset me.Matrix)]
    exact hts
  have hrun : PollData R me (pre ++ fail :: post) =
      match batchLoop R keys (pre ++ fail :: post) me (me.Matrix.Clone false true true).Reset 0 0 [] with
      | LoopEnd.exit me1 ret _ => (me1, ret)
      | LoopEnd.done me1 newData1 _ =>
        if me1.isCacheEmpty then
          ({ me1 with Matrix := newData1, isCacheEmpty := false }, Ret.ok none none)
        else
          ({ me1 with Matrix := newData1.Clone true true true },
            Ret.ok (some (postProcess R me1 newData1)) none) := by
    unfold PollData
    simp only
    split
    · rename_i hnone
      rw [hnone] at hsome
      cases hsome
    · rw [hkeys]
  rw [hrun, hloop]
  constructor
  · intro hc
    rw [if_pos hc]
    exact ⟨rfl, by simp only [hbs]⟩
  · intro hc
    have hn : ¬ (strings.Contains err.Error "resource limit exceeded" = true ∧ me.batchSize > 100) := by
      rintro ⟨h1, h2⟩
      rcases hc with h | h
      · rw [h] at h1; cases h1
      · omega
    rw [if_neg hn]
    exact ⟨rfl, hbs⟩

/-- Witness of C4: the first poll of scenario 1 returns `(nil, nil)`, keeps the raw
1600 and clears `isCacheEmpty`, and a second poll returns a matrix. -/
theorem PollData_first_poll_witness :
    (PollData Fixture.runtime Fixture.firstCollector Fixture.rateScript).1.isCacheEmpty = false ∧
    (PollData Fixture.runtime Fixture.firstCollector Fixture.rateScript).1.Matrix.cell
        "read_ops" "vol1" = some 1600 ∧
    ∃ me3 out,
      PollData Fixture.runtime (PollData Fixture.runtime Fixture.firstCollector Fixture.rateScript).1
        Fixture.rateScript = (me3, Ret.ok (some out) none) := by
  have hok : ∀ r ∈ Fixture.rateScript, r.succeeds := by
    intro r hr
    simp only [Fixture.rateScript, List.mem_singleton] at hr
    subst hr
    exact ⟨rfl, _, rfl⟩
  obtain ⟨_, me1, newData, sent, _, _, _, hC, _, hnext⟩ :=
    PollData_first_poll Fixture.runtime Fixture.firstCollector Fixture.rateScript _
      rfl rfl rfl (by decide) hok (by decide)
  obtain ⟨me3, _, _, out, _, _, h3⟩ := hnext Fixture.rateScript _ rfl hok (by decide)
  exact ⟨hC, by decide!, _, out, h3⟩

/-- Witness of C7: scenario 6 of the spec, `batch_size` 500 becomes 400. -/
theorem PollData_failed_batch_witness :
    (PollData Fixture.runtime Fixture.rateCollector
      ([] ++ Fixture.failure "Error: resource limit exceeded" :: [])).2 = Ret.ok none none ∧
    (PollData Fixture.runtime Fixture.rateCollector
      ([] ++ Fixture.failure "Error: resource limit exceeded" :: [])).1.batchSize = 500 - 100 :=
  (PollData_failed_batch Fixture.runtime Fixture.rateCollector _ [] []
    (Fixture.failure "Error: resource limit exceeded") _ rfl rfl (by decide)
    (fun _ h => absurd h (List.not_mem_nil _)) (by decide) rfl rfl).1 ⟨by decide, by decide⟩

/-- Any `PollData` leaves `batchSize` as it is or, when it was above 100, lowers it
by exactly 100. -/
theorem PollData_batchSize (R : Runtime) (me : ZapiPerf) (script : List BatchReply) :
    (PollData R me script).1.batchSize = me.batchSize ∨
      (100 < me.batchSize ∧ (PollData R me script).1.batchSize = me.batchSize - 100) := by
  unfold PollData
  simp only
  split
  · exact Or.inl rfl
  · split
    · exact Or.inl rfl
    · rename_i keys _
      have inv := batchLoop_inv R keys script me (me.Matrix.Clone false true true).Reset 0 0 []
      split
      · rename_i me1 ret sent heq
        rw [heq] at inv
        obtain ⟨me2, nd2, hp, hcase⟩ := inv
        have hbs : me2.batchSize = me.batchSize := hp.batchSize_eq
        rcases hcase with h | ⟨h1, h2, _⟩
        · left; rw [h, hbs]
        · right
          rw [h2]
          simp only [hbs] at h1 ⊢
          exact ⟨h1, trivial⟩
      · rename_i me1 newData1 sent heq
        rw [heq] at inv
        have hbs : me1.batchSize = me.batchSize := inv.batchSize_eq
        left
        split <;> exact hbs

theorem runPolls_batchSize_pos (R : Runtime) (scripts : List (List BatchReply)) :
    ∀ me : ZapiPerf, 1 ≤ me.batchSize → 1 ≤ (runPolls R me scripts).batchSize := by
  induction scripts with
  | nil => intro me h; exact h
  | cons s rest ih =>
    intro me h
    simp only [runPolls, List.foldl_cons]
    apply ih
    rcases PollData_batchSize R me s with h1 | ⟨h1, h2⟩ <;> omega

theorem runPolls_batchSize_hundreds (R : Runtime) (scripts : List (List BatchReply)) :
    ∀ me : ZapiPerf, 100 ≤ me.batchSize → (100 : Int) ∣ me.batchSize →
      100 ≤ (runPolls R me scripts).batchSize := by
  induction scripts with
  | nil => intro me h _; exact h
  | cons s rest ih =>
    intro me h hd
    simp only [runPolls, List.foldl_cons]
    rcases PollData_batchSize R me s with h1 | ⟨h1, h2⟩
    · exact ih _ (by omega) (by rw [h1]; exact hd)
    · exact ih _ (by omega) (by rw [h2]; omega)

/-- C8, as the code has it.  From a starting `batchSize ≥ 100` and over any sequence
of `PollData` calls, `batchSize` never becomes smaller than 1; it never becomes
smaller than 100 when the starting value is a multiple of 100. -/
theorem batchSize_floor (R : Runtime) (me : ZapiPerf) (scripts : List (List BatchReply))
    (hstart : 100 ≤ me.batchSize) :
    1 ≤ (runPolls R me scripts).batchSize ∧
    ((100 : Int) ∣ me.batchSize → 100 ≤ (runPolls R me scripts).batchSize) :=
  ⟨runPolls_batchSize_pos R scripts me (by omega),
    fun hd => runPolls_batchSize_hundreds R scripts me hstart hd⟩

/-- Witness of C8: two polls that hit the resource limit, starting from 150. -/
theorem batchSize_floor_witness :
    1 ≤ (runPolls Fixture.runtime Fixture.throttleCollector
      [Fixture.limitScript, Fixture.limitScript]).batchSize :=
  (batchSize_floor Fixture.runtime Fixture.throttleCollector
    [Fixture.limitScript, Fixture.limitScript] (by decide)).1

/-- C8 as stated fails: starting from `batchSize` = 150 ≥ 100, one `PollData` that
hits "resource limit exceeded" leaves `batchSize` = 50 < 100. -/
theorem batchSize_floor_100_fails :
    100 ≤ Fixture.throttleCollector.batchSize ∧
    (runPolls Fixture.runtime Fixture.throttleCollector [Fixture.limitScript]).batchSize = 50 ∧
    ¬ 100 ≤ (runPolls Fixture.runtime Fixture.throttleCollector [Fixture.limitScript]).batchSize := by
  refine ⟨?_, ?_, ?_⟩ <;> decide!

/-! ## Post-processing of `delta` and `percent` metrics -/

theorem cookMetric_delta (me : ZapiPerf) (nd : Matrix) (key : String) (m prev : Metric)
    (hm : nd.GetMetric key = some m) (hdelta : m.property = "delta")
    (hprev : me.Matrix.GetMetric key = some prev) :
    (cookMetric me nd key).GetMetric key = some (deltaRow m prev) := by
  unfold cookMetric
  rw [hm]
  simp only [hdelta, hprev, Metric.Delta]
  simp [Matrix.GetMetric_onMetric_self, hm, deltaRow]
  exact hdelta.symm

theorem cookMetric_percent (me : ZapiPerf) (nd : Matrix) (key : String) (m prev base : Metric)
    (hm : nd.GetMetric key = some m) (hpct : m.property = "percent")
    (hprev : me.Matrix.GetMetric key = some prev)
    (hbase : nd.GetMetric m.comment = some base) (hne : m.comment ≠ key) :
    (cookMetric me nd key).GetMetric key = some (percentRow m prev base me.latencyIoReqd) := by
  have hb1 : ∀ f, (nd.onMetric key f).GetMetric m.comment = some base := by
    intro f
    rw [Matrix.GetMetric_onMetric_ne _ _ _ _ hne, hbase]
  unfold cookMetric
  rw [hm]
  simp only [hpct, hprev, Metric.Delta]
  simp only [hb1]
  cases hname : strings.HasSuffix m.name "_latency"
  · simp [Matrix.GetMetric_onMetric_self, hm, percentRow, deltaRow, hname]
    rw [hpct]
  · simp [Matrix.GetMetric_onMetric_self, hm, percentRow, deltaRow, hname]
    rw [hpct]

/-- The metric `k` is cooked once in a fold over a list without repetition: what holds
of the matrix before (`P`, kept by the cooking of the other keys of the list) gives
what holds of the row of `k` after. -/
theorem foldl_cook_at (me : ZapiPerf) (k : String) (row : Metric) (P : Matrix → Prop)
    (L : List String)
    (hstep : ∀ nd a, a ∈ L → a ≠ k → P nd → P (cookMetric me nd a))
    (hcook : ∀ nd, P nd → (cookMetric me nd k).GetMetric k = some row)
    (hnd : L.Nodup) (hk : k ∈ L) (nd : Matrix) (hP : P nd) :
    (L.foldl (cookMetric me) nd).GetMetric k = some row := by
  induction L generalizing nd with
  | nil => cases hk
  | cons a rest ih =>
    simp only [List.nodup_cons] at hnd
    simp only [List.foldl_cons]
    by_cases ha : a = k
    · subst ha
      rw [foldl_cook_other _ _ _ _ hnd.1]
      exact hcook nd hP
    · have hk2 : k ∈ rest := by
        rcases List.mem_cons.mp hk with h | h
        · exact absurd h.symm ha
        · exact h
      exact ih (fun nd1 b hb hbk hp => hstep nd1 b (List.mem_cons_of_mem _ hb) hbk hp) hnd.2 hk2 _
        (hstep nd a (List.mem_cons_self _ _) ha hP)

/-- C2, as the code has it.  For a `percent` metric whose base counter is a metric of
property `delta` without a base of its own: when the batch loop of a non-first
`PollData` ends with the parsed matrix `cur` and the baseline `me1.Matrix`, and for
some instance the raw cells `c`, `p` of the metric and `bc`, `bp` of the base (current,
previous) are valid, `PollData` returns a matrix whose cell for the metric and
that instance is `100 · (c - p) / (bc - bp)`, and is invalid when `bc - bp = 0` or,
for a metric whose name ends in `_latency`, when `bc - bp` is below `latency_io_reqd`. -/
theorem PollData_percent_cell (R : Runtime) (me me1 : ZapiPerf) (script : List BatchReply)
    (keys : List String) (cur : Matrix) (sent : List (List String))
    (key inst : String) (metric base tsMetric : Metric) (c p bc bp : ℚ)
    (hcache : me.isCacheEmpty = false)
    (huniq : (assocKeys me.Matrix.metrics).Nodup)
    (hkeys : requestKeys R me (me.Matrix.Clone false true true).Reset = some keys)
    (hloop : batchLoop R keys script me (me.Matrix.Clone false true true).Reset 0 0 [] =
      LoopEnd.done me1 cur sent)
    (hm : cur.GetMetric key = some metric) (hpct : metric.property = "percent")
    (hmc : metric.comment ≠ "")
    (hbase : cur.GetMetric metric.comment = some base) (hbprop : base.property = "delta")
    (hbc : base.comment = "")
    (hts : cur.GetMetric "timestamp" = some tsMetric) (hraw : tsMetric.property = "raw")
    (hc : cur.cell key inst = some c) (hp : me1.Matrix.cell key inst = some p)
    (hbcur : cur.cell metric.comment inst = some bc)
    (hbprev : me1.Matrix.cell metric.comment inst = some bp) :
    ∃ me2 out, PollData R me script = (me2, Ret.ok (some out) none) ∧
      me2.Matrix = cur ∧
      (isWorkloadDetail me.Query = false → me1.Matrix = me.Matrix) ∧
      out.cell key inst =
        if bc - bp = 0 ∨
            (strings.HasSuffix metric.name "_latency" = true ∧ bc - bp < (me.latencyIoReqd : ℚ))
        then none
        else some (100 * (c - p) / (bc - bp)) := by
  have inv := batchLoop_inv R keys script me (me.Matrix.Clone false true true).Reset 0 0 []
  rw [hloop] at inv
  have hlat : me1.latencyIoReqd = me.latencyIoReqd := by
    obtain ⟨⟨ms, e1⟩, _⟩ := inv
    simp only at e1
    rw [e1]; rfl
  obtain ⟨_, _, n1, _, w1⟩ := inv
  have hkc : assocKeys cur.metrics = assocKeys me.Matrix.metrics :=
    n1.trans (keys_Clone_Reset me.Matrix)
  have htsm : (me.Matrix.GetMetric "timestamp").isSome = true := by
    rw [← GetMetric_isSome_of_keys cur me.Matrix hkc, hts]; rfl
  have hrun := PollData_of_loop_done R me me1 script keys cur sent htsm hkeys hloop
  rw [hcache] at hrun
  refine ⟨_, _, hrun, rfl, fun hq => congrArg ZapiPerf.Matrix (w1 hq), ?_⟩
  -- the previous rows
  obtain ⟨prev, hprev, hpv⟩ := Matrix.cell_eq_some _ _ _ _ hp
  obtain ⟨bprev, hbprevm, hbpv⟩ := Matrix.cell_eq_some _ _ _ _ hbprev
  -- the current cells
  have hcv : metric.values inst = some c := by
    obtain ⟨m2, hm2, hv⟩ := Matrix.cell_eq_some _ _ _ _ hc
    rw [hm] at hm2
    rw [Option.some.inj hm2]; exact hv
  have hbcv : base.values inst = some bc := by
    obtain ⟨m2, hm2, hv⟩ := Matrix.cell_eq_some _ _ _ _ hbcur
    rw [hbase] at hm2
    rw [Option.some.inj hm2]; exact hv
  -- the three metrics are different
  have hne : key ≠ "timestamp" := by
    intro h
    rw [h, hts] at hm
    rw [← Option.some.inj hm, hraw] at hpct
    exact absurd hpct (by decide)
  have hbne : metric.comment ≠ "timestamp" := by
    intro h
    rw [h, hts] at hbase
    rw [← Option.some.inj hbase, hraw] at hbprop
    exact absurd hbprop (by decide)
  have hkb : metric.comment ≠ key := by
    intro h
    rw [h, hm] at hbase
    rw [← Option.some.inj hbase, hpct] at hbprop
    exact absurd hbprop (by decide)
  -- the processing order: the base in the first group, the metric in the second
  have hnodup := orderedKeys_nodup R cur (hkc ▸ huniq)
  have hmemb : metric.comment ∈
      ((R.rangeOrder 3 cur.metrics).filter (fun e => decide (e.2.comment = ""))).map Prod.fst :=
    List.mem_map.mpr ⟨(metric.comment, base), List.mem_filter.mpr
      ⟨(R.rangeOrder_perm 3 cur.metrics).mem_iff.mpr (mem_of_assocGet _ _ _ hbase),
        decide_eq_true hbc⟩, rfl⟩
  have hmemk : key ∈
      ((R.rangeOrder 4 cur.metrics).filter (fun e => decide (e.2.comment ≠ ""))).map Prod.fst :=
    List.mem_map.mpr ⟨(key, metric), List.mem_filter.mpr
      ⟨(R.rangeOrder_perm 4 cur.metrics).mem_iff.mpr (mem_of_assocGet _ _ _ hm),
        decide_eq_true hmc⟩, rfl⟩
  unfold orderedKeys at hnodup
  rw [List.nodup_append] at hnodup
  obtain ⟨hnd1, hnd2, hdisj⟩ := hnodup
  have hk1 : key ∉
      ((R.rangeOrder 3 cur.metrics).filter (fun e => decide (e.2.comment = ""))).map Prod.fst :=
    fun h => hdisj h hmemk
  have hb2 : metric.comment ∉
      ((R.rangeOrder 4 cur.metrics).filter (fun e => decide (e.2.comment ≠ ""))).map Prod.fst :=
    fun h => hdisj hmemb h
  -- the state after the delta of the timestamps
  have h0k : (cur.onMetric "timestamp" (fun m =>
      match m.Delta (me1.Matrix.GetMetric "timestamp") with
      | some delta => delta
      | none => m)).GetMetric key = some metric := by
    rw [Matrix.GetMetric_onMetric_ne _ _ _ _ hne, hm]
  have h0b : (cur.onMetric "timestamp" (fun m =>
      match m.Delta (me1.Matrix.GetMetric "timestamp") with
      | some delta => delta
      | none => m)).GetMetric metric.comment = some base := by
    rw [Matrix.GetMetric_onMetric_ne _ _ _ _ hbne, hbase]
  -- the first group reduces the base to its delta and leaves the metric alone
  have hg1b := foldl_cook_at me1 metric.comment (deltaRow base bprev)
    (fun nd => nd.GetMetric metric.comment = some base) _
    (fun nd a _ hak hP => (cookMetric_other _ _ _ _ (Ne.symm hak)).trans hP)
    (fun nd hP => cookMetric_delta me1 nd _ base bprev hP hbprop hbprevm)
    hnd1 hmemb _ h0b
  have hg1k := foldl_cook_other me1 key _ (cur.onMetric "timestamp" (fun m =>
      match m.Delta (me1.Matrix.GetMetric "timestamp") with
      | some delta => delta
      | none => m)) hk1
  rw [h0k] at hg1k
  -- the second group divides the delta of the metric by the delta of the base
  have hg2 := foldl_cook_at me1 key
    (percentRow metric prev (deltaRow base bprev) me1.latencyIoReqd)
    (fun nd => nd.GetMetric key = some metric ∧
      nd.GetMetric metric.comment = some (deltaRow base bprev)) _
    (fun nd a hal hak hP =>
      have hab : a ≠ metric.comment := fun h => hb2 (h ▸ hal)
      ⟨(cookMetric_other _ _ _ _ (Ne.symm hak)).trans hP.1,
        (cookMetric_other _ _ _ _ (Ne.symm hab)).trans hP.2⟩)
    (fun nd hP => cookMetric_percent me1 nd key metric prev _ hP.1 hpct hprev hP.2 hkb)
    hnd2 hmemk _ ⟨hg1k, hg1b⟩
  unfold postProcess
  simp only
  unfold orderedKeys
  rw [List.foldl_append]
  unfold Matrix.cell
  rw [hg2]
  rw [hlat]
  cases hname : strings.HasSuffix metric.name "_latency"
  · simp only [percentRow, deltaRow, Metric.MultiplyByScalar, Metric.Divide, hcv, hpv, hbcv, hbpv,
      hname, Bool.false_eq_true, if_false, false_and, or_false]
    by_cases hz : bc - bp = 0
    · simp [hz]
    · simp only [hz, if_false, Option.map_some', Option.some.injEq]
      field_simp
      ring
  · simp only [percentRow, deltaRow, Metric.MultiplyByScalar, Metric.DivideWithThreshold, hcv, hpv,
      hbcv, hbpv, hname, if_true, true_and]
    by_cases hz : bc - bp = 0 ∨ bc - bp < (me.latencyIoReqd : ℚ)
    · simp [hz]
    · have hz0 : bc - bp ≠ 0 := fun h => hz (Or.inl h)
      simp only [hz, if_false, Option.map_some', Option.some.injEq]
      field_simp
      ring

/-- Witness of C2: scenario 3 of the spec with a `delta` base, 100·(900−800)/(1100−1000). -/
theorem PollData_percent_cell_witness :
    ∃ me2 out, PollData Fixture.runtime (Fixture.percentCollector "delta") Fixture.percentScript =
        (me2, Ret.ok (some out) none) ∧
      out.cell "cache_hit" "vol1" =
        if (1100 : ℚ) - 1000 = 0 ∨
            (strings.HasSuffix "cache_hit" "_latency" = true ∧ (1100 : ℚ) - 1000 < ((10 : Int) : ℚ))
        then none
        else some (100 * (900 - 800) / (1100 - 1000)) := by
  obtain ⟨me2, out, h1, _, _, h4⟩ :=
    PollData_percent_cell Fixture.runtime (Fixture.percentCollector "delta") _ Fixture.percentScript
      _ _ _ "cache_hit" "vol1" _ _ _ 900 800 1100 1000 rfl (by decide) rfl rfl rfl rfl
      (by decide) rfl rfl rfl rfl rfl
      (by decide!) (by decide!) (by decide!) (by decide!)
  exact ⟨me2, out, h1, h4⟩

/-- For a query other than `workload_detail`, a `PollData` that leaves from inside its
batch loop (an error, or the resource-limit abort) hands back the collector with the
baseline matrix it had. -/
theorem PollData_abort_keeps_baseline (R : Runtime) (me me1 : ZapiPerf)
    (script : List BatchReply) (keys : List String) (ret : Ret Matrix)
    (sent : List (List String))
    (hq : isWorkloadDetail me.Query = false)
    (hloop : batchLoop R keys script me (me.Matrix.Clone false true true).Reset 0 0 [] =
      LoopEnd.exit me1 ret sent) :
    me1.Matrix = me.Matrix := by
  have inv := batchLoop_inv R keys script me (me.Matrix.Clone false true true).Reset 0 0 []
  rw [hloop] at inv
  obtain ⟨me2, nd2, hp, hcase⟩ := inv
  have h2 : me2 = me := hp.2.2.2.2 hq
  rcases hcase with h | ⟨_, h, _⟩
  · rw [h, h2]
  · rw [h, h2]

/-! ## `PollCounter`: which metric keys the matrix can hold -/

theorem find_setFirst_ne (name content other : String) (hne : other ≠ name) (cs : List Node) :
    (Node.setFirst name content cs).find? (fun c => decide (c.GetNameS = other)) =
      cs.find? (fun c => decide (c.GetNameS = other)) := by
  induction cs with
  | nil =>
    have : ¬ name = other := fun h => hne h.symm
    simp [Node.setFirst, Node.GetNameS, this]
  | cons c rest ih =>
    unfold Node.setFirst
    by_cases h : c.GetNameS = name
    · have h2 : ¬ c.GetNameS = other := fun h3 => hne (h3.symm.trans h)
      have e1 : (Node.mk c.GetNameS content c.GetChildren).GetNameS = c.GetNameS := rfl
      rw [if_pos h]
      simp only [List.find?_cons, e1, h2, decide_False]
    · simp only [h, if_false, List.find?_cons]
      rw [ih]

theorem GetChildContentS_SetChildContentS_ne (n : Node) (name content other : String)
    (hne : other ≠ name) :
    (n.SetChildContentS name content).GetChildContentS other = n.GetChildContentS other := by
  unfold Node.GetChildContentS Node.GetChildS Node.SetChildContentS
  simp only [Node.GetChildren]
  rw [find_setFirst_ne name content other hne]

theorem containsAux_append_cons (c : Char) (pre post : List Char) :
    strings.containsAux [c] (pre ++ c :: post) = true := by
  induction pre with
  | nil => simp [strings.containsAux, List.isPrefixOf]
  | cons a rest ih =>
    rw [List.cons_append]
    unfold strings.containsAux
    rw [ih, Bool.or_true]

theorem Contains_dot (name label : String) :
    strings.Contains (name ++ "." ++ label) "." = true := by
  unfold strings.Contains
  have h : (name ++ "." ++ label).data = name.data ++ '.' :: label.data := by
    simp [String.data_append]
  rw [h]
  exact containsAux_append_cons '.' name.data label.data

theorem mem_keys_onMetric (m : Matrix) (key : String) (f : Metric → Metric) (k : String) :
    k ∈ assocKeys (m.onMetric key f).metrics ↔ k ∈ assocKeys m.metrics := by
  rw [Matrix.keys_onMetric]

theorem mem_keys_upsertMetric (m : Matrix) (key : String) (f : Metric → Metric) (k : String)
    (hk : k ∈ assocKeys (upsertMetric m key f).metrics) : k ∈ assocKeys m.metrics ∨ k = key := by
  unfold upsertMetric at hk
  split at hk
  · rw [Matrix.keys_onMetric] at hk
    exact Or.inl hk
  · rename_i hnone
    simp only [Matrix.NewMetricFloat64, hnone] at hk
    rw [Matrix.keys_onMetric] at hk
    simp only [assocKeys, List.map_append, List.map_cons, List.map_nil, List.mem_append,
      List.mem_singleton] at hk
    exact hk

theorem mem_keys_addArrayMetrics (name display property baseCounter : String) (enabled : Bool)
    (baseLabels labels : List String) (m : Matrix) (k : String)
    (hk : k ∈ assocKeys
      (addArrayMetrics name display property baseCounter enabled baseLabels labels m).metrics) :
    k ∈ assocKeys m.metrics ∨ strings.Contains k "." = true := by
  induction labels generalizing m with
  | nil => exact Or.inl hk
  | cons label rest ih =>
    simp only [addArrayMetrics] at hk
    rcases ih _ hk with h | h
    · rcases mem_keys_upsertMetric _ _ _ _ h with h2 | h2
      · exact Or.inl h2
      · right
        rw [h2]
        exact Contains_dot name label
    · exact Or.inr h

/-- What `addCounter` does to the collector and what it returns. -/
theorem addCounter_effect (R : Runtime) (me : ZapiPerf) (counter : Node) (name display : String)
    (enabled : Bool) (cache : List (String × Node)) :
    (addCounter R me counter name display enabled cache).1.Query = me.Query ∧
    (addCounter R me counter name display enabled cache).1.Params = me.Params ∧
    (∀ k ∈ assocKeys (addCounter R me counter name display enabled cache).1.Matrix.metrics,
      k ∈ assocKeys me.Matrix.metrics ∨ k = name ∨ strings.Contains k "." = true) ∧
    ((addCounter R me counter name display enabled cache).2 = "" ∨
      (addCounter R me counter name display enabled cache).2 =
        counter.GetChildContentS "base-counter") := by
  unfold addCounter
  simp only
  generalize propertyOf (counter.GetChildContentS "properties") = property
  split
  · exact ⟨rfl, rfl, fun k hk => Or.inl hk, Or.inl rfl⟩
  · split
    · split
      · exact ⟨rfl, rfl, fun k hk => Or.inl hk, Or.inl rfl⟩
      · split
        · exact ⟨rfl, rfl, fun k hk => Or.inl hk, Or.inl rfl⟩
        · refine ⟨rfl, rfl, ?_, Or.inr rfl⟩
          intro k hk
          rcases mem_keys_addArrayMetrics _ _ _ _ _ _ _ _ _ hk with h | h
          · exact Or.inl h
          · exact Or.inr (Or.inr h)
    · refine ⟨rfl, rfl, ?_, Or.inr rfl⟩
      intro k hk
      rcases mem_keys_upsertMetric _ _ _ _ hk with h | h
      · exact Or.inl h
      · exact Or.inr (Or.inl h)

theorem mem_setDelete (s : List String) (k x : String) : x ∈ setDelete s k ↔ x ∈ s ∧ x ≠ k := by
  simp [setDelete]

theorem mem_setAdd (s : List String) (k x : String) : x ∈ setAdd s k ↔ x ∈ s ∨ x = k := by
  unfold setAdd
  split
  · rename_i h
    constructor
    · exact Or.inl
    · rintro (h1 | h1)
      · exact h1
      · rw [h1]; exact h
  · simp

theorem mem_assocModify {β : Type} (k : String) (f : β → β) (l : List (String × β))
    (e : String × β) (he : e ∈ assocModify k f l) : e ∈ l ∨ ∃ v, (k, v) ∈ l ∧ e = (k, f v) := by
  induction l with
  | nil => cases he
  | cons x rest ih =>
    obtain ⟨k1, v1⟩ := x
    unfold assocModify at he
    by_cases h : k1 = k
    · simp only [h, if_true, List.mem_cons] at he
      rcases he with h1 | h1
      · right
        exact ⟨v1, by rw [h]; exact List.mem_cons_self _ _, h1⟩
      · left
        exact List.mem_cons_of_mem _ h1
    · simp only [h, if_false, List.mem_cons] at he
      rcases he with h1 | h1
      · left
        rw [h1]; exact List.mem_cons_self _ _
      · rcases ih h1 with h2 | ⟨v, h2, h3⟩
        · exact Or.inl (List.mem_cons_of_mem _ h2)
        · exact Or.inr ⟨v, List.mem_cons_of_mem _ h2, h3⟩

theorem isReplacement_intro (wanted : List (String × String)) (catalog : List (String × Node))
    (name r : String) (c : Node) (hmem : (name, c) ∈ catalog) (hl : isListed wanted name = true)
    (hd : c.GetChildContentS "is-deprecated" = "true") (hr : c.GetChildContentS "replaced-by" = r) :
    isReplacement wanted catalog r = true := by
  unfold isReplacement
  rw [List.any_eq_true]
  exact ⟨(name, c), hmem, by simp [hl, hd, hr]⟩

theorem isRequiredBase_intro (wanted : List (String × String)) (catalog : List (String × Node))
    (name r : String) (c : Node) (hmem : (name, c) ∈ catalog)
    (hl : isListed wanted name = true ∨ isReplacement wanted catalog name = true)
    (hb : c.GetChildContentS "base-counter" = r) :
    isRequiredBase wanted catalog r = true := by
  unfold isRequiredBase
  rw [List.any_eq_true]
  refine ⟨(name, c), hmem, ?_⟩
  rcases hl with h | h <;> simp [h, hb]

theorem sameMeta_applyOverride (me : ZapiPerf) (key : String) (node c : Node)
    (h : sameMeta node c) : sameMeta (applyOverride me key node) c := by
  unfold applyOverride
  split
  · intro n hn
    rw [GetChildContentS_SetChildContentS_ne _ _ _ _ hn]
    exact h n hn
  · exact h

/-- Adding a counter keeps the invariant, when its name is of a known kind and the
new set of missing base counters is justified. -/
theorem CounterInv.add (R : Runtime) (me0 : ZapiPerf) (wanted : List (String × String))
    (catalog : List (String × Node)) (st : CounterState) (counter : Node) (name display : String)
    (enabled : Bool) (missing1 : List String)
    (hinv : CounterInv me0 wanted catalog st) (hname : keyKind wanted catalog name)
    (hmiss : ∀ r ∈ missing1, isRequiredBase wanted catalog r = true) :
    CounterInv me0 wanted catalog
      { st with
        oldMetrics := setDelete st.oldMetrics name
        me := (addCounter R st.me counter name display enabled st.counters).1
        missing := missing1 } := by
  obtain ⟨hq, hp, hkeys, hrep, _, hcat⟩ := hinv
  obtain ⟨aq, ap, akeys, _⟩ := addCounter_effect R st.me counter name display enabled st.counters
  refine ⟨aq.trans hq, ap.trans hp, ?_, hrep, hmiss, hcat⟩
  intro k hk
  rcases akeys k hk with h | h | h
  · rcases hkeys k h with h2 | h2
    · by_cases hkn : k = name
      · right; rw [hkn]; exact hname
      · left; exact (mem_setDelete _ _ _).mpr ⟨h2, hkn⟩
    · exact Or.inr h2
  · right; rw [h]; exact hname
  · exact Or.inr (Or.inr (Or.inr (Or.inr (Or.inr h))))

theorem noteMissing_inv (R : Runtime) (wanted : List (String × String))
    (catalog : List (String × Node)) (me : ZapiPerf) (counter c : Node) (name display : String)
    (enabled : Bool) (cache : List (String × Node)) (missing : List String)
    (hmem : (name, c) ∈ catalog) (hmeta : sameMeta counter c)
    (hl : isListed wanted name = true ∨ isReplacement wanted catalog name = true)
    (hmiss : ∀ r ∈ missing, isRequiredBase wanted catalog r = true) :
    ∀ r ∈ noteMissing wanted missing (addCounter R me counter name display enabled cache).2,
      isRequiredBase wanted catalog r = true := by
  intro r hr
  unfold noteMissing at hr
  split at hr
  · rename_i hc
    rcases (mem_setAdd _ _ _).mp hr with h | h
    · exact hmiss r h
    · obtain ⟨_, _, _, hret⟩ := addCounter_effect R me counter name display enabled cache
      rcases hret with h0 | h0
      · exact absurd h0 hc.1
      · refine isRequiredBase_intro wanted catalog name r c hmem hl ?_
        rw [h, h0]
        exact (hmeta "base-counter" (by decide)).symm
  · exact hmiss r hr

theorem noteReplaced_inv (me0 : ZapiPerf) (wanted : List (String × String))
    (catalog : List (String × Node)) (st : CounterState) (counter c : Node) (name : String)
    (hmem : (name, c) ∈ catalog) (hmeta : sameMeta counter c)
    (hl : isListed wanted name = true) (hinv : CounterInv me0 wanted catalog st) :
    CounterInv me0 wanted catalog (noteReplaced wanted st counter) := by
  unfold noteReplaced
  split
  · rename_i hdep
    obtain ⟨hq, hp, hkeys, hrep, hmiss, hcat⟩ := hinv
    refine ⟨hq, hp, hkeys, ?_, hmiss, hcat⟩
    intro r hr
    rcases (mem_setAdd _ _ _).mp hr with h | h
    · exact hrep r h
    · refine isReplacement_intro wanted catalog name r c hmem hl ?_ ?_
      · rw [← hmeta "is-deprecated" (by decide)]; exact hdep.1
      · rw [← hmeta "replaced-by" (by decide)]; exact h.symm
  · exact hinv

theorem addWanted_inv (R : Runtime) (me0 : ZapiPerf) (wanted : List (String × String))
    (catalog : List (String × Node)) (st : CounterState) (counter c : Node)
    (name display : String)
    (hmem : (name, c) ∈ catalog) (hmeta : sameMeta counter c)
    (hl : isListed wanted name = true) (hinv : CounterInv me0 wanted catalog st) :
    CounterInv me0 wanted catalog (addWanted R wanted st name display counter) := by
  have hinv2 := noteReplaced_inv me0 wanted catalog st counter c name hmem hmeta hl hinv
  unfold addWanted
  split
  · exact hinv
  · split
    · obtain ⟨hq, hp, hkeys, hrep, hmiss, hcat⟩ := hinv2
      exact ⟨hq, hp, hkeys, hrep, hmiss, hcat⟩
    · exact CounterInv.add R me0 wanted catalog _ counter name display true _ hinv2 (Or.inl hl)
        (noteMissing_inv R wanted catalog _ counter c name display true _ _ hmem hmeta
          (Or.inl hl) hinv2.2.2.2.2.1)

theorem firstPass_inv (R : Runtime) (me0 : ZapiPerf) (wanted : List (String × String))
    (catalog : List (String × Node)) (st : CounterState) (entry : String × Node)
    (hentry : fromCatalog catalog entry) (hinv : CounterInv me0 wanted catalog st) :
    CounterInv me0 wanted catalog (firstPass R wanted st entry) := by
  obtain ⟨c, hmem, hmeta0⟩ := hentry
  have hmeta := sameMeta_applyOverride st.me entry.1 entry.2 c hmeta0
  have hinv1 : CounterInv me0 wanted catalog
      { st with counters :=
          assocModify entry.1 (fun _ => applyOverride st.me entry.1 entry.2) st.counters } := by
    obtain ⟨hq, hp, hkeys, hrep, hmiss, hcat⟩ := hinv
    refine ⟨hq, hp, hkeys, hrep, hmiss, ?_⟩
    intro e he
    rcases mem_assocModify _ _ _ _ he with h | ⟨v, _, h⟩
    · exact hcat e h
    · rw [h]
      exact ⟨c, hmem, hmeta⟩
  unfold firstPass
  split
  · exact hinv1
  · rename_i display hw
    have hl : isListed wanted entry.1 = true := by
      unfold isListed
      rw [hw]; rfl
    exact addWanted_inv R me0 wanted catalog _ _ c entry.1 display hmem hmeta hl hinv1

theorem secondPass_inv (R : Runtime) (me0 : ZapiPerf) (wanted : List (String × String))
    (catalog : List (String × Node)) (st : CounterState) (entry : String × Node)
    (hentry : fromCatalog catalog entry) (hinv : CounterInv me0 wanted catalog st) :
    CounterInv me0 wanted catalog (secondPass R wanted st entry) := by
  obtain ⟨c, hmem, hmeta⟩ := hentry
  unfold secondPass
  split
  · rename_i hrep
    have hr : isReplacement wanted catalog entry.1 = true := hinv.2.2.2.1 _ hrep
    exact CounterInv.add R me0 wanted catalog st entry.2 entry.1 entry.1 true _ hinv
      (Or.inr (Or.inl hr))
      (noteMissing_inv R wanted catalog _ entry.2 c entry.1 entry.1 true _ _ hmem hmeta
        (Or.inr hr) hinv.2.2.2.2.1)
  · exact hinv

theorem thirdPass_inv (R : Runtime) (me0 : ZapiPerf) (wanted : List (String × String))
    (catalog : List (String × Node)) (st : CounterState) (entry : String × Node)
    (hinv : CounterInv me0 wanted catalog st) :
    CounterInv me0 wanted catalog (thirdPass R st entry) := by
  unfold thirdPass
  split
  · rename_i hmis
    have hr : isRequiredBase wanted catalog entry.1 = true := hinv.2.2.2.2.1 _ hmis
    exact CounterInv.add R me0 wanted catalog st entry.2 entry.1 "" false _ hinv
      (Or.inr (Or.inr (Or.inl hr))) hinv.2.2.2.2.1
  · exact hinv

theorem foldl_CounterInv (me0 : ZapiPerf) (wanted : List (String × String))
    (catalog : List (String × Node)) (f : CounterState → String × Node → CounterState)
    (hf : ∀ st e, fromCatalog catalog e → CounterInv me0 wanted catalog st →
      CounterInv me0 wanted catalog (f st e))
    (l : List (String × Node)) (hl : ∀ e ∈ l, fromCatalog catalog e) (st : CounterState)
    (hinv : CounterInv me0 wanted catalog st) : CounterInv me0 wanted catalog (l.foldl f st) := by
  induction l generalizing st with
  | nil => exact hinv
  | cons a rest ih =>
    exact ih (fun e he => hl e (List.mem_cons_of_mem _ he)) _
      (hf st a (hl a (List.mem_cons_self _ _)) hinv)

/-- After the three loops and the creation of `timestamp`, every metric key is still
in `oldMetrics` or of a known kind. -/
theorem syncCounters_inv (R : Runtime) (me : ZapiPerf) (wanted : List (String × String))
    (catalog : List (String × Node)) :
    CounterInv me wanted catalog (syncCounters R me wanted catalog) := by
  have h0 : CounterInv me wanted catalog
      { me := me, counters := catalog, oldMetrics := assocKeys me.Matrix.metrics,
        oldLabels := assocKeys me.instanceLabels, replaced := [], missing := [] } :=
    ⟨rfl, rfl, fun k hk => Or.inl hk, fun r hr => absurd hr (List.not_mem_nil _),
      fun r hr => absurd hr (List.not_mem_nil _), fun e he => ⟨e.2, he, fun _ _ => rfl⟩⟩
  have h1 := foldl_CounterInv me wanted catalog (firstPass R wanted)
    (firstPass_inv R me wanted catalog) (R.rangeOrder 5 catalog)
    (fun e he => ⟨e.2, (R.rangeOrder_perm 5 catalog).mem_iff.mp he, fun _ _ => rfl⟩) _ h0
  unfold syncCounters
  simp only
  generalize (R.rangeOrder 5 catalog).foldl (firstPass R wanted)
    { me := me, counters := catalog, oldMetrics := assocKeys me.Matrix.metrics,
      oldLabels := assocKeys me.instanceLabels, replaced := [], missing := [] } = st1 at h1 ⊢
  have h2 : CounterInv me wanted catalog
      (if st1.replaced.length > 0 then
        (R.rangeOrder 6 st1.counters).foldl (secondPass R wanted) st1
       else st1) := by
    split
    · exact foldl_CounterInv me wanted catalog (secondPass R wanted)
        (secondPass_inv R me wanted catalog) _
        (fun e he => h1.2.2.2.2.2 e ((R.rangeOrder_perm 6 st1.counters).mem_iff.mp he)) _ h1
    · exact h1
  generalize (if st1.replaced.length > 0 then
      (R.rangeOrder 6 st1.counters).foldl (secondPass R wanted) st1 else st1) = st2 at h2 ⊢
  have h3 : CounterInv me wanted catalog
      (if st2.missing.length > 0 then (R.rangeOrder 7 st2.counters).foldl (thirdPass R) st2
       else st2) := by
    split
    · exact foldl_CounterInv me wanted catalog (thirdPass R)
        (fun st e _ h => thirdPass_inv R me wanted catalog st e h) _
        (fun e he => h2.2.2.2.2.2 e ((R.rangeOrder_perm 7 st2.counters).mem_iff.mp he)) _ h2
    · exact h2
  generalize (if st2.missing.length > 0 then
      (R.rangeOrder 7 st2.counters).foldl (thirdPass R) st2 else st2) = st3 at h3 ⊢
  split
  · exact h3
  · split
    · rename_i m1 hnew
      obtain ⟨hq, hp, hkeys, hrep, hmiss, hcat⟩ := h3
      refine ⟨hq, hp, ?_, hrep, hmiss, hcat⟩
      intro k hk
      simp only at hk
      rw [Matrix.keys_onMetric] at hk
      unfold Matrix.NewMetricFloat64 at hnew
      split at hnew
      · cases hnew
      · have hm1 := Option.some.inj hnew
        rw [← hm1] at hk
        simp only [assocKeys, List.map_append, List.map_cons, List.map_nil, List.mem_append,
          List.mem_singleton] at hk
        rcases hk with h | h
        · exact hkeys k h
        · exact Or.inr (Or.inr (Or.inr (Or.inr (Or.inl h))))
    · exact h3

theorem mem_keys_assocErase {β : Type} (a k : String) (l : List (String × β)) :
    k ∈ assocKeys (assocErase a l) ↔ k ∈ assocKeys l ∧ k ≠ a := by
  unfold assocKeys assocErase
  simp only [List.mem_map, List.mem_filter, decide_eq_true_eq]
  constructor
  · rintro ⟨e, ⟨h1, h2⟩, h3⟩
    exact ⟨⟨e, h1, h3⟩, h3 ▸ h2⟩
  · rintro ⟨⟨e, h1, h3⟩, h2⟩
    exact ⟨e, ⟨h1, h3 ▸ h2⟩, h3⟩

/-- The removal loop at the end of `PollCounter`: a key that is left was there before,
and if it was in the list of old metrics it is `timestamp` or has a `.`. -/
theorem removeOld_keys (L : List String) (m : Matrix) (k : String)
    (hk : k ∈ assocKeys (L.foldl (fun m key =>
      if key ≠ "timestamp" ∧ strings.Contains key "." = false then m.RemoveMetric key else m)
      m).metrics) :
    k ∈ assocKeys m.metrics ∧ (k ∈ L → k = "timestamp" ∨ strings.Contains k "." = true) := by
  induction L generalizing m with
  | nil => exact ⟨hk, fun h => absurd h (List.not_mem_nil _)⟩
  | cons a rest ih =>
    simp only [List.foldl_cons] at hk
    obtain ⟨h1, h2⟩ := ih _ hk
    by_cases hc : a ≠ "timestamp" ∧ strings.Contains a "." = false
    · rw [if_pos hc] at h1
      obtain ⟨h3, h4⟩ := (mem_keys_assocErase a k m.metrics).mp h1
      refine ⟨h3, fun hmem => ?_⟩
      rcases List.mem_cons.mp hmem with h | h
      · exact absurd h h4
      · exact h2 h
    · rw [if_neg hc] at h1
      refine ⟨h1, fun hmem => ?_⟩
      rcases List.mem_cons.mp hmem with h | h
      · rw [h]
        by_cases ht : a = "timestamp"
        · exact Or.inl ht
        · right
          cases hd : strings.Contains a "."
          · exact absurd ⟨ht, hd⟩ hc
          · rfl
      · exact h2 h

theorem finishCounters_keys (R : Runtime) (st : CounterState) (k : String)
    (hk : k ∈ assocKeys (finishCounters R st).1.Matrix.metrics) :
    k ∈ assocKeys st.me.Matrix.metrics ∧
      (k ∈ st.oldMetrics → k = "timestamp" ∨ strings.Contains k "." = true) := by
  have hfst : (finishCounters R st).1.Matrix =
      (R.rangeOrder 8 st.oldMetrics).foldl (fun m key =>
        if key ≠ "timestamp" ∧ strings.Contains key "." = false then m.RemoveMetric key else m)
        st.me.Matrix := by
    unfold finishCounters
    simp only
    split <;> rfl
  rw [hfst] at hk
  obtain ⟨h1, h2⟩ := removeOld_keys _ _ k hk
  exact ⟨h1, fun hmem => h2 ((R.rangeOrder_perm 8 st.oldMetrics).mem_iff.mpr hmem)⟩

theorem detailPass_inl (st st2 : CounterState) (h : detailPass st = Sum.inl st2) :
    st2.me = st.me ∧
      ∀ k ∈ st.oldMetrics, k ∈ st2.oldMetrics ∨ k = "service_time" ∨ k = "wait_time" := by
  unfold detailPass at h
  split at h
  · cases h
  · split at h
    · cases h
    · split at h
      · cases h
      · split at h
        · have h2 := Sum.inl.inj h
          rw [← h2]
          refine ⟨rfl, fun k hk => ?_⟩
          simp only
          split
          · by_cases hks : k = "service_time"
            · exact Or.inr (Or.inl hks)
            · exact Or.inl ((mem_setDelete _ _ _).mpr ⟨hk, hks⟩)
          · by_cases hkw : k = "wait_time"
            · exact Or.inr (Or.inr hkw)
            · exact Or.inl ((mem_setDelete _ _ _).mpr ⟨hk, hkw⟩)
        · split at h <;> cases h

/-- The end of `PollCounter`: when it returns `(nil, nil)`, every metric key left is of
a known kind, or is `service_time` or `wait_time` for the query `workload_detail`. -/
theorem workloadPass_keys (R : Runtime) (me0 : ZapiPerf) (wanted : List (String × String))
    (catalog : List (String × Node)) (st : CounterState)
    (hinv : CounterInv me0 wanted catalog st)
    (hret : (workloadPass R st).2 = Ret.ok none none) :
    ∀ k ∈ assocKeys (workloadPass R st).1.Matrix.metrics,
      keyKind wanted catalog k ∨
        (me0.Query = "workload_detail" ∧ (k = "service_time" ∨ k = "wait_time")) := by
  obtain ⟨hq, _, hkeys, _, _, _⟩ := hinv
  have hfinish : ∀ st2 : CounterState, st2.me.Matrix = st.me.Matrix →
      (∀ k ∈ st.oldMetrics, k ∈ st2.oldMetrics ∨
        (me0.Query = "workload_detail" ∧ (k = "service_time" ∨ k = "wait_time"))) →
      ∀ k ∈ assocKeys (finishCounters R st2).1.Matrix.metrics,
        keyKind wanted catalog k ∨
          (me0.Query = "workload_detail" ∧ (k = "service_time" ∨ k = "wait_time")) := by
    intro st2 hm hold k hk
    obtain ⟨h1, h2⟩ := finishCounters_keys R st2 k hk
    rw [hm] at h1
    rcases hkeys k h1 with h | h
    · rcases hold k h with h3 | h3
      · rcases h2 h3 with h4 | h4
        · exact Or.inl (Or.inr (Or.inr (Or.inr (Or.inl h4))))
        · exact Or.inl (Or.inr (Or.inr (Or.inr (Or.inr h4))))
      · exact Or.inr h3
    · exact Or.inl h
  unfold workloadPass at hret ⊢
  split at hret
  · rw [if_pos (by assumption)]
    by_cases hd : st.me.Query = "workload_detail"
    · rw [if_pos hd] at hret ⊢
      cases hdp : detailPass st with
      | inr r =>
        rw [hdp] at hret
        simp only at hret ⊢
        intro k hk
        exfalso
        unfold detailPass at hdp
        split at hdp
        · rw [← Sum.inr.inj hdp] at hret; cases hret
        · split at hdp
          · rw [← Sum.inr.inj hdp] at hret; cases hret
          · split at hdp
            · rw [← Sum.inr.inj hdp] at hret; cases hret
            · split at hdp
              · cases hdp
              · split at hdp
                · rw [← Sum.inr.inj hdp] at hret; cases hret
                · rw [← Sum.inr.inj hdp] at hret; cases hret
      | inl st2 =>
        rw [hdp] at hret
        simp only at hret ⊢
        obtain ⟨hme, hold⟩ := detailPass_inl st st2 hdp
        split at hret
        · cases hret
        · rename_i qosLabels hqos
          apply hfinish
          · simp only [hme]
          · intro k hk
            rcases hold k hk with h | h
            · exact Or.inl h
            · exact Or.inr ⟨hq ▸ hd, h⟩
    · rw [if_neg hd] at hret ⊢
      simp only at hret ⊢
      split at hret
      · cases hret
      · rename_i qosLabels hqos
        apply hfinish
        · rfl
        · exact fun k hk => Or.inl hk
  · rw [if_neg (by assumption)]
    exact hfinish st rfl (fun k hk => Or.inl hk)

/-- C10, as the code has it.  After a `PollCounter` that returns `(nil, nil)`, from any
prior state of the collector, every metric key of the matrix is (a) a counter listed
in the template, (b) the `replaced-by` target of a listed deprecated counter, (c) the
base counter of a listed or replacing counter, (d) `timestamp`, or a key that holds a
`.` (`keyKind`); for the query `workload_detail` the keys `service_time` and
`wait_time` may stay as well. -/
theorem PollCounter_metric_keys (R : Runtime) (me : ZapiPerf) (reply : CounterReply)
    (counterList response elems : Node)
    (hlist : me.Params.GetChildS "counters" = some counterList)
    (hresp : reply.invoke = Except.ok response)
    (helems : response.GetChildS "counters" = some elems)
    (hret : (PollCounter R me reply).2 = Ret.ok none none) :
    ∀ key ∈ assocKeys (PollCounter R me reply).1.Matrix.metrics,
      keyKind (parseWanted me counterList) (indexCounters elems) key ∨
        (me.Query = "workload_detail" ∧ (key = "service_time" ∨ key = "wait_time")) := by
  have hbuild : reply.build = none := by
    cases hb : reply.build with
    | none => rfl
    | some err =>
      exfalso
      have hrun : PollCounter R me reply = (me, Ret.ok none (some err)) := by
        unfold PollCounter
        simp only [hlist, hb]
      rw [hrun] at hret
      cases hret
  have hlen : ¬ elems.GetChildren.length = 0 := by
    intro h0
    have hrun : PollCounter R me reply =
        (me, Ret.ok none (some (GoError.New "ERR_NO_METRIC" "no counters in response"))) := by
      unfold PollCounter
      simp only [hlist, hbuild, hresp, helems, h0, if_true]
    rw [hrun] at hret
    cases hret
  have hrun : PollCounter R me reply =
      workloadPass R (syncCounters R me (parseWanted me counterList) (indexCounters elems)) := by
    unfold PollCounter
    simp only [hlist, hbuild, hresp, helems, hlen, if_false]
  rw [hrun] at hret ⊢
  exact workloadPass_keys R me _ _ _ (syncCounters_inv R me _ _) hret

/-- C9. Scenario 4 of the spec: the catalog marks `old_metric` as deprecated with
`replaced-by` = `new_metric`, the template lists `old_metric` only.  `PollCounter`
returns `(nil, nil)` and the matrix holds `new_metric` and `old_metric` both: the
deprecated counter is added all the same. -/
theorem PollCounter_keeps_deprecated :
    (PollCounter Fixture.runtime Fixture.deprecatedCollector Fixture.deprecatedReply).2 =
        Ret.ok none none ∧
    assocKeys
      (PollCounter Fixture.runtime Fixture.deprecatedCollector Fixture.deprecatedReply).1.Matrix.metrics
        = ["old_metric", "new_metric", "timestamp"] := by
  constructor
  · rfl
  · decide

/-- Witness of C10: after `PollCounter` on scenario 4 the key `new_metric` is in the matrix
and is of a known kind (the replacement of `old_metric`). -/
theorem PollCounter_metric_keys_witness :
    "new_metric" ∈ assocKeys
        (PollCounter Fixture.runtime Fixture.deprecatedCollector Fixture.deprecatedReply).1.Matrix.metrics ∧
      (keyKind (parseWanted Fixture.deprecatedCollector (Fixture.counterList ["old_metric"]))
          (indexCounters Fixture.deprecatedCatalog) "new_metric" ∨
        (Fixture.deprecatedCollector.Query = "workload_detail" ∧
          ("new_metric" = "service_time" ∨ "new_metric" = "wait_time"))) :=
  ⟨by decide,
    PollCounter_metric_keys Fixture.runtime Fixture.deprecatedCollector Fixture.deprecatedReply
      (Fixture.counterList ["old_metric"]) _ Fixture.deprecatedCatalog rfl rfl rfl rfl
      "new_metric" (by decide)⟩

/-- C10 as stated fails: from a matrix that holds `old_hist.bucket1`, with a template and
a catalog that know `read_ops` only, `PollCounter` returns `(nil, nil)` and the key
`old_hist.bucket1` is still in the matrix, though it is neither listed, nor a
replacement, nor a required base counter, nor `timestamp`. -/
theorem PollCounter_keeps_unlisted_key :
    (PollCounter Fixture.runtime Fixture.staleCollector Fixture.staleReply).2 = Ret.ok none none ∧
    "old_hist.bucket1" ∈ assocKeys
      (PollCounter Fixture.runtime Fixture.staleCollector Fixture.staleReply).1.Matrix.metrics ∧
    isListed (parseWanted Fixture.staleCollector (Fixture.counterList ["read_ops"]))
      "old_hist.bucket1" = false ∧
    isReplacement (parseWanted Fixture.staleCollector (Fixture.counterList ["read_ops"]))
      (indexCounters Fixture.staleCatalog) "old_hist.bucket1" = false ∧
    isRequiredBase (parseWanted Fixture.staleCollector (Fixture.counterList ["read_ops"]))
      (indexCounters Fixture.staleCatalog) "old_hist.bucket1" = false ∧
    "old_hist.bucket1" ≠ "timestamp" := by
  refine ⟨rfl, ?_, ?_, ?_, ?_, ?_⟩ <;> decide

/-! ## The processing order of `PollData` -/

theorem zip_map_fst_snd {α β : Type} (l : List (α × β)) :
    (l.map Prod.fst).zip (l.map Prod.snd) = l := by
  induction l with
  | nil => rfl
  | cons e rest ih => simp [ih]

/-- The entries `(orderedKeys[i], orderedMetrics[i])`: the metrics without a base
counter as the first loop met them, then those with a base counter as the second
loop met them. -/
theorem orderedKeys_zip_orderedMetrics (R : Runtime) (nd : Matrix) :
    (orderedKeys R nd).zip (orderedMetrics R nd) =
      (R.rangeOrder 3 nd.metrics).filter (fun e => decide (e.2.comment = "")) ++
      (R.rangeOrder 4 nd.metrics).filter (fun e => decide (e.2.comment ≠ "")) := by
  unfold orderedKeys orderedMetrics
  rw [List.zip_append (by simp), zip_map_fst_snd, zip_map_fst_snd]

/-- C20. The processing order of `PollData`: `orderedKeys` and `orderedMetrics` have the
same length, the pairs `(orderedKeys[i], orderedMetrics[i])` are a permutation of the
entries of the metric map of `newData` (so `orderedKeys[i]` is the key of
`orderedMetrics[i]`), every key of the map occurs exactly once in `orderedKeys`, and
no metric with a base counter (non-empty comment) comes before a metric without
one. -/
theorem PollData_processing_order (R : Runtime) (newData : Matrix)
    (huniq : (assocKeys newData.metrics).Nodup) :
    (orderedKeys R newData).length = (orderedMetrics R newData).length ∧
    ((orderedKeys R newData).zip (orderedMetrics R newData)).Perm newData.metrics ∧
    (orderedKeys R newData).Perm (assocKeys newData.metrics) ∧
    (orderedKeys R newData).Nodup ∧
    (∀ i (hi : i < (orderedKeys R newData).length) (hj : i < (orderedMetrics R newData).length),
      newData.GetMetric ((orderedKeys R newData).get ⟨i, hi⟩) =
        some ((orderedMetrics R newData).get ⟨i, hj⟩)) ∧
    (orderedMetrics R newData).Pairwise (fun a b => b.comment = "" → a.comment = "") := by
  have hzip := orderedKeys_zip_orderedMetrics R newData
  have hlen : (orderedKeys R newData).length = (orderedMetrics R newData).length := by
    unfold orderedKeys orderedMetrics
    simp
  have hperm : ((orderedKeys R newData).zip (orderedMetrics R newData)).Perm newData.metrics := by
    rw [hzip]
    refine List.Perm.trans (List.Perm.append
      ((R.rangeOrder_perm 3 newData.metrics).filter _)
      ((R.rangeOrder_perm 4 newData.metrics).filter _)) ?_
    have h := List.filter_append_perm (fun e : String × Metric => decide (e.2.comment = ""))
      newData.metrics
    refine List.Perm.trans (List.Perm.append_left _ ?_) h
    apply List.Perm.of_eq
    apply List.filter_congr
    intro e _
    simp
  have hkeys : (orderedKeys R newData).Perm (assocKeys newData.metrics) := by
    have h := hperm.map Prod.fst
    rw [List.map_fst_zip _ _ (le_of_eq hlen)] at h
    exact h
  refine ⟨hlen, hperm, hkeys, hkeys.nodup_iff.mpr huniq, ?_, ?_⟩
  · intro i hi hj
    have hmem : ((orderedKeys R newData).get ⟨i, hi⟩, (orderedMetrics R newData).get ⟨i, hj⟩) ∈
        newData.metrics := by
      apply hperm.mem_iff.mp
      rw [List.mem_iff_get]
      refine ⟨⟨i, by simp [List.length_zip, hlen]; omega⟩, ?_⟩
      simp
    exact assocGet_of_mem_nodup _ huniq _ hmem
  · unfold orderedMetrics
    rw [List.pairwise_append]
    refine ⟨?_, ?_, ?_⟩
    · apply List.pairwise_of_forall_mem_list
      intro a ha b _ _
      simp only [List.mem_map, List.mem_filter, decide_eq_true_eq] at ha
      obtain ⟨e, ⟨_, he⟩, rfl⟩ := ha
      exact he
    · apply List.pairwise_of_forall_mem_list
      intro a _ b hb hbc
      simp only [List.mem_map, List.mem_filter, decide_eq_true_eq] at hb
      obtain ⟨e, ⟨_, he⟩, rfl⟩ := hb
      exact absurd hbc he
    · intro a ha b _ _
      simp only [List.mem_map, List.mem_filter, decide_eq_true_eq] at ha
      obtain ⟨e, ⟨_, he⟩, rfl⟩ := ha
      exact he

/-- Witness of C20: the order for scenario 3 of the spec, `cache_hit` (base
`cache_total`) comes last. -/
theorem PollData_processing_order_witness :
    orderedKeys Fixture.runtime (Fixture.percentCollector "delta").Matrix =
      ["cache_total", "timestamp", "cache_hit"] ∧
    (orderedKeys Fixture.runtime (Fixture.percentCollector "delta").Matrix).Nodup :=
  ⟨by decide,
    (PollData_processing_order Fixture.runtime (Fixture.percentCollector "delta").Matrix
      (by decide)).2.2.2.1⟩

/-! ## `PollCounter`: the end of the function -/

/-- C12. From a matrix without metrics, with a template that lists `read_ops`:
when the catalog holds `write_ops` only (no counter is requested), and when it holds
`read_ops` only, deprecated without replacement (every requested counter is
skipped), `PollCounter` returns `(nil, nil)`, no error, and the matrix holds the
metric `timestamp` alone. -/
theorem PollCounter_no_recognized_counter :
    (PollCounter Fixture.runtime Fixture.unknownCollector Fixture.unknownReply).2 =
        Ret.ok none none ∧
    assocKeys
      (PollCounter Fixture.runtime Fixture.unknownCollector Fixture.unknownReply).1.Matrix.metrics
        = ["timestamp"] ∧
    (PollCounter Fixture.runtime Fixture.unknownCollector Fixture.skippedReply).2 =
        Ret.ok none none ∧
    assocKeys
      (PollCounter Fixture.runtime Fixture.unknownCollector Fixture.skippedReply).1.Matrix.metrics
        = ["timestamp"] := by
  refine ⟨rfl, ?_, rfl, ?_⟩ <;> decide

/-- The first half of C12: a response without counter elements is an error of the kind
`ERR_NO_METRIC`. -/
theorem PollCounter_empty_catalog (R : Runtime) (me : ZapiPerf) (reply : CounterReply)
    (counterList response : Node)
    (hlist : me.Params.GetChildS "counters" = some counterList)
    (hbuild : reply.build = none)
    (hresp : reply.invoke = Except.ok response)
    (hnone : ∀ elems, response.GetChildS "counters" = some elems → elems.GetChildren.length = 0) :
    PollCounter R me reply =
      (me, Ret.ok none (some (GoError.New "ERR_NO_METRIC" "no counters in response"))) := by
  unfold PollCounter
  simp only [hlist, hbuild, hresp]
  cases he : response.GetChildS "counters" with
  | none => rfl
  | some elems => simp only [hnone elems he, if_true]

/-! ## `PollInstance` and the QoS labels -/

/-- C14. A `workload` collector with the QoS label `policy-group` (shown as
`policy_group`) and no instance: the controller reports the workload `w1` with
`policy-group` = `pg1`.  `PollInstance` returns `(nil, nil)` and has created
the instance `w1`, without any label. -/
theorem PollInstance_new_instance_has_no_label :
    Fixture.workloadCollector.Query = "workload" ∧
    Fixture.workloadCollector.qosLabels = [("policy-group", "policy_group")] ∧
    (Fixture.workloadCollector.Matrix.GetInstance "w1").isNone = true ∧
    (PollInstance Fixture.runtime Fixture.workloadCollector true Fixture.workloadPages).2 =
      Ret.ok none none ∧
    ((PollInstance Fixture.runtime Fixture.workloadCollector true
      Fixture.workloadPages).1.Matrix.GetInstance "w1").map Instance.labels = some [] := by
  refine ⟨rfl, rfl, ?_, rfl, ?_⟩ <;> decide

/-! ## The Shelf plugin -/

/-- C17. Two shelves, `s1` and `s2`, each with one power supply `1`.  `Shelf.Run`
returns two matrices for the sub-object `psus` (the same matrix, appended once per
shelf), and its only instance is `s2.1`: the instance `s1.1` of the first shelf is
gone.  With the first shelf alone the instance `s1.1` is there. -/
theorem Shelf_Run_keeps_last_shelf_only :
    (Shelf.returned (Shelf.Run Fixture.runtime Fixture.shelfPlugin Fixture.shelfParent
        (Fixture.shelfReply [Fixture.shelfInfo "A" "s1" "120 W",
          Fixture.shelfInfo "B" "s2" "130 W"]))).map (fun m => assocKeys m.instances) =
      [["s2.1"], ["s2.1"]] ∧
    (Shelf.returned (Shelf.Run Fixture.runtime Fixture.shelfPlugin Fixture.shelfParent
        (Fixture.shelfReply [Fixture.shelfInfo "A" "s1" "120 W"]))).map
          (fun m => assocKeys m.instances) =
      [["s1.1"]] := by
  constructor <;> decide

/-! ## `PollCounter` for `workload_detail` -/

/-- C19. Query `workload_detail`, a template with `resource_map` (one entry, `cpu`) and
`qos_labels` that lists `service_time`, and a catalog that holds `service_time` as a
numeric counter.  From a matrix without metrics `PollCounter` fails with
`MISSING_PARAM`, though `service_time` is then a metric of the matrix, and no
metric `cpu` is made; from a matrix that holds `service_time` already it fails the
same way.  When the catalog does not hold `service_time` and the matrix does, the
loop over `resource_map` is reached and panics on the `nil` base metric. -/
theorem PollCounter_detail_fails :
    (PollCounter Fixture.runtime Fixture.detailCounterCollector Fixture.detailCatalogReply).2 =
      Ret.ok none (some (GoError.New "MISSING_PARAM" "counter service_time or wait_time")) ∧
    assocKeys (PollCounter Fixture.runtime Fixture.detailCounterCollector
      Fixture.detailCatalogReply).1.Matrix.metrics = ["service_time", "timestamp"] ∧
    (PollCounter Fixture.runtime Fixture.detailStaleCollector Fixture.detailCatalogReply).2 =
      Ret.ok none (some (GoError.New "MISSING_PARAM" "counter service_time or wait_time")) ∧
    (PollCounter Fixture.runtime Fixture.detailStaleCollector Fixture.opsReply).2 =
      Ret.panic "nil pointer dereference: base.GetProperty()" := by
  refine ⟨rfl, ?_, rfl, rfl⟩
  decide

/-! ## `PollInstance`: the instances of the matrix -/

theorem sameButInstances_refl (a : ZapiPerf) : sameButInstances a a := ⟨a.Matrix.instances, rfl⟩

theorem sameButInstances_trans {a b c : ZapiPerf} (h1 : sameButInstances a b)
    (h2 : sameButInstances b c) : sameButInstances a c := by
  obtain ⟨is1, rfl⟩ := h1
  obtain ⟨is2, rfl⟩ := h2
  exact ⟨is2, rfl⟩

theorem mem_keys_NewInstance (m m1 : Matrix) (key k : String) (h : m.NewInstance key = some m1) :
    k ∈ assocKeys m1.instances ↔ k ∈ assocKeys m.instances ∨ k = key := by
  unfold Matrix.NewInstance at h
  split at h
  · cases h
  · cases h
    simp [assocKeys]

theorem NewInstance_isNone_iff (m : Matrix) (key : String) :
    m.NewInstance key = none ↔ key ∈ assocKeys m.instances := by
  have h := assocGet_isSome_iff key m.instances
  unfold Matrix.NewInstance Matrix.GetInstance
  cases hg : assocGet key m.instances with
  | none =>
    rw [hg] at h
    simp only [Option.isSome_none, Bool.false_eq_true, false_iff] at h
    simp [h]
  | some v =>
    rw [hg] at h
    simp only [Option.isSome_some, true_iff] at h
    simp [h]

/-- One element of a page: unless the call panics, a key that is reported becomes (or
stays) an instance that is not in `oldInstances`, and nothing else changes. -/
theorem addInstance_spec (me : ZapiPerf) (old : List String) (i : Node)
    (hsub : ∀ k ∈ old, k ∈ assocKeys me.Matrix.instances)
    (hsafe : (me.Query = "workload" ∨ me.Query = "workload_volume") →
      ∀ k ∈ elementKeys me.instanceKey [i], ¬ (k ∈ assocKeys me.Matrix.instances ∧ k ∉ old)) :
    ∃ me1 old1, addInstance me old i = Sum.inl (me1, old1) ∧ sameButInstances me me1 ∧
      (∀ k ∈ old1, k ∈ assocKeys me1.Matrix.instances) ∧
      ∀ k, (k ∈ assocKeys me1.Matrix.instances ∧ k ∉ old1) ↔
        ((k ∈ assocKeys me.Matrix.instances ∧ k ∉ old) ∨ k ∈ elementKeys me.instanceKey [i]) := by
  unfold addInstance
  by_cases hkey : i.GetChildContentS me.instanceKey = ""
  · rw [if_pos hkey]
    refine ⟨me, old, rfl, sameButInstances_refl me, hsub, fun k => ?_⟩
    simp [elementKeys, hkey]
  · rw [if_neg hkey]
    have hrep : ∀ k, k ∈ elementKeys me.instanceKey [i] ↔ k = i.GetChildContentS me.instanceKey := by
      intro k
      simp only [elementKeys, List.map_cons, List.map_nil]
      rw [List.filter_cons_of_pos (by simpa using hkey)]
      simp
    by_cases hold : i.GetChildContentS me.instanceKey ∈ old
    · rw [if_pos hold]
      refine ⟨me, _, rfl, sameButInstances_refl me, ?_, fun k => ?_⟩
      · intro k hk
        exact hsub k ((mem_setDelete _ _ _).mp hk).1
      · rw [hrep, mem_setDelete]
        constructor
        · rintro ⟨h1, h2⟩
          by_cases hk : k = i.GetChildContentS me.instanceKey
          · exact Or.inr hk
          · exact Or.inl ⟨h1, fun h3 => h2 ⟨h3, hk⟩⟩
        · rintro (⟨h1, h2⟩ | h)
          · exact ⟨h1, fun h3 => h2 h3.1⟩
          · subst h
            exact ⟨hsub _ hold, fun h3 => h3.2 rfl⟩
    · rw [if_neg hold]
      cases hnew : me.Matrix.NewInstance (i.GetChildContentS me.instanceKey) with
      | none =>
        have hin := (NewInstance_isNone_iff _ _).mp hnew
        have hstay : ∀ k, (k ∈ assocKeys me.Matrix.instances ∧ k ∉ old) ↔
            ((k ∈ assocKeys me.Matrix.instances ∧ k ∉ old) ∨
              k ∈ elementKeys me.instanceKey [i]) := by
          intro k
          rw [hrep]
          constructor
          · exact Or.inl
          · rintro (h | h)
            · exact h
            · subst h
              exact ⟨hin, hold⟩
        simp only
        by_cases hq : me.Query = "workload" ∨ me.Query = "workload_volume"
        · exact absurd ⟨hin, hold⟩ (hsafe hq _ ((hrep _).mpr rfl))
        · rw [if_neg hq]
          exact ⟨me, old, rfl, sameButInstances_refl me, hsub, hstay⟩
      | some m1 =>
        simp only
        refine ⟨_, old, rfl, ⟨m1.instances, ?_⟩, ?_, fun k => ?_⟩
        · unfold Matrix.NewInstance at hnew
          split at hnew
          · cases hnew
          · cases hnew
            rfl
        · intro k hk
          exact (mem_keys_NewInstance _ _ _ _ hnew).mpr (Or.inl (hsub k hk))
        · rw [hrep]
          simp only
          rw [mem_keys_NewInstance _ _ _ _ hnew]
          constructor
          · rintro ⟨h1 | h1, h2⟩
            · exact Or.inl ⟨h1, h2⟩
            · exact Or.inr h1
          · rintro (⟨h1, h2⟩ | h)
            · exact ⟨Or.inl h1, h2⟩
            · subst h
              exact ⟨Or.inr rfl, hold⟩

theorem elementKeys_cons (instanceKey : String) (i : Node) (rest : List Node) :
    elementKeys instanceKey (i :: rest) =
      elementKeys instanceKey [i] ++ elementKeys instanceKey rest := by
  unfold elementKeys
  rw [← List.filter_append, ← List.map_append]
  rfl

theorem elementKeys_append (instanceKey : String) (a b : List Node) :
    elementKeys instanceKey (a ++ b) = elementKeys instanceKey a ++ elementKeys instanceKey b := by
  unfold elementKeys
  rw [List.map_append, List.filter_append]

theorem sameButInstances_instanceKey_eq {a b : ZapiPerf} (h : sameButInstances a b) :
    b.instanceKey = a.instanceKey := by
  obtain ⟨is, rfl⟩ := h
  rfl

theorem sameButInstances_query_eq {a b : ZapiPerf} (h : sameButInstances a b) :
    b.Query = a.Query := by
  obtain ⟨is, rfl⟩ := h
  rfl

/-- What is known of the reported keys when they are processed from the state
`(me, old)`: for the workload queries no key is reported twice, and none is
an instance already out of `oldInstances`. -/
theorem safe_step (me me1 : ZapiPerf) (old old1 : List String) (a b : List String)
    (hq : me1.Query = me.Query)
    (hsafe : (me.Query = "workload" ∨ me.Query = "workload_volume") →
      (a ++ b).Nodup ∧ ∀ k ∈ a ++ b, ¬ (k ∈ assocKeys me.Matrix.instances ∧ k ∉ old))
    (hstep : ∀ k, (k ∈ assocKeys me1.Matrix.instances ∧ k ∉ old1) ↔
      ((k ∈ assocKeys me.Matrix.instances ∧ k ∉ old) ∨ k ∈ a)) :
    (me1.Query = "workload" ∨ me1.Query = "workload_volume") →
      b.Nodup ∧ ∀ k ∈ b, ¬ (k ∈ assocKeys me1.Matrix.instances ∧ k ∉ old1) := by
  intro hq1
  rw [hq] at hq1
  obtain ⟨hnd, hfree⟩ := hsafe hq1
  rw [List.nodup_append] at hnd
  refine ⟨hnd.2.1, fun k hk h => ?_⟩
  rcases (hstep k).mp h with h2 | h2
  · exact hfree k (List.mem_append_right _ hk) h2
  · exact hnd.2.2 h2 hk

/-- The elements of a page, in order: when no key is reported twice (needed for the
workload queries only), the call does not panic and the reported keys are
the instances added to those that are not in `oldInstances`. -/
theorem addInstances_spec (elements : List Node) :
    ∀ (me : ZapiPerf) (old : List String),
      (∀ k ∈ old, k ∈ assocKeys me.Matrix.instances) →
      ((me.Query = "workload" ∨ me.Query = "workload_volume") →
        (elementKeys me.instanceKey elements).Nodup ∧
        ∀ k ∈ elementKeys me.instanceKey elements,
          ¬ (k ∈ assocKeys me.Matrix.instances ∧ k ∉ old)) →
      ∃ me1 old1, addInstances elements me old = Sum.inl (me1, old1) ∧ sameButInstances me me1 ∧
        (∀ k ∈ old1, k ∈ assocKeys me1.Matrix.instances) ∧
        ∀ k, (k ∈ assocKeys me1.Matrix.instances ∧ k ∉ old1) ↔
          ((k ∈ assocKeys me.Matrix.instances ∧ k ∉ old) ∨
            k ∈ elementKeys me.instanceKey elements) := by
  induction elements with
  | nil =>
    intro me old hsub _
    refine ⟨me, old, rfl, sameButInstances_refl me, hsub, fun k => ?_⟩
    simp [elementKeys]
  | cons i rest ih =>
    intro me old hsub hsafe
    rw [elementKeys_cons] at hsafe
    obtain ⟨me1, old1, hrun1, hsame1, hsub1, hkeys1⟩ := addInstance_spec me old i hsub
      (fun hq k hk => (hsafe hq).2 k (List.mem_append_left _ hk))
    have hsafe2 := safe_step me me1 old old1 _ _ (sameButInstances_query_eq hsame1) hsafe hkeys1
    rw [← sameButInstances_instanceKey_eq hsame1] at hsafe2
    obtain ⟨me2, old2, hrun2, hsame2, hsub2, hkeys2⟩ := ih me1 old1 hsub1 hsafe2
    refine ⟨me2, old2, ?_, sameButInstances_trans hsame1 hsame2, hsub2, fun k => ?_⟩
    · unfold addInstances
      rw [hrun1]
      exact hrun2
    · rw [hkeys2, hkeys1, sameButInstances_instanceKey_eq hsame1, elementKeys_cons me.instanceKey i rest,
        List.mem_append, or_assoc]

theorem mem_keys_removeInstances (L : List String) :
    ∀ (m : Matrix) (k : String),
      k ∈ assocKeys (L.foldl (fun m key => m.RemoveInstance key) m).instances ↔
        k ∈ assocKeys m.instances ∧ k ∉ L := by
  induction L with
  | nil => intro m k; simp
  | cons a rest ih =>
    intro m k
    rw [List.foldl_cons, ih]
    unfold Matrix.RemoveInstance
    simp only
    rw [mem_keys_assocErase, List.mem_cons]
    constructor
    · rintro ⟨⟨h1, h2⟩, h3⟩
      exact ⟨h1, fun h => h.elim h2 h3⟩
    · rintro ⟨h1, h2⟩
      exact ⟨⟨h1, fun h => h2 (Or.inl h)⟩, fun h => h2 (Or.inr h)⟩

/-- The end of `PollInstance`: it returns `(nil, err)`, and the instances left are those
that were not in `oldInstances`. -/
theorem finishInstances_spec (R : Runtime) (me : ZapiPerf) (old : List String)
    (err : Option GoError) :
    (∃ err1, (finishInstances R me old err).2 = Ret.ok none err1) ∧
    ∀ k, k ∈ assocKeys (finishInstances R me old err).1.Matrix.instances ↔
      (k ∈ assocKeys me.Matrix.instances ∧ k ∉ old) := by
  have hmat : (finishInstances R me old err).1.Matrix =
      (R.rangeOrder 11 old).foldl (fun m key => m.RemoveInstance key) me.Matrix := by
    unfold finishInstances
    simp only
    split <;> rfl
  constructor
  · unfold finishInstances
    simp only
    split
    · exact ⟨_, rfl⟩
    · exact ⟨_, rfl⟩
  · intro k
    rw [hmat, mem_keys_removeInstances, (R.rangeOrder_perm 11 old).mem_iff]

theorem pageElements_of_ne_nil (attr : String) (p : Node) (h : (pageElements attr p).length ≠ 0) :
    ∃ instances, p.GetChildS attr = some instances ∧ ¬ instances.GetChildren.length = 0 ∧
      pageElements attr p = instances.GetChildren := by
  unfold pageElements at h ⊢
  cases hc : p.GetChildS attr with
  | none => rw [hc] at h; exact absurd rfl h
  | some instances =>
    rw [hc] at h
    exact ⟨instances, rfl, h, rfl⟩

/-- The loop over the pages, from any state in which `oldInstances` holds instances of
the matrix only. -/
theorem pageLoop_spec (R : Runtime) (attr : String) (last : Except GoError (Option Node))
    (rest : List (Except GoError (Option Node))) (hlast : endsPages attr last)
    (pages : List Node) :
    ∀ (me : ZapiPerf) (old : List String),
      (∀ k ∈ old, k ∈ assocKeys me.Matrix.instances) →
      ((me.Query = "workload" ∨ me.Query = "workload_volume") →
        (reportedKeys me.instanceKey attr pages).Nodup ∧
        ∀ k ∈ reportedKeys me.instanceKey attr pages,
          ¬ (k ∈ assocKeys me.Matrix.instances ∧ k ∉ old)) →
      (∀ p ∈ pages, (pageElements attr p).length ≠ 0) →
      (∃ err, (pageLoop R attr (pages.map (fun p => Except.ok (some p)) ++ last :: rest)
        me old).2 = Ret.ok none err) ∧
      ∀ k, k ∈ assocKeys (pageLoop R attr (pages.map (fun p => Except.ok (some p)) ++ last :: rest)
          me old).1.Matrix.instances ↔
        ((k ∈ assocKeys me.Matrix.instances ∧ k ∉ old) ∨
          k ∈ reportedKeys me.instanceKey attr pages) := by
  induction pages with
  | nil =>
    intro me old _ _ _
    have hrun : ∃ err, pageLoop R attr ([].map (fun p => Except.ok (some p)) ++ last :: rest)
        me old = finishInstances R me old err := by
      simp only [List.map_nil, List.nil_append]
      cases last with
      | error err => exact ⟨some err, by simp only [pageLoop]⟩
      | ok results =>
        cases results with
        | none => exact ⟨none, by simp only [pageLoop]⟩
        | some results =>
          refine ⟨none, ?_⟩
          simp only [pageLoop]
          simp only [endsPages, pageElements] at hlast
          cases hc : results.GetChildS attr with
          | none => rfl
          | some instances =>
            rw [hc] at hlast
            simp only at hlast ⊢
            rw [if_pos hlast]
    obtain ⟨err, hrun⟩ := hrun
    rw [hrun]
    obtain ⟨h1, h2⟩ := finishInstances_spec R me old err
    refine ⟨h1, fun k => ?_⟩
    rw [h2]
    simp [reportedKeys, elementKeys]
  | cons p pages ih =>
    intro me old hsub hsafe hpages
    obtain ⟨instances, hc, hlen, hel⟩ :=
      pageElements_of_ne_nil attr p (hpages p (List.mem_cons_self _ _))
    have hrep : reportedKeys me.instanceKey attr (p :: pages) =
        elementKeys me.instanceKey instances.GetChildren ++
          reportedKeys me.instanceKey attr pages := by
      unfold reportedKeys
      rw [List.map_cons, List.flatten_cons, elementKeys_append, hel]
    rw [hrep] at hsafe
    obtain ⟨me1, old1, hrun1, hsame1, hsub1, hkeys1⟩ :=
      addInstances_spec instances.GetChildren me old hsub
        (fun hq => ⟨(List.nodup_append.mp (hsafe hq).1).1,
          fun k hk => (hsafe hq).2 k (List.mem_append_left _ hk)⟩)
    have hsafe2 := safe_step me me1 old old1 _ _ (sameButInstances_query_eq hsame1) hsafe hkeys1
    rw [← sameButInstances_instanceKey_eq hsame1] at hsafe2
    obtain ⟨h1, h2⟩ := ih me1 old1 hsub1 hsafe2
      (fun q hq => hpages q (List.mem_cons_of_mem _ hq))
    have hrun : pageLoop R attr
        ((p :: pages).map (fun p => Except.ok (some p)) ++ last :: rest) me old =
        pageLoop R attr (pages.map (fun p => Except.ok (some p)) ++ last :: rest) me1 old1 := by
      simp only [List.map_cons, List.cons_append, pageLoop, hc, hlen, if_false, hrun1]
      rfl
    rw [hrun]
    refine ⟨h1, fun k => ?_⟩
    rw [h2, hkeys1, hrep, sameButInstances_instanceKey_eq hsame1, List.mem_append, or_assoc]

/-- C13. The controller answers the instance query with the pages `pages`, each with at
least one element, and then ends the query (no results, results
without instances, or an error).  Then `PollInstance` returns `(nil, err)`, and the instance
keys of the matrix are exactly the key values reported over all the pages: every
reported key is an instance, an instance of before that is not reported is
removed, and there is no other instance.  For the queries `workload` and
`workload_volume` this is shown when no key is reported twice. -/
theorem PollInstance_instance_set (R : Runtime) (me : ZapiPerf) (clustered : Bool)
    (pages : List Node) (last : Except GoError (Option Node))
    (rest : List (Except GoError (Option Node)))
    (hpages : ∀ p ∈ pages, (pageElements (instancesAttr me.Query clustered) p).length ≠ 0)
    (hlast : endsPages (instancesAttr me.Query clustered) last)
    (hsafe : (me.Query = "workload" ∨ me.Query = "workload_volume") →
      (reportedKeys me.instanceKey (instancesAttr me.Query clustered) pages).Nodup) :
    (∃ err, (PollInstance R me clustered
      (pages.map (fun p => Except.ok (some p)) ++ last :: rest)).2 = Ret.ok none err) ∧
    ∀ k, k ∈ assocKeys (PollInstance R me clustered
        (pages.map (fun p => Except.ok (some p)) ++ last :: rest)).1.Matrix.instances ↔
      k ∈ reportedKeys me.instanceKey (instancesAttr me.Query clustered) pages := by
  unfold PollInstance
  obtain ⟨h1, h2⟩ := pageLoop_spec R (instancesAttr me.Query clustered) last rest hlast pages me
    (assocKeys me.Matrix.instances) (fun _ h => h)
    (fun hq => ⟨hsafe hq, fun k _ h => h.2 h.1⟩) hpages
  refine ⟨h1, fun k => ?_⟩
  rw [h2]
  constructor
  · rintro (⟨h3, h4⟩ | h)
    · exact absurd h3 h4
    · exact h
  · exact Or.inr

/-! ## Array counters in `PollData` -/

theorem key_inj (name l l2 : String) (h : name ++ "." ++ l = name ++ "." ++ l2) : l = l2 := by
  have h1 := congrArg String.data h
  simp only [String.data_append, List.append_assoc] at h1
  exact String.ext (List.append_cancel_left (List.append_cancel_left h1))

theorem Matrix.cell_onMetric_ne (m : Matrix) (k k2 i : String) (f : Metric → Metric)
    (hne : k2 ≠ k) : (m.onMetric k f).cell k2 i = m.cell k2 i := by
  unfold Matrix.cell
  rw [Matrix.GetMetric_onMetric_ne _ _ _ _ hne]

theorem Matrix.cell_SetValueString (R : Runtime) (m : Matrix) (k i s : String)
    (hsome : (m.GetMetric k).isSome = true) :
    (m.onMetric k (fun x => x.SetValueString R i s)).cell k i =
      match R.ParseFloat s with
      | some v => some v
      | none => m.cell k i := by
  unfold Matrix.cell
  rw [Matrix.GetMetric_onMetric_self]
  cases hm : m.GetMetric k with
  | none => rw [hm] at hsome; cases hsome
  | some x =>
    simp only [Option.map_some']
    unfold Metric.SetValueString
    cases hp : R.ParseFloat s with
    | none => rfl
    | some v => simp [Metric.SetValueFloat64]

theorem isSome_onMetric (m : Matrix) (k k2 : String) (f : Metric → Metric) :
    ((m.onMetric k f).GetMetric k2).isSome = (m.GetMetric k2).isSome :=
  GetMetric_isSome_of_keys _ _ (Matrix.keys_onMetric m k f) k2

/-- The values of an array counter leave the cells of the other metrics as they are. -/
theorem storeHistogram_cell_other (R : Runtime) (name key k i : String) :
    ∀ (labels values : List String) (nd : Matrix), (∀ l ∈ labels, name ++ "." ++ l ≠ k) →
      (storeHistogram R name key labels values nd).cell k i = nd.cell k i := by
  intro labels
  induction labels with
  | nil => intro values nd _; rfl
  | cons l ls ih =>
    intro values nd hne
    cases values with
    | nil => rfl
    | cons v vs =>
      simp only [storeHistogram]
      rw [ih vs _ (fun l2 h2 => hne l2 (List.mem_cons_of_mem _ h2))]
      split
      · exact Matrix.cell_onMetric_ne _ _ _ _ _ (fun h => hne l (List.mem_cons_self _ _) h.symm)
      · rfl

/-- The values of an array counter, one per label: the cell of the metric of label
number `i` gets the number parsed from token number `i`, and stays as it was
when the token is no number. -/
theorem storeHistogram_cell (R : Runtime) (name key : String) :
    ∀ (labels values : List String) (nd : Matrix), labels.Nodup →
      (∀ l ∈ labels, (nd.GetMetric (name ++ "." ++ l)).isSome = true) →
      ∀ (i : Nat) (l t : String), labels[i]? = some l → values[i]? = some t →
        (storeHistogram R name key labels values nd).cell (name ++ "." ++ l) key =
          match R.ParseFloat t with
          | some v => some v
          | none => nd.cell (name ++ "." ++ l) key := by
  intro labels
  induction labels with
  | nil => intro values nd _ _ i l t hl _; simp at hl
  | cons l0 ls ih =>
    intro values nd hnd hsome i l t hl ht
    cases values with
    | nil => simp at ht
    | cons v vs =>
      rw [List.nodup_cons] at hnd
      have h0 := hsome l0 (List.mem_cons_self _ _)
      simp only [storeHistogram]
      cases hm : nd.GetMetric (name ++ "." ++ l0) with
      | none => rw [hm] at h0; cases h0
      | some x =>
        simp only
        cases i with
        | zero =>
          simp only [List.getElem?_cons_zero, Option.some.injEq] at hl ht
          subst hl; subst ht
          rw [storeHistogram_cell_other R name key _ key ls vs _
            (fun l2 h2 h => hnd.1 (key_inj name l2 l0 h ▸ h2))]
          exact Matrix.cell_SetValueString R nd _ key v h0
        | succ j =>
          simp only [List.getElem?_cons_succ] at hl ht
          have hmem : l ∈ ls := List.getElem?_mem hl
          have hne : name ++ "." ++ l ≠ name ++ "." ++ l0 :=
            fun h => hnd.1 (key_inj name l l0 h ▸ hmem)
          rw [ih vs _ hnd.2 (fun l2 h2 => by
            rw [isSome_onMetric]
            exact hsome l2 (List.mem_cons_of_mem _ h2)) j l t hl ht]
          rw [Matrix.cell_onMetric_ne _ _ _ _ _ hne]

/-- C16. One counter element of an instance in `PollData`, for an array counter: its
name has cached labels `labels` (and is no instance label), the labels are
distinct and each metric `name.label` is in `newData`.  When the value splits at
`,` into as many tokens as there are labels, the cell of the metric of label number
`i` for that instance is the number parsed from token number `i`, for every `i` (a
token that is no number leaves the cell as it was), and the collector is as before;
when the number of tokens differs, nothing is changed at all. -/
theorem PollData_array_values (R : Runtime) (key layer : String) (me : ZapiPerf)
    (newData : Matrix) (cnt : Node) (labels : List String)
    (hname : cnt.GetChildContentS "name" ≠ "") (hvalue : cnt.GetChildContentS "value" ≠ "")
    (hnolabel : assocGet (cnt.GetChildContentS "name") me.instanceLabels = none)
    (hlabels : assocGet (cnt.GetChildContentS "name") me.histogramLabels = some labels)
    (hnd : labels.Nodup)
    (hmetrics : ∀ l ∈ labels,
      (newData.GetMetric (cnt.GetChildContentS "name" ++ "." ++ l)).isSome = true) :
    ((strings.Split (cnt.GetChildContentS "value") ",").length = labels.length →
      (parseCounter R key layer (me, newData) cnt).1 = me ∧
      ∀ (i : Nat) (l t : String), labels[i]? = some l →
        (strings.Split (cnt.GetChildContentS "value") ",")[i]? = some t →
        (parseCounter R key layer (me, newData) cnt).2.cell
            (cnt.GetChildContentS "name" ++ "." ++ l) key =
          match R.ParseFloat t with
          | some v => some v
          | none => newData.cell (cnt.GetChildContentS "name" ++ "." ++ l) key) ∧
    ((strings.Split (cnt.GetChildContentS "value") ",").length ≠ labels.length →
      parseCounter R key layer (me, newData) cnt = (me, newData)) := by
  have hrun : parseCounter R key layer (me, newData) cnt =
      if labels.length ≠ (strings.Split (cnt.GetChildContentS "value") ",").length then
        (me, newData)
      else (me, storeHistogram R (cnt.GetChildContentS "name") key labels
        (strings.Split (cnt.GetChildContentS "value") ",") newData) := by
    unfold parseCounter
    simp only [hnolabel, hlabels]
    rw [if_neg (by
      intro h
      rcases h with h | h
      · exact hname h
      · exact hvalue h)]
  rw [hrun]
  constructor
  · intro hlen
    rw [if_neg (by rw [hlen]; exact fun h => h rfl)]
    refine ⟨rfl, fun i l t hl ht => ?_⟩
    exact storeHistogram_cell R _ key labels _ newData hnd hmetrics i l t hl ht
  · intro hlen
    rw [if_pos (fun h => hlen h.symm)]

/-! ## The Shelf plugin: the values of the second pass -/

theorem splitAux_space_head (cs : List Char) :
    ∀ acc : List Char, ∃ tl, strings.splitAux [' '] 0 cs acc =
      (acc.reverse ++ cs.takeWhile (fun c => decide (c ≠ ' '))) :: tl := by
  induction cs with
  | nil => intro acc; exact ⟨[], by simp [strings.splitAux]⟩
  | cons c cs ih =>
    intro acc
    by_cases hc : c = ' '
    · subst hc
      refine ⟨strings.splitAux [' '] 0 cs [], ?_⟩
      simp [strings.splitAux, List.isPrefixOf]
    · obtain ⟨tl, htl⟩ := ih (c :: acc)
      refine ⟨tl, ?_⟩
      have hp : List.isPrefixOf [' '] (c :: cs) = false := by
        simp [List.isPrefixOf]
        exact fun h => hc h.symm
      simp only [strings.splitAux, hp, Bool.false_eq_true, if_false]
      rw [htl]
      simp [List.takeWhile_cons, hc]

/-- The string `Run` hands to the parser is the content up to its first space. -/
theorem firstField_eq (content : String) :
    Shelf.firstField content =
      String.mk (content.data.takeWhile (fun c => decide (c ≠ ' '))) := by
  unfold Shelf.firstField strings.Split
  obtain ⟨tl, htl⟩ := splitAux_space_head content.data []
  have hd : (" " : String).data = [' '] := rfl
  rw [hd, htl]
  simp

/-- Witness of C13: the matrix holds `vol1` and `vol2`, the controller reports `vol2`
and `vol3` on one page and then ends the query.  `PollInstance` returns and `vol3`,
which is reported, is an instance. -/
theorem PollInstance_instance_set_witness :
    (∃ err, (PollInstance Fixture.runtime Fixture.rateCollector true
      ([Fixture.instancePage ["vol2", "vol3"]].map (fun p => Except.ok (some p)) ++
        Except.ok none :: [])).2 = Ret.ok none err) ∧
    "vol3" ∈ assocKeys (PollInstance Fixture.runtime Fixture.rateCollector true
      ([Fixture.instancePage ["vol2", "vol3"]].map (fun p => Except.ok (some p)) ++
        Except.ok none :: [])).1.Matrix.instances :=
  ⟨(PollInstance_instance_set Fixture.runtime Fixture.rateCollector true
      [Fixture.instancePage ["vol2", "vol3"]] (Except.ok none) []
      (by intro p hp; simp only [List.mem_singleton] at hp; subst hp; decide) trivial
      (by decide)).1,
   ((PollInstance_instance_set Fixture.runtime Fixture.rateCollector true
      [Fixture.instancePage ["vol2", "vol3"]] (Except.ok none) []
      (by intro p hp; simp only [List.mem_singleton] at hp; subst hp; decide) trivial
      (by decide)).2 "vol3").mpr (by decide)⟩

/-- Witness of C16: scenario 5 of the spec, the value `1,2,3,4` of `hist`; the cell of
`hist.W.4K`, the label number 2, is 3. -/
theorem PollData_array_values_witness :
    (parseCounter Fixture.runtime "vol1" "" (Fixture.histPolled, Fixture.histPolled.Matrix)
      Fixture.histData).2.cell ("hist" ++ "." ++ "W.4K") "vol1" = some 3 :=
  (((PollData_array_values Fixture.runtime "vol1" "" Fixture.histPolled Fixture.histPolled.Matrix
    Fixture.histData ["R.4K", "R.8K", "W.4K", "W.8K"] (by decide) (by decide) rfl rfl (by decide)
    (by decide)).1 (by decide)).2 2 "W.4K" "3" rfl (by decide)).trans (by decide!)

/-! ## The Shelf plugin: the cells of the second pass -/

theorem newCell_idem (R : Runtime) (field : String) (cell : Option ℚ) :
    newCell R field (newCell R field cell) = newCell R field cell := by
  unfold newCell
  by_cases h : field = ""
  · simp [h]
  · simp only [h, if_false]
    cases R.ParseFloat field <;> rfl

/-- The loop over the metrics of the second pass: the cell of a metric it meets gets
the number of its field, the cells of the other metrics stay. -/
theorem setValues_fold (R : Runtime) (obj : Node) (ikey k : String) (L : List String) :
    ∀ m : Matrix, (m.GetMetric k).isSome = true →
      (L.foldl (fun m metricKey =>
        if Shelf.firstField (obj.GetChildContentS metricKey) ≠ "" then
          m.onMetric metricKey (fun x =>
            x.SetValueString R ikey (Shelf.firstField (obj.GetChildContentS metricKey)))
        else m) m).cell k ikey =
      if k ∈ L then newCell R (Shelf.firstField (obj.GetChildContentS k)) (m.cell k ikey)
      else m.cell k ikey := by
  induction L with
  | nil => intro m _; rfl
  | cons a rest ih =>
    intro m hsome
    rw [List.foldl_cons]
    have hstep : ∀ (hsome2 : ((if Shelf.firstField (obj.GetChildContentS a) ≠ "" then
          m.onMetric a (fun x =>
            x.SetValueString R ikey (Shelf.firstField (obj.GetChildContentS a)))
        else m).GetMetric k).isSome = true),
        (if Shelf.firstField (obj.GetChildContentS a) ≠ "" then
          m.onMetric a (fun x =>
            x.SetValueString R ikey (Shelf.firstField (obj.GetChildContentS a)))
        else m).cell k ikey =
        if a = k then newCell R (Shelf.firstField (obj.GetChildContentS k)) (m.cell k ikey)
        else m.cell k ikey := by
      intro _
      by_cases hak : a = k
      · subst hak
        rw [if_pos rfl]
        unfold newCell
        by_cases hf : Shelf.firstField (obj.GetChildContentS a) = ""
        · simp [hf]
        · rw [if_pos hf, if_neg hf]
          exact Matrix.cell_SetValueString R m a ikey _ hsome
      · rw [if_neg hak]
        split
        · exact Matrix.cell_onMetric_ne _ _ _ _ _ (fun h => hak h.symm)
        · rfl
    have hsome2 : ((if Shelf.firstField (obj.GetChildContentS a) ≠ "" then
          m.onMetric a (fun x =>
            x.SetValueString R ikey (Shelf.firstField (obj.GetChildContentS a)))
        else m).GetMetric k).isSome = true := by
      split
      · rw [isSome_onMetric]; exact hsome
      · exact hsome
    rw [ih _ hsome2, hstep hsome2]
    by_cases hak : a = k
    · subst hak
      simp only [if_true, List.mem_cons, true_or]
      split
      · exact newCell_idem R _ _
      · rfl
    · have hka : ¬ k = a := fun h => hak h.symm
      simp only [hak, if_false, List.mem_cons, hka, false_or]

/-- C18, as the code has it.  In the second pass of `Shelf.Run`, for an element
whose instance is `ikey` and every metric `k` of the matrix of the sub-object: the string
handed to the parser is the child content up to its first space (U+0020); the cell
gets the number parsed from it, and stays as it was when that string is empty
(the content is empty or starts with a space) or is no number. -/
theorem Shelf_Run_cell_value (R : Runtime) (obj : Node) (ikey : String) (data : Matrix)
    (k : String) (hk : k ∈ assocKeys data.metrics) :
    Shelf.firstField (obj.GetChildContentS k) =
      String.mk ((obj.GetChildContentS k).data.takeWhile (fun c => decide (c ≠ ' '))) ∧
    (Shelf.setValues R obj ikey data).cell k ikey =
      if Shelf.firstField (obj.GetChildContentS k) = "" then data.cell k ikey
      else
        match R.ParseFloat (Shelf.firstField (obj.GetChildContentS k)) with
        | some v => some v
        | none => data.cell k ikey := by
  refine ⟨firstField_eq _, ?_⟩
  have hsome : (data.GetMetric k).isSome = true := by
    have h := assocGet_isSome_iff k data.metrics
    unfold Matrix.GetMetric
    cases hg : (assocGet k data.metrics).isSome
    · rw [hg] at h
      exact absurd hk (by simpa using h)
    · rfl
  unfold Shelf.setValues
  rw [setValues_fold R obj ikey k _ data hsome,
    if_pos ((R.rangeOrder_perm 15 (assocKeys data.metrics)).mem_iff.mpr hk)]
  rfl

/-- Witness of C18: the content `120 W` of `power-drawn` gives the cell 120. -/
theorem Shelf_Run_cell_value_witness :
    (Shelf.setValues Fixture.runtime
      (Node.mk "psu-info" "" [Node.mk "psu-id" "1" [], Node.mk "power-drawn" "120 W" []]) "s1.1"
      { Object := "shelf_psus", metrics := [("power-drawn", Fixture.metric "power_drawn" "" "" [])],
        instances := [("s1.1", ⟨[]⟩)] }).cell "power-drawn" "s1.1" = some 120 :=
  ((Shelf_Run_cell_value Fixture.runtime
    (Node.mk "psu-info" "" [Node.mk "psu-id" "1" [], Node.mk "power-drawn" "120 W" []]) "s1.1"
    { Object := "shelf_psus", metrics := [("power-drawn", Fixture.metric "power_drawn" "" "" [])],
      instances := [("s1.1", ⟨[]⟩)] } "power-drawn" (by decide)).2).trans (by decide!)

/-- C18 as stated fails.  One shelf with one power supply: when the content of
`power-drawn` is ` 120 W` (a leading space), or `120` and `W` separated by a tab, its
first whitespace-separated token is `120`, a number, yet the cell is left unset by
`Shelf.Run`; with `120 W` the cell is 120. -/
theorem Shelf_Run_first_token_not_taken :
    firstToken " 120 W" = "120" ∧ firstToken "120\tW" = "120" ∧
    Fixture.runtime.ParseFloat "120" = some 120 ∧
    Shelf.returnedCells (Shelf.Run Fixture.runtime Fixture.shelfPlugin Fixture.shelfParent
      (Fixture.shelfReply [Fixture.shelfInfo "A" "s1" " 120 W"])) "power-drawn" "s1.1" = [none] ∧
    Shelf.returnedCells (Shelf.Run Fixture.runtime Fixture.shelfPlugin Fixture.shelfParent
      (Fixture.shelfReply [Fixture.shelfInfo "A" "s1" "120\tW"])) "power-drawn" "s1.1" = [none] ∧
    Shelf.returnedCells (Shelf.Run Fixture.runtime Fixture.shelfPlugin Fixture.shelfParent
      (Fixture.shelfReply [Fixture.shelfInfo "A" "s1" "120 W"])) "power-drawn" "s1.1" =
        [some 120] := by
  refine ⟨?_, ?_, ?_, ?_, ?_, ?_⟩ <;> decide!

/-! ## Array counters in `addCounter` -/

theorem assocGet_assocSet_self {β : Type} (k : String) (v : β) (l : List (String × β)) :
    assocGet k (assocSet k v l) = some v := by
  induction l with
  | nil => simp [assocSet, assocGet]
  | cons e rest ih =>
    obtain ⟨k1, v1⟩ := e
    by_cases h : k1 = k
    · simp [assocSet, assocGet, h]
    · simp [assocSet, assocGet, h, ih]

theorem assocGet_assocSet_ne {β : Type} (k k2 : String) (v : β) (l : List (String × β))
    (hne : k2 ≠ k) : assocGet k2 (assocSet k v l) = assocGet k2 l := by
  have hne2 : ¬ k = k2 := fun h => hne h.symm
  induction l with
  | nil => simp [assocSet, assocGet, hne2]
  | cons e rest ih =>
    obtain ⟨k1, v1⟩ := e
    by_cases h : k1 = k
    · subst h
      simp [assocSet, assocGet, hne2]
    · by_cases h2 : k1 = k2
      · subst h2
        simp [assocSet, assocGet, h]
      · simp [assocSet, assocGet, h, h2, ih]

theorem assocGet_append {β : Type} (k : String) (l1 l2 : List (String × β)) :
    assocGet k (l1 ++ l2) =
      match assocGet k l1 with
      | some v => some v
      | none => assocGet k l2 := by
  induction l1 with
  | nil => rfl
  | cons e rest ih =>
    obtain ⟨k1, v1⟩ := e
    by_cases h : k1 = k
    · simp [assocGet, h]
    · simp [assocGet, h, ih]

/-- `addCounter` fetches or creates a metric and sets its attributes: the metric of the
key is the changed one (a fresh one, changed, when there was none), the others are
as before. -/
theorem GetMetric_upsertMetric (m : Matrix) (key : String) (f : Metric → Metric) (k : String) :
    (upsertMetric m key f).GetMetric k =
      if k = key then some (f ((m.GetMetric key).getD (Metric.fresh key))) else m.GetMetric k := by
  unfold upsertMetric
  cases hm : m.GetMetric key with
  | some x =>
    simp only
    by_cases hk : k = key
    · subst hk
      rw [if_pos rfl, Matrix.GetMetric_onMetric_self, hm]
      rfl
    · rw [if_neg hk, Matrix.GetMetric_onMetric_ne _ _ _ _ hk]
  | none =>
    simp only [Matrix.NewMetricFloat64, hm]
    by_cases hk : k = key
    · subst hk
      rw [if_pos rfl, Matrix.GetMetric_onMetric_self]
      unfold Matrix.GetMetric at hm ⊢
      simp only
      rw [assocGet_append, hm]
      simp [assocGet, Metric.fresh]
    · rw [if_neg hk, Matrix.GetMetric_onMetric_ne _ _ _ _ hk]
      unfold Matrix.GetMetric
      simp only
      rw [assocGet_append]
      cases assocGet k m.metrics with
      | some v => rfl
      | none =>
        have hk2 : ¬ key = k := fun h => hk h.symm
        simp [assocGet, hk2]

theorem mem_keys_upsertMetric_iff (m : Matrix) (key : String) (f : Metric → Metric) (k : String) :
    k ∈ assocKeys (upsertMetric m key f).metrics ↔ k ∈ assocKeys m.metrics ∨ k = key := by
  have h1 := assocGet_isSome_iff k (upsertMetric m key f).metrics
  have h2 := assocGet_isSome_iff k m.metrics
  have h3 := GetMetric_upsertMetric m key f k
  unfold Matrix.GetMetric at h3
  rw [← h1, ← h2, h3]
  by_cases hk : k = key
  · simp [hk]
  · simp [hk]

/-! ### Splitting at `.` -/

theorem not_Contains_dot (s : List Char) (h : strings.containsAux ['.'] s = false) : '.' ∉ s := by
  induction s with
  | nil => simp
  | cons c cs ih =>
    unfold strings.containsAux at h
    rw [Bool.or_eq_false_iff] at h
    intro hmem
    rcases List.mem_cons.mp hmem with h1 | h1
    · rw [← h1] at h
      simp [List.isPrefixOf] at h
    · exact ih h.2 h1

theorem splitAux_dot_free (cs : List Char) (hf : '.' ∉ cs) :
    ∀ acc : List Char, strings.splitAux ['.'] 0 cs acc = [acc.reverse ++ cs] := by
  induction cs with
  | nil => intro acc; simp [strings.splitAux]
  | cons c cs ih =>
    intro acc
    have hc : ¬ '.' = c := fun h => hf (h ▸ List.mem_cons_self _ _)
    have hp : List.isPrefixOf ['.'] (c :: cs) = false := by
      simp [List.isPrefixOf, hc]
    simp only [strings.splitAux, hp, Bool.false_eq_true, if_false]
    rw [ih (fun h => hf (List.mem_cons_of_mem _ h))]
    simp

theorem splitAux_dot_first (a b : List Char) (hf : '.' ∉ a) :
    ∀ acc : List Char, strings.splitAux ['.'] 0 (a ++ '.' :: b) acc =
      (acc.reverse ++ a) :: strings.splitAux ['.'] 0 b [] := by
  induction a with
  | nil =>
    intro acc
    simp [strings.splitAux, List.isPrefixOf]
  | cons c cs ih =>
    intro acc
    have hc : ¬ '.' = c := fun h => hf (h ▸ List.mem_cons_self _ _)
    have hp : List.isPrefixOf ['.'] (c :: (cs ++ '.' :: b)) = false := by
      simp [List.isPrefixOf, hc]
    rw [List.cons_append]
    simp only [strings.splitAux, hp, Bool.false_eq_true, if_false]
    rw [ih (fun h => hf (List.mem_cons_of_mem _ h))]
    simp

/-- A string without `.` is one piece. -/
theorem Split_dot_free (s : String) (h : strings.Contains s "." = false) :
    strings.Split s "." = [s] := by
  unfold strings.Split
  have hd : (".".data : List Char) = ['.'] := rfl
  rw [hd, splitAux_dot_free s.data (not_Contains_dot _ h) []]
  rfl

/-- Two strings without `.`, joined by a `.`, split into the two again. -/
theorem Split_dot_pair (a b : String) (ha : strings.Contains a "." = false)
    (hb : strings.Contains b "." = false) :
    strings.Split (a ++ "." ++ b) "." = [a, b] := by
  unfold strings.Split
  have hd : (".".data : List Char) = ['.'] := rfl
  have hab : (a ++ "." ++ b).data = a.data ++ '.' :: b.data := by
    simp [String.data_append]
  rw [hd, hab, splitAux_dot_first _ _ (not_Contains_dot _ ha) [],
    splitAux_dot_free b.data (not_Contains_dot _ hb) []]
  rfl

/-! ### The metrics of the labels -/

/-- The labels `addCounter` sets on the metric of an array label. -/
theorem arrayLabels_metric (label : String) (old : List (String × String)) :
    (strings.Contains label "." = false →
      assocGet "metric"
        (match strings.Split label "." with
         | [a, b] => assocSet "submetric" b (assocSet "metric" a old)
         | _ => assocSet "metric" label old) = some label) ∧
    (∀ a b, strings.Contains a "." = false → strings.Contains b "." = false →
      label = a ++ "." ++ b →
      assocGet "metric"
        (match strings.Split label "." with
         | [a, b] => assocSet "submetric" b (assocSet "metric" a old)
         | _ => assocSet "metric" label old) = some a ∧
      assocGet "submetric"
        (match strings.Split label "." with
         | [a, b] => assocSet "submetric" b (assocSet "metric" a old)
         | _ => assocSet "metric" label old) = some b) := by
  constructor
  · intro h
    rw [Split_dot_free label h]
    exact assocGet_assocSet_self _ _ _
  · intro a b ha hb hl
    rw [hl, Split_dot_pair a b ha hb]
    simp only
    constructor
    · rw [assocGet_assocSet_ne _ _ _ _ (by decide), assocGet_assocSet_self]
    · exact assocGet_assocSet_self _ _ _

theorem GetMetric_addArrayMetrics_other (name display property baseCounter : String)
    (enabled : Bool) (baseLabels : List String) (k : String) :
    ∀ (labels : List String) (m : Matrix), (∀ l ∈ labels, name ++ "." ++ l ≠ k) →
      (addArrayMetrics name display property baseCounter enabled baseLabels labels m).GetMetric k =
        m.GetMetric k := by
  intro labels
  induction labels with
  | nil => intro m _; rfl
  | cons l ls ih =>
    intro m hne
    simp only [addArrayMetrics]
    rw [ih _ (fun l2 h2 => hne l2 (List.mem_cons_of_mem _ h2)), GetMetric_upsertMetric,
      if_neg (fun h => hne l (List.mem_cons_self _ _) h.symm)]

/-- The keys after the metrics of an array counter were added: those of before and one
per label. -/
theorem mem_keys_addArrayMetrics_iff (name display property baseCounter : String)
    (enabled : Bool) (baseLabels : List String) (k : String) :
    ∀ (labels : List String) (m : Matrix),
      k ∈ assocKeys
        (addArrayMetrics name display property baseCounter enabled baseLabels labels m).metrics ↔
      k ∈ assocKeys m.metrics ∨ ∃ l ∈ labels, k = name ++ "." ++ l := by
  intro labels
  induction labels with
  | nil => intro m; simp [addArrayMetrics]
  | cons l ls ih =>
    intro m
    simp only [addArrayMetrics]
    rw [ih, mem_keys_upsertMetric_iff]
    constructor
    · rintro ((h | h) | ⟨l2, h2, h3⟩)
      · exact Or.inl h
      · exact Or.inr ⟨l, List.mem_cons_self _ _, h⟩
      · exact Or.inr ⟨l2, List.mem_cons_of_mem _ h2, h3⟩
    · rintro (h | ⟨l2, h2, h3⟩)
      · exact Or.inl (Or.inl h)
      · rcases List.mem_cons.mp h2 with h4 | h4
        · exact Or.inl (Or.inr (h4 ▸ h3))
        · exact Or.inr ⟨l2, h4, h3⟩

/-- The metric of every label of an array counter, after `addCounter` went over the
labels: its labels are those set for that label, on top of the labels some metric
had before. -/
theorem GetMetric_addArrayMetrics (name display property baseCounter : String)
    (enabled : Bool) (baseLabels : List String) :
    ∀ (labels : List String) (m : Matrix) (l : String), l ∈ labels →
      ∃ x old, (addArrayMetrics name display property baseCounter enabled baseLabels labels
          m).GetMetric (name ++ "." ++ l) = some x ∧
        x.name = display ∧ x.property = property ∧ x.exportable = enabled ∧
        x.labels =
          match strings.Split l "." with
          | [a, b] => assocSet "submetric" b (assocSet "metric" a old)
          | _ => assocSet "metric" l old := by
  intro labels
  induction labels with
  | nil => intro m l hl; cases hl
  | cons l0 ls ih =>
    intro m l hl
    simp only [addArrayMetrics]
    by_cases hin : l ∈ ls
    · exact ih _ l hin
    · have hl0 : l = l0 := by
        rcases List.mem_cons.mp hl with h | h
        · exact h
        · exact absurd h hin
      subst hl0
      rw [GetMetric_addArrayMetrics_other _ _ _ _ _ _ _ ls _
        (fun l2 h2 h => hin (key_inj name l2 l h ▸ h2)), GetMetric_upsertMetric, if_pos rfl]
      exact ⟨_, _, rfl, rfl, rfl, rfl, rfl⟩

/-- The labels of two dimensions in row-major order: `labels[i * M + j]` joins the label
number `i` of the first dimension and the label number `j` of the second. -/
theorem rowMajor_index (f : String → String → String) (B : List String) :
    ∀ A : List String,
      ((A.map (fun a => B.map (fun b => f a b))).flatten).length = A.length * B.length ∧
      ∀ (i j : Nat) (la lb : String), A[i]? = some la → B[j]? = some lb →
        ((A.map (fun a => B.map (fun b => f a b))).flatten)[i * B.length + j]? =
          some (f la lb) := by
  intro A
  induction A with
  | nil => exact ⟨by simp, fun i j la lb h _ => by simp at h⟩
  | cons a A ih =>
    obtain ⟨ih1, ih2⟩ := ih
    constructor
    · rw [List.map_cons, List.flatten_cons, List.length_append, ih1, List.length_map,
        List.length_cons, Nat.succ_mul, Nat.add_comm]
    · intro i j la lb hA hB
      rw [List.map_cons, List.flatten_cons]
      have hj : j < B.length := by
        rcases Nat.lt_or_ge j B.length with h | h
        · exact h
        · rw [List.getElem?_eq_none h] at hB
          cases hB
      cases i with
      | zero =>
        simp only [List.getElem?_cons_zero, Option.some.injEq] at hA
        subst hA
        rw [Nat.zero_mul, Nat.zero_add, List.getElem?_append_left (by simpa using hj),
          List.getElem?_map, hB]
        rfl
      | succ i =>
        simp only [List.getElem?_cons_succ] at hA
        have hle : (B.map (fun b => f a b)).length ≤ (i + 1) * B.length + j := by
          rw [List.length_map, Nat.succ_mul]
          omega
        rw [List.getElem?_append_right hle]
        have hidx : (i + 1) * B.length + j - (B.map (fun b => f a b)).length =
            i * B.length + j := by
          rw [List.length_map, Nat.succ_mul]
          omega
        rw [hidx]
        exact ih2 i j la lb hA hB

/-- `addCounter` on an array counter it accepts: the metrics of the labels are added
and the labels are cached. -/
theorem addCounter_array_run (R : Runtime) (me : ZapiPerf) (counter : Node)
    (name display : String) (enabled : Bool) (cache : List (String × Node))
    (hprop : propertyOf (counter.GetChildContentS "properties") ≠ "")
    (htype : counter.GetChildContentS "type" = "array")
    (hparse : (parseHistogramLabels R counter).2 = "")
    (hbase : counter.GetChildContentS "base-counter" = "" ∨
      ∃ base, assocGet (counter.GetChildContentS "base-counter") cache = some base ∧
        (base.GetChildContentS "type" ≠ "array" ∨
          ((parseHistogramLabels R base).2 = "" ∧
            (parseHistogramLabels R base).1.length = (parseHistogramLabels R counter).1.length))) :
    ∃ display1 baseLabels,
      (addCounter R me counter name display enabled cache).1 =
        { me with
          Matrix := addArrayMetrics name display1
            (propertyOf (counter.GetChildContentS "properties"))
            (counter.GetChildContentS "base-counter") enabled baseLabels
            (parseHistogramLabels R counter).1 me.Matrix
          histogramLabels := assocSet name (parseHistogramLabels R counter).1 me.histogramLabels } := by
  unfold addCounter
  simp only [htype, if_true]
  rw [if_neg hprop, if_neg (by rw [hparse]; exact fun h => h rfl)]
  rcases hbase with h | ⟨base, hb, h⟩
  · simp only [h, ne_eq, not_true_eq_false, if_false]
    exact ⟨_, _, rfl⟩
  · by_cases hbc : counter.GetChildContentS "base-counter" = ""
    · simp only [hbc, ne_eq, not_true_eq_false, if_false]
      exact ⟨_, _, rfl⟩
    · simp only [ne_eq, hbc, not_false_eq_true, if_true, hb]
      rcases h with h | ⟨h1, h2⟩
      · simp only [h, if_false]
        exact ⟨_, _, rfl⟩
      · by_cases hty : base.GetChildContentS "type" = "array"
        · simp only [hty, if_true, h1, not_true_eq_false, if_false, h2]
          exact ⟨_, _, rfl⟩
        · simp only [hty, if_false]
          exact ⟨_, _, rfl⟩

/-- C15, as the code has it.  An array counter `name` that `addCounter` accepts (known
property, labels of one or two dimensions, base counter accepted), with labels
that hold no `.`.  One dimension of comma-separated values: the label vector cached
for `name` is the list of the values, the metric keys are those of before and the
keys `name.<label>`, and each of these metrics has the label `metric` = `<label>`.
Two dimensions `A` and `B`: the cached vector has `|A|·|B|` entries, entry
`i·|B| + j` being `A[i].B[j]` (row-major, `A` outer), the metric keys are those of before
and the keys `name.<a>.<b>`, and each of these metrics has the labels `metric` = `a`
and `submetric` = `b`. -/
theorem addCounter_array_metrics (R : Runtime) (me : ZapiPerf) (counter : Node)
    (name display : String) (enabled : Bool) (cache : List (String × Node)) (x : Node)
    (hprop : propertyOf (counter.GetChildContentS "properties") ≠ "")
    (htype : counter.GetChildContentS "type" = "array")
    (hx : counter.GetChildS "labels" = some x)
    (hbase : counter.GetChildContentS "base-counter" = "" ∨
      ∃ base, assocGet (counter.GetChildContentS "base-counter") cache = some base ∧
        (base.GetChildContentS "type" ≠ "array" ∨
          ((parseHistogramLabels R base).2 = "" ∧
            (parseHistogramLabels R base).1.length = (parseHistogramLabels R counter).1.length))) :
    (∀ a : Node, x.GetChildren = [a] →
      (∀ l ∈ strings.Split (R.DecodeHtml a.GetContentS) ",", strings.Contains l "." = false) →
      assocGet name (addCounter R me counter name display enabled cache).1.histogramLabels =
        some (strings.Split (R.DecodeHtml a.GetContentS) ",") ∧
      (∀ k, k ∈ assocKeys (addCounter R me counter name display enabled cache).1.Matrix.metrics ↔
        (k ∈ assocKeys me.Matrix.metrics ∨
          ∃ l ∈ strings.Split (R.DecodeHtml a.GetContentS) ",", k = name ++ "." ++ l)) ∧
      ∀ l ∈ strings.Split (R.DecodeHtml a.GetContentS) ",",
        ∃ m, (addCounter R me counter name display enabled cache).1.Matrix.GetMetric
            (name ++ "." ++ l) = some m ∧
          assocGet "metric" m.labels = some l) ∧
    (∀ a b : Node, x.GetChildren = [a, b] →
      (∀ l ∈ strings.Split (R.DecodeHtml a.GetContentS) ",", strings.Contains l "." = false) →
      (∀ l ∈ strings.Split (R.DecodeHtml b.GetContentS) ",", strings.Contains l "." = false) →
      (∃ labels,
        assocGet name (addCounter R me counter name display enabled cache).1.histogramLabels =
          some labels ∧
        labels.length = (strings.Split (R.DecodeHtml a.GetContentS) ",").length *
          (strings.Split (R.DecodeHtml b.GetContentS) ",").length ∧
        ∀ (i j : Nat) (la lb : String),
          (strings.Split (R.DecodeHtml a.GetContentS) ",")[i]? = some la →
          (strings.Split (R.DecodeHtml b.GetContentS) ",")[j]? = some lb →
          labels[i * (strings.Split (R.DecodeHtml b.GetContentS) ",").length + j]? =
            some (la ++ "." ++ lb)) ∧
      (∀ k, k ∈ assocKeys (addCounter R me counter name display enabled cache).1.Matrix.metrics ↔
        (k ∈ assocKeys me.Matrix.metrics ∨
          ∃ la ∈ strings.Split (R.DecodeHtml a.GetContentS) ",",
            ∃ lb ∈ strings.Split (R.DecodeHtml b.GetContentS) ",",
              k = name ++ "." ++ (la ++ "." ++ lb))) ∧
      ∀ la ∈ strings.Split (R.DecodeHtml a.GetContentS) ",",
        ∀ lb ∈ strings.Split (R.DecodeHtml b.GetContentS) ",",
          ∃ m, (addCounter R me counter name display enabled cache).1.Matrix.GetMetric
              (name ++ "." ++ (la ++ "." ++ lb)) = some m ∧
            assocGet "metric" m.labels = some la ∧ assocGet "submetric" m.labels = some lb) := by
  constructor
  · intro a ha hfree
    have hparsed : parseHistogramLabels R counter =
        (strings.Split (R.DecodeHtml a.GetContentS) ",", "") := by
      unfold parseHistogramLabels
      simp only [hx, ha]
    obtain ⟨display1, baseLabels, hrun⟩ := addCounter_array_run R me counter name display enabled
      cache hprop htype (by rw [hparsed]) hbase
    rw [hrun, hparsed]
    simp only
    refine ⟨assocGet_assocSet_self _ _ _, fun k => mem_keys_addArrayMetrics_iff _ _ _ _ _ _ _ _ _,
      fun l hl => ?_⟩
    obtain ⟨m, old, hm, _, _, _, hlab⟩ := GetMetric_addArrayMetrics name display1
      (propertyOf (counter.GetChildContentS "properties"))
      (counter.GetChildContentS "base-counter") enabled baseLabels _ me.Matrix l hl
    refine ⟨m, hm, ?_⟩
    rw [hlab]
    exact (arrayLabels_metric l old).1 (hfree l hl)
  · intro a b hab hfa hfb
    have hparsed : parseHistogramLabels R counter =
        ((((strings.Split (R.DecodeHtml a.GetContentS) ",").map (fun la =>
          (strings.Split (R.DecodeHtml b.GetContentS) ",").map
            (fun lb => la ++ "." ++ lb))).flatten), "") := by
      unfold parseHistogramLabels
      simp only [hx, hab]
    obtain ⟨display1, baseLabels, hrun⟩ := addCounter_array_run R me counter name display enabled
      cache hprop htype (by rw [hparsed]) hbase
    rw [hrun, hparsed]
    simp only
    have hmem : ∀ l, l ∈ ((strings.Split (R.DecodeHtml a.GetContentS) ",").map (fun la =>
          (strings.Split (R.DecodeHtml b.GetContentS) ",").map
            (fun lb => la ++ "." ++ lb))).flatten ↔
        ∃ la ∈ strings.Split (R.DecodeHtml a.GetContentS) ",",
          ∃ lb ∈ strings.Split (R.DecodeHtml b.GetContentS) ",", l = la ++ "." ++ lb := by
      intro l
      simp only [List.mem_flatten, List.mem_map]
      constructor
      · rintro ⟨_, ⟨la, hla, rfl⟩, hl⟩
        obtain ⟨lb, hlb, rfl⟩ := List.mem_map.mp hl
        exact ⟨la, hla, lb, hlb, rfl⟩
      · rintro ⟨la, hla, lb, hlb, rfl⟩
        exact ⟨_, ⟨la, hla, rfl⟩, List.mem_map.mpr ⟨lb, hlb, rfl⟩⟩
    refine ⟨⟨_, assocGet_assocSet_self _ _ _,
      (rowMajor_index (fun la lb => la ++ "." ++ lb) _ _).1,
      (rowMajor_index (fun la lb => la ++ "." ++ lb) _ _).2⟩, fun k => ?_, fun la hla lb hlb => ?_⟩
    · rw [mem_keys_addArrayMetrics_iff]
      constructor
      · rintro (h | ⟨l, hl, rfl⟩)
        · exact Or.inl h
        · obtain ⟨la, hla, lb, hlb, rfl⟩ := (hmem l).mp hl
          exact Or.inr ⟨la, hla, lb, hlb, rfl⟩
      · rintro (h | ⟨la, hla, lb, hlb, rfl⟩)
        · exact Or.inl h
        · exact Or.inr ⟨_, (hmem _).mpr ⟨la, hla, lb, hlb, rfl⟩, rfl⟩
    · obtain ⟨m, old, hm, _, _, _, hlab⟩ := GetMetric_addArrayMetrics name display1
        (propertyOf (counter.GetChildContentS "properties"))
        (counter.GetChildContentS "base-counter") enabled baseLabels _ me.Matrix
        (la ++ "." ++ lb) ((hmem _).mpr ⟨la, hla, lb, hlb, rfl⟩)
      refine ⟨m, hm, ?_⟩
      rw [hlab]
      exact (arrayLabels_metric (la ++ "." ++ lb) old).2 la lb (hfa la hla) (hfb lb hlb) rfl

/-- Witness of C15: scenario 5 of the spec, `hist` with the dimensions `R,W` and `4K,8K`;
the metric `hist.W.4K` has the labels `metric` = `W` and `submetric` = `4K`. -/
theorem addCounter_array_metrics_witness :
    ∃ m, (addCounter Fixture.runtime Fixture.histCollector Fixture.histInfo "hist" "hist" true
        []).1.Matrix.GetMetric ("hist" ++ "." ++ ("W" ++ "." ++ "4K")) = some m ∧
      assocGet "metric" m.labels = some "W" ∧ assocGet "submetric" m.labels = some "4K" :=
  ((addCounter_array_metrics Fixture.runtime Fixture.histCollector Fixture.histInfo "hist" "hist"
    true [] (Node.mk "labels" "" [Node.mk "label-info" "R,W" [], Node.mk "label-info" "4K,8K" []])
    (by decide) (by decide) rfl (Or.inl (by decide))).2
      (Node.mk "label-info" "R,W" []) (Node.mk "label-info" "4K,8K" []) rfl
      (by decide) (by decide)).2.2 "W" (by decide) "4K" (by decide)

/-- C15 as stated fails: an array counter with one dimension of two values, `<0.5ms` and
`<1ms`.  The metric of the first value has the labels `metric` = `<0` and `submetric`
= `5ms`, not `metric` = `<0.5ms`: `addCounter` takes a label that holds one `.` for a
pair of two dimensions. -/
theorem addCounter_dotted_label :
    parseHistogramLabels Fixture.runtime Fixture.latencyHistInfo = (["<0.5ms", "<1ms"], "") ∧
    ((addCounter Fixture.runtime Fixture.histCollector Fixture.latencyHistInfo "lat_hist"
        "lat_hist" true []).1.Matrix.GetMetric "lat_hist.<0.5ms").map Metric.labels =
      some [("metric", "<0"), ("submetric", "5ms")] ∧
    ((addCounter Fixture.runtime Fixture.histCollector Fixture.latencyHistInfo "lat_hist"
        "lat_hist" true []).1.Matrix.GetMetric "lat_hist.<1ms").map Metric.labels =
      some [("metric", "<1ms")] := by
  refine ⟨?_, ?_, ?_⟩ <;> decide

/-! ## `PollCounter` twice: the algebra of its writes -/

theorem Schema.over_idem (t : Schema) (s : Option Schema) :
    t.over (some (t.over s)) = t.over s := by
  unfold Schema.over
  simp only [Schema.mk.injEq, true_and]
  funext l
  cases t.labels l <;> rfl

theorem Schema.over_assoc (t u : Schema) (s : Option Schema) :
    (t.over (some u)).over s = t.over (some (u.over s)) := by
  unfold Schema.over
  simp only [Schema.mk.injEq, true_and]
  funext l
  cases t.labels l <;> rfl

theorem Schema.over_none_over (t : Schema) (s : Option Schema) :
    (t.over none).over s = t.over s := by
  unfold Schema.over
  simp only [Schema.mk.injEq, true_and]
  funext l
  cases t.labels l <;> rfl

theorem KeyStep.apply_comp (a b : KeyStep) (v : Option Schema × Bool) :
    (a.comp b).apply v = b.apply (a.apply v) := by
  unfold KeyStep.comp KeyStep.apply
  simp only [Prod.mk.injEq]
  constructor
  · cases hb : b.touch with
    | none => rfl
    | some t =>
      cases ha : a.touch with
      | none => simp only [Schema.over_none_over]
      | some u => simp only [Schema.over_assoc]
  · cases v.2 <;> cases a.del <;> cases b.del <;> rfl

theorem labelApply_comp (sa sb : Option String) (v : Option String × Bool) :
    labelApply (match sb with
      | none => sa
      | some d => some d) v = labelApply sb (labelApply sa v) := by
  cases sb with
  | none => rfl
  | some d => cases sa <;> rfl

theorem Acts_refl (st : CounterState) : Acts SchemaStep.id st st := by
  refine ⟨fun k => ?_, fun k => rfl, fun k => rfl⟩
  simp [SchemaStep.id, KeyStep.apply]

theorem Acts_trans {s1 s2 : SchemaStep} {a b c : CounterState} (h1 : Acts s1 a b)
    (h2 : Acts s2 b c) : Acts (s1.comp s2) a c := by
  obtain ⟨k1, l1, g1⟩ := h1
  obtain ⟨k2, l2, g2⟩ := h2
  refine ⟨fun k => ?_, fun k => ?_, fun k => ?_⟩
  · rw [k2, k1]
    exact (KeyStep.apply_comp _ _ _).symm
  · rw [l2, l1]
    exact (labelApply_comp _ _ _).symm
  · rw [g2, g1]
    simp only [SchemaStep.comp]
    cases s2.hist k <;> rfl

theorem SchemaStep.ok_id : SchemaStep.id.ok := by
  intro k h
  simp [SchemaStep.id] at h

theorem SchemaStep.ok_comp {s1 s2 : SchemaStep} (h1 : s1.ok) (h2 : s2.ok) : (s1.comp s2).ok := by
  intro k h
  simp only [SchemaStep.comp, KeyStep.comp] at h ⊢
  cases hb : (s2.metric k).touch with
  | none =>
    rw [hb] at h
    rcases h1 k h with h3 | h3
    · left; rw [h3]; rfl
    · exact Or.inr h3
  | some t =>
    rcases h2 k (by rw [hb]; rfl) with h3 | h3
    · left; rw [h3]; exact Bool.or_true _
    · exact Or.inr h3

theorem sameCtrl_refl (a : CounterState) : sameCtrl a a := ⟨rfl, rfl, rfl, rfl, rfl, rfl⟩

theorem Coupled.id : Coupled (fun st => st) :=
  fun a b h => ⟨h, rfl, rfl, rfl, SchemaStep.id, SchemaStep.ok_id, Acts_refl a, Acts_refl b⟩

theorem Coupled.comp {f g : CounterState → CounterState} (hf : Coupled f) (hg : Coupled g) :
    Coupled (fun st => g (f st)) := by
  intro a b h
  obtain ⟨c1, p1, o1, q1, s1, ok1, a1, b1⟩ := hf a b h
  obtain ⟨c2, p2, o2, q2, s2, ok2, a2, b2⟩ := hg (f a) (f b) c1
  exact ⟨c2, p2.trans p1, o2.trans o1, q2.trans q1, s1.comp s2, SchemaStep.ok_comp ok1 ok2,
    Acts_trans a1 a2, Acts_trans b1 b2⟩

theorem Coupled.foldl {α : Type} (f : CounterState → α → CounterState)
    (hf : ∀ e, Coupled (fun st => f st e)) (L : List α) : Coupled (fun st => L.foldl f st) := by
  induction L with
  | nil => exact Coupled.id
  | cons e rest ih => exact Coupled.comp (hf e) ih

/-- A part that is chosen by what decides the loops. -/
theorem Coupled.choose (f : CounterState → CounterState)
    (h : ∀ a b, sameCtrl a b → ∃ g, Coupled g ∧ f a = g a ∧ f b = g b) : Coupled f := by
  intro a b hab
  obtain ⟨g, hg, ha, hb⟩ := h a b hab
  rw [ha, hb]
  exact hg a b hab

/-! ## `PollCounter` twice: what `addCounter` writes -/

theorem Schema.over_fresh (t : Schema) (key : String) :
    t.over (some (Metric.fresh key).schema) = t.over none := by
  unfold Schema.over
  simp only [Schema.mk.injEq, true_and]
  funext l
  cases t.labels l <;> rfl

theorem schemaAt_upsertMetric (m : Matrix) (key : String) (f : Metric → Metric) (k : String)
    (t : Schema) (hf : ∀ x : Metric, (f x).schema = t.over (some x.schema)) :
    (upsertMetric m key f).schemaAt k =
      if k = key then some (t.over (m.schemaAt key)) else m.schemaAt k := by
  unfold Matrix.schemaAt
  rw [GetMetric_upsertMetric]
  by_cases hk : k = key
  · rw [if_pos hk, if_pos hk]
    cases m.GetMetric key with
    | none =>
      simp only [Option.getD_none, Option.map_some', Option.map_none', hf, Schema.over_fresh]
    | some x => simp only [Option.getD_some, Option.map_some', hf]
  · rw [if_neg hk, if_neg hk]

/-- `addCounter` decides by the counter and the catalog, and then writes. -/
theorem addCounter_plan (R : Runtime) (me : ZapiPerf) (counter : Node) (name display : String)
    (enabled : Bool) (cache : List (String × Node)) :
    addCounter R me counter name display enabled cache =
      match planCounter R counter name display cache with
      | CounterPlan.skip => (me, "")
      | CounterPlan.scalar display1 property baseCounter =>
        ({ me with
            Matrix := upsertMetric me.Matrix name (fun x =>
              { x with name := display1, property := property, comment := baseCounter,
                       exportable := enabled }) },
          baseCounter)
      | CounterPlan.array display1 property baseCounter baseLabels labels =>
        ({ me with
            Matrix := addArrayMetrics name display1 property baseCounter enabled baseLabels
              labels me.Matrix
            histogramLabels := assocSet name labels me.histogramLabels },
          baseCounter) := by
  unfold addCounter planCounter
  simp only
  split
  · rfl
  · split
    · split
      · rfl
      · by_cases hbc : counter.GetChildContentS "base-counter" = ""
        · simp only [hbc, ne_eq, not_true_eq_false, if_false]
        · cases hc : assocGet (counter.GetChildContentS "base-counter") cache with
          | none => simp only [ne_eq, hbc, not_false_eq_true, if_true, hc]
          | some base =>
            by_cases hty : base.GetChildContentS "type" = "array"
            · by_cases hp : (parseHistogramLabels R base).2 = ""
              · by_cases hl : (parseHistogramLabels R base).1.length =
                    (parseHistogramLabels R counter).1.length
                · simp only [ne_eq, hbc, not_false_eq_true, if_true, hc, hty, hp, hl,
                    not_true_eq_false, if_false]
                · simp only [ne_eq, hbc, not_false_eq_true, if_true, hc, hty, hp, hl,
                    not_true_eq_false, if_false]
              · simp only [ne_eq, hbc, not_false_eq_true, if_true, hc, hty, hp]
            · simp only [ne_eq, hbc, not_false_eq_true, if_true, hc, hty, if_false]
    · rfl

theorem arraySchema_spec (display property baseKey : String) (enabled : Bool) (label : String)
    (x : Metric) :
    ({ x with
        name := display, property := property, comment := baseKey, exportable := enabled,
        labels :=
          match strings.Split label "." with
          | [a, b] => assocSet "submetric" b (assocSet "metric" a x.labels)
          | _ => assocSet "metric" label x.labels } : Metric).schema =
      (arraySchema display property baseKey enabled label).over (some x.schema) := by
  unfold Metric.schema arraySchema Schema.over
  simp only [Schema.mk.injEq, true_and]
  funext l
  rcases hs : strings.Split label "." with _ | ⟨a, _ | ⟨b, _ | ⟨c, rest⟩⟩⟩
  · simp only
    by_cases hl : l = "metric"
    · subst hl; simp [assocGet_assocSet_self]
    · simp [hl, assocGet_assocSet_ne _ _ _ _ hl]
  · simp only
    by_cases hl : l = "metric"
    · subst hl; simp [assocGet_assocSet_self]
    · simp [hl, assocGet_assocSet_ne _ _ _ _ hl]
  · simp only
    by_cases hl : l = "submetric"
    · subst hl; simp [assocGet_assocSet_self]
    · by_cases hl2 : l = "metric"
      · subst hl2
        simp [assocGet_assocSet_ne _ _ _ _ hl, assocGet_assocSet_self]
      · simp [hl, hl2, assocGet_assocSet_ne _ _ _ _ hl, assocGet_assocSet_ne _ _ _ _ hl2]
  · simp only
    by_cases hl : l = "metric"
    · subst hl; simp [assocGet_assocSet_self]
    · simp [hl, assocGet_assocSet_ne _ _ _ _ hl]

theorem arrayTouch_dot (name : String) (attrs : String → Schema) (labels : List String)
    (k : String) (h : (arrayTouch name attrs labels k).isSome = true) :
    strings.Contains k "." = true := by
  induction labels with
  | nil => simp [arrayTouch] at h
  | cons l ls ih =>
    unfold arrayTouch at h
    cases h1 : arrayTouch name attrs ls k with
    | some t => exact ih (by rw [h1]; rfl)
    | none =>
      rw [h1] at h
      simp only at h
      by_cases hkl : k = name ++ "." ++ l
      · rw [hkl]; exact Contains_dot name l
      · rw [if_neg hkl] at h
        simp at h

/-- The metrics of an array counter: what is written to each key does not depend on
the matrix. -/
theorem schemaAt_addArrayMetrics (name display property baseCounter : String) (enabled : Bool)
    (baseLabels : List String) :
    ∀ (labels : List String) (m : Matrix) (k : String),
      (addArrayMetrics name display property baseCounter enabled baseLabels labels m).schemaAt k =
        match arrayTouch name
            (arraySchema display property (arrayBaseKey baseCounter baseLabels) enabled)
            labels k with
        | none => m.schemaAt k
        | some t => some (t.over (m.schemaAt k)) := by
  intro labels
  induction labels with
  | nil => intro m k; rfl
  | cons l ls ih =>
    intro m k
    simp only [addArrayMetrics, arrayTouch]
    rw [ih]
    cases h1 : arrayTouch name
        (arraySchema display property (arrayBaseKey baseCounter baseLabels) enabled) ls k with
    | none =>
      simp only
      refine (schemaAt_upsertMetric m _ _ k
        (arraySchema display property (arrayBaseKey baseCounter baseLabels) enabled l)
        (fun x => arraySchema_spec _ _ _ _ _ x)).trans ?_
      by_cases hkl : k = name ++ "." ++ l
      · simp only [hkl, if_true]
      · simp only [hkl, if_false]
    | some t =>
      simp only
      refine (congrArg (fun z => some (t.over z)) (schemaAt_upsertMetric m _ _ k
        (arraySchema display property (arrayBaseKey baseCounter baseLabels) enabled l)
        (fun x => arraySchema_spec _ _ _ _ _ x))).trans ?_
      by_cases hkl : k = name ++ "." ++ l
      · simp only [hkl, if_true, Schema.over_assoc]
      · simp only [hkl, if_false, Schema.over_none_over]

theorem scalarSchema_spec (display property baseCounter : String) (enabled : Bool) (x : Metric) :
    ({ x with name := display, property := property, comment := baseCounter,
              exportable := enabled } : Metric).schema =
      Schema.over { name := display, property := property, comment := baseCounter,
                    exportable := enabled, labels := fun _ => none } (some x.schema) := rfl

/-- `addCounter`: what it returns, what it writes to each metric key and the array
labels it caches do not depend on the collector; it writes to the key `name` or to
keys with a `.` only, and leaves the rest of the collector as it is. -/
theorem addCounter_uniform (R : Runtime) (counter : Node) (name display : String)
    (enabled : Bool) (cache : List (String × Node)) :
    ∃ (ret : String) (τ : String → Option Schema) (h : String → Option (List String)),
      (∀ k, (τ k).isSome = true → k = name ∨ strings.Contains k "." = true) ∧
      ∀ me : ZapiPerf,
        (addCounter R me counter name display enabled cache).2 = ret ∧
        (∀ k, (addCounter R me counter name display enabled cache).1.Matrix.schemaAt k =
          match τ k with
          | none => me.Matrix.schemaAt k
          | some t => some (t.over (me.Matrix.schemaAt k))) ∧
        (∀ k, assocGet k (addCounter R me counter name display enabled cache).1.histogramLabels =
          match h k with
          | some x => some x
          | none => assocGet k me.histogramLabels) ∧
        (addCounter R me counter name display enabled cache).1.instanceLabels = me.instanceLabels ∧
        (addCounter R me counter name display enabled cache).1.Params = me.Params ∧
        (addCounter R me counter name display enabled cache).1.object = me.object ∧
        (addCounter R me counter name display enabled cache).1.Query = me.Query := by
  cases hplan : planCounter R counter name display cache with
  | skip =>
    refine ⟨"", fun _ => none, fun _ => none, fun k h => by simp at h, fun me => ?_⟩
    rw [addCounter_plan, hplan]
    exact ⟨rfl, fun k => rfl, fun k => rfl, rfl, rfl, rfl, rfl⟩
  | scalar display1 property baseCounter =>
    refine ⟨baseCounter, fun k =>
      if k = name then
        some { name := display1, property := property, comment := baseCounter,
               exportable := enabled, labels := fun _ => none }
      else none, fun _ => none, fun k h => ?_, fun me => ?_⟩
    · by_cases hk : k = name
      · exact Or.inl hk
      · simp [hk] at h
    · rw [addCounter_plan, hplan]
      refine ⟨rfl, fun k => ?_, fun k => rfl, rfl, rfl, rfl, rfl⟩
      simp only
      rw [schemaAt_upsertMetric _ _ _ _ _ (scalarSchema_spec display1 property baseCounter enabled)]
      by_cases hk : k = name
      · simp only [hk, if_true]
      · simp only [hk, if_false]
  | array display1 property baseCounter baseLabels labels =>
    refine ⟨baseCounter, arrayTouch name
        (arraySchema display1 property (arrayBaseKey baseCounter baseLabels) enabled) labels,
      fun k => if k = name then some labels else none,
      fun k h => Or.inr (arrayTouch_dot _ _ _ k h), fun me => ?_⟩
    rw [addCounter_plan, hplan]
    refine ⟨rfl, fun k => schemaAt_addArrayMetrics _ _ _ _ _ _ _ me.Matrix k, fun k => ?_,
      rfl, rfl, rfl, rfl⟩
    simp only
    by_cases hk : k = name
    · subst hk
      simp only [if_true, assocGet_assocSet_self]
    · simp only [hk, if_false, assocGet_assocSet_ne _ _ _ _ hk]

/-! ## `PollCounter` twice: the loops over the catalog -/

theorem decide_mem_setDelete (s : List String) (key k : String) :
    decide (k ∈ setDelete s key) = (decide (k ∈ s) && !decide (k = key)) := by
  by_cases h1 : k ∈ s <;> by_cases h2 : k = key <;> simp [mem_setDelete, h1, h2]

/-- A change of the state that leaves the collector and the two old sets as they are
does nothing to the schema. -/
theorem Acts.frame (a b : CounterState) (hme : b.me = a.me) (hm : b.oldMetrics = a.oldMetrics)
    (hl : b.oldLabels = a.oldLabels) : Acts SchemaStep.id a b := by
  refine ⟨fun k => ?_, fun k => ?_, fun k => ?_⟩
  · simp [keyView, hme, hm, SchemaStep.id, KeyStep.apply]
  · simp [labelView, hme, hl, SchemaStep.id, labelApply]
  · simp [hme, SchemaStep.id]

/-- A counter added by `addCounter`, its key taken out of `oldMetrics`: what is returned
and what is done to the schema does not depend on the state. -/
theorem addCounter_step (R : Runtime) (counter : Node) (key display : String) (enabled : Bool)
    (cache : List (String × Node)) :
    ∃ (ret : String) (s : SchemaStep), s.ok ∧
      ∀ st st2 : CounterState,
        st2.me = (addCounter R st.me counter key display enabled cache).1 →
        st2.oldMetrics = setDelete st.oldMetrics key →
        st2.oldLabels = st.oldLabels →
        (addCounter R st.me counter key display enabled cache).2 = ret ∧ Acts s st st2 ∧
          st2.me.Params = st.me.Params ∧ st2.me.object = st.me.object ∧
          st2.me.Query = st.me.Query := by
  obtain ⟨ret, τ, h, hτ, heff⟩ := addCounter_uniform R counter key display enabled cache
  refine ⟨ret, { metric := fun k => { del := decide (k = key), touch := τ k },
                 label := fun _ => none, hist := h }, ?_, ?_⟩
  · intro k hk
    rcases hτ k hk with h1 | h1
    · left; simp [h1]
    · exact Or.inr h1
  · intro st st2 hme hold hlab
    obtain ⟨e1, e2, e3, e4, e5, e6, e7⟩ := heff st.me
    refine ⟨e1, ⟨fun k => ?_, fun k => ?_, fun k => ?_⟩, ?_, ?_, ?_⟩
    · simp only [keyView, KeyStep.apply, hme, hold, e2 k, decide_mem_setDelete]
    · simp only [labelView, labelApply, hme, hlab, e4]
    · simp only [hme, e3 k]
    · rw [hme, e5]
    · rw [hme, e6]
    · rw [hme, e7]

theorem noteReplaced_fields (wanted : List (String × String)) (st : CounterState) (counter : Node) :
    (noteReplaced wanted st counter).me = st.me ∧
    (noteReplaced wanted st counter).counters = st.counters ∧
    (noteReplaced wanted st counter).oldMetrics = st.oldMetrics ∧
    (noteReplaced wanted st counter).oldLabels = st.oldLabels ∧
    (noteReplaced wanted st counter).missing = st.missing ∧
    (noteReplaced wanted st counter).replaced =
      if counter.GetChildContentS "is-deprecated" = "true" ∧
          (assocGet (counter.GetChildContentS "replaced-by") wanted).isNone then
        setAdd st.replaced (counter.GetChildContentS "replaced-by")
      else st.replaced := by
  unfold noteReplaced
  split <;> exact ⟨rfl, rfl, rfl, rfl, rfl, rfl⟩

theorem noteReplaced_coupled (wanted : List (String × String)) (counter : Node) :
    Coupled (fun st => noteReplaced wanted st counter) := by
  intro a b hab
  obtain ⟨hc, hr, hm, hp, ho, hq⟩ := hab
  obtain ⟨a1, a2, a3, a4, a5, a6⟩ := noteReplaced_fields wanted a counter
  obtain ⟨b1, b2, b3, b4, b5, b6⟩ := noteReplaced_fields wanted b counter
  refine ⟨⟨?_, ?_, ?_, ?_, ?_, ?_⟩, ?_, ?_, ?_, SchemaStep.id, SchemaStep.ok_id,
    Acts.frame _ _ a1 a3 a4, Acts.frame _ _ b1 b3 b4⟩
  · simp only [a2, b2, hc]
  · simp only [a6, b6, hr]
  · simp only [a5, b5, hm]
  · simp only [a1, b1, hp]
  · simp only [a1, b1, ho]
  · simp only [a1, b1, hq]
  · simp only [a1]
  · simp only [a1]
  · simp only [a1]

theorem stringCore_acts (key display : String) (st : CounterState) :
    Acts { metric := fun _ => { del := false, touch := none }
           label := fun k =>
             if k = key then
               some (if key = "instance_name" ∧ display = "" then st.me.object else display)
             else none
           hist := fun _ => none } st (stringCore key display st) := by
  refine ⟨fun k => ?_, fun k => ?_, fun k => rfl⟩
  · simp [keyView, stringCore, KeyStep.apply]
  · simp only [labelView, stringCore, labelApply]
    by_cases hk : k = key
    · subst hk
      simp [assocGet_assocSet_self, mem_setDelete]
    · simp only [hk, if_false, assocGet_assocSet_ne _ _ _ _ hk]
      simp [mem_setDelete, hk]

theorem stringCore_coupled (key display : String) : Coupled (stringCore key display) := by
  intro a b hab
  obtain ⟨hc, hr, hm, hp, ho, hq⟩ := hab
  refine ⟨⟨hc, hr, hm, hp, ho, hq⟩, rfl, rfl, rfl, _, ?_, stringCore_acts key display a, ?_⟩
  · intro k hk
    simp at hk
  · have h := stringCore_acts key display b
    rw [← ho] at h
    exact h

theorem numericCore_coupled (R : Runtime) (wanted : List (String × String)) (counter : Node)
    (key display : String) : Coupled (numericCore R wanted counter key display) := by
  intro a b hab
  obtain ⟨hc, hr, hm, hp, ho, hq⟩ := hab
  obtain ⟨ret, s, hok, hstep⟩ := addCounter_step R counter key display true a.counters
  obtain ⟨ra, acta, pa, oa, qa⟩ := hstep a (numericCore R wanted counter key display a) rfl rfl rfl
  obtain ⟨rb, actb, pb, ob, qb⟩ := hstep b (numericCore R wanted counter key display b)
    (by rw [hc]; rfl) rfl rfl
  refine ⟨⟨hc, hr, ?_, ?_, ?_, ?_⟩, pa, oa, qa, s, hok, acta, actb⟩
  · show noteMissing wanted a.missing _ = noteMissing wanted b.missing _
    rw [ra, ← hc, rb, hm]
  · rw [pa, pb, hp]
  · rw [oa, ob, ho]
  · rw [qa, qb, hq]

theorem baseCore_coupled (R : Runtime) (counter : Node) (key : String) :
    Coupled (baseCore R counter key) := by
  intro a b hab
  obtain ⟨hc, hr, hm, hp, ho, hq⟩ := hab
  obtain ⟨ret, s, hok, hstep⟩ := addCounter_step R counter key "" false a.counters
  obtain ⟨ra, acta, pa, oa, qa⟩ := hstep a (baseCore R counter key a) rfl rfl rfl
  obtain ⟨rb, actb, pb, ob, qb⟩ := hstep b (baseCore R counter key b) (by rw [hc]; rfl) rfl rfl
  refine ⟨⟨hc, hr, hm, ?_, ?_, ?_⟩, pa, oa, qa, s, hok, acta, actb⟩
  · rw [pa, pb, hp]
  · rw [oa, ob, ho]
  · rw [qa, qb, hq]

theorem addWanted_coupled (R : Runtime) (wanted : List (String × String)) (key display : String)
    (counter : Node) : Coupled (fun st => addWanted R wanted st key display counter) := by
  by_cases h1 : counter.GetChildContentS "is-deprecated" = "true" ∧
      counter.GetChildContentS "replaced-by" = ""
  · have : (fun st => addWanted R wanted st key display counter) = fun st => st := by
      funext st
      unfold addWanted
      rw [if_pos h1]
    rw [this]
    exact Coupled.id
  · by_cases h2 : strings.Contains (counter.GetChildContentS "properties") "string" = true
    · have : (fun st => addWanted R wanted st key display counter) =
          fun st => stringCore key display (noteReplaced wanted st counter) := by
        funext st
        unfold addWanted
        rw [if_neg h1, if_pos h2]
        rfl
      rw [this]
      exact Coupled.comp (noteReplaced_coupled wanted counter) (stringCore_coupled key display)
    · have : (fun st => addWanted R wanted st key display counter) =
          fun st => numericCore R wanted counter key display (noteReplaced wanted st counter) := by
        funext st
        unfold addWanted
        rw [if_neg h1, if_neg h2]
        rfl
      rw [this]
      exact Coupled.comp (noteReplaced_coupled wanted counter)
        (numericCore_coupled R wanted counter key display)

theorem applyOverride_congr (a b : ZapiPerf) (h : a.Params = b.Params) (key : String)
    (node : Node) : applyOverride a key node = applyOverride b key node := by
  unfold applyOverride GetOverride
  rw [h]

theorem override_coupled (key : String) (node : Node) :
    Coupled (fun st =>
      { st with counters := (assocModify key (fun _ => applyOverride st.me key node) st.counters) }) := by
  intro a b hab
  obtain ⟨hc, hr, hm, hp, ho, hq⟩ := hab
  refine ⟨⟨?_, hr, hm, hp, ho, hq⟩, rfl, rfl, rfl, SchemaStep.id, SchemaStep.ok_id,
    Acts.frame _ _ rfl rfl rfl, Acts.frame _ _ rfl rfl rfl⟩
  simp only
  rw [hc, applyOverride_congr a.me b.me hp]

theorem firstPass_coupled (R : Runtime) (wanted : List (String × String))
    (entry : String × Node) : Coupled (fun st => firstPass R wanted st entry) := by
  cases hw : assocGet entry.1 wanted with
  | none =>
    have : (fun st => firstPass R wanted st entry) = fun st =>
        { st with counters :=
            (assocModify entry.1 (fun _ => applyOverride st.me entry.1 entry.2) st.counters) } := by
      funext st
      unfold firstPass
      rw [hw]
    rw [this]
    exact override_coupled entry.1 entry.2
  | some display =>
    apply Coupled.choose
    intro a b hab
    refine ⟨fun st => addWanted R wanted
      { st with counters :=
          (assocModify entry.1 (fun _ => applyOverride st.me entry.1 entry.2) st.counters) }
      entry.1 display (applyOverride a.me entry.1 entry.2), ?_, ?_, ?_⟩
    · exact Coupled.comp (override_coupled entry.1 entry.2)
        (addWanted_coupled R wanted entry.1 display (applyOverride a.me entry.1 entry.2))
    · unfold firstPass
      rw [hw]
    · unfold firstPass
      rw [hw]
      simp only
      rw [applyOverride_congr b.me a.me hab.2.2.2.1.symm]

theorem secondPass_coupled (R : Runtime) (wanted : List (String × String))
    (entry : String × Node) : Coupled (fun st => secondPass R wanted st entry) := by
  apply Coupled.choose
  intro a b hab
  by_cases h : entry.1 ∈ a.replaced
  · refine ⟨numericCore R wanted entry.2 entry.1 entry.1,
      numericCore_coupled R wanted entry.2 entry.1 entry.1, ?_, ?_⟩
    · unfold secondPass
      rw [if_pos h]
      rfl
    · unfold secondPass
      rw [if_pos (hab.2.1 ▸ h)]
      rfl
  · refine ⟨fun st => st, Coupled.id, ?_, ?_⟩
    · unfold secondPass
      rw [if_neg h]
    · unfold secondPass
      rw [if_neg (hab.2.1 ▸ h)]

theorem thirdPass_coupled (R : Runtime) (entry : String × Node) :
    Coupled (fun st => thirdPass R st entry) := by
  apply Coupled.choose
  intro a b hab
  by_cases h : entry.1 ∈ a.missing
  · refine ⟨baseCore R entry.2 entry.1, baseCore_coupled R entry.2 entry.1, ?_, ?_⟩
    · unfold thirdPass
      rw [if_pos h]
      rfl
    · unfold thirdPass
      rw [if_pos (hab.2.2.1 ▸ h)]
      rfl
  · refine ⟨fun st => st, Coupled.id, ?_, ?_⟩
    · unfold thirdPass
      rw [if_neg h]
    · unfold thirdPass
      rw [if_neg (hab.2.2.1 ▸ h)]

/-- The three loops of `PollCounter` do the same to two states that agree on the
catalog and the template. -/
theorem counterLoops_coupled (R : Runtime) (wanted : List (String × String)) :
    Coupled (counterLoops R wanted) := by
  have h1 : Coupled (fun st => (R.rangeOrder 5 st.counters).foldl (firstPass R wanted) st) := by
    apply Coupled.choose
    intro a b hab
    refine ⟨fun st => (R.rangeOrder 5 a.counters).foldl (firstPass R wanted) st,
      Coupled.foldl _ (firstPass_coupled R wanted) _, rfl, ?_⟩
    simp only [hab.1]
  have h2 : Coupled (fun st =>
      if st.replaced.length > 0 then (R.rangeOrder 6 st.counters).foldl (secondPass R wanted) st
      else st) := by
    apply Coupled.choose
    intro a b hab
    by_cases h : a.replaced.length > 0
    · refine ⟨fun st => (R.rangeOrder 6 a.counters).foldl (secondPass R wanted) st,
        Coupled.foldl _ (secondPass_coupled R wanted) _, ?_, ?_⟩
      · simp only [h, if_true]
      · simp only [← hab.2.1, h, if_true, hab.1]
    · refine ⟨fun st => st, Coupled.id, ?_, ?_⟩
      · simp only [h, if_false]
      · simp only [← hab.2.1, h, if_false]
  have h3 : Coupled (fun st =>
      if st.missing.length > 0 then (R.rangeOrder 7 st.counters).foldl (thirdPass R) st
      else st) := by
    apply Coupled.choose
    intro a b hab
    by_cases h : a.missing.length > 0
    · refine ⟨fun st => (R.rangeOrder 7 a.counters).foldl (thirdPass R) st,
        Coupled.foldl _ (thirdPass_coupled R) _, ?_, ?_⟩
      · simp only [h, if_true]
      · simp only [← hab.2.2.1, h, if_true, hab.1]
    · refine ⟨fun st => st, Coupled.id, ?_, ?_⟩
      · simp only [h, if_false]
      · simp only [← hab.2.2.1, h, if_false]
  have h := Coupled.comp (Coupled.comp h1 h2) h3
  exact h

theorem syncCounters_eq (R : Runtime) (me : ZapiPerf) (wanted : List (String × String))
    (counters : List (String × Node)) :
    syncCounters R me wanted counters =
      ensureTimestamp (counterLoops R wanted (initCounters me counters)) := rfl

/-! ## `PollCounter` twice: the end of the function -/

theorem assocGet_assocErase {β : Type} (a k : String) (l : List (String × β)) :
    assocGet k (assocErase a l) = if k = a then none else assocGet k l := by
  unfold assocErase
  induction l with
  | nil => simp [assocGet]
  | cons e rest ih =>
    obtain ⟨k1, v1⟩ := e
    by_cases h1 : k1 = a
    · subst h1
      rw [List.filter_cons_of_neg (by simp), ih]
      by_cases hk : k = k1
      · simp [hk]
      · have hk2 : ¬ k1 = k := fun h => hk h.symm
        simp [assocGet, hk, hk2]
    · rw [List.filter_cons_of_pos (by simpa using h1)]
      by_cases hk : k1 = k
      · subst hk
        simp [assocGet, h1]
      · simp only [assocGet, hk, if_false, ih]

theorem schemaAt_RemoveMetric (m : Matrix) (a k : String) :
    (m.RemoveMetric a).schemaAt k = if k = a then none else m.schemaAt k := by
  unfold Matrix.schemaAt Matrix.GetMetric Matrix.RemoveMetric
  simp only [assocGet_assocErase]
  split <;> rfl

theorem schemaAt_removeStep (m : Matrix) (a k : String) :
    (if a ≠ "timestamp" ∧ strings.Contains a "." = false then m.RemoveMetric a else m).schemaAt k =
      if k = a ∧ k ≠ "timestamp" ∧ strings.Contains k "." = false then none
      else m.schemaAt k := by
  by_cases hg : a ≠ "timestamp" ∧ strings.Contains a "." = false
  · rw [if_pos hg, schemaAt_RemoveMetric]
    by_cases hka : k = a
    · subst hka
      rw [if_pos rfl, if_pos ⟨rfl, hg⟩]
    · rw [if_neg hka, if_neg (fun h => hka h.1)]
  · rw [if_neg hg, if_neg]
    rintro ⟨h1, h2⟩
    subst h1
    exact hg h2

theorem schemaAt_removeOld (L : List String) :
    ∀ (m : Matrix) (k : String),
      (L.foldl (fun m key =>
        if key ≠ "timestamp" ∧ strings.Contains key "." = false then m.RemoveMetric key else m)
        m).schemaAt k =
      if k ∈ L ∧ k ≠ "timestamp" ∧ strings.Contains k "." = false then none
      else m.schemaAt k := by
  induction L with
  | nil => intro m k; simp
  | cons a rest ih =>
    intro m k
    rw [List.foldl_cons, ih, schemaAt_removeStep]
    by_cases hg : k ≠ "timestamp" ∧ strings.Contains k "." = false
    · by_cases hr : k ∈ rest
      · rw [if_pos ⟨hr, hg⟩, if_pos ⟨List.mem_cons_of_mem _ hr, hg⟩]
      · rw [if_neg (fun h => hr h.1)]
        by_cases hka : k = a
        · rw [if_pos ⟨hka, hg⟩, if_pos ⟨hka ▸ List.mem_cons_self _ _, hg⟩]
        · rw [if_neg (fun h => hka h.1), if_neg (fun h => (List.mem_cons.mp h.1).elim hka hr)]
    · rw [if_neg (fun h => hg h.2), if_neg (fun h => hg h.2), if_neg (fun h => hg h.2)]

theorem assocGet_eraseAll {β : Type} (L : List String) :
    ∀ (l : List (String × β)) (k : String),
      assocGet k (L.foldl (fun l key => assocErase key l) l) =
        if k ∈ L then none else assocGet k l := by
  induction L with
  | nil => intro l k; simp
  | cons a rest ih =>
    intro l k
    rw [List.foldl_cons, ih, assocGet_assocErase]
    by_cases hr : k ∈ rest
    · simp [hr]
    · by_cases hka : k = a
      · simp [hka]
      · simp [hr, hka]

/-- The end of `PollCounter`: the metrics and labels still in the old sets are removed. -/
theorem finishCounters_spec (R : Runtime) (st : CounterState) :
    (∀ k, (finishCounters R st).1.Matrix.schemaAt k =
      if k ∈ st.oldMetrics ∧ k ≠ "timestamp" ∧ strings.Contains k "." = false then none
      else st.me.Matrix.schemaAt k) ∧
    (∀ k, assocGet k (finishCounters R st).1.instanceLabels =
      if k ∈ st.oldLabels then none else assocGet k st.me.instanceLabels) ∧
    (finishCounters R st).1.histogramLabels = st.me.histogramLabels ∧
    (finishCounters R st).1.Params = st.me.Params ∧
    (finishCounters R st).1.object = st.me.object ∧
    (finishCounters R st).1.Query = st.me.Query ∧
    ((finishCounters R st).2 = Ret.ok none none ↔
      (finishCounters R st).1.Matrix.metrics.length ≠ 0) := by
  have hfst : (finishCounters R st).1 =
      { st.me with
        Matrix := (R.rangeOrder 8 st.oldMetrics).foldl (fun m key =>
          if key ≠ "timestamp" ∧ strings.Contains key "." = false then m.RemoveMetric key else m)
          st.me.Matrix
        instanceLabels := (R.rangeOrder 9 st.oldLabels).foldl (fun l key => assocErase key l)
          st.me.instanceLabels } := by
    unfold finishCounters
    simp only
    split <;> rfl
  refine ⟨fun k => ?_, fun k => ?_, ?_, ?_, ?_, ?_, ?_⟩
  · rw [hfst]
    simp only
    rw [schemaAt_removeOld]
    simp only [(R.rangeOrder_perm 8 st.oldMetrics).mem_iff]
  · rw [hfst]
    simp only
    rw [assocGet_eraseAll]
    simp only [(R.rangeOrder_perm 9 st.oldLabels).mem_iff]
  · rw [hfst]
  · rw [hfst]
  · rw [hfst]
  · rw [hfst]
  · rw [hfst]
    unfold finishCounters
    simp only
    split
    · rename_i h
      constructor
      · intro h2; cases h2
      · intro h2; exact absurd h h2
    · rename_i h
      exact ⟨fun _ => h, fun _ => rfl⟩

theorem ensureTimestamp_frame (st : CounterState) :
    (ensureTimestamp st).oldMetrics = st.oldMetrics ∧
    (ensureTimestamp st).oldLabels = st.oldLabels ∧
    (ensureTimestamp st).me.instanceLabels = st.me.instanceLabels ∧
    (ensureTimestamp st).me.histogramLabels = st.me.histogramLabels ∧
    (ensureTimestamp st).me.Params = st.me.Params ∧
    (ensureTimestamp st).me.object = st.me.object ∧
    (ensureTimestamp st).me.Query = st.me.Query := by
  unfold ensureTimestamp
  split
  · exact ⟨rfl, rfl, rfl, rfl, rfl, rfl, rfl⟩
  · split <;> exact ⟨rfl, rfl, rfl, rfl, rfl, rfl, rfl⟩

/-- The `timestamp` metric is made when its key is not in `oldMetrics` and the matrix has
no such metric. -/
theorem ensureTimestamp_schema (st : CounterState) (k : String) :
    (ensureTimestamp st).me.Matrix.schemaAt k =
      if k = "timestamp" ∧ "timestamp" ∉ st.oldMetrics ∧ (st.me.Matrix.schemaAt k).isNone = true
      then some timestampSchema
      else st.me.Matrix.schemaAt k := by
  unfold ensureTimestamp
  by_cases hold : "timestamp" ∈ st.oldMetrics
  · rw [if_pos hold, if_neg (fun h => h.2.1 hold)]
  · rw [if_neg hold]
    cases hm : st.me.Matrix.GetMetric "timestamp" with
    | some x =>
      have hn : st.me.Matrix.NewMetricFloat64 "timestamp" = none := by
        simp [Matrix.NewMetricFloat64, hm]
      rw [hn]
      by_cases hk : k = "timestamp"
      · subst hk
        rw [if_neg]
        simp [Matrix.schemaAt, hm]
      · rw [if_neg (fun h => hk h.1)]
    | none =>
      have hn : st.me.Matrix.NewMetricFloat64 "timestamp" =
          some { st.me.Matrix with
            metrics := st.me.Matrix.metrics ++ [("timestamp", Metric.fresh "timestamp")] } := by
        simp [Matrix.NewMetricFloat64, hm, Metric.fresh]
      rw [hn]
      simp only
      by_cases hk : k = "timestamp"
      · subst hk
        rw [if_pos ⟨rfl, hold, by simp [Matrix.schemaAt, hm]⟩]
        unfold Matrix.schemaAt
        rw [Matrix.GetMetric_onMetric_self]
        unfold Matrix.GetMetric at hm ⊢
        simp only
        rw [assocGet_append, hm]
        simp [assocGet, Metric.schema, timestampSchema, Metric.fresh]
      · rw [if_neg (fun h => hk h.1)]
        unfold Matrix.schemaAt
        rw [Matrix.GetMetric_onMetric_ne _ _ _ _ hk]
        unfold Matrix.GetMetric
        simp only
        rw [assocGet_append]
        cases assocGet k st.me.Matrix.metrics with
        | some v => rfl
        | none =>
          have hk2 : ¬ "timestamp" = k := fun h => hk h.symm
          simp [assocGet, hk2]

/-! ## `PollCounter` twice: one metric key over two runs -/

/-- The schema of a key after a run is the same after a second run that does the same
to the key. -/
theorem finalOf_idem (q : Bool) (dk k : String) (s : KeyStep) (m0 : Option Schema)
    (hok : s.touch.isSome = true → s.del = true ∨ strings.Contains k "." = true) :
    finalOf q dk k (s.apply (finalOf q dk k (s.apply (m0, m0.isSome)),
      (finalOf q dk k (s.apply (m0, m0.isSome))).isSome)) =
    finalOf q dk k (s.apply (m0, m0.isSome)) := by
  obtain ⟨d, t⟩ := s
  by_cases hts : k = "timestamp"
  · subst hts
    cases t with
    | none => cases m0 <;> cases d <;> simp [finalOf, KeyStep.apply]
    | some t => cases m0 <;> cases d <;> simp [finalOf, KeyStep.apply, Schema.over_idem]
  · by_cases hkeep : q = true ∧ k = dk
    · cases t with
      | none => cases m0 <;> cases d <;> simp [finalOf, KeyStep.apply, hts, hkeep]
      | some t => cases m0 <;> cases d <;> simp [finalOf, KeyStep.apply, hts, hkeep, Schema.over_idem]
    · cases hdot : strings.Contains k "."
      · cases t with
        | none => cases m0 <;> cases d <;> simp [finalOf, KeyStep.apply, hts, hkeep, hdot]
        | some t =>
          have hd : d = true := by
            rcases hok rfl with h | h
            · exact h
            · rw [hdot] at h; cases h
          subst hd
          cases m0 <;> simp [finalOf, KeyStep.apply, hts, hkeep, hdot, Schema.over_idem]
      · cases t with
        | none => cases m0 <;> cases d <;> simp [finalOf, KeyStep.apply, hts, hkeep, hdot]
        | some t =>
          cases m0 <;> cases d <;> simp [finalOf, KeyStep.apply, hts, hkeep, hdot, Schema.over_idem]

/-- A key in `oldMetrics` after the loops has a metric. -/
theorem apply_old_isSome (s : KeyStep) (m0 : Option Schema) :
    (s.apply (m0, m0.isSome)).2 = true → (s.apply (m0, m0.isSome)).1.isSome = true := by
  obtain ⟨d, t⟩ := s
  cases t <;> cases m0 <;> cases d <;> simp [KeyStep.apply]

/-- A metric of the second run is a metric of the first. -/
theorem apply_final_isSome (q : Bool) (dk k : String) (s : KeyStep) (m0 : Option Schema)
    (hts : k ≠ "timestamp") :
    (s.apply (finalOf q dk k (s.apply (m0, m0.isSome)),
      (finalOf q dk k (s.apply (m0, m0.isSome))).isSome)).1.isSome = true →
    (s.apply (m0, m0.isSome)).1.isSome = true := by
  obtain ⟨d, t⟩ := s
  cases t with
  | some t => intro _; simp [KeyStep.apply]
  | none =>
    simp only [KeyStep.apply, finalOf, hts, false_and, if_false]
    split
    · intro h; cases h
    · exact fun h => h

/-- The key kept for `workload_detail` is in `oldMetrics` in the second run too. -/
theorem apply_final_old_kept (dk k : String) (s : KeyStep) (m0 : Option Schema)
    (hk : k = dk) (hold : (s.apply (m0, m0.isSome)).2 = true) :
    (s.apply (finalOf true dk k (s.apply (m0, m0.isSome)),
      (finalOf true dk k (s.apply (m0, m0.isSome))).isSome)).2 = true := by
  obtain ⟨d, t⟩ := s
  cases t <;> cases m0 <;> cases d <;> simp [KeyStep.apply, finalOf, hk] at hold ⊢

/-- A key without `.`, other than `timestamp`, that is not in `oldMetrics` after the
loops of the first run is not there in the second run either. -/
theorem apply_final_old_not (q : Bool) (dk k : String) (s : KeyStep) (m0 : Option Schema)
    (hok : s.touch.isSome = true → s.del = true ∨ strings.Contains k "." = true)
    (hts : k ≠ "timestamp") (hdot : strings.Contains k "." = false)
    (hold : (s.apply (m0, m0.isSome)).2 = false) :
    (s.apply (finalOf q dk k (s.apply (m0, m0.isSome)),
      (finalOf q dk k (s.apply (m0, m0.isSome))).isSome)).2 = false := by
  obtain ⟨d, t⟩ := s
  cases d with
  | true => simp [KeyStep.apply]
  | false =>
    cases t with
    | some t =>
      rcases hok rfl with h | h
      · cases h
      · rw [hdot] at h; cases h
    | none => cases m0 <;> simp [KeyStep.apply, finalOf, hts, hdot] at hold ⊢

/-! ## `PollCounter` twice: the second run -/

theorem detailPass_spec (st : CounterState) :
    (¬ ("service_time" ∉ st.oldMetrics ∧ "wait_time" ∉ st.oldMetrics) ∧
      ¬ ((st.me.Matrix.GetMetric "service_time").isSome ∧
          (st.me.Matrix.GetMetric "wait_time").isSome) ∧
      (∃ rm, st.me.Params.GetChildS "resource_map" = some rm ∧ rm.GetChildren = []) ∧
      detailPass st = Sum.inl { st with oldMetrics := setDelete st.oldMetrics (detailKey st) }) ∨
    (¬ (¬ ("service_time" ∉ st.oldMetrics ∧ "wait_time" ∉ st.oldMetrics) ∧
      ¬ ((st.me.Matrix.GetMetric "service_time").isSome ∧
          (st.me.Matrix.GetMetric "wait_time").isSome) ∧
      (∃ rm, st.me.Params.GetChildS "resource_map" = some rm ∧ rm.GetChildren = [])) ∧
      ∃ r, detailPass st = Sum.inr r ∧ r.2 ≠ Ret.ok none none) := by
  unfold detailPass
  by_cases h1 : "service_time" ∉ st.oldMetrics ∧ "wait_time" ∉ st.oldMetrics
  · right
    rw [if_pos h1]
    exact ⟨fun h => h.1 h1, _, rfl, by intro h; cases h⟩
  · rw [if_neg h1]
    by_cases h2 : (st.me.Matrix.GetMetric "service_time").isSome ∧
        (st.me.Matrix.GetMetric "wait_time").isSome
    · right
      rw [if_pos h2]
      exact ⟨fun h => h.2.1 h2, _, rfl, by intro h; cases h⟩
    · rw [if_neg h2]
      cases h3 : st.me.Params.GetChildS "resource_map" with
      | none =>
        right
        refine ⟨?_, _, rfl, by intro h; cases h⟩
        rintro ⟨_, _, rm, hrm, _⟩
        cases hrm
      | some rm =>
        cases h4 : rm.GetChildren with
        | nil =>
          left
          refine ⟨h1, h2, ⟨rm, rfl, h4⟩, ?_⟩
          simp only [h4]
          unfold detailKey
          by_cases h5 : "service_time" ∈ st.oldMetrics
          · rw [if_pos h5, if_pos h5]
          · rw [if_neg h5, if_neg h5]
        | cons x rest =>
          right
          refine ⟨?_, ?_⟩
          · rintro ⟨_, _, rm2, hrm, hnil⟩
            cases hrm
            rw [h4] at hnil
            cases hnil
          · simp only [h4]
            cases st.me.Matrix.NewMetricFloat64 x.GetNameS with
            | none => exact ⟨_, rfl, by intro h; cases h⟩
            | some m1 => exact ⟨_, rfl, by intro h; cases h⟩

/-- A `PollCounter` that returns without an error has passed the checks of the workload
queries. -/
theorem passOk_of_ret (R : Runtime) (st : CounterState)
    (h : (workloadPass R st).2 = Ret.ok none none) : passOk st := by
  unfold workloadPass at h
  unfold passOk
  by_cases hq : st.me.Query = "workload" ∨ st.me.Query = "workload_detail"
  · rw [if_pos hq] at h
    by_cases hd : st.me.Query = "workload_detail"
    · rw [if_pos hd] at h
      rcases detailPass_spec st with ⟨c1, c2, c3, hp⟩ | ⟨_, r, hp, hr⟩
      · rw [hp] at h
        simp only at h
        refine ⟨fun _ => ?_, fun _ => ⟨c1, c2, c3⟩⟩
        cases hqos : st.me.Params.GetChildS "qos_labels" with
        | none => rw [hqos] at h; cases h
        | some x => rfl
      · rw [hp] at h
        exact absurd h hr
    · rw [if_neg hd] at h
      simp only at h
      refine ⟨fun _ => ?_, fun h2 => absurd h2 hd⟩
      cases hqos : st.me.Params.GetChildS "qos_labels" with
      | none => rw [hqos] at h; cases h
      | some x => rfl
  · exact ⟨fun h2 => absurd h2 hq, fun h2 => absurd (Or.inr h2) hq⟩

/-- With the checks of the workload queries passed, `PollCounter` reaches its removal
loop. -/
theorem workloadPass_ok (R : Runtime) (st : CounterState) (h : passOk st) :
    ∃ st6, workloadPass R st = finishCounters R st6 ∧ st6.oldMetrics = passOld st ∧
      st6.oldLabels = st.oldLabels ∧ st6.me.Matrix = st.me.Matrix ∧
      st6.me.instanceLabels = st.me.instanceLabels ∧
      st6.me.histogramLabels = st.me.histogramLabels ∧ st6.me.Params = st.me.Params ∧
      st6.me.object = st.me.object ∧ st6.me.Query = st.me.Query := by
  unfold workloadPass passOld
  obtain ⟨hqos, hdet⟩ := h
  by_cases hq : st.me.Query = "workload" ∨ st.me.Query = "workload_detail"
  · rw [if_pos hq]
    have hq2 := hqos hq
    by_cases hd : st.me.Query = "workload_detail"
    · rw [if_pos hd, if_pos hd]
      rcases detailPass_spec st with ⟨_, _, _, hp⟩ | ⟨hn, _⟩
      · rw [hp]
        simp only
        cases hx : st.me.Params.GetChildS "qos_labels" with
        | none => rw [hx] at hq2; cases hq2
        | some x => exact ⟨_, rfl, rfl, rfl, rfl, rfl, rfl, rfl, rfl, rfl⟩
      · exact absurd (hdet hd) hn
    · rw [if_neg hd, if_neg hd]
      simp only
      cases hx : st.me.Params.GetChildS "qos_labels" with
      | none => rw [hx] at hq2; cases hq2
      | some x => exact ⟨_, rfl, rfl, rfl, rfl, rfl, rfl, rfl, rfl, rfl⟩
  · rw [if_neg hq, if_neg (fun h2 => hq (Or.inr h2))]
    exact ⟨st, rfl, rfl, rfl, rfl, rfl, rfl, rfl, rfl, rfl⟩

theorem detailKey_ensureTimestamp (st : CounterState) :
    detailKey (ensureTimestamp st) = detailKey st := by
  unfold detailKey
  rw [(ensureTimestamp_frame st).1]

/-- The collector after a `PollCounter` that passes the checks of the workload queries,
from the state after the loops over the catalog. -/
theorem tail_spec (R : Runtime) (st3 : CounterState) (hok : passOk (ensureTimestamp st3)) :
    (∀ k, (workloadPass R (ensureTimestamp st3)).1.Matrix.schemaAt k =
      finalOf (decide (st3.me.Query = "workload_detail")) (detailKey st3) k (keyView st3 k)) ∧
    (∀ k, assocGet k (workloadPass R (ensureTimestamp st3)).1.instanceLabels =
      if (labelView st3 k).2 = true then none else (labelView st3 k).1) ∧
    (workloadPass R (ensureTimestamp st3)).1.histogramLabels = st3.me.histogramLabels ∧
    (workloadPass R (ensureTimestamp st3)).1.Params = st3.me.Params ∧
    (workloadPass R (ensureTimestamp st3)).1.object = st3.me.object ∧
    (workloadPass R (ensureTimestamp st3)).1.Query = st3.me.Query ∧
    ((workloadPass R (ensureTimestamp st3)).2 = Ret.ok none none ↔
      (workloadPass R (ensureTimestamp st3)).1.Matrix.metrics.length ≠ 0) := by
  obtain ⟨st6, hw, ho, hl, hm, hil, hhl, hp, hob, hq⟩ := workloadPass_ok R _ hok
  obtain ⟨f1, f2, f3, f4, f5, f6, f7⟩ := ensureTimestamp_frame st3
  obtain ⟨g1, g2, g3, g4, g5, g6, g7⟩ := finishCounters_spec R st6
  rw [hw]
  refine ⟨fun k => ?_, fun k => ?_, ?_, ?_, ?_, ?_, g7⟩
  · rw [g1 k, hm, ho, ensureTimestamp_schema]
    unfold passOld finalOf keyView
    rw [f7, f1, detailKey_ensureTimestamp]
    by_cases hd : st3.me.Query = "workload_detail"
    · simp only [hd, if_true, mem_setDelete, decide_True, true_and, decide_eq_true_eq,
        decide_eq_false_iff_not, ne_eq]
      by_cases hk : k = "timestamp"
      · subst hk
        simp
      · simp [hk, and_assoc]
    · simp only [hd, if_false, decide_False, false_and, not_false_eq_true, true_and,
        decide_eq_true_eq, decide_eq_false_iff_not, ne_eq, Bool.false_eq_true]
      by_cases hk : k = "timestamp"
      · subst hk
        simp
      · simp [hk]
  · rw [g2 k, hl, hil, f2, f3]
    simp [labelView]
  · rw [g3, hhl, f4]
  · rw [g4, hp, f5]
  · rw [g5, hob, f6]
  · rw [g6, hq, f7]

theorem parseWanted_congr (me me2 : ZapiPerf) (counterList : Node) (h : me2.object = me.object) :
    parseWanted me2 counterList = parseWanted me counterList := by
  unfold parseWanted
  rw [h]

/-- A `PollCounter` that returns without an error has gone through its loops. -/
theorem PollCounter_ok_inv (R : Runtime) (me : ZapiPerf) (reply : CounterReply)
    (h : (PollCounter R me reply).2 = Ret.ok none none) :
    ∃ wanted counters, ∀ me2 : ZapiPerf, me2.Params = me.Params → me2.object = me.object →
      PollCounter R me2 reply =
        workloadPass R (ensureTimestamp (counterLoops R wanted (initCounters me2 counters))) := by
  unfold PollCounter at h
  cases hc : me.Params.GetChildS "counters" with
  | none => rw [hc] at h; cases h
  | some counterList =>
    cases hb : reply.build with
    | some err => rw [hc, hb] at h; cases h
    | none =>
      cases hi : reply.invoke with
      | error err => rw [hc, hb, hi] at h; cases h
      | ok response =>
        cases hr : response.GetChildS "counters" with
        | none =>
          rw [hc, hb, hi] at h
          simp only [hr] at h
          cases h
        | some elems =>
          by_cases hl : elems.GetChildren.length = 0
          · rw [hc, hb, hi] at h
            simp only [hr, hl, if_true] at h
            cases h
          · refine ⟨parseWanted me counterList, indexCounters elems, fun me2 hp ho => ?_⟩
            unfold PollCounter
            rw [hp, hc, hb, hi]
            simp only [hr, hl, if_false]
            rw [parseWanted_congr me me2 counterList ho, syncCounters_eq]

theorem keyView_initCounters (me : ZapiPerf) (counters : List (String × Node)) (k : String) :
    keyView (initCounters me counters) k = (me.Matrix.schemaAt k, (me.Matrix.schemaAt k).isSome) := by
  unfold keyView initCounters Matrix.schemaAt Matrix.GetMetric
  simp only [Prod.mk.injEq, true_and, Option.isSome_map']
  have h := assocGet_isSome_iff k me.Matrix.metrics
  cases hs : (assocGet k me.Matrix.metrics).isSome
  · rw [hs] at h
    simpa using h
  · rw [hs] at h
    simpa using h

theorem labelView_initCounters (me : ZapiPerf) (counters : List (String × Node)) (k : String) :
    labelView (initCounters me counters) k =
      (assocGet k me.instanceLabels, (assocGet k me.instanceLabels).isSome) := by
  unfold labelView initCounters
  simp only [Prod.mk.injEq, true_and]
  have h := assocGet_isSome_iff k me.instanceLabels
  cases hs : (assocGet k me.instanceLabels).isSome
  · rw [hs] at h
    simpa using h
  · rw [hs] at h
    simpa using h

theorem mem_keys_iff_schemaAt (m : Matrix) (k : String) :
    k ∈ assocKeys m.metrics ↔ (m.schemaAt k).isSome = true := by
  unfold Matrix.schemaAt Matrix.GetMetric
  rw [Option.isSome_map']
  exact (assocGet_isSome_iff k m.metrics).symm

theorem finalOf_false (dk dk2 k : String) (v : Option Schema × Bool) :
    finalOf false dk k v = finalOf false dk2 k v := by
  simp [finalOf]

theorem labelFinal_idem (s : Option String) (l0 : Option String) :
    (if (labelApply s
        ((if (labelApply s (l0, l0.isSome)).2 = true then none else (labelApply s (l0, l0.isSome)).1),
         (if (labelApply s (l0, l0.isSome)).2 = true then none
          else (labelApply s (l0, l0.isSome)).1).isSome)).2 = true then none
     else (labelApply s
        ((if (labelApply s (l0, l0.isSome)).2 = true then none else (labelApply s (l0, l0.isSome)).1),
         (if (labelApply s (l0, l0.isSome)).2 = true then none
          else (labelApply s (l0, l0.isSome)).1).isSome)).1) =
    (if (labelApply s (l0, l0.isSome)).2 = true then none else (labelApply s (l0, l0.isSome)).1) := by
  cases s <;> cases l0 <;> simp [labelApply]

theorem mem_old_ensureTimestamp (st : CounterState) (k : String) :
    k ∈ (ensureTimestamp st).oldMetrics ↔ (keyView st k).2 = true := by
  rw [(ensureTimestamp_frame st).1]
  simp [keyView]

theorem isSome_metric_ensureTimestamp (st : CounterState) (k : String) (hk : k ≠ "timestamp") :
    ((ensureTimestamp st).me.Matrix.GetMetric k).isSome = (keyView st k).1.isSome := by
  have h := ensureTimestamp_schema st k
  rw [if_neg (fun h2 => hk h2.1)] at h
  have h2 := congrArg Option.isSome h
  unfold Matrix.schemaAt at h2
  rw [Option.isSome_map', Option.isSome_map'] at h2
  rw [h2]
  simp [keyView, Matrix.schemaAt]

theorem detailKey_view (st : CounterState) :
    detailKey st = if (keyView st "service_time").2 = true then "service_time" else "wait_time" := by
  unfold detailKey keyView
  simp

/-- The second of two runs that do the same to every key passes the checks of the
workload queries when the first did, and keeps the same key for `workload_detail`. -/
theorem second_run_passOk (a3 b3 : CounterState) (S : SchemaStep) (hS : S.ok)
    (m0 : String → Option Schema)
    (hq : b3.me.Query = a3.me.Query) (hp : b3.me.Params = a3.me.Params)
    (hA : ∀ k, keyView a3 k = (S.metric k).apply (m0 k, (m0 k).isSome))
    (hB : ∀ k, keyView b3 k = (S.metric k).apply
      (finalOf (decide (a3.me.Query = "workload_detail")) (detailKey a3) k (keyView a3 k),
       (finalOf (decide (a3.me.Query = "workload_detail")) (detailKey a3) k (keyView a3 k)).isSome))
    (hok : passOk (ensureTimestamp a3)) :
    passOk (ensureTimestamp b3) ∧
      (a3.me.Query = "workload_detail" → detailKey b3 = detailKey a3) := by
  obtain ⟨_, _, _, _, fA5, _, fA7⟩ := ensureTimestamp_frame a3
  obtain ⟨_, _, _, _, fB5, _, fB7⟩ := ensureTimestamp_frame b3
  obtain ⟨hqos, hdet⟩ := hok
  rw [fA7, fA5] at hqos
  rw [fA7] at hdet
  by_cases hd : a3.me.Query = "workload_detail"
  · obtain ⟨c1, c2, c3⟩ := hdet hd
    rw [mem_old_ensureTimestamp, mem_old_ensureTimestamp] at c1
    rw [isSome_metric_ensureTimestamp _ _ (by decide),
      isSome_metric_ensureTimestamp _ _ (by decide)] at c2
    rw [fA5] at c3
    have hqt : decide (a3.me.Query = "workload_detail") = true := by simp [hd]
    rw [hqt] at hB
    have hstA := hA "service_time"
    have hwtA := hA "wait_time"
    have hstB := hB "service_time"
    have hwtB := hB "wait_time"
    rw [hstA] at hstB
    rw [hwtA] at hwtB
    have hdkA := detailKey_view a3
    have hdkB := detailKey_view b3
    have key : (passOk (ensureTimestamp b3)) ∧ detailKey b3 = detailKey a3 := by
      unfold passOk
      rw [fB7, fB5, hq, hp, mem_old_ensureTimestamp, mem_old_ensureTimestamp,
        isSome_metric_ensureTimestamp _ _ (by decide),
        isSome_metric_ensureTimestamp _ _ (by decide)]
      have hboth : ¬ ((keyView b3 "service_time").1.isSome = true ∧
          (keyView b3 "wait_time").1.isSome = true) := by
        rintro ⟨x1, x2⟩
        rw [hstB] at x1
        rw [hwtB] at x2
        apply c2
        rw [hstA, hwtA]
        exact ⟨apply_final_isSome _ _ _ _ _ (by decide) x1,
          apply_final_isSome _ _ _ _ _ (by decide) x2⟩
      by_cases hoA : (keyView a3 "service_time").2 = true
      · rw [if_pos hoA] at hdkA
        have hoB : (keyView b3 "service_time").2 = true := by
          rw [hstB]
          rw [hdkA]
          rw [hstA] at hoA
          exact apply_final_old_kept _ _ _ _ rfl hoA
        rw [if_pos hoB] at hdkB
        refine ⟨⟨hqos, fun _ => ⟨?_, hboth, c3⟩⟩, hdkB.trans hdkA.symm⟩
        intro h; exact h.1 hoB
      · rw [if_neg hoA] at hdkA
        have hoA2 : (keyView a3 "wait_time").2 = true := by
          by_contra hx
          exact c1 ⟨hoA, hx⟩
        have hoB2 : (keyView b3 "wait_time").2 = true := by
          rw [hwtB]
          rw [hdkA]
          rw [hwtA] at hoA2
          exact apply_final_old_kept _ _ _ _ rfl hoA2
        have hoB : ¬ (keyView b3 "service_time").2 = true := by
          rw [hstB]
          rw [hstA] at hoA
          have := apply_final_old_not true (detailKey a3) "service_time" (S.metric "service_time")
            (m0 "service_time") (hS "service_time") (by decide) (by decide)
            (by simpa using hoA)
          rw [this]
          simp
        rw [if_neg hoB] at hdkB
        refine ⟨⟨hqos, fun _ => ⟨?_, hboth, c3⟩⟩, hdkB.trans hdkA.symm⟩
        intro h; exact h.2 hoB2
    exact ⟨key.1, fun _ => key.2⟩
  · refine ⟨?_, fun h => absurd h hd⟩
    unfold passOk
    rw [fB7, fB5, hq, hp]
    exact ⟨hqos, fun h => absurd h hd⟩

/-- C11 as stated fails when the second run ranges over the catalog in another order
than the first.  The catalog holds the array counter `hist` with the labels `a` and
`b`, a rate, and the scalar counter `hist.a`, a raw one; the template lists both.  The
first `PollCounter` visits `hist` first and leaves the metric `hist.a` with the name
`hist.a` and the property `raw`; the second, which visits `hist.a` first, returns without
an error and leaves that metric with the name `hist` and the property `rate`. -/
theorem PollCounter_second_run_other_order :
    (PollCounter Fixture.runtime Fixture.clashCollector Fixture.clashReply).2 = Ret.ok none none ∧
    ((PollCounter Fixture.runtime Fixture.clashCollector Fixture.clashReply).1.Matrix.GetMetric
      "hist.a").map (fun m => (m.name, m.property)) = some ("hist.a", "raw") ∧
    (PollCounter Fixture.reverseRuntime
      (PollCounter Fixture.runtime Fixture.clashCollector Fixture.clashReply).1
      Fixture.clashReply).2 = Ret.ok none none ∧
    ((PollCounter Fixture.reverseRuntime
      (PollCounter Fixture.runtime Fixture.clashCollector Fixture.clashReply).1
      Fixture.clashReply).1.Matrix.GetMetric "hist.a").map (fun m => (m.name, m.property)) =
        some ("hist", "rate") ∧
    ¬ sameSchema
      (PollCounter Fixture.reverseRuntime
        (PollCounter Fixture.runtime Fixture.clashCollector Fixture.clashReply).1
        Fixture.clashReply).1
      (PollCounter Fixture.runtime Fixture.clashCollector Fixture.clashReply).1 := by
  refine ⟨rfl, by decide!, rfl, by decide!, fun h => ?_⟩
  have h2 := congrArg (Option.map Schema.name) (h.2.1 "hist.a")
  revert h2
  decide!

/-! ## `util.MinLen` and `util.AllSame` -/

theorem goIndex_of_lt {α : Type} (xs : List α) (k : Int) (h0 : 0 ≤ k)
    (hk : k < (xs.length : Int)) : ∃ x, goIndex xs k = some x ∧ xs[k.toNat]? = some x := by
  unfold goIndex
  rw [if_pos ⟨h0, hk⟩]
  have hlt : k.toNat < xs.length := by omega
  exact ⟨xs[k.toNat], List.getElem?_eq_getElem hlt, List.getElem?_eq_getElem hlt⟩

theorem MinLen_foldl (rest : List (List String)) :
    ∀ (m : Int),
      (rest.foldl (fun min e => if (e.length : Int) < min then (e.length : Int) else min) m ≤ m) ∧
      (∀ e ∈ rest,
        rest.foldl (fun min e => if (e.length : Int) < min then (e.length : Int) else min) m ≤
          (e.length : Int)) ∧
      (rest.foldl (fun min e => if (e.length : Int) < min then (e.length : Int) else min) m = m ∨
        ∃ e ∈ rest,
          rest.foldl (fun min e => if (e.length : Int) < min then (e.length : Int) else min) m =
            (e.length : Int)) := by
  induction rest with
  | nil => intro m; simp
  | cons a rest ih =>
    intro m
    simp only [List.foldl_cons]
    obtain ⟨h1, h2, h3⟩ := ih (if (a.length : Int) < m then (a.length : Int) else m)
    refine ⟨?_, ?_, ?_⟩
    · refine le_trans h1 ?_
      split <;> omega
    · intro e he
      rcases List.mem_cons.mp he with h | h
      · subst h
        refine le_trans h1 ?_
        split <;> omega
      · exact h2 e h
    · rcases h3 with h | ⟨e, he, h⟩
      · by_cases hlt : (a.length : Int) < m
        · rw [if_pos hlt] at h
          exact Or.inr ⟨a, List.mem_cons_self _ _, by rw [if_pos hlt]; exact h⟩
        · rw [if_neg hlt] at h
          exact Or.inl (by rw [if_neg hlt]; exact h)
      · exact Or.inr ⟨e, List.mem_cons_of_mem _ he, h⟩

theorem AllSame_loop (first : List String) (k : Int) (y : String) (h0 : 0 ≤ k)
    (hy : first[k.toNat]? = some y) (hfirst : k < (first.length : Int)) :
    ∀ rest : List (List String), (∀ e ∈ rest, k < (e.length : Int)) →
      ∃ b, util.AllSame.loop first k rest = some b ∧
        (b = true ↔ ∀ e ∈ rest, e[k.toNat]? = some y) := by
  intro rest
  induction rest with
  | nil => intro _; exact ⟨true, rfl, by simp⟩
  | cons a rest ih =>
    intro hlen
    obtain ⟨x, hx, hx2⟩ := goIndex_of_lt a k h0 (hlen a (List.mem_cons_self _ _))
    obtain ⟨y2, hy1, hy2⟩ := goIndex_of_lt first k h0 hfirst
    have hyy : y2 = y := by
      rw [hy] at hy2
      exact (Option.some.inj hy2).symm
    subst hyy
    unfold util.AllSame.loop
    rw [hx, hy1]
    simp only
    by_cases hxy : x = y2
    · subst hxy
      rw [if_neg (by simp)]
      obtain ⟨b, hb, hiff⟩ := ih (fun e he => hlen e (List.mem_cons_of_mem _ he))
      refine ⟨b, hb, ?_⟩
      rw [hiff]
      constructor
      · intro h e he
        rcases List.mem_cons.mp he with h1 | h1
        · rw [h1]; exact hx2
        · exact h e h1
      · intro h e he
        exact h e (List.mem_cons_of_mem _ he)
    · rw [if_pos hxy]
      refine ⟨false, rfl, ?_⟩
      constructor
      · intro h; cases h
      · intro h
        have := h a (List.mem_cons_self _ _)
        rw [hx2] at this
        exact absurd (Option.some.inj this) hxy

/-- C24. For a non-empty list of string lists, `MinLen` returns the smallest of their
lengths (it is at most every length and is the length of one of the lists), and for
every `k` with `0 ≤ k < MinLen(elements)`, `AllSame(elements, k)` returns (no index
is out of range), and returns `true` exactly when any two of the lists hold the same
string at position `k`. -/
theorem MinLen_AllSame (elements : List (List String)) (hne : elements ≠ []) :
    ∃ n : Int, util.MinLen elements = some n ∧
      (∀ e ∈ elements, n ≤ (e.length : Int)) ∧
      (∃ e ∈ elements, (e.length : Int) = n) ∧
      ∀ k : Int, 0 ≤ k → k < n →
        ∃ b, util.AllSame elements k = some b ∧
          (b = true ↔ ∀ e1 ∈ elements, ∀ e2 ∈ elements, e1[k.toNat]? = e2[k.toNat]?) := by
  cases elements with
  | nil => exact absurd rfl hne
  | cons first rest =>
    obtain ⟨h1, h2, h3⟩ := MinLen_foldl rest (first.length : Int)
    refine ⟨_, rfl, ?_, ?_, ?_⟩
    · intro e he
      rcases List.mem_cons.mp he with h | h
      · subst h; exact h1
      · exact h2 e h
    · rcases h3 with h | ⟨e, he, h⟩
      · exact ⟨first, List.mem_cons_self _ _, h.symm⟩
      · exact ⟨e, List.mem_cons_of_mem _ he, h.symm⟩
    · intro k h0 hk
      have hfirst : k < (first.length : Int) := lt_of_lt_of_le hk h1
      obtain ⟨y, _, hy⟩ := goIndex_of_lt first k h0 hfirst
      obtain ⟨b, hb, hiff⟩ := AllSame_loop first k y h0 hy hfirst rest
        (fun e he => lt_of_lt_of_le hk (h2 e he))
      refine ⟨b, hb, ?_⟩
      rw [hiff]
      constructor
      · intro h e1 he1 e2 he2
        have hall : ∀ e ∈ first :: rest, e[k.toNat]? = some y := by
          intro e he
          rcases List.mem_cons.mp he with h4 | h4
          · rw [h4]; exact hy
          · exact h e h4
        rw [hall e1 he1, hall e2 he2]
      · intro h e he
        rw [h e (List.mem_cons_of_mem _ he) first (List.mem_cons_self _ _)]
        exact hy

/-- Witness of C24: three lists of lengths 3, 2 and 4; `MinLen` is 2, the length of the
second list; the lists agree at position 0 and not at position 1. -/
theorem MinLen_AllSame_witness :
    util.MinLen [["a", "b", "c"], ["a", "x"], ["a", "b", "c", "d"]] = some 2 ∧
    util.AllSame [["a", "b", "c"], ["a", "x"], ["a", "b", "c", "d"]] 0 = some true ∧
    util.AllSame [["a", "b", "c"], ["a", "x"], ["a", "b", "c", "d"]] 1 = some false ∧
    ∃ n : Int, util.MinLen [["a", "b", "c"], ["a", "x"], ["a", "b", "c", "d"]] = some n ∧
      ∃ e ∈ [["a", "b", "c"], ["a", "x"], ["a", "b", "c", "d"]], (e.length : Int) = n :=
  ⟨by decide, by decide, by decide,
    (MinLen_AllSame [["a", "b", "c"], ["a", "x"], ["a", "b", "c", "d"]] (by simp)).imp
      (fun _ h => ⟨h.1, h.2.2.1⟩)⟩

/-! ## The windows of the batch loop -/

theorem ceil_zero (b : Nat) (hb : 1 ≤ b) : (0 + b - 1) / b = 0 :=
  Nat.div_eq_of_lt (by omega)

theorem ceil_step (b m : Nat) (hb : 1 ≤ b) (hm : 1 ≤ m) :
    (m + b - 1) / b = (m - b + b - 1) / b + 1 := by
  by_cases h : b ≤ m
  · have e1 : m + b - 1 = (m - b + b - 1) + b := by omega
    rw [e1, Nat.add_div_right _ (by omega)]
  · have e1 : m - b = 0 := by omega
    rw [e1, ceil_zero b hb]
    have h2 : m + b - 1 = (m - 1) + b := by omega
    rw [h2, Nat.add_div_right _ (by omega), Nat.div_eq_of_lt (by omega)]

theorem ceil_pos (b m : Nat) (hb : 1 ≤ b) (h : (m + b - 1) / b = 0) : m = 0 := by
  by_contra hm
  have h2 := ceil_step b m hb (by omega)
  rw [h2] at h
  exact absurd h (Nat.succ_ne_zero _)

/-- One round of the batch loop whose request succeeds and brings instances: the next
`b` keys are sent (fewer when fewer are left) and the loop goes on behind them. -/
theorem batchLoop_step (R : Runtime) (keys : List String) (r : BatchReply)
    (script : List BatchReply) (me : ZapiPerf) (nd : Matrix) (e b : Nat)
    (sent : List (List String)) (hb : me.batchSize = (b : Int)) (hb1 : 1 ≤ b)
    (hlt : e < keys.length) (hr : r.hasInstances) :
    ∃ me1 nd1, me1.batchSize = (b : Int) ∧
      batchLoop R keys (r :: script) me nd (e : Int) (e : Int) sent =
        batchLoop R keys script me1 nd1 ((min (e + b) keys.length : Nat) : Int)
          ((min (e + b) keys.length : Nat) : Int) (sent ++ [(keys.drop e).take b]) := by
  obtain ⟨hbuild, response, instances, hinv, hinst, hlen⟩ := hr
  have he2 : (if (e : Int) + me.batchSize > (keys.length : Int) then (keys.length : Int)
      else (e : Int) + me.batchSize) = ((min (e + b) keys.length : Nat) : Int) := by
    rw [hb]
    split <;> omega
  have hslice : goSlice keys (e : Int) ((min (e + b) keys.length : Nat) : Int) =
      some ((keys.drop e).take b) := by
    unfold goSlice
    rw [if_pos ⟨by omega, by omega, by omega⟩]
    simp only [Int.toNat_ofNat, Option.some.injEq]
    by_cases h : e + b ≤ keys.length
    · have : min (e + b) keys.length - e = b := by omega
      rw [this]
    · rw [List.take_of_length_le (by simp; omega), List.take_of_length_le (by simp; omega)]
  have hinv2 := foldl_ParseInv _ (parseInstance_inv R r.now) instances.GetChildren (me, nd)
  refine ⟨(instances.GetChildren.foldl (parseInstance R r.now) (me, nd)).1,
    (instances.GetChildren.foldl (parseInstance R r.now) (me, nd)).2,
    (hinv2.batchSize_eq).trans hb, ?_⟩
  rw [batchLoop]
  simp only
  rw [if_pos (by omega), he2, hslice]
  simp only [hbuild, hinv, hinst, hlen, if_false]

/-- The batch loop from the key number `e` on, with as many successful replies as
there are windows left. -/
theorem batchLoop_windows_from (R : Runtime) (keys : List String) (rest : List BatchReply)
    (b : Nat) (hb1 : 1 ≤ b) :
    ∀ (good : List BatchReply) (me : ZapiPerf) (nd : Matrix) (e : Nat)
      (sent : List (List String)),
      me.batchSize = (b : Int) → e ≤ keys.length → (∀ r ∈ good, r.hasInstances) →
      good.length = (keys.length - e + b - 1) / b →
      ∃ me1 nd1, batchLoop R keys (good ++ rest) me nd (e : Int) (e : Int) sent =
        LoopEnd.done me1 nd1
          (sent ++ (List.range ((keys.length - e + b - 1) / b)).map
            (fun i => (keys.drop (e + i * b)).take b)) := by
  intro good
  induction good with
  | nil =>
    intro me nd e sent _ he _ hlen
    have hm : keys.length - e = 0 := ceil_pos b _ hb1 hlen.symm
    rw [← hlen]
    simp only [List.length_nil, List.nil_append, List.range_zero, List.map_nil, List.append_nil]
    cases rest with
    | nil =>
      rw [batchLoop, if_neg (by omega)]
      exact ⟨_, _, rfl⟩
    | cons r rest =>
      rw [batchLoop]
      simp only
      rw [if_neg (by omega)]
      exact ⟨_, _, rfl⟩
  | cons r g ih =>
    intro me nd e sent hb he hgood hlen
    have hlt : e < keys.length := by
      by_contra h
      have h0 : keys.length - e = 0 := by omega
      rw [h0, ceil_zero b hb1] at hlen
      simp at hlen
    have hstep := ceil_step b (keys.length - e) hb1 (by omega)
    obtain ⟨me1, nd1, hb2, heq⟩ := batchLoop_step R keys r (g ++ rest) me nd e b sent hb hb1 hlt
      (hgood r (List.mem_cons_self _ _))
    have hsub : keys.length - min (e + b) keys.length = keys.length - e - b := by omega
    have hlen2 : g.length = (keys.length - min (e + b) keys.length + b - 1) / b := by
      rw [hsub]
      rw [hstep] at hlen
      simp only [List.length_cons] at hlen
      omega
    obtain ⟨me2, nd2, hfin⟩ := ih me1 nd1 (min (e + b) keys.length) (sent ++ [(keys.drop e).take b])
      hb2 (by omega) (fun x hx => hgood x (List.mem_cons_of_mem _ hx)) hlen2
    refine ⟨me2, nd2, ?_⟩
    rw [List.cons_append, heq, hfin, hstep, hsub, List.range_succ_eq_map, List.map_cons,
      List.map_map, List.append_assoc]
    simp only [zero_mul, add_zero, List.singleton_append, LoopEnd.done.injEq, true_and,
      List.append_cancel_left_eq, List.cons.injEq]
    by_cases h : e + b ≤ keys.length
    · have hmin : min (e + b) keys.length = e + b := by omega
      rw [hmin]
      apply List.map_congr_left
      intro i _
      simp only [Function.comp, Nat.succ_eq_add_one, Nat.add_mul, one_mul]
      have : e + b + i * b = e + (i * b + b) := by omega
      rw [this]
    · have h0 : keys.length - e - b = 0 := by omega
      rw [h0, ceil_zero b hb1]
      rfl

theorem ceil_mul_ge (b n : Nat) (hb : 1 ≤ b) : n ≤ ((n + b - 1) / b) * b := by
  have h1 := Nat.div_add_mod (n + b - 1) b
  have h2 := Nat.mod_lt (n + b - 1) (by omega : b > 0)
  rw [Nat.mul_comm] at h1
  generalize ((n + b - 1) / b) * b = t at *
  generalize (n + b - 1) % b = r at *
  omega

theorem lt_ceil (b n i : Nat) (hb : 1 ≤ b) (hi : i < (n + b - 1) / b) : i * b < n := by
  have h : (i + 1) * b ≤ n + b - 1 := (Nat.le_div_iff_mul_le (by omega)).mp hi
  rw [Nat.add_mul, one_mul] at h
  generalize i * b = t at *
  omega

theorem chunks_flatten (b : Nat) (keys : List String) :
    ∀ c : Nat, ((List.range c).map (fun i => (keys.drop (i * b)).take b)).flatten =
      keys.take (c * b) := by
  intro c
  induction c with
  | zero => simp
  | succ c ih =>
    rw [List.range_succ, List.map_append, List.flatten_append, ih]
    simp only [List.map_cons, List.map_nil, List.flatten_cons, List.flatten_nil, List.append_nil]
    rw [Nat.add_mul, one_mul, List.take_add]

/-- The windows of the spec hold every key once, in order; there are `⌈n/b⌉` of them,
none is empty and none has more than `b` keys. -/
theorem windows_spec (b : Nat) (keys : List String) (hb : 1 ≤ b) :
    (windows b keys).length = (keys.length + b - 1) / b ∧
    (windows b keys).flatten = keys ∧
    ∀ w ∈ windows b keys, w ≠ [] ∧ w.length ≤ b := by
  refine ⟨by simp [windows], ?_, ?_⟩
  · unfold windows
    rw [chunks_flatten, List.take_of_length_le (ceil_mul_ge b keys.length hb)]
  · intro w hw
    unfold windows at hw
    obtain ⟨i, hi, rfl⟩ := List.mem_map.mp hw
    have hlt := lt_ceil b keys.length i hb (List.mem_range.mp hi)
    refine ⟨?_, List.length_take_le _ _⟩
    intro h
    have hl := congrArg List.length h
    simp only [List.length_take, List.length_drop, List.length_nil] at hl
    omega

/-- C21. The batch loop of `PollData` over the keys `keys` with a batch size `b ≥ 1`,
when the first `⌈n/b⌉` requests succeed and bring instances (whatever the script
holds behind them): the loop ends, without a panic, after these `⌈n/b⌉` requests, and
the windows it has sent are the consecutive chunks `keys[0:b]`, `keys[b:2b]`, … of the
spec.  The chunks hold every key once, in order, none is empty and none has more than
`b` keys. -/
theorem batchLoop_windows (R : Runtime) (keys : List String) (good rest : List BatchReply)
    (me : ZapiPerf) (nd : Matrix) (hb : 1 ≤ me.batchSize)
    (hgood : ∀ r ∈ good, r.hasInstances)
    (hlen : good.length = (keys.length + me.batchSize.toNat - 1) / me.batchSize.toNat) :
    (∃ me1 nd1, batchLoop R keys (good ++ rest) me nd 0 0 [] =
      LoopEnd.done me1 nd1 (windows me.batchSize.toNat keys)) ∧
    (windows me.batchSize.toNat keys).length =
      (keys.length + me.batchSize.toNat - 1) / me.batchSize.toNat ∧
    (windows me.batchSize.toNat keys).flatten = keys ∧
    ∀ w ∈ windows me.batchSize.toNat keys, w ≠ [] ∧ (w.length : Int) ≤ me.batchSize := by
  have hb1 : 1 ≤ me.batchSize.toNat := by omega
  have hcast : me.batchSize = ((me.batchSize.toNat : Nat) : Int) := by omega
  obtain ⟨w1, w2, w3⟩ := windows_spec me.batchSize.toNat keys hb1
  refine ⟨?_, w1, w2, fun w hw => ⟨(w3 w hw).1, ?_⟩⟩
  · obtain ⟨me1, nd1, h⟩ := batchLoop_windows_from R keys rest me.batchSize.toNat hb1 good me nd 0 []
      hcast (Nat.zero_le _) hgood (by simpa using hlen)
    refine ⟨me1, nd1, ?_⟩
    simp only [Nat.cast_zero, Nat.sub_zero, zero_add, List.nil_append] at h
    exact h
  · have := (w3 w hw).2
    omega

/-- Witness of C21: three keys and a batch size of 2; after two successful replies the
loop has sent the windows `a, b` and `c`. -/
theorem batchLoop_windows_witness :
    (batchLoop Fixture.runtime ["a", "b", "c"] (Fixture.batchScript ++ []) Fixture.batchCollector
      Fixture.batchCollector.Matrix 0 0 []).sent = [["a", "b"], ["c"]] := by
  obtain ⟨me1, nd1, h⟩ := (batchLoop_windows Fixture.runtime ["a", "b", "c"] Fixture.batchScript []
    Fixture.batchCollector Fixture.batchCollector.Matrix (by decide)
    (by
      intro r hr
      simp only [Fixture.batchScript, List.mem_cons, List.mem_singleton, List.not_mem_nil,
        or_false] at hr
      rcases hr with h | h <;> subst h <;> exact ⟨rfl, _, _, rfl, rfl, by decide⟩)
    (by decide)).1
  rw [h]
  show windows Fixture.batchCollector.batchSize.toNat ["a", "b", "c"] = [["a", "b"], ["c"]]
  decide

/-! ## `workload_detail`: request keys and their split -/

theorem mem_requestKeys_detail (R : Runtime) (me : ZapiPerf) (newData : Matrix) (rm : Node)
    (k l : String) (hq : isWorkloadDetail me.Query = true)
    (hrm : me.Params.GetChildS "resource_map" = some rm)
    (hl : l ∈ rm.GetAllChildNamesS) (hk : k ∈ assocKeys me.Matrix.instances) :
    ∃ keys, requestKeys R me newData = some keys ∧ k ++ "." ++ l ∈ keys := by
  unfold requestKeys
  rw [if_pos hq, hrm]
  refine ⟨_, rfl, ?_⟩
  obtain ⟨n, hn⟩ := List.getElem?_of_mem hl
  rw [List.mem_flatten]
  refine ⟨(R.rangeOrder (1000 + n) (assocKeys me.Matrix.instances)).map
    (fun key => key ++ "." ++ l), ?_, ?_⟩
  · rw [List.mem_map]
    refine ⟨(n, l), ?_, rfl⟩
    rw [List.mem_iff_getElem?]
    exact ⟨n, by rw [List.getElem?_enum, hn]; rfl⟩
  · rw [List.mem_map]
    exact ⟨k, (R.rangeOrder_perm _ _).mem_iff.mpr hk, rfl⟩

/-- C22, for keys and layers without `.`.  In a `workload_detail` poll, for an instance
key `k` of the matrix and a layer `l` of `resource_map`, neither holding a `.` and
`k` not empty: the key `k.l` is among the keys requested, and an element the
controller returns under that key is parsed for the instance `k` and the layer `l`
(its time is stamped on the instance `k` and its counters are read with `k` and `l`),
provided the layer has its metric, the instance exists in `newData` and the element
has counters. -/
theorem PollData_detail_key_round_trip (R : Runtime) (me : ZapiPerf) (newData : Matrix)
    (rm : Node) (k l : String) (hq : isWorkloadDetail me.Query = true)
    (hrm : me.Params.GetChildS "resource_map" = some rm)
    (hl : l ∈ rm.GetAllChildNamesS) (hk : k ∈ assocKeys me.Matrix.instances)
    (hkdot : strings.Contains k "." = false) (hldot : strings.Contains l "." = false)
    (hk0 : k ≠ "") :
    (∃ keys, requestKeys R me newData = some keys ∧ k ++ "." ++ l ∈ keys) ∧
    ∀ (ts : ℚ) (nd : Matrix) (i counters : Node),
      i.GetChildContentS me.instanceKey = k ++ "." ++ l →
      (me.Matrix.GetMetric l).isSome = true → (nd.GetInstance k).isSome = true →
      i.GetChildS "counters" = some counters →
      parseInstance R ts (me, nd) i =
        counters.GetChildren.foldl (parseCounter R k l)
          (me, nd.onMetric "timestamp" (fun m => m.SetValueFloat64 k ts)) := by
  refine ⟨mem_requestKeys_detail R me newData rm k l hq hrm hl hk, ?_⟩
  intro ts nd i counters hkey hmetric hinst hcnt
  obtain ⟨x, hx⟩ := Option.isSome_iff_exists.mp hmetric
  obtain ⟨y, hy⟩ := Option.isSome_iff_exists.mp hinst
  unfold parseInstance
  simp only [hq, if_true, hkey, Split_dot_pair k l hkdot hldot, hx, hk0, if_false, hy, hcnt]

/-- Witness of C22: the instance `vol1` and the layer `cpu`; the key `vol1.cpu` is
requested, and the element returned under it stamps the time 110 on `vol1`. -/
theorem PollData_detail_key_round_trip_witness :
    (∃ keys, requestKeys Fixture.runtime (Fixture.detailOneCollector "vol1")
        (Fixture.detailOneCollector "vol1").Matrix = some keys ∧ "vol1" ++ "." ++ "cpu" ∈ keys) ∧
    (parseInstance Fixture.runtime 110
      (Fixture.detailOneCollector "vol1", (Fixture.detailOneCollector "vol1").Matrix)
      (Fixture.detailOneData "vol1")).2.cell "timestamp" "vol1" = some 110 :=
  ⟨(PollData_detail_key_round_trip Fixture.runtime (Fixture.detailOneCollector "vol1")
      (Fixture.detailOneCollector "vol1").Matrix
      (Node.mk "resource_map" "" [Node.mk "cpu" "CPU_dblade" []]) "vol1" "cpu"
      (by decide) rfl (by decide) (by decide) (by decide) (by decide) (by decide)).1,
   (congrArg (fun st => st.2.cell "timestamp" "vol1")
      ((PollData_detail_key_round_trip Fixture.runtime (Fixture.detailOneCollector "vol1")
        (Fixture.detailOneCollector "vol1").Matrix
        (Node.mk "resource_map" "" [Node.mk "cpu" "CPU_dblade" []]) "vol1" "cpu"
        (by decide) rfl (by decide) (by decide) (by decide) (by decide) (by decide)).2
        110 (Fixture.detailOneCollector "vol1").Matrix (Fixture.detailOneData "vol1")
        (Node.mk "counters" "" [Node.mk "counter-data" ""
          [Node.mk "name" "service_time" [], Node.mk "value" "7" []]])
        (by decide) (by decide) (by decide) rfl)).trans (by decide!)⟩

/-- C22 as stated fails for an instance key that holds a `.`.  The matrix holds
the instance `vol.1`, the layer is `cpu`: the key `vol.1.cpu` is requested, but the
element the controller returns under it is skipped (the state is left as it was), so
that the poll returns no time for `vol.1`; with the instance `vol1` it returns 10
seconds. -/
theorem PollData_detail_dotted_key_skipped :
    requestKeys Fixture.runtime (Fixture.detailOneCollector "vol.1")
      (Fixture.detailOneCollector "vol.1").Matrix = some ["vol.1.cpu"] ∧
    strings.Split "vol.1.cpu" "." = ["vol", "1", "cpu"] ∧
    parseInstance Fixture.runtime 110
      (Fixture.detailOneCollector "vol.1", (Fixture.detailOneCollector "vol.1").Matrix)
      (Fixture.detailOneData "vol.1") =
        (Fixture.detailOneCollector "vol.1", (Fixture.detailOneCollector "vol.1").Matrix) ∧
    returnedCell (PollData Fixture.runtime (Fixture.detailOneCollector "vol.1")
      (Fixture.detailOneScript "vol.1")) "timestamp" "vol.1" = none ∧
    returnedCell (PollData Fixture.runtime (Fixture.detailOneCollector "vol1")
      (Fixture.detailOneScript "vol1")) "timestamp" "vol1" = some 10 := by
  refine ⟨by decide, by decide, rfl, by decide!, by decide!⟩

/-! ## Array counters and their base -/

/-- C23. The array counter `lat` (labels `a`, `b`, an average) has the array `ops`
(labels `a`, `b`, a delta) as its base counter.  After `addCounter` the metric `lat.a` has
the comment `ops.a`, and so has `lat.b`, not `ops.b`: every element is paired with the
first element of the base.  In the poll that follows, `lat.b` went up by 60, `ops.a` by 5
and `ops.b` by 30: the cell of `lat.b` is 60/5 = 12, not 60/30 = 2. -/
theorem addCounter_array_base_first_label :
    parseHistogramLabels Fixture.runtime Fixture.latArray = (["a", "b"], "") ∧
    parseHistogramLabels Fixture.runtime Fixture.opsArray = (["a", "b"], "") ∧
    (Fixture.pairedCollector.Matrix.GetMetric "lat.a").map Metric.comment = some "ops.a" ∧
    (Fixture.pairedCollector.Matrix.GetMetric "lat.b").map Metric.comment = some "ops.a" ∧
    returnedCell (PollData Fixture.runtime
      (PollData Fixture.runtime Fixture.pairedCollector
        (Fixture.pairScript "1000,100" "10,20" 100)).1
      (Fixture.pairScript "1050,160" "15,50" 110)) "ops.a" "vol1" = some 5 ∧
    returnedCell (PollData Fixture.runtime
      (PollData Fixture.runtime Fixture.pairedCollector
        (Fixture.pairScript "1000,100" "10,20" 100)).1
      (Fixture.pairScript "1050,160" "15,50" 110)) "ops.b" "vol1" = some 30 ∧
    returnedCell (PollData Fixture.runtime
      (PollData Fixture.runtime Fixture.pairedCollector
        (Fixture.pairScript "1000,100" "10,20" 100)).1
      (Fixture.pairScript "1050,160" "15,50" 110)) "lat.b" "vol1" = some 12 := by
  refine ⟨?_, ?_, ?_, ?_, ?_, ?_, ?_⟩ <;> decide!

/-! ## The first poll with a batch size below 1 -/

/-- C4 as stated fails for a batch size below 1, which `InitCache` takes from the
template as it is.  With `batch_size` = `-5` the cache is empty and `PollData` panics
on the slice `instanceKeys[0:-5]` before its first request.  With `batch_size` = `0`
the keys to ask for are `vol1` and `vol2`; every request succeeds, yet the windows sent
are empty and the loop never moves on: after three replies it asks for a fourth
request. -/
theorem PollData_first_poll_batch_size_below_one :
    (Fixture.sizedCollector "-5").isCacheEmpty = true ∧
    (Fixture.sizedCollector "-5").batchSize = -5 ∧
    (PollData Fixture.runtime (Fixture.sizedCollector "-5") Fixture.threeReplies).2 =
      Ret.panic "slice bounds out of range" ∧
    (Fixture.sizedCollector "0").isCacheEmpty = true ∧
    (Fixture.sizedCollector "0").batchSize = 0 ∧
    requestKeys Fixture.runtime (Fixture.sizedCollector "0")
      ((Fixture.sizedCollector "0").Matrix.Clone false true true).Reset =
        some ["vol1", "vol2"] ∧
    (batchLoop Fixture.runtime ["vol1", "vol2"] Fixture.threeReplies (Fixture.sizedCollector "0")
      ((Fixture.sizedCollector "0").Matrix.Clone false true true).Reset 0 0 []).sent =
        [[], [], []] ∧
    (PollData Fixture.runtime (Fixture.sizedCollector "0") Fixture.threeReplies).2 =
      Ret.blocked := by
  refine ⟨rfl, by decide, rfl, rfl, by decide, by decide, by decide!, rfl⟩

/-! ## The baseline of a `workload_detail` poll -/

/-- C5. A `workload_detail` collector with the layer `cpu`, polled before (the baseline
cell of `cpu` for `vol1` is 40), is polled again; the controller returns `service_time`
= 7 for `vol1.cpu`.  `PollData` returns a matrix, but the baseline it keeps has no value
in the cell of `cpu` for `vol1`: the value parsed in this poll was added to the baseline
of before, which is dropped.  The matrix returned has no value there either.  For the
query `volume` of scenario 1 the baseline kept holds the raw 1600 and the matrix returned
the rate 60. -/
theorem PollData_detail_baseline_without_parsed_value :
    (Fixture.detailOneCollector "vol1").isCacheEmpty = false ∧
    (Fixture.detailOneCollector "vol1").Matrix.cell "cpu" "vol1" = some 40 ∧
    (∃ out, (PollData Fixture.runtime (Fixture.detailOneCollector "vol1")
      (Fixture.detailOneScript "vol1")).2 = Ret.ok (some out) none) ∧
    (PollData Fixture.runtime (Fixture.detailOneCollector "vol1")
      (Fixture.detailOneScript "vol1")).1.Matrix.cell "timestamp" "vol1" = some 110 ∧
    (PollData Fixture.runtime (Fixture.detailOneCollector "vol1")
      (Fixture.detailOneScript "vol1")).1.Matrix.cell "cpu" "vol1" = none ∧
    returnedCell (PollData Fixture.runtime (Fixture.detailOneCollector "vol1")
      (Fixture.detailOneScript "vol1")) "cpu" "vol1" = none ∧
    (PollData Fixture.runtime Fixture.rateCollector Fixture.rateScript).1.Matrix.cell
      "read_ops" "vol1" = some 1600 ∧
    returnedCell (PollData Fixture.runtime Fixture.rateCollector Fixture.rateScript)
      "read_ops" "vol1" = some 60 := by
  refine ⟨rfl, by decide!, ⟨_, rfl⟩, by decide!, by decide!, by decide!, by decide!, by decide!⟩

/-! ## `PollCounter`: the order of the catalog -/

theorem sameReads_symm {R : Runtime} {c0 : List (String × Node)} {r m : Bool}
    {a b : CounterState} (h : sameReads R c0 r m a b) : sameReads R c0 r m b a := by
  obtain ⟨h1, h2, h3, h4, h5, h6, h7⟩ := h
  exact ⟨h2, h1, h3.symm, h4.symm, h5.symm, fun hr x => (h6 hr x).symm,
    fun hm x => (h7 hm x).symm⟩

theorem sameReads_trans {R : Runtime} {c0 : List (String × Node)} {r m : Bool}
    {a b c : CounterState} (h : sameReads R c0 r m a b) (g : sameReads R c0 r m b c) :
    sameReads R c0 r m a c := by
  obtain ⟨h1, _, h3, h4, h5, h6, h7⟩ := h
  obtain ⟨_, g2, g3, g4, g5, g6, g7⟩ := g
  exact ⟨h1, g2, h3.trans g3, h4.trans g4, h5.trans g5,
    fun hr x => (h6 hr x).trans (g6 hr x), fun hm x => (h7 hm x).trans (g7 hm x)⟩

theorem sameReads_left {R : Runtime} {c0 : List (String × Node)} {r m : Bool}
    {a b : CounterState} (h : sameReads R c0 r m a b) : sameReads R c0 r m a a :=
  sameReads_trans h (sameReads_symm h)

theorem sameViews_symm {a b : CounterState} (h : sameViews a b) : sameViews b a := by
  obtain ⟨h1, h2, h3, h4, h5⟩ := h
  exact ⟨fun k => (h1 k).symm, fun k => (h2 k).symm, fun k => (h3 k).symm,
    fun x => (h4 x).symm, fun x => (h5 x).symm⟩

theorem sameViews_trans {a b c : CounterState} (h : sameViews a b) (g : sameViews b c) :
    sameViews a c := by
  obtain ⟨h1, h2, h3, h4, h5⟩ := h
  obtain ⟨g1, g2, g3, g4, g5⟩ := g
  exact ⟨fun k => (h1 k).trans (g1 k), fun k => (h2 k).trans (g2 k),
    fun k => (h3 k).trans (g3 k), fun x => (h4 x).trans (g4 x), fun x => (h5 x).trans (g5 x)⟩

theorem sameViews_refl (a : CounterState) : sameViews a a :=
  ⟨fun _ => rfl, fun _ => rfl, fun _ => rfl, fun _ => Iff.rfl, fun _ => Iff.rfl⟩

/-- With the same schema and sets, two states agree on `replaced` and `missing` wherever a
loop reads them. -/
theorem sameReads_of_views {R : Runtime} {c0 : List (String × Node)} {r m : Bool}
    (r2 m2 : Bool) {a b : CounterState} (h : sameReads R c0 r m a b) (v : sameViews a b) :
    sameReads R c0 r2 m2 a b := by
  obtain ⟨h1, h2, h3, h4, h5, _, _⟩ := h
  exact ⟨h1, h2, h3, h4, h5, fun _ => v.2.2.2.1, fun _ => v.2.2.2.2⟩

theorem KeyStep.apply_comm (a b : KeyStep) (v : Option Schema × Bool)
    (h : ¬ (a.touch.isSome = true ∧ b.touch.isSome = true)) :
    b.apply (a.apply v) = a.apply (b.apply v) := by
  obtain ⟨da, ta⟩ := a
  obtain ⟨db, tb⟩ := b
  cases ta with
  | none => cases tb <;> cases da <;> cases db <;> simp [KeyStep.apply]
  | some t =>
    cases tb with
    | none => cases da <;> cases db <;> simp [KeyStep.apply]
    | some u => exact absurd ⟨rfl, rfl⟩ h

theorem labelApply_comm (sa sb : Option String) (v : Option String × Bool)
    (h : ¬ (sa.isSome = true ∧ sb.isSome = true)) :
    labelApply sb (labelApply sa v) = labelApply sa (labelApply sb v) := by
  cases sa with
  | none => rfl
  | some x =>
    cases sb with
    | none => rfl
    | some y => exact absurd ⟨rfl, rfl⟩ h

theorem StepOn_trans {S1 S2 : SchemaStep} {r1 m1 r2 m2 : List String} {a b c : CounterState}
    (h : StepOn S1 r1 m1 a b) (g : StepOn S2 r2 m2 b c) :
    StepOn (S1.comp S2) (r1 ++ r2) (m1 ++ m2) a c := by
  obtain ⟨h1, h2, h3⟩ := h
  obtain ⟨g1, g2, g3⟩ := g
  refine ⟨Acts_trans h1 g1, fun x => ?_, fun x => ?_⟩
  · rw [g2, h2, List.mem_append, or_assoc]
  · rw [g3, h3, List.mem_append, or_assoc]

theorem StepOn_id (a b : CounterState) (hme : b.me = a.me) (hm : b.oldMetrics = a.oldMetrics)
    (hl : b.oldLabels = a.oldLabels) (hr : b.replaced = a.replaced)
    (hmi : b.missing = a.missing) : StepOn SchemaStep.id [] [] a b :=
  ⟨Acts.frame a b hme hm hl, fun x => by simp [hr], fun x => by simp [hmi]⟩

theorem Steps_id (R : Runtime) (c0 : List (String × Node)) (r m : Bool) (W : List String)
    (name : String) : Steps R c0 r m W name (fun st => st) := by
  intro a b hab
  refine ⟨sameReads_left hab, SchemaStep.id, [], [], SchemaStep.ok_id, ?_, ?_, ?_,
    StepOn_id a a rfl rfl rfl rfl rfl, StepOn_id b b rfl rfl rfl rfl rfl⟩
  · intro k h; simp [SchemaStep.id] at h
  · intro k h; simp [SchemaStep.id] at h
  · intro k h; simp [SchemaStep.id] at h

theorem Steps_comp {R : Runtime} {c0 : List (String × Node)} {r m : Bool} {W : List String}
    {name : String} {f g : CounterState → CounterState} (hf : Steps R c0 r m W name f)
    (hg : Steps R c0 r m W name g) : Steps R c0 r m W name (fun st => g (f st)) := by
  intro a b hab
  obtain ⟨ha1, S1, r1, m1, ok1, t1, l1, h1, sa1, sb1⟩ := hf a b hab
  have hb1 : sameReads R c0 r m b (f b) := (hf b a (sameReads_symm hab)).1
  have hfab : sameReads R c0 r m (f a) (f b) :=
    sameReads_trans (sameReads_symm ha1) (sameReads_trans hab hb1)
  obtain ⟨ha2, S2, r2, m2, ok2, t2, l2, h2, sa2, sb2⟩ := hg (f a) (f b) hfab
  refine ⟨sameReads_trans ha1 ha2, S1.comp S2, r1 ++ r2, m1 ++ m2, SchemaStep.ok_comp ok1 ok2,
    ?_, ?_, ?_, StepOn_trans sa1 sa2, StepOn_trans sb1 sb2⟩
  · intro k hk
    simp only [SchemaStep.comp, KeyStep.comp] at hk
    cases hb : (S2.metric k).touch with
    | none => rw [hb] at hk; exact t1 k hk
    | some t => exact t2 k (by rw [hb]; rfl)
  · intro k hk
    simp only [SchemaStep.comp] at hk
    cases hb : S2.label k with
    | none => rw [hb] at hk; exact l1 k hk
    | some t => exact l2 k (by rw [hb]; rfl)
  · intro k hk
    simp only [SchemaStep.comp] at hk
    cases hb : S2.hist k with
    | none => rw [hb] at hk; exact h1 k hk
    | some t => exact h2 k (by rw [hb]; rfl)

/-- A part that is chosen by what the loop reads. -/
theorem Steps_choose {R : Runtime} {c0 : List (String × Node)} {r m : Bool} {W : List String}
    {name : String} (f : CounterState → CounterState)
    (h : ∀ a b, sameReads R c0 r m a b →
      ∃ g, Steps R c0 r m W name g ∧ f a = g a ∧ f b = g b) : Steps R c0 r m W name f := by
  intro a b hab
  obtain ⟨g, hg, ha, hb⟩ := h a b hab
  rw [ha, hb]
  exact hg a b hab

/-- A part of a loop keeps two states with the same schema and sets so. -/
theorem Steps_respects {R : Runtime} {c0 : List (String × Node)} {r m : Bool} {W : List String}
    {name : String} {f : CounterState → CounterState} (hf : Steps R c0 r m W name f)
    {a b : CounterState} (hab : sameReads R c0 r m a b) (v : sameViews a b) :
    sameReads R c0 r m (f a) (f b) ∧ sameViews (f a) (f b) := by
  obtain ⟨ha1, S, ar, am, _, _, _, _, sa, sb⟩ := hf a b hab
  have hb1 : sameReads R c0 r m b (f b) := (hf b a (sameReads_symm hab)).1
  refine ⟨sameReads_trans (sameReads_symm ha1) (sameReads_trans hab hb1), ?_, ?_, ?_, ?_, ?_⟩
  · intro k; rw [sa.1.1 k, sb.1.1 k, v.1 k]
  · intro k; rw [sa.1.2.1 k, sb.1.2.1 k, v.2.1 k]
  · intro k; rw [sa.1.2.2 k, sb.1.2.2 k, v.2.2.1 k]
  · intro x; rw [sa.2.1 x, sb.2.1 x, v.2.2.2.1 x]
  · intro x; rw [sa.2.2 x, sb.2.2 x, v.2.2.2.2 x]

/-- Two parts of a loop that write to different keys can be swapped. -/
theorem Steps_commute {R : Runtime} {c0 : List (String × Node)} {r m : Bool}
    {W1 W2 : List String} {n1 n2 : String} {f g : CounterState → CounterState}
    (hf : Steps R c0 r m W1 n1 f) (hg : Steps R c0 r m W2 n2 g)
    (hW : ∀ k ∈ W1, k ∉ W2) (hn : n1 ≠ n2) {a : CounterState} (ha : sameReads R c0 r m a a) :
    sameReads R c0 r m (g (f a)) (f (g a)) ∧ sameViews (g (f a)) (f (g a)) := by
  have hag : sameReads R c0 r m a (g a) := (hg a a ha).1
  have haf : sameReads R c0 r m a (f a) := (hf a a ha).1
  obtain ⟨hgfa, S1, r1, m1, _, t1, l1, h1, s1a, s1g⟩ := hf a (g a) hag
  obtain ⟨hfga, S2, r2, m2, _, t2, l2, h2, s2a, s2f⟩ := hg a (f a) haf
  have hgf : sameReads R c0 r m (f a) (g (f a)) := (hg (f a) a (sameReads_symm haf)).1
  have hfg : sameReads R c0 r m (g a) (f (g a)) := (hf (g a) a (sameReads_symm hag)).1
  refine ⟨sameReads_trans (sameReads_symm hgf) (sameReads_trans (sameReads_symm haf)
    (sameReads_trans hag hfg)), ?_, ?_, ?_, ?_, ?_⟩
  · intro k
    rw [s2f.1.1 k, s1a.1.1 k, s1g.1.1 k, s2a.1.1 k]
    exact KeyStep.apply_comm _ _ _ (fun h => hW k (t1 k h.1) (t2 k h.2))
  · intro k
    rw [s2f.1.2.1 k, s1a.1.2.1 k, s1g.1.2.1 k, s2a.1.2.1 k]
    exact labelApply_comm _ _ _ (fun h => hn ((l1 k h.1).symm.trans (l2 k h.2)))
  · intro k
    rw [s2f.1.2.2 k, s1a.1.2.2 k, s1g.1.2.2 k, s2a.1.2.2 k]
    cases hx : S1.hist k with
    | none => rfl
    | some x =>
      cases hy : S2.hist k with
      | none => rfl
      | some y =>
        exact absurd ((h1 k (by rw [hx]; rfl)).symm.trans (h2 k (by rw [hy]; rfl))) hn
  · intro x
    rw [s2f.2.1 x, s1a.2.1 x, s1g.2.1 x, s2a.2.1 x]
    tauto
  · intro x
    rw [s2f.2.2 x, s1a.2.2 x, s1g.2.2 x, s2a.2.2 x]
    tauto

theorem foldl_respects {R : Runtime} {c0 : List (String × Node)} {r m : Bool}
    (f : CounterState → String × Node → CounterState) (W : String × Node → List String)
    (L : List (String × Node)) :
    (∀ e ∈ L, Steps R c0 r m (W e) e.1 (fun st => f st e)) →
    ∀ a b, sameReads R c0 r m a b → sameViews a b →
      sameReads R c0 r m (L.foldl f a) (L.foldl f b) ∧ sameViews (L.foldl f a) (L.foldl f b) := by
  induction L with
  | nil => intro _ a b h v; exact ⟨h, v⟩
  | cons x l ih =>
    intro hsteps a b h v
    obtain ⟨h1, v1⟩ := Steps_respects (hsteps x (List.mem_cons_self _ _)) h v
    exact ih (fun e he => hsteps e (List.mem_cons_of_mem _ he)) _ _ h1 v1

/-- A loop over the catalog whose rounds write to different keys: the order of the
rounds does not show in the schema and in the sets. -/
theorem foldl_perm_views {R : Runtime} {c0 : List (String × Node)} {r m : Bool}
    (f : CounterState → String × Node → CounterState) (W : String × Node → List String)
    {L L2 : List (String × Node)} (hperm : L.Perm L2) :
    (∀ e ∈ L, Steps R c0 r m (W e) e.1 (fun st => f st e)) →
    L.Pairwise (fun x y => x.1 ≠ y.1 ∧ ∀ k ∈ W x, k ∉ W y) →
    ∀ a b, sameReads R c0 r m a b → sameViews a b →
      sameReads R c0 r m (L.foldl f a) (L2.foldl f b) ∧
        sameViews (L.foldl f a) (L2.foldl f b) := by
  have hsymm : Symmetric (fun x y : String × Node => x.1 ≠ y.1 ∧ ∀ k ∈ W x, k ∉ W y) := by
    intro x y h
    exact ⟨fun e => h.1 e.symm, fun k hk hk2 => h.2 k hk2 hk⟩
  induction hperm with
  | nil => intro _ _ a b h v; exact ⟨h, v⟩
  | cons x _ ih =>
    intro hsteps hpair a b h v
    obtain ⟨h1, v1⟩ := Steps_respects (hsteps x (List.mem_cons_self _ _)) h v
    exact ih (fun e he => hsteps e (List.mem_cons_of_mem _ he)) (List.pairwise_cons.mp hpair).2
      _ _ h1 v1
  | swap x y l =>
    intro hsteps hpair a b h v
    have hy := hsteps y (List.mem_cons_self _ _)
    have hx := hsteps x (List.mem_cons_of_mem _ (List.mem_cons_self _ _))
    have hyx := (List.pairwise_cons.mp hpair).1 x (List.mem_cons_self _ _)
    obtain ⟨c1, c2⟩ := Steps_commute hy hx hyx.2 hyx.1 (sameReads_left h)
    obtain ⟨d1, d2⟩ := Steps_respects hx h v
    obtain ⟨e1, e2⟩ := Steps_respects hy d1 d2
    simp only [List.foldl_cons]
    exact foldl_respects f W l
      (fun e he => hsteps e (List.mem_cons_of_mem _ (List.mem_cons_of_mem _ he))) _ _
      (sameReads_trans c1 e1) (sameViews_trans c2 e2)
  | trans p1 _ ih1 ih2 =>
    intro hsteps hpair a b h v
    obtain ⟨h1, v1⟩ := ih1 hsteps hpair a b h v
    obtain ⟨h2, v2⟩ := ih2 (fun e he => hsteps e (p1.mem_iff.mpr he))
      ((p1.pairwise_iff (fun {x y} hxy => hsymm hxy)).mp hpair) b b (sameReads_left (sameReads_symm h))
      (sameViews_refl b)
    exact ⟨sameReads_trans h1 h2, sameViews_trans v1 v2⟩

/-! ### The catalog as `addCounter` reads it -/

theorem assocGet_map_snd {β γ : Type} (g : β → γ) (k : String) (c : List (String × β)) :
    assocGet k (c.map (fun e => (e.1, g e.2))) = (assocGet k c).map g := by
  induction c with
  | nil => rfl
  | cons e rest ih =>
    obtain ⟨k1, v⟩ := e
    by_cases h : k1 = k
    · simp [assocGet, h]
    · simp only [List.map_cons, assocGet, h, if_false, ih]

theorem lookup_cacheViews {R : Runtime} {c c0 : List (String × Node)}
    (h : cacheViews R c = cacheViews R c0) (k : String) :
    (assocGet k c).map (cacheView R) = (assocGet k c0).map (cacheView R) := by
  have h1 := assocGet_map_snd (cacheView R) k c
  have h2 := assocGet_map_snd (cacheView R) k c0
  unfold cacheViews at h
  rw [← h1, ← h2, h]

theorem cacheViews_assocModify (R : Runtime) (k : String) (n2 : Node) (c : List (String × Node))
    (h : ∀ n0, assocGet k c = some n0 → cacheView R n0 = cacheView R n2) :
    cacheViews R (assocModify k (fun _ => n2) c) = cacheViews R c := by
  induction c with
  | nil => rfl
  | cons e rest ih =>
    obtain ⟨k1, v⟩ := e
    by_cases hk : k1 = k
    · subst hk
      have := h v (by simp [assocGet])
      simp [assocModify, cacheViews, this]
    · have ih2 := ih (fun n0 hn => h n0 (by simp only [assocGet, hk, if_false]; exact hn))
      unfold cacheViews at ih2 ⊢
      simp only [assocModify, hk, if_false, List.map_cons, ih2]

theorem GetChildS_SetChildContentS_ne (n : Node) (name content other : String)
    (hne : other ≠ name) : (n.SetChildContentS name content).GetChildS other = n.GetChildS other := by
  unfold Node.GetChildS Node.SetChildContentS
  simp only [Node.GetChildren]
  rw [find_setFirst_ne name content other hne]

theorem cacheView_applyOverride (R : Runtime) (me : ZapiPerf) (k : String) (n : Node) :
    cacheView R (applyOverride me k n) = cacheView R n := by
  unfold applyOverride
  split
  · unfold cacheView parseHistogramLabels
    rw [GetChildContentS_SetChildContentS_ne _ _ _ _ (by decide),
      GetChildS_SetChildContentS_ne _ _ _ _ (by decide)]
  · rfl

theorem writtenKeys_of_cacheView (R : Runtime) (k : String) (n n2 : Node)
    (h : cacheView R n = cacheView R n2) : writtenKeys R (k, n) = writtenKeys R (k, n2) := by
  unfold cacheView at h
  simp only [Prod.mk.injEq] at h
  unfold writtenKeys
  simp only [h.1, h.2]

theorem planCounter_cache_congr (R : Runtime) (counter : Node) (name display : String)
    (c c2 : List (String × Node))
    (h : ∀ k, (assocGet k c).map (cacheView R) = (assocGet k c2).map (cacheView R)) :
    planCounter R counter name display c = planCounter R counter name display c2 := by
  have hk := h (counter.GetChildContentS "base-counter")
  unfold planCounter
  simp only
  cases h1 : assocGet (counter.GetChildContentS "base-counter") c with
  | none =>
    rw [h1] at hk
    cases h2 : assocGet (counter.GetChildContentS "base-counter") c2 with
    | none => rfl
    | some b2 => rw [h2] at hk; simp at hk
  | some b1 =>
    rw [h1] at hk
    cases h2 : assocGet (counter.GetChildContentS "base-counter") c2 with
    | none => rw [h2] at hk; simp at hk
    | some b2 =>
      rw [h2] at hk
      simp only [Option.map_some', Option.some.injEq, cacheView, Prod.mk.injEq] at hk
      simp only [hk.1, hk.2]

theorem addCounter_cache_congr (R : Runtime) (me : ZapiPerf) (counter : Node)
    (name display : String) (enabled : Bool) (c c2 : List (String × Node))
    (h : ∀ k, (assocGet k c).map (cacheView R) = (assocGet k c2).map (cacheView R)) :
    addCounter R me counter name display enabled c =
      addCounter R me counter name display enabled c2 := by
  rw [addCounter_plan, addCounter_plan, planCounter_cache_congr R counter name display c c2 h]

theorem arrayTouch_mem (name : String) (attrs : String → Schema) (labels : List String)
    (k : String) (h : (arrayTouch name attrs labels k).isSome = true) :
    k ∈ labels.map (fun l => name ++ "." ++ l) := by
  induction labels with
  | nil => simp [arrayTouch] at h
  | cons l ls ih =>
    unfold arrayTouch at h
    cases h1 : arrayTouch name attrs ls k with
    | some t => exact List.mem_cons_of_mem _ (ih (by rw [h1]; rfl))
    | none =>
      rw [h1] at h
      simp only at h
      by_cases hkl : k = name ++ "." ++ l
      · rw [hkl]; exact List.mem_cons_self _ _
      · rw [if_neg hkl] at h
        simp at h

/-- What the decision of `addCounter` says of the counter: a scalar metric is planned for
a counter that is no array, the metrics of an array for an array with its labels. -/
theorem planCounter_kind (R : Runtime) (counter : Node) (name display : String)
    (cache : List (String × Node)) :
    (∀ d p b, planCounter R counter name display cache = CounterPlan.scalar d p b →
      counter.GetChildContentS "type" ≠ "array") ∧
    (∀ d p b bl labels, planCounter R counter name display cache =
        CounterPlan.array d p b bl labels →
      counter.GetChildContentS "type" = "array" ∧ labels = (parseHistogramLabels R counter).1) := by
  unfold planCounter
  simp only
  by_cases h0 : propertyOf (counter.GetChildContentS "properties") = ""
  · simp only [h0, if_true]
    exact ⟨fun d p b h => (by cases h), fun d p b bl labels h => (by cases h)⟩
  · simp only [h0, if_false]
    by_cases ht : counter.GetChildContentS "type" = "array"
    · simp only [ht, if_true]
      by_cases hp : (parseHistogramLabels R counter).2 = ""
      · simp only [hp, ne_eq, not_true_eq_false, if_false]
        constructor
        · intro d p b h
          split at h <;> cases h
        · intro d p b bl labels h
          split at h
          · cases h
          · cases h
            exact ⟨trivial, rfl⟩
      · simp only [ne_eq, hp, not_false_eq_true, if_true]
        exact ⟨fun d p b h => (by cases h), fun d p b bl labels h => (by cases h)⟩
    · simp only [ht, if_false]
      exact ⟨fun _ _ _ _ => ht, fun d p b bl labels h => (by cases h)⟩

/-- `addCounter`: what it returns, what it writes to each metric key and the array
labels it caches do not depend on the collector; it writes to the keys of the counter
only, and caches labels for its name only. -/
theorem addCounter_writes (R : Runtime) (counter : Node) (name display : String)
    (enabled : Bool) (cache : List (String × Node)) :
    ∃ (ret : String) (τ : String → Option Schema) (h : String → Option (List String)),
      (∀ k, (τ k).isSome = true → k = name ∨ strings.Contains k "." = true) ∧
      (∀ k, (τ k).isSome = true → k ∈ writtenKeys R (name, counter)) ∧
      (∀ k, (h k).isSome = true → k = name) ∧
      ∀ me : ZapiPerf,
        (addCounter R me counter name display enabled cache).2 = ret ∧
        (∀ k, (addCounter R me counter name display enabled cache).1.Matrix.schemaAt k =
          match τ k with
          | none => me.Matrix.schemaAt k
          | some t => some (t.over (me.Matrix.schemaAt k))) ∧
        (∀ k, assocGet k (addCounter R me counter name display enabled cache).1.histogramLabels =
          match h k with
          | some x => some x
          | none => assocGet k me.histogramLabels) ∧
        (addCounter R me counter name display enabled cache).1.instanceLabels = me.instanceLabels ∧
        (addCounter R me counter name display enabled cache).1.Params = me.Params ∧
        (addCounter R me counter name display enabled cache).1.object = me.object ∧
        (addCounter R me counter name display enabled cache).1.Query = me.Query := by
  obtain ⟨ks, ka⟩ := planCounter_kind R counter name display cache
  cases hplan : planCounter R counter name display cache with
  | skip =>
    refine ⟨"", fun _ => none, fun _ => none, fun k h => by simp at h, fun k h => by simp at h,
      fun k h => by simp at h, fun me => ?_⟩
    rw [addCounter_plan, hplan]
    exact ⟨rfl, fun k => rfl, fun k => rfl, rfl, rfl, rfl, rfl⟩
  | scalar display1 property baseCounter =>
    have hty := ks _ _ _ hplan
    refine ⟨baseCounter, fun k =>
      if k = name then
        some { name := display1, property := property, comment := baseCounter,
               exportable := enabled, labels := fun _ => none }
      else none, fun _ => none, fun k h => ?_, fun k h => ?_, fun k h => by simp at h,
      fun me => ?_⟩
    · by_cases hk : k = name
      · exact Or.inl hk
      · simp [hk] at h
    · by_cases hk : k = name
      · unfold writtenKeys
        simp only [hty, if_false, hk, List.mem_singleton]
      · simp [hk] at h
    · rw [addCounter_plan, hplan]
      refine ⟨rfl, fun k => ?_, fun k => rfl, rfl, rfl, rfl, rfl⟩
      simp only
      rw [schemaAt_upsertMetric _ _ _ _ _ (scalarSchema_spec display1 property baseCounter enabled)]
      by_cases hk : k = name
      · simp only [hk, if_true]
      · simp only [hk, if_false]
  | array display1 property baseCounter baseLabels labels =>
    obtain ⟨hty, hlab⟩ := ka _ _ _ _ _ hplan
    refine ⟨baseCounter, arrayTouch name
        (arraySchema display1 property (arrayBaseKey baseCounter baseLabels) enabled) labels,
      fun k => if k = name then some labels else none,
      fun k h => Or.inr (arrayTouch_dot _ _ _ k h), fun k h => ?_, fun k h => ?_, fun me => ?_⟩
    · unfold writtenKeys
      simp only [hty, if_true, ← hlab]
      exact arrayTouch_mem _ _ _ k h
    · by_cases hk : k = name
      · exact hk
      · simp [hk] at h
    · rw [addCounter_plan, hplan]
      refine ⟨rfl, fun k => schemaAt_addArrayMetrics _ _ _ _ _ _ _ me.Matrix k, fun k => ?_,
        rfl, rfl, rfl, rfl⟩
      simp only
      by_cases hk : k = name
      · subst hk
        simp only [if_true, assocGet_assocSet_self]
      · simp only [hk, if_false, assocGet_assocSet_ne _ _ _ _ hk]

/-- A counter added by `addCounter`, its key taken out of `oldMetrics`, in a state whose
catalog reads like `c0`: what is returned and what is done to the schema does not depend
on the state. -/
theorem addCounter_step2 (R : Runtime) (counter : Node) (key display : String) (enabled : Bool)
    (c0 : List (String × Node)) :
    ∃ (ret : String) (S : SchemaStep), S.ok ∧
      (∀ k, (S.metric k).touch.isSome = true → k ∈ writtenKeys R (key, counter)) ∧
      (∀ k, (S.label k).isSome = true → k = key) ∧ (∀ k, (S.hist k).isSome = true → k = key) ∧
      ∀ st st2 : CounterState,
        cacheViews R st.counters = cacheViews R c0 →
        st2.me = (addCounter R st.me counter key display enabled st.counters).1 →
        st2.oldMetrics = setDelete st.oldMetrics key →
        st2.oldLabels = st.oldLabels →
        (addCounter R st.me counter key display enabled st.counters).2 = ret ∧ Acts S st st2 ∧
          st2.me.Params = st.me.Params ∧ st2.me.object = st.me.object ∧
          st2.me.Query = st.me.Query := by
  obtain ⟨ret, τ, h, hτ, hw, hh, heff⟩ := addCounter_writes R counter key display enabled c0
  refine ⟨ret, { metric := fun k => { del := decide (k = key), touch := τ k },
                 label := fun _ => none, hist := h }, ?_, hw, ?_, hh, ?_⟩
  · intro k hk
    rcases hτ k hk with h1 | h1
    · left; simp [h1]
    · exact Or.inr h1
  · intro k hk
    simp at hk
  · intro st st2 hc hme hold hlab
    rw [addCounter_cache_congr R st.me counter key display enabled st.counters c0
      (lookup_cacheViews hc)] at hme ⊢
    obtain ⟨e1, e2, e3, e4, e5, e6, e7⟩ := heff st.me
    refine ⟨e1, ⟨fun k => ?_, fun k => ?_, fun k => ?_⟩, ?_, ?_, ?_⟩
    · simp only [keyView, KeyStep.apply, hme, hold, e2 k, decide_mem_setDelete]
    · simp only [labelView, labelApply, hme, hlab, e4]
    · simp only [hme, e3 k]
    · rw [hme, e5]
    · rw [hme, e6]
    · rw [hme, e7]

/-! ### The rounds of the loops -/

theorem override_steps (R : Runtime) (c0 : List (String × Node)) (r m : Bool) (W : List String)
    (name key : String) (node : Node)
    (hnode : ∀ n0, assocGet key c0 = some n0 → cacheView R n0 = cacheView R node) :
    Steps R c0 r m W name (fun st =>
      { st with counters := (assocModify key (fun _ => applyOverride st.me key node) st.counters) }) := by
  have hkeep : ∀ st : CounterState, cacheViews R st.counters = cacheViews R c0 →
      cacheViews R (assocModify key (fun _ => applyOverride st.me key node) st.counters) =
        cacheViews R c0 := by
    intro st hc
    rw [cacheViews_assocModify, hc]
    intro n0 hn0
    have hl := lookup_cacheViews hc key
    rw [hn0] at hl
    cases h0 : assocGet key c0 with
    | none => rw [h0] at hl; simp at hl
    | some n1 =>
      rw [h0] at hl
      simp only [Option.map_some', Option.some.injEq] at hl
      rw [cacheView_applyOverride, hl]
      exact hnode n1 h0
  intro a b hab
  obtain ⟨h1, h2, h3, h4, h5, h6, h7⟩ := hab
  refine ⟨⟨h1, hkeep a h1, rfl, rfl, rfl, fun _ _ => Iff.rfl, fun _ _ => Iff.rfl⟩,
    SchemaStep.id, [], [], SchemaStep.ok_id, ?_, ?_, ?_,
    StepOn_id _ _ rfl rfl rfl rfl rfl, StepOn_id _ _ rfl rfl rfl rfl rfl⟩
  · intro k h; simp [SchemaStep.id] at h
  · intro k h; simp [SchemaStep.id] at h
  · intro k h; simp [SchemaStep.id] at h

theorem noteReplaced_steps (R : Runtime) (c0 : List (String × Node)) (m : Bool) (W : List String)
    (name : String) (wanted : List (String × String)) (counter : Node) :
    Steps R c0 false m W name (fun st => noteReplaced wanted st counter) := by
  intro a b hab
  obtain ⟨h1, h2, h3, h4, h5, h6, h7⟩ := hab
  obtain ⟨a1, a2, a3, a4, a5, a6⟩ := noteReplaced_fields wanted a counter
  obtain ⟨b1, b2, b3, b4, b5, b6⟩ := noteReplaced_fields wanted b counter
  refine ⟨⟨h1, (by show cacheViews R (noteReplaced wanted a counter).counters = _; rw [a2]; exact h1),
      (by show _ = (noteReplaced wanted a counter).me.Params; rw [a1]),
      (by show _ = (noteReplaced wanted a counter).me.object; rw [a1]),
      (by show _ = (noteReplaced wanted a counter).me.Query; rw [a1]),
      (fun h => by cases h),
      (fun _ x => by show _ ↔ x ∈ (noteReplaced wanted a counter).missing; rw [a5])⟩,
    SchemaStep.id,
    (if counter.GetChildContentS "is-deprecated" = "true" ∧
        (assocGet (counter.GetChildContentS "replaced-by") wanted).isNone then
      [counter.GetChildContentS "replaced-by"] else []), [], SchemaStep.ok_id, ?_, ?_, ?_,
    ⟨Acts.frame _ _ a1 a3 a4, fun x => ?_, fun x => by simp [a5]⟩,
    ⟨Acts.frame _ _ b1 b3 b4, fun x => ?_, fun x => by simp [b5]⟩⟩
  · intro k h; simp [SchemaStep.id] at h
  · intro k h; simp [SchemaStep.id] at h
  · intro k h; simp [SchemaStep.id] at h
  · rw [a6]
    split
    · simp [mem_setAdd]
    · simp
  · rw [b6]
    split
    · simp [mem_setAdd]
    · simp

theorem stringCore_steps (R : Runtime) (c0 : List (String × Node)) (r m : Bool)
    (W : List String) (key display : String) :
    Steps R c0 r m W key (stringCore key display) := by
  intro a b hab
  obtain ⟨h1, h2, h3, h4, h5, h6, h7⟩ := hab
  have hb := stringCore_acts key display b
  rw [← h4] at hb
  refine ⟨⟨h1, h1, rfl, rfl, rfl, fun _ _ => Iff.rfl, fun _ _ => Iff.rfl⟩, _, [], [], ?_, ?_,
    ?_, ?_, ⟨stringCore_acts key display a, fun x => by simp [stringCore],
      fun x => by simp [stringCore]⟩,
    ⟨hb, fun x => by simp [stringCore], fun x => by simp [stringCore]⟩⟩
  · intro k hk; simp at hk
  · intro k hk; simp at hk
  · intro k hk
    by_cases h : k = key
    · exact h
    · simp [h] at hk
  · intro k hk; simp at hk

theorem numericCore_steps (R : Runtime) (c0 : List (String × Node)) (r : Bool)
    (wanted : List (String × String)) (counter : Node) (key display : String) :
    Steps R c0 r false (writtenKeys R (key, counter)) key
      (numericCore R wanted counter key display) := by
  obtain ⟨ret, S, hok, hw, hl, hh, hstep⟩ := addCounter_step2 R counter key display true c0
  intro a b hab
  obtain ⟨h1, h2, h3, h4, h5, h6, h7⟩ := hab
  obtain ⟨ra, acta, pa, oa, qa⟩ := hstep a (numericCore R wanted counter key display a) h1
    rfl rfl rfl
  obtain ⟨rb, actb, pb, ob, qb⟩ := hstep b (numericCore R wanted counter key display b) h2
    rfl rfl rfl
  refine ⟨⟨h1, h1, pa.symm, oa.symm, qa.symm, fun _ _ => Iff.rfl, (fun h => by cases h)⟩,
    S, [], (if ret ≠ "" ∧ (assocGet ret wanted).isNone then [ret] else []), hok, hw, hl, hh,
    ⟨acta, fun x => by simp [numericCore], fun x => ?_⟩,
    ⟨actb, fun x => by simp [numericCore], fun x => ?_⟩⟩
  · show x ∈ noteMissing wanted a.missing _ ↔ _
    rw [ra]
    unfold noteMissing
    split
    · simp [mem_setAdd]
    · simp
  · show x ∈ noteMissing wanted b.missing _ ↔ _
    rw [rb]
    unfold noteMissing
    split
    · simp [mem_setAdd]
    · simp

theorem baseCore_steps (R : Runtime) (c0 : List (String × Node)) (r m : Bool) (counter : Node)
    (key : String) :
    Steps R c0 r m (writtenKeys R (key, counter)) key (baseCore R counter key) := by
  obtain ⟨ret, S, hok, hw, hl, hh, hstep⟩ := addCounter_step2 R counter key "" false c0
  intro a b hab
  obtain ⟨h1, h2, h3, h4, h5, h6, h7⟩ := hab
  obtain ⟨ra, acta, pa, oa, qa⟩ := hstep a (baseCore R counter key a) h1 rfl rfl rfl
  obtain ⟨rb, actb, pb, ob, qb⟩ := hstep b (baseCore R counter key b) h2 rfl rfl rfl
  exact ⟨⟨h1, h1, pa.symm, oa.symm, qa.symm, fun _ _ => Iff.rfl, fun _ _ => Iff.rfl⟩,
    S, [], [], hok, hw, hl, hh,
    ⟨acta, fun x => by simp [baseCore], fun x => by simp [baseCore]⟩,
    ⟨actb, fun x => by simp [baseCore], fun x => by simp [baseCore]⟩⟩

theorem addWanted_steps (R : Runtime) (c0 : List (String × Node))
    (wanted : List (String × String)) (key display : String) (counter : Node) :
    Steps R c0 false false (writtenKeys R (key, counter)) key
      (fun st => addWanted R wanted st key display counter) := by
  by_cases h1 : counter.GetChildContentS "is-deprecated" = "true" ∧
      counter.GetChildContentS "replaced-by" = ""
  · have : (fun st => addWanted R wanted st key display counter) = fun st => st := by
      funext st
      unfold addWanted
      rw [if_pos h1]
    rw [this]
    exact Steps_id R c0 false false _ _
  · by_cases h2 : strings.Contains (counter.GetChildContentS "properties") "string" = true
    · have : (fun st => addWanted R wanted st key display counter) =
          fun st => stringCore key display (noteReplaced wanted st counter) := by
        funext st
        unfold addWanted
        rw [if_neg h1, if_pos h2]
        rfl
      rw [this]
      exact Steps_comp (noteReplaced_steps R c0 false _ key wanted counter)
        (stringCore_steps R c0 false false _ key display)
    · have : (fun st => addWanted R wanted st key display counter) =
          fun st => numericCore R wanted counter key display (noteReplaced wanted st counter) := by
        funext st
        unfold addWanted
        rw [if_neg h1, if_neg h2]
        rfl
      rw [this]
      exact Steps_comp (noteReplaced_steps R c0 false _ key wanted counter)
        (numericCore_steps R c0 false wanted counter key display)

/-- A round of the first loop, for a counter of the catalog. -/
theorem firstPass_steps (R : Runtime) (c0 : List (String × Node))
    (wanted : List (String × String)) (entry : String × Node)
    (hnode : ∀ n0, assocGet entry.1 c0 = some n0 → cacheView R n0 = cacheView R entry.2) :
    Steps R c0 false false (writtenKeys R entry) entry.1
      (fun st => firstPass R wanted st entry) := by
  cases hw : assocGet entry.1 wanted with
  | none =>
    have : (fun st => firstPass R wanted st entry) = fun st =>
        { st with counters :=
            (assocModify entry.1 (fun _ => applyOverride st.me entry.1 entry.2) st.counters) } := by
      funext st
      unfold firstPass
      rw [hw]
    rw [this]
    exact override_steps R c0 false false _ _ entry.1 entry.2 hnode
  | some display =>
    apply Steps_choose
    intro a b hab
    have hW : writtenKeys R (entry.1, applyOverride a.me entry.1 entry.2) = writtenKeys R entry :=
      writtenKeys_of_cacheView R entry.1 _ _ (cacheView_applyOverride R a.me entry.1 entry.2)
    refine ⟨fun st => addWanted R wanted
      { st with counters :=
          (assocModify entry.1 (fun _ => applyOverride st.me entry.1 entry.2) st.counters) }
      entry.1 display (applyOverride a.me entry.1 entry.2), ?_, ?_, ?_⟩
    · have h2 := addWanted_steps R c0 wanted entry.1 display (applyOverride a.me entry.1 entry.2)
      rw [hW] at h2
      exact Steps_comp (override_steps R c0 false false _ _ entry.1 entry.2 hnode) h2
    · unfold firstPass
      rw [hw]
    · unfold firstPass
      rw [hw]
      simp only
      rw [applyOverride_congr b.me a.me hab.2.2.1.symm]

/-- A round of the second loop. -/
theorem secondPass_steps (R : Runtime) (c0 : List (String × Node))
    (wanted : List (String × String)) (entry : String × Node) :
    Steps R c0 true false (writtenKeys R entry) entry.1
      (fun st => secondPass R wanted st entry) := by
  apply Steps_choose
  intro a b hab
  by_cases h : entry.1 ∈ a.replaced
  · refine ⟨numericCore R wanted entry.2 entry.1 entry.1,
      numericCore_steps R c0 true wanted entry.2 entry.1 entry.1, ?_, ?_⟩
    · unfold secondPass
      rw [if_pos h]
      rfl
    · unfold secondPass
      rw [if_pos ((hab.2.2.2.2.2.1 rfl entry.1).mp h)]
      rfl
  · refine ⟨fun st => st, Steps_id R c0 true false _ _, ?_, ?_⟩
    · unfold secondPass
      rw [if_neg h]
    · unfold secondPass
      rw [if_neg (fun hb => h ((hab.2.2.2.2.2.1 rfl entry.1).mpr hb))]

/-- A round of the third loop. -/
theorem thirdPass_steps (R : Runtime) (c0 : List (String × Node)) (entry : String × Node) :
    Steps R c0 false true (writtenKeys R entry) entry.1 (fun st => thirdPass R st entry) := by
  apply Steps_choose
  intro a b hab
  by_cases h : entry.1 ∈ a.missing
  · refine ⟨baseCore R entry.2 entry.1, baseCore_steps R c0 false true entry.2 entry.1, ?_, ?_⟩
    · unfold thirdPass
      rw [if_pos h]
      rfl
    · unfold thirdPass
      rw [if_pos ((hab.2.2.2.2.2.2 rfl entry.1).mp h)]
      rfl
  · refine ⟨fun st => st, Steps_id R c0 false true _ _, ?_, ?_⟩
    · unfold thirdPass
      rw [if_neg h]
    · unfold thirdPass
      rw [if_neg (fun hb => h ((hab.2.2.2.2.2.2 rfl entry.1).mpr hb))]

/-! ### The same rounds under another order -/

theorem parseHistogramLabels_decode (R R2 : Runtime) (h : R2.DecodeHtml = R.DecodeHtml) :
    parseHistogramLabels R2 = parseHistogramLabels R := by
  funext elem
  unfold parseHistogramLabels
  rw [h]

theorem addCounter_decode (R R2 : Runtime) (h : R2.DecodeHtml = R.DecodeHtml) :
    addCounter R2 = addCounter R := by
  funext me counter name display enabled cache
  unfold addCounter
  rw [parseHistogramLabels_decode R R2 h]

theorem firstPass_decode (R R2 : Runtime) (h : R2.DecodeHtml = R.DecodeHtml) :
    firstPass R2 = firstPass R := by
  funext wanted st entry
  unfold firstPass addWanted
  rw [addCounter_decode R R2 h]

theorem secondPass_decode (R R2 : Runtime) (h : R2.DecodeHtml = R.DecodeHtml) :
    secondPass R2 = secondPass R := by
  funext wanted st entry
  unfold secondPass
  rw [addCounter_decode R R2 h]

theorem thirdPass_decode (R R2 : Runtime) (h : R2.DecodeHtml = R.DecodeHtml) :
    thirdPass R2 = thirdPass R := by
  funext st entry
  unfold thirdPass
  rw [addCounter_decode R R2 h]

/-! ### The catalog during the loops -/

theorem assocKeys_assocSet_nodup {β : Type} (k : String) (v : β) (l : List (String × β))
    (h : (assocKeys l).Nodup) : (assocKeys (assocSet k v l)).Nodup := by
  have hmem : ∀ (l : List (String × β)) (x : String),
      x ∈ assocKeys (assocSet k v l) → x = k ∨ x ∈ assocKeys l := by
    intro l
    induction l with
    | nil =>
      intro x hx
      simp [assocSet, assocKeys] at hx
      exact Or.inl hx
    | cons e rest ih =>
      obtain ⟨k1, v1⟩ := e
      intro x hx
      by_cases hk : k1 = k
      · simp only [assocSet, hk, if_true, assocKeys, List.map_cons, List.mem_cons] at hx ⊢
        rcases hx with hx | hx
        · exact Or.inl hx
        · exact Or.inr (Or.inr hx)
      · simp only [assocSet, hk, if_false, assocKeys, List.map_cons, List.mem_cons] at hx ⊢
        rcases hx with hx | hx
        · exact Or.inr (Or.inl hx)
        · rcases ih x hx with h2 | h2
          · exact Or.inl h2
          · exact Or.inr (Or.inr h2)
  induction l with
  | nil => simp [assocSet, assocKeys]
  | cons e rest ih =>
    obtain ⟨k1, v1⟩ := e
    simp only [assocKeys, List.map_cons, List.nodup_cons] at h
    by_cases hk : k1 = k
    · simp only [assocSet, hk, if_true, assocKeys, List.map_cons, List.nodup_cons]
      rw [← hk]
      exact h
    · simp only [assocSet, hk, if_false, assocKeys, List.map_cons, List.nodup_cons]
      refine ⟨fun hx => ?_, ih h.2⟩
      rcases hmem rest k1 hx with h2 | h2
      · exact hk h2
      · exact h.1 h2

/-- The catalog holds one counter per name. -/
theorem indexCounters_nodup (elems : Node) : (assocKeys (indexCounters elems)).Nodup := by
  unfold indexCounters
  have key : ∀ (L : List Node) (c : List (String × Node)), (assocKeys c).Nodup →
      (assocKeys (L.foldl (fun counters counter =>
        if counter.GetChildContentS "name" ≠ "" then
          assocSet (counter.GetChildContentS "name") counter counters
        else counters) c)).Nodup := by
    intro L
    induction L with
    | nil => intro c hc; exact hc
    | cons x rest ih =>
      intro c hc
      rw [List.foldl_cons]
      apply ih
      split
      · exact assocKeys_assocSet_nodup _ _ _ hc
      · exact hc
  exact key _ [] (by simp [assocKeys])

theorem catalogOf_nodup (reply : CounterReply) : (assocKeys (catalogOf reply)).Nodup := by
  unfold catalogOf
  split
  · split
    · exact indexCounters_nodup _
    · simp [assocKeys]
  · simp [assocKeys]

theorem assocModify_comm {β : Type} (k1 k2 : String) (f g : β → β) (l : List (String × β))
    (h : k1 ≠ k2) :
    assocModify k1 f (assocModify k2 g l) = assocModify k2 g (assocModify k1 f l) := by
  induction l with
  | nil => rfl
  | cons e rest ih =>
    obtain ⟨k, v⟩ := e
    by_cases h1 : k = k1
    · subst h1
      have h2 : ¬ k = k2 := h
      simp [assocModify, h2]
    · by_cases h2 : k = k2
      · subst h2
        simp [assocModify, h1]
      · simp [assocModify, h1, h2, ih]

theorem addWanted_counters (R : Runtime) (wanted : List (String × String)) (st : CounterState)
    (key display : String) (counter : Node) :
    (addWanted R wanted st key display counter).counters = st.counters := by
  unfold addWanted
  split
  · rfl
  · split
    · exact (noteReplaced_fields wanted st counter).2.1
    · exact (noteReplaced_fields wanted st counter).2.1

theorem firstPass_counters (R : Runtime) (wanted : List (String × String)) (st : CounterState)
    (entry : String × Node) :
    (firstPass R wanted st entry).counters =
      assocModify entry.1 (fun _ => applyOverride st.me entry.1 entry.2) st.counters := by
  unfold firstPass
  split
  · rfl
  · rw [addWanted_counters]

theorem secondPass_counters (R : Runtime) (wanted : List (String × String)) (st : CounterState)
    (entry : String × Node) : (secondPass R wanted st entry).counters = st.counters := by
  unfold secondPass
  split <;> rfl

theorem thirdPass_counters (R : Runtime) (st : CounterState) (entry : String × Node) :
    (thirdPass R st entry).counters = st.counters := by
  unfold thirdPass
  split <;> rfl

theorem foldl_keeps_counters (f : CounterState → String × Node → CounterState)
    (hf : ∀ st e, (f st e).counters = st.counters) (L : List (String × Node))
    (st : CounterState) : (L.foldl f st).counters = st.counters := by
  induction L generalizing st with
  | nil => rfl
  | cons x rest ih => rw [List.foldl_cons, ih, hf]

/-- The catalog after the first loop: every counter visited holds its override. -/
theorem firstLoop_counters (R : Runtime) (wanted : List (String × String)) (me0 : ZapiPerf)
    (L : List (String × Node)) (st : CounterState) (hp : st.me.Params = me0.Params) :
    (L.foldl (firstPass R wanted) st).counters =
      L.foldl (fun c e => assocModify e.1 (fun _ => applyOverride me0 e.1 e.2) c) st.counters := by
  induction L generalizing st with
  | nil => rfl
  | cons x rest ih =>
    rw [List.foldl_cons, List.foldl_cons]
    have hp2 : (firstPass R wanted st x).me.Params = me0.Params :=
      ((firstPass_coupled R wanted x st st (sameCtrl_refl st)).2.1).trans hp
    rw [ih _ hp2, firstPass_counters, applyOverride_congr st.me me0 hp]

theorem overrides_perm (me0 : ZapiPerf) {L L2 : List (String × Node)} (hperm : L.Perm L2)
    (hnd : (assocKeys L).Nodup) (c : List (String × Node)) :
    L.foldl (fun c e => assocModify e.1 (fun _ => applyOverride me0 e.1 e.2) c) c =
      L2.foldl (fun c e => assocModify e.1 (fun _ => applyOverride me0 e.1 e.2) c) c := by
  apply List.Perm.foldl_eq' hperm
  intro x hx y hy z
  by_cases hxy : x = y
  · rw [hxy]
  · have hk : x.1 ≠ y.1 := by
      intro hk
      apply hxy
      have h1 := assocGet_of_mem_nodup L hnd x hx
      have h2 := assocGet_of_mem_nodup L hnd y hy
      rw [hk, h2] at h1
      exact Prod.ext hk (Option.some.inj h1).symm
    exact assocModify_comm _ _ _ _ _ (fun h => hk h.symm)

/-! ### The order of the loops -/

theorem clash_pairwise (R : Runtime) (c0 c : List (String × Node))
    (hv : cacheViews R c = cacheViews R c0) (hnd : (assocKeys c0).Nodup)
    (hclash : clashFree R c0) :
    c.Pairwise (fun x y => x.1 ≠ y.1 ∧ ∀ k ∈ writtenKeys R x, k ∉ writtenKeys R y) := by
  have h0 : c0.Pairwise (fun x y => x.1 ≠ y.1 ∧ ∀ k ∈ writtenKeys R x, k ∉ writtenKeys R y) := by
    have h1 : c0.Pairwise (fun x y => x.1 ≠ y.1) := by
      unfold assocKeys at hnd
      exact List.pairwise_map.mp hnd
    exact h1.and hclash
  have key : ∀ l : List (String × Node),
      l.Pairwise (fun x y => x.1 ≠ y.1 ∧ ∀ k ∈ writtenKeys R x, k ∉ writtenKeys R y) ↔
      (cacheViews R l).Pairwise (fun v w => v.1 ≠ w.1 ∧
        ∀ k ∈ (if v.2.1 = "array" then v.2.2.1.map (fun l => v.1 ++ "." ++ l) else [v.1]),
          k ∉ (if w.2.1 = "array" then w.2.2.1.map (fun l => w.1 ++ "." ++ l) else [w.1])) := by
    intro l
    unfold cacheViews
    rw [List.pairwise_map]
    rfl
  rw [key, hv, ← key]
  exact h0

theorem length_pos_congr (l l2 : List String) (h : ∀ x, x ∈ l ↔ x ∈ l2) :
    l.length > 0 ↔ l2.length > 0 := by
  constructor
  · intro hl
    obtain ⟨x, hx⟩ := List.exists_mem_of_length_pos hl
    exact List.length_pos_of_mem ((h x).mp hx)
  · intro hl
    obtain ⟨x, hx⟩ := List.exists_mem_of_length_pos hl
    exact List.length_pos_of_mem ((h x).mpr hx)

/-- A loop over the catalog, run in two orders from two states with the same catalog, the
same schema and the same sets. -/
theorem loop_order {R : Runtime} {c0 : List (String × Node)} {r m : Bool}
    (f : CounterState → String × Node → CounterState)
    (l1 l2 : List (String × Node)) (a b : CounterState)
    (h1 : l1.Perm a.counters) (h2 : l2.Perm a.counters)
    (hsteps : ∀ e ∈ a.counters, Steps R c0 r m (writtenKeys R e) e.1 (fun st => f st e))
    (hnd : (assocKeys c0).Nodup) (hclash : clashFree R c0)
    (hab : sameReads R c0 r m a b) (v : sameViews a b) :
    sameReads R c0 r m (l1.foldl f a) (l2.foldl f b) ∧
      sameViews (l1.foldl f a) (l2.foldl f b) := by
  have hp := clash_pairwise R c0 a.counters hab.1 hnd hclash
  have hsymm : Symmetric (fun x y : String × Node =>
      x.1 ≠ y.1 ∧ ∀ k ∈ writtenKeys R x, k ∉ writtenKeys R y) := by
    intro x y h
    exact ⟨fun e => h.1 e.symm, fun k hk hk2 => h.2 k hk2 hk⟩
  exact foldl_perm_views f (fun e => writtenKeys R e) (h1.trans h2.symm)
    (fun e he => hsteps e (h1.mem_iff.mp he))
    ((h1.pairwise_iff (fun {x y} hxy => hsymm hxy)).mpr hp) a b hab v

/-- The loops of `PollCounter` over a catalog in which no two counters write the same
metric key: the order in which they range over the catalog does not show in the schema
they leave. -/
theorem counterLoops_order (R1 R2 : Runtime) (hdec : R2.DecodeHtml = R1.DecodeHtml)
    (wanted : List (String × String)) (st : CounterState)
    (hnd : (assocKeys st.counters).Nodup) (hclash : clashFree R1 st.counters) :
    sameReads R1 st.counters false false (counterLoops R1 wanted st) (counterLoops R2 wanted st) ∧
      sameViews (counterLoops R1 wanted st) (counterLoops R2 wanted st) := by
  have hst : sameReads R1 st.counters false false st st :=
    ⟨rfl, rfl, rfl, rfl, rfl, fun _ _ => Iff.rfl, fun _ _ => Iff.rfl⟩
  -- the first loop
  have p1 := loop_order (firstPass R1 wanted) (R1.rangeOrder 5 st.counters)
    (R2.rangeOrder 5 st.counters) st st (R1.rangeOrder_perm 5 _) (R2.rangeOrder_perm 5 _)
    (fun e he => firstPass_steps R1 st.counters wanted e (fun n0 hn0 => by
      rw [assocGet_of_mem_nodup st.counters hnd e he] at hn0
      rw [← Option.some.inj hn0]))
    hnd hclash hst (sameViews_refl st)
  have c1 : ((R1.rangeOrder 5 st.counters).foldl (firstPass R1 wanted) st).counters =
      ((R2.rangeOrder 5 st.counters).foldl (firstPass R1 wanted) st).counters := by
    rw [firstLoop_counters R1 wanted st.me _ st rfl, firstLoop_counters R1 wanted st.me _ st rfl]
    apply overrides_perm
    · exact (R1.rangeOrder_perm 5 _).trans (R2.rangeOrder_perm 5 _).symm
    · exact ((R1.rangeOrder_perm 5 st.counters).map Prod.fst).nodup_iff.mpr hnd
  generalize hA1 : (R1.rangeOrder 5 st.counters).foldl (firstPass R1 wanted) st = A1 at p1 c1
  generalize hB1 : (R2.rangeOrder 5 st.counters).foldl (firstPass R1 wanted) st = B1 at p1 c1
  -- the second loop
  have p2 : sameReads R1 st.counters false false
        (if A1.replaced.length > 0 then
          (R1.rangeOrder 6 A1.counters).foldl (secondPass R1 wanted) A1 else A1)
        (if B1.replaced.length > 0 then
          (R2.rangeOrder 6 B1.counters).foldl (secondPass R1 wanted) B1 else B1) ∧
      sameViews
        (if A1.replaced.length > 0 then
          (R1.rangeOrder 6 A1.counters).foldl (secondPass R1 wanted) A1 else A1)
        (if B1.replaced.length > 0 then
          (R2.rangeOrder 6 B1.counters).foldl (secondPass R1 wanted) B1 else B1) := by
    by_cases hr : A1.replaced.length > 0
    · rw [if_pos hr, if_pos ((length_pos_congr _ _ p1.2.2.2.2.1).mp hr)]
      have q := loop_order (secondPass R1 wanted) (R1.rangeOrder 6 A1.counters)
        (R2.rangeOrder 6 B1.counters) A1 B1 (R1.rangeOrder_perm 6 _)
        (by rw [← c1]; exact R2.rangeOrder_perm 6 _)
        (fun e _ => secondPass_steps R1 st.counters wanted e)
        hnd hclash (sameReads_of_views true false p1.1 p1.2) p1.2
      exact ⟨sameReads_of_views false false q.1 q.2, q.2⟩
    · rw [if_neg hr, if_neg (fun h => hr ((length_pos_congr _ _ p1.2.2.2.2.1).mpr h))]
      exact p1
  have c2 : (if A1.replaced.length > 0 then
          (R1.rangeOrder 6 A1.counters).foldl (secondPass R1 wanted) A1 else A1).counters =
        (if B1.replaced.length > 0 then
          (R2.rangeOrder 6 B1.counters).foldl (secondPass R1 wanted) B1 else B1).counters := by
    have e1 : (if A1.replaced.length > 0 then
          (R1.rangeOrder 6 A1.counters).foldl (secondPass R1 wanted) A1 else A1).counters =
        A1.counters := by
      split
      · exact foldl_keeps_counters _ (secondPass_counters R1 wanted) _ _
      · rfl
    have e2 : (if B1.replaced.length > 0 then
          (R2.rangeOrder 6 B1.counters).foldl (secondPass R1 wanted) B1 else B1).counters =
        B1.counters := by
      split
      · exact foldl_keeps_counters _ (secondPass_counters R1 wanted) _ _
      · rfl
    rw [e1, e2, c1]
  generalize hA2 : (if A1.replaced.length > 0 then
      (R1.rangeOrder 6 A1.counters).foldl (secondPass R1 wanted) A1 else A1) = A2 at p2 c2
  generalize hB2 : (if B1.replaced.length > 0 then
      (R2.rangeOrder 6 B1.counters).foldl (secondPass R1 wanted) B1 else B1) = B2 at p2 c2
  -- the third loop
  have p3 : sameReads R1 st.counters false false
        (if A2.missing.length > 0 then
          (R1.rangeOrder 7 A2.counters).foldl (thirdPass R1) A2 else A2)
        (if B2.missing.length > 0 then
          (R2.rangeOrder 7 B2.counters).foldl (thirdPass R1) B2 else B2) ∧
      sameViews
        (if A2.missing.length > 0 then
          (R1.rangeOrder 7 A2.counters).foldl (thirdPass R1) A2 else A2)
        (if B2.missing.length > 0 then
          (R2.rangeOrder 7 B2.counters).foldl (thirdPass R1) B2 else B2) := by
    by_cases hr : A2.missing.length > 0
    · rw [if_pos hr, if_pos ((length_pos_congr _ _ p2.2.2.2.2.2).mp hr)]
      have q := loop_order (thirdPass R1) (R1.rangeOrder 7 A2.counters)
        (R2.rangeOrder 7 B2.counters) A2 B2 (R1.rangeOrder_perm 7 _)
        (by rw [← c2]; exact R2.rangeOrder_perm 7 _)
        (fun e _ => thirdPass_steps R1 st.counters e)
        hnd hclash (sameReads_of_views false true p2.1 p2.2) p2.2
      exact ⟨sameReads_of_views false false q.1 q.2, q.2⟩
    · rw [if_neg hr, if_neg (fun h => hr ((length_pos_congr _ _ p2.2.2.2.2.2).mpr h))]
      exact p2
  have e : counterLoops R2 wanted st =
      (if B2.missing.length > 0 then
        (R2.rangeOrder 7 B2.counters).foldl (thirdPass R1) B2 else B2) := by
    unfold counterLoops
    rw [firstPass_decode R1 R2 hdec, secondPass_decode R1 R2 hdec, thirdPass_decode R1 R2 hdec]
    simp only [hB1, hB2]
  have e0 : counterLoops R1 wanted st =
      (if A2.missing.length > 0 then
        (R1.rangeOrder 7 A2.counters).foldl (thirdPass R1) A2 else A2) := by
    unfold counterLoops
    simp only [hA1, hA2]
  rw [e, e0]
  exact p3

/-! ### `PollCounter` twice, the second run in another order -/

/-- A `PollCounter` that returns without an error has gone through its loops, and so does
any run with the same template and the same answer of the controller. -/
theorem PollCounter_ok_form (R : Runtime) (me : ZapiPerf) (reply : CounterReply)
    (h : (PollCounter R me reply).2 = Ret.ok none none) :
    ∃ wanted, ∀ (R2 : Runtime) (me2 : ZapiPerf), me2.Params = me.Params →
      me2.object = me.object →
      PollCounter R2 me2 reply =
        workloadPass R2 (ensureTimestamp
          (counterLoops R2 wanted (initCounters me2 (catalogOf reply)))) := by
  unfold PollCounter at h
  cases hc : me.Params.GetChildS "counters" with
  | none => rw [hc] at h; cases h
  | some counterList =>
    cases hb : reply.build with
    | some err => rw [hc, hb] at h; cases h
    | none =>
      cases hi : reply.invoke with
      | error err => rw [hc, hb, hi] at h; cases h
      | ok response =>
        cases hr : response.GetChildS "counters" with
        | none =>
          rw [hc, hb, hi] at h
          simp only [hr] at h
          cases h
        | some elems =>
          by_cases hl : elems.GetChildren.length = 0
          · rw [hc, hb, hi] at h
            simp only [hr, hl, if_true] at h
            cases h
          · refine ⟨parseWanted me counterList, fun R2 me2 hp ho => ?_⟩
            have hcat : catalogOf reply = indexCounters elems := by
              unfold catalogOf
              rw [hi]
              simp only [hr]
            unfold PollCounter
            rw [hp, hc, hb, hi]
            simp only [hr, hl, if_false]
            rw [parseWanted_congr me me2 counterList ho, syncCounters_eq, hcat]

/-- The loops of two run-times that decode alike and range over the catalog in the same
order are the same. -/
theorem counterLoops_sameOrder (R1 R2 : Runtime) (hdec : R2.DecodeHtml = R1.DecodeHtml)
    (h : sameCatalogOrder R1 R2) (wanted : List (String × String)) (st : CounterState) :
    counterLoops R2 wanted st = counterLoops R1 wanted st := by
  unfold counterLoops
  rw [firstPass_decode R1 R2 hdec, secondPass_decode R1 R2 hdec, thirdPass_decode R1 R2 hdec]
  simp only [(h _).1, (h _).2.1, (h _).2.2]

/-- Two runs of `PollCounter`, the first under the run-time `R1` and the second, on the
collector the first left, under `R2`, which decodes the labels of an array as `R1` does.
When the two range over the catalog in the same order, or no two counters of the catalog
write the same metric key, the second run returns without an error when the first did,
and leaves the schema as it was. -/
theorem PollCounter_twice_orders (R1 R2 : Runtime) (me : ZapiPerf)
    (reply : CounterReply) (hdec : R2.DecodeHtml = R1.DecodeHtml)
    (h : sameCatalogOrder R1 R2 ∨ clashFree R1 (catalogOf reply))
    (h1 : (PollCounter R1 me reply).2 = Ret.ok none none) :
    (PollCounter R2 (PollCounter R1 me reply).1 reply).2 = Ret.ok none none ∧
    sameSchema (PollCounter R2 (PollCounter R1 me reply).1 reply).1
      (PollCounter R1 me reply).1 := by
  obtain ⟨wanted, hP⟩ := PollCounter_ok_form R1 me reply h1
  have hA := hP R1 me rfl rfl
  rw [hA] at h1 ⊢
  have hokA := passOk_of_ret R1 _ h1
  obtain ⟨a1, a2, a3, a4, a5, a6, a7⟩ := tail_spec R1 _ hokA
  obtain ⟨_, fp, fo, fq, _, _, _, _⟩ :=
    counterLoops_coupled R1 wanted (initCounters me (catalogOf reply))
      (initCounters me (catalogOf reply)) (sameCtrl_refl _)
  have hp1 : (workloadPass R1 (ensureTimestamp
      (counterLoops R1 wanted (initCounters me (catalogOf reply))))).1.Params = me.Params :=
    a4.trans fp
  have ho1 : (workloadPass R1 (ensureTimestamp
      (counterLoops R1 wanted (initCounters me (catalogOf reply))))).1.object = me.object :=
    a5.trans fo
  have hq1 : (workloadPass R1 (ensureTimestamp
      (counterLoops R1 wanted (initCounters me (catalogOf reply))))).1.Query = me.Query :=
    a6.trans fq
  have hB := hP R2 _ hp1 ho1
  rw [hB]
  generalize hme1 : (workloadPass R1 (ensureTimestamp
      (counterLoops R1 wanted (initCounters me (catalogOf reply))))).1 = me1 at *
  have hctrl : sameCtrl (initCounters me (catalogOf reply)) (initCounters me1 (catalogOf reply)) :=
    ⟨rfl, rfl, rfl, hp1.symm, ho1.symm, hq1.symm⟩
  obtain ⟨hc3, _, _, _, S, Sok, actA, actB0⟩ :=
    counterLoops_coupled R1 wanted (initCounters me (catalogOf reply))
      (initCounters me1 (catalogOf reply)) hctrl
  have hord : sameViews (counterLoops R1 wanted (initCounters me1 (catalogOf reply)))
        (counterLoops R2 wanted (initCounters me1 (catalogOf reply))) ∧
      (counterLoops R1 wanted (initCounters me1 (catalogOf reply))).me.Params =
        (counterLoops R2 wanted (initCounters me1 (catalogOf reply))).me.Params ∧
      (counterLoops R1 wanted (initCounters me1 (catalogOf reply))).me.Query =
        (counterLoops R2 wanted (initCounters me1 (catalogOf reply))).me.Query := by
    rcases h with hsame | hclash
    · rw [counterLoops_sameOrder R1 R2 hdec hsame]
      exact ⟨sameViews_refl _, rfl, rfl⟩
    · obtain ⟨r1, v1⟩ := counterLoops_order R1 R2 hdec wanted
        (initCounters me1 (catalogOf reply)) (catalogOf_nodup reply) hclash
      exact ⟨v1, r1.2.2.1, r1.2.2.2.2.1⟩
  generalize hA3 : counterLoops R1 wanted (initCounters me (catalogOf reply)) = A3 at *
  generalize hB0 : counterLoops R1 wanted (initCounters me1 (catalogOf reply)) = B0 at *
  generalize hB3 : counterLoops R2 wanted (initCounters me1 (catalogOf reply)) = B3 at *
  obtain ⟨hv, hvp, hvq⟩ := hord
  have actB : Acts S (initCounters me1 (catalogOf reply)) B3 :=
    ⟨fun k => (hv.1 k).symm.trans (actB0.1 k), fun k => (hv.2.1 k).symm.trans (actB0.2.1 k),
      fun k => (hv.2.2.1 k).symm.trans (actB0.2.2 k)⟩
  obtain ⟨_, _, _, cp0, _, cq0⟩ := hc3
  have cp : A3.me.Params = B3.me.Params := cp0.trans hvp
  have cq : A3.me.Query = B3.me.Query := cq0.trans hvq
  have vA : ∀ k, keyView A3 k =
      (S.metric k).apply (me.Matrix.schemaAt k, (me.Matrix.schemaAt k).isSome) := by
    intro k
    rw [actA.1 k, keyView_initCounters]
  have vB : ∀ k, keyView B3 k = (S.metric k).apply
      (finalOf (decide (A3.me.Query = "workload_detail")) (detailKey A3) k (keyView A3 k),
       (finalOf (decide (A3.me.Query = "workload_detail")) (detailKey A3) k
        (keyView A3 k)).isSome) := by
    intro k
    rw [actB.1 k, keyView_initCounters, a1 k]
  obtain ⟨hokB, hdk⟩ := second_run_passOk A3 B3 S Sok (fun k => me.Matrix.schemaAt k)
    cq.symm cp.symm vA vB hokA
  obtain ⟨b1, b2, b3, b4, b5, b6, b7⟩ := tail_spec R2 _ hokB
  have hschema : ∀ k, (workloadPass R2 (ensureTimestamp B3)).1.Matrix.schemaAt k =
      me1.Matrix.schemaAt k := by
    intro k
    rw [b1 k, a1 k, vB k, ← cq]
    have hfin : finalOf (decide (A3.me.Query = "workload_detail")) (detailKey B3) k
        ((S.metric k).apply
          (finalOf (decide (A3.me.Query = "workload_detail")) (detailKey A3) k (keyView A3 k),
           (finalOf (decide (A3.me.Query = "workload_detail")) (detailKey A3) k
            (keyView A3 k)).isSome)) =
        finalOf (decide (A3.me.Query = "workload_detail")) (detailKey A3) k
        ((S.metric k).apply
          (finalOf (decide (A3.me.Query = "workload_detail")) (detailKey A3) k (keyView A3 k),
           (finalOf (decide (A3.me.Query = "workload_detail")) (detailKey A3) k
            (keyView A3 k)).isSome)) := by
      by_cases hd : A3.me.Query = "workload_detail"
      · rw [hdk hd]
      · have hf : decide (A3.me.Query = "workload_detail") = false := by simp [hd]
        rw [hf]
        exact finalOf_false _ _ _ _
    rw [hfin, vA k]
    exact finalOf_idem _ _ k (S.metric k) _ (Sok k)
  have hkeys : ∀ k, k ∈ assocKeys (workloadPass R2 (ensureTimestamp B3)).1.Matrix.metrics ↔
      k ∈ assocKeys me1.Matrix.metrics := by
    intro k
    rw [mem_keys_iff_schemaAt, mem_keys_iff_schemaAt, hschema k]
  refine ⟨?_, hkeys, hschema, fun k => ?_, fun k => ?_⟩
  · rw [b7]
    have hne := a7.mp h1
    cases hm : me1.Matrix.metrics with
    | nil => rw [hm] at hne; exact absurd rfl hne
    | cons e rest =>
      have hin : e.1 ∈ assocKeys me1.Matrix.metrics := by
        rw [hm]
        simp [assocKeys]
      have hin2 := (hkeys e.1).mpr hin
      intro h0
      have hnil := List.length_eq_zero.mp h0
      rw [hnil] at hin2
      simp [assocKeys] at hin2
  · rw [b2 k, actB.2.1 k, labelView_initCounters, a2 k, actA.2.1 k, labelView_initCounters]
    exact labelFinal_idem _ _
  · rw [b3, actB.2.2 k]
    cases hh : S.hist k with
    | some x =>
      simp only
      rw [a3, actA.2.2 k, hh]
    | none => rfl

/-- C11, for two runs that range over the catalog in the same order, or over a catalog in
which no two counters write the same metric key.  The first `PollCounter` runs under
the run-time `R`; the second runs on the collector the first left, with the same template
and the same answer of the controller, and ranges over every map in the order of `O`,
whatever it is.  When the first has returned without an error, the second returns
without an error too and leaves the schema as it was: the matrix has the same metric
keys, every metric has the same name, property, comment, exportable flag and labels,
and the maps `instanceLabels` and `histogramLabels` hold the same entries. -/
theorem PollCounter_idempotent_any_order (R O : Runtime) (me : ZapiPerf)
    (reply : CounterReply)
    (h : sameCatalogOrder R O ∨ clashFree R (catalogOf reply))
    (h1 : (PollCounter R me reply).2 = Ret.ok none none) :
    (PollCounter (R.withOrder O) (PollCounter R me reply).1 reply).2 = Ret.ok none none ∧
    sameSchema (PollCounter (R.withOrder O) (PollCounter R me reply).1 reply).1
      (PollCounter R me reply).1 :=
  PollCounter_twice_orders R (R.withOrder O) me reply rfl h h1

/-- Witness of C11: the template lists the array counter `hist` of scenario 5 and
`read_ops`, the matrix holds no metric yet, and no two counters of the catalog write the
same metric key.  The first `PollCounter` ranges over the catalog in the list order and
returns without an error; the second ranges over it in the reverse order, returns
without an error and leaves the schema as it was. -/
theorem PollCounter_idempotent_any_order_witness :
    clashFree Fixture.runtime (catalogOf Fixture.mixedReply) ∧
    (Fixture.runtime.rangeOrder 5 (catalogOf Fixture.mixedReply)).map Prod.fst =
      ["hist", "read_ops"] ∧
    ((Fixture.runtime.withOrder Fixture.reverseRuntime).rangeOrder 5
      (catalogOf Fixture.mixedReply)).map Prod.fst = ["read_ops", "hist"] ∧
    (PollCounter Fixture.runtime Fixture.mixedCollector Fixture.mixedReply).2 = Ret.ok none none ∧
    (PollCounter (Fixture.runtime.withOrder Fixture.reverseRuntime)
      (PollCounter Fixture.runtime Fixture.mixedCollector Fixture.mixedReply).1
      Fixture.mixedReply).2 = Ret.ok none none ∧
    sameSchema
      (PollCounter (Fixture.runtime.withOrder Fixture.reverseRuntime)
        (PollCounter Fixture.runtime Fixture.mixedCollector Fixture.mixedReply).1
        Fixture.mixedReply).1
      (PollCounter Fixture.runtime Fixture.mixedCollector Fixture.mixedReply).1 :=
  ⟨by unfold clashFree; decide, by decide, by decide, rfl,
    PollCounter_idempotent_any_order Fixture.runtime Fixture.reverseRuntime
      Fixture.mixedCollector Fixture.mixedReply (Or.inr (by unfold clashFree; decide)) rfl⟩

end Harvest
